import Mathlib

/-!
# Adaptive persistence and log-analysis layer (SwimilTylers/etcd)

A shallow embedding of

* `draft/collector/consecutive.go` (`MimicRaftKernelCollector`),
* `etcdserver/storage.adaptive.go` (`LocalCachedDisk`),
* `adaptive/hbcounter.go` and `adaptive/saucr.go` (`SaucrMonitor`),

followed by theorems about the embedded code.

Conventions.  Go `uint64` values are natural numbers, and every `uint64`
operation of the source is reduced modulo `2^64` explicitly.  Go `int` values
are integers.  A Go run-time panic (index or slice bound out of range, an
explicit `panic`) is the result `none`.
-/

namespace Etcd

/-! ## Machine integers -/

/-- Addition of two `uint64` values. -/
def addU64 (a b : Nat) : Nat := (a + b) % 18446744073709551616

/-- Subtraction of two `uint64` values (wraps around below zero). -/
def subU64 (a b : Nat) : Nat :=
  (a % 18446744073709551616 + (18446744073709551616 - b % 18446744073709551616))
    % 18446744073709551616

/-- The conversion `int(x)` of a `uint64` value (two's complement reading). -/
def toInt (x : Nat) : Int :=
  if x < 9223372036854775808 then (x : Int) else (x : Int) - 18446744073709551616

/-- The conversion `uint64(x)` of an `int` value. -/
def ofInt (x : Int) : Nat := (x % 18446744073709551616).toNat

/-- Addition of two Go `int` values (64 bits, two's complement: it wraps around). -/
def addInt (a b : Int) : Int := toInt (ofInt (a + b))

/-- Indexing `xs[i]` of a slice by a Go `int`; `none` is the run-time panic. -/
def getInt {α : Type} (xs : List α) (i : Int) : Option α :=
  if i < 0 then none else xs[i.toNat]?

/-! ## `raftpb.Entry` and the collector of `draft/collector/consecutive.go` -/

/-- The record `raftpb.Entry`: `Term`, `Index`, and the payload (`Type` and `Data`
taken together as one value). -/
structure Entry where
  term : Nat
  index : Nat
  data : Nat
deriving DecidableEq, Repr

/-- The type `Location` of `consecutive.go`. -/
inductive Location where
  | UNDERFLOW
  | PREV
  | WITHIN
  | OVERFLOW
  | CONFLICT
deriving DecidableEq, Repr

/-- One row of `cachedTable`. -/
structure CachedRow where
  term : Nat
  first : Int
  last : Int
deriving DecidableEq, Repr

/-- The struct `MimicRaftKernelCollector`. -/
structure MimicRaftKernelCollector where
  logTerm : Nat
  logIndex : Nat
  nextIndex : Nat
  copied : Bool
  content : List Entry
  cachedTable : List CachedRow
  initialized : Bool
deriving DecidableEq, Repr

namespace MimicRaftKernelCollector

/-- The function `NewMimicRaftKernelCollector`. -/
def new : MimicRaftKernelCollector :=
  { logTerm := 0, logIndex := 0, nextIndex := 0, copied := false, content := [],
    cachedTable := [], initialized := false }

/-- The method `IsRefreshed`. -/
def IsRefreshed (c : MimicRaftKernelCollector) : Bool := !c.initialized

/-- The method `init`. -/
def init (c : MimicRaftKernelCollector) (entries : List Entry) (logTerm logIndex : Nat) :
    MimicRaftKernelCollector :=
  { c with
    copied := false
    content := entries
    logTerm := logTerm
    logIndex := logIndex
    nextIndex := addU64 (addU64 logIndex (ofInt entries.length)) 1
    initialized := true }

/-- The method `destroyCachedTable`. -/
def destroyCachedTable (c : MimicRaftKernelCollector) : MimicRaftKernelCollector :=
  { c with cachedTable := [] }

/-- The method `locateEntryWithIndex`. -/
def locateEntryWithIndex (c : MimicRaftKernelCollector) (index : Nat) : Bool × Int :=
  let rel : Int := toInt (subU64 (subU64 index c.logIndex) 1)
  (decide (rel ≥ 0) && decide (rel < c.content.length), rel)

/-- The method `MatchIndex`; `none` is a panic. -/
def MatchIndex (c : MimicRaftKernelCollector) (index term : Nat) : Option Location :=
  if c.IsRefreshed then none
  else if c.logIndex > index then some Location.UNDERFLOW
  else if c.logIndex = index then
    if c.logTerm ≠ term then some Location.CONFLICT else some Location.PREV
  else
    let r := c.locateEntryWithIndex index
    if !r.1 then some Location.OVERFLOW
    else
      match getInt c.content r.2 with
      | none => none
      | some e => if e.term ≠ term then some Location.CONFLICT else some Location.WITHIN

/-- The method `directAddEntries`; `none` is a panic. -/
def directAddEntries (c : MimicRaftKernelCollector) (entries : List Entry) :
    Option MimicRaftKernelCollector :=
  if entries.length = 0 then some c
  else
    -- both branches of the copy-on-write test leave the same sequence in `content`
    let c1 : MimicRaftKernelCollector := if !c.copied then { c with copied := true } else c
    match getInt entries ((entries.length : Int) - 1) with
    | none => none
    | some l => some { c1 with content := c1.content ++ entries, nextIndex := l.index }

/-- The method `resize`; `none` is a panic. -/
def resize (c : MimicRaftKernelCollector) (length : Int) (logTerm logIndex : Nat) :
    Option (MimicRaftKernelCollector × Int) :=
  if length ≥ c.content.length then some (c, c.content.length)
  else if length = 0 then some (c.init [] logTerm logIndex, 0)
  else if length < 0 then none
  else
    let c1 : MimicRaftKernelCollector :=
      if !c.copied then { c with content := c.content.take length.toNat, copied := true }
      else { c with content := c.content.take length.toNat }
    some ({ c1 with nextIndex := addU64 (addU64 c1.logIndex (ofInt length)) 1 }, length)

/-- The comparison loop of `mimic`: `rest` is `entries[eIdx:]`.  It walks both arrays
while the terms agree and returns the final `(cIdx, eIdx)`; `none` is a panic. -/
def mimicLoop (content : List Entry) : List Entry → Int → Int → Option (Int × Int)
  | [], cIdx, eIdx => some (cIdx, eIdx)
  | e :: rest, cIdx, eIdx =>
    if cIdx < content.length then
      match getInt content cIdx with
      | none => none
      | some s =>
        if e.term ≠ s.term then some (cIdx, eIdx)
        else mimicLoop content rest (cIdx + 1) (eIdx + 1)
    else some (cIdx, eIdx)

/-- The method `mimic`; `none` is a panic. -/
def mimic (c : MimicRaftKernelCollector) (entries : List Entry) (logTerm logIndex : Nat) :
    Option (MimicRaftKernelCollector × Bool × Location) :=
  match c.MatchIndex logIndex logTerm with
  | none => none
  | some loc =>
    if loc ≠ Location.PREV ∧ loc ≠ Location.WITHIN then some (c, false, loc)
    else
      let cIdx0 := (c.locateEntryWithIndex (addU64 logIndex 1)).2
      let cLen : Int := c.content.length
      match mimicLoop c.content entries cIdx0 0 with
      | none => none
      | some (cIdx, eIdx) =>
        if eIdx ≠ entries.length then
          let c1 := c.destroyCachedTable
          let suffix := entries.drop eIdx.toNat
          match getInt suffix 0, getInt c1.content (cLen - 1) with
          | some first, some last =>
            let after := first.index
            if addU64 last.index 1 = after then
              (c1.directAddEntries suffix).map (fun c2 => (c2, true, loc))
            else
              match c1.resize cIdx logTerm logIndex with
              | none => none
              | some (c2, _) => (c2.directAddEntries suffix).map (fun c3 => (c3, true, loc))
          | _, _ => none
        else some (c, true, loc)

/-- The method `AddEntries`; `none` is a panic. -/
def AddEntries (c : MimicRaftKernelCollector) (entries : List Entry) (logTerm logIndex : Nat) :
    Option (MimicRaftKernelCollector × Bool) :=
  if c.IsRefreshed then some (c.init entries logTerm logIndex, true)
  else (c.mimic entries logTerm logIndex).map (fun r => (r.1, r.2.1))

/-- The method `TryAddEntries`; `none` is a panic. -/
def TryAddEntries (c : MimicRaftKernelCollector) (entries : List Entry)
    (logTerm logIndex : Nat) : Option (MimicRaftKernelCollector × Bool × Location) :=
  if c.IsRefreshed then some (c.init entries logTerm logIndex, true, Location.PREV)
  else c.mimic entries logTerm logIndex

/-- The entries of `l` carry the indices `base + 1, base + 2, ...`: the array is
contiguous and starts right after `base`.  With `base = c.logIndex` this is the invariant
`content[k].Index = c.logIndex + 1 + k` of the collector, with `base = logIndex` the
well-formedness `entries[k].Index = logIndex + 1 + k` of a fragment. -/
def Consecutive (base : Nat) (l : List Entry) : Prop :=
  ∀ j (h : j < l.length), (l[j]).index = base + 1 + j

/-- The fragment entry `e` has the same term as the stored entry at its index. -/
def StoredSameTerm (content : List Entry) (e : Entry) : Prop :=
  ∃ s ∈ content, s.index = e.index ∧ s.term = e.term

end MimicRaftKernelCollector

/-! ## The cached persistence manager of `etcdserver/storage.adaptive.go`

The wrapped `Storage` is an interface of which only the calls matter here: the model
records the calls it receives, in order, in the field `disk`, and every operation takes
as arguments the `error` values the wrapped `Save`, `SaveSnap` and `Close` return if the
operation calls them.  The logger only writes log lines and is left out.  The channel
`cachePreserveReminder` is the four-valued `Reminder`; the run-time timer putting its value
into the channel is the environment step `Reminder.fire`.  A capacity is a Go `int`,
computed with the wrap-around of `int` arithmetic; slice allocation (`make`) panics when
`0 ≤ len ≤ cap` fails and is taken to succeed otherwise.  What the run time does when
memory is short is outside the model, so the model returns in every run in which the code
returns. -/

/-- The record `raftpb.HardState`. -/
structure HardState where
  term : Nat
  vote : Nat
  commit : Nat
deriving DecidableEq, Repr

/-- The variable `emptyState` of `storage.adaptive.go`. -/
def emptyState : HardState := { term := 0, vote := 0, commit := 0 }

/-- Modelled from the spec: `raft.IsEmptyHardState` (package `raft`, not in the sources at
hand); a hard state is empty when it equals the zero value `emptyState`. -/
def IsEmptyHardState (st : HardState) : Bool := decide (st = emptyState)

/-- The record `raftpb.Snapshot`: metadata index and term, and the payload. -/
structure Snapshot where
  index : Nat
  term : Nat
  data : Nat
deriving DecidableEq, Repr

/-- Modelled from the spec: `raft.IsEmptySnap` (package `raft`, not in the sources at hand);
a snapshot is empty when its metadata index is zero. -/
def IsEmptySnap (sp : Snapshot) : Bool := decide (sp.index = 0)

/-- A Go `error`: `none` is `nil`. -/
abbrev Error := Option String

/-- A call received by the wrapped `Storage`. -/
inductive DiskCall where
  | save (st : HardState) (ents : List Entry)
  | saveSnap (snap : Snapshot)
  | close
deriving DecidableEq, Repr

/-- The state of the channel `cachePreserveReminder`: `nil`; the channel of a timer that has
not fired yet; the channel holding the timer value; the channel after its value was
received (it is not nil and never delivers again). -/
inductive Reminder where
  | nil
  | waiting
  | fired
  | drained
deriving DecidableEq, Repr

/-- The preserve timer fires: the environment step that puts the value in the channel. -/
def Reminder.fire : Reminder → Reminder
  | Reminder.waiting => Reminder.fired
  | r => r

/-- The record `adaptive.PersistentStrategy`. -/
structure PersistentStrategy where
  Fsync : Bool
  MaxLocalCacheSize : Int
  CachePreserveTime : Int
deriving DecidableEq, Repr

/-- The record `adaptive.PersistentConfig`; `none` is a nil pointer or a nil slice. -/
structure PersistentConfig where
  Strategy : Option PersistentStrategy
  Remotes : Option (List Unit)
deriving DecidableEq, Repr

/-- The struct `LocalCachedDisk`; `cachedCap` is `cap(lcd.cachedEntries)`. -/
structure LocalCachedDisk where
  fsync : Bool
  disk : List DiskCall
  cachedHardState : HardState
  cachedEntries : List Entry
  cachedCap : Int
  maxLocalCacheSize : Int
  cachePreserveTime : Int
  cachePreserveReminder : Reminder
deriving DecidableEq, Repr

namespace LocalCachedDisk

/-- The function `NewLocalCachedDisk`; `none` is a panic (nil strategy, negative capacity). -/
def NewLocalCachedDisk (config : PersistentConfig) : Option LocalCachedDisk :=
  match config.Strategy with
  | none => none
  | some s =>
    if s.MaxLocalCacheSize < 0 then none
    else some
      { fsync := s.Fsync
        disk := []
        cachedHardState := emptyState
        cachedEntries := []
        cachedCap := s.MaxLocalCacheSize
        maxLocalCacheSize := s.MaxLocalCacheSize
        cachePreserveTime := s.CachePreserveTime
        cachePreserveReminder := Reminder.nil }

/-- The method `UnPersisted`. -/
def UnPersisted (lcd : LocalCachedDisk) : Bool :=
  !IsEmptyHardState lcd.cachedHardState || decide (lcd.cachedEntries.length ≠ 0)

/-- The method `flushInternal`; `saveErr` is what the wrapped `Save` returns. -/
def flushInternal (lcd : LocalCachedDisk) (saveErr : Error) (otherSourceHS : HardState)
    (otherSourceEnt : Option (List Entry)) : LocalCachedDisk × Error :=
  let hs := if !IsEmptyHardState otherSourceHS then otherSourceHS else lcd.cachedHardState
  let entries := match otherSourceEnt with
    | some e => e
    | none => lcd.cachedEntries
  if entries.length = 0 then
    if !IsEmptyHardState hs then
      ({ lcd with disk := lcd.disk ++ [DiskCall.save hs []] }, saveErr)
    else (lcd, none)
  else
    ({ lcd with
        disk := lcd.disk ++ [DiskCall.save hs entries]
        cachePreserveReminder := Reminder.nil
        cachedEntries := []
        cachedHardState := emptyState }, saveErr)

/-- The method `Flush`. -/
def Flush (lcd : LocalCachedDisk) (saveErr : Error) : LocalCachedDisk × Error :=
  lcd.flushInternal saveErr emptyState none

/-- The method `updateStrategy`; `none` is a panic of `make`: the capacity
`maxLocalCacheSize+1` wraps around to a negative number at the largest `int`. -/
def updateStrategy (lcd : LocalCachedDisk) (strategy : PersistentStrategy) :
    Option LocalCachedDisk :=
  let lcd1 : LocalCachedDisk :=
    { lcd with
      fsync := strategy.Fsync
      maxLocalCacheSize := strategy.MaxLocalCacheSize
      cachePreserveTime := strategy.CachePreserveTime }
  if lcd1.maxLocalCacheSize > lcd1.cachedCap then
    if (lcd1.cachedEntries.length : Int) > addInt lcd1.maxLocalCacheSize 1 then none
    else some { lcd1 with cachedCap := addInt lcd1.maxLocalCacheSize 1 }
  else some lcd1

/-- The method `SetConfig`; `none` is a panic. -/
def SetConfig (lcd : LocalCachedDisk) (cfg : PersistentConfig) :
    Option (LocalCachedDisk × Error) :=
  if cfg.Remotes ≠ none then some (lcd, some "remote disk is not supported")
  else
    match cfg.Strategy with
    | some s =>
      if s.MaxLocalCacheSize < 0 then some (lcd, some "illegal configuration")
      else (lcd.updateStrategy s).map (fun l => (l, none))
    | none => some (lcd, none)

/-- The method `SetStrategy`; `none` is a panic. -/
def SetStrategy (lcd : LocalCachedDisk) (saveErr : Error) (strategy : PersistentStrategy) :
    Option (LocalCachedDisk × Error) :=
  if strategy.MaxLocalCacheSize < 0 then some (lcd, some "illegal configuration")
  else
    match lcd.updateStrategy strategy with
    | none => none
    | some lcd1 =>
      if strategy.Fsync ∧ lcd1.cachedEntries.length > 0 then
        some (lcd1.flushInternal saveErr emptyState none)
      else some (lcd1, none)

/-- The method `Save`; `none` is a panic (re-slicing the cache beyond its capacity). -/
def Save (lcd : LocalCachedDisk) (saveErr : Error) (st : HardState) (ents : List Entry) :
    Option (LocalCachedDisk × Error) :=
  let curLen : Int := lcd.cachedEntries.length
  let newLen : Int := ents.length
  if lcd.cachePreserveReminder = Reminder.fired then
    let send := lcd.cachedEntries ++ ents
    some ({ lcd with cachePreserveReminder := Reminder.drained }.flushInternal saveErr st
      (some send))
  else if !lcd.fsync ∧ curLen + newLen < lcd.maxLocalCacheSize then
    if curLen + newLen > lcd.cachedCap then none
    else
      let lcd1 : LocalCachedDisk := { lcd with cachedEntries := lcd.cachedEntries ++ ents }
      let lcd2 : LocalCachedDisk :=
        if !IsEmptyHardState st then { lcd1 with cachedHardState := st } else lcd1
      let lcd3 : LocalCachedDisk :=
        if lcd2.cachePreserveReminder = Reminder.nil then
          { lcd2 with cachePreserveReminder := Reminder.waiting }
        else lcd2
      some (lcd3, none)
  else
    let send := lcd.cachedEntries ++ ents
    some (lcd.flushInternal saveErr st (some send))

/-- The method `SaveSnap`; `snapErr` is what the wrapped `SaveSnap` returns. -/
def SaveSnap (lcd : LocalCachedDisk) (saveErr snapErr : Error) (snap : Snapshot) :
    LocalCachedDisk × Error :=
  if IsEmptySnap snap then
    if lcd.cachePreserveReminder = Reminder.fired then
      { lcd with cachePreserveReminder := Reminder.drained }.flushInternal saveErr
        emptyState none
    else (lcd, none)
  else
    let lcd1 := (lcd.flushInternal saveErr emptyState none).1
    ({ lcd1 with disk := lcd1.disk ++ [DiskCall.saveSnap snap] }, snapErr)

/-- The method `Close`; `closeErr` is what the wrapped `Close` returns. -/
def Close (lcd : LocalCachedDisk) (saveErr closeErr : Error) : LocalCachedDisk × Error :=
  let lcd1 := (lcd.flushInternal saveErr emptyState none).1
  ({ lcd1 with disk := lcd1.disk ++ [DiskCall.close] }, closeErr)

/-- The replies of the wrapped storage during one public call: what its `Save`, `SaveSnap`
and `Close` return if the call reaches them. -/
structure DiskReply where
  saveErr : Error
  snapErr : Error
  closeErr : Error
deriving DecidableEq, Repr

/-- The wrapped storage does not fail. -/
def noFailure : DiskReply := { saveErr := none, snapErr := none, closeErr := none }

/-- One step of a history of the manager: a public call, or the preserve timer firing. -/
inductive Call where
  | save (st : HardState) (ents : List Entry)
  | saveSnap (snap : Snapshot)
  | flush
  | setStrategy (strategy : PersistentStrategy)
  | setConfig (cfg : PersistentConfig)
  | close
  | timerFires
deriving DecidableEq, Repr

/-- The effect of one step; `none` is a panic. -/
def step (lcd : LocalCachedDisk) (r : DiskReply) : Call → Option (LocalCachedDisk × Error)
  | Call.save st ents => lcd.Save r.saveErr st ents
  | Call.saveSnap snap => some (lcd.SaveSnap r.saveErr r.snapErr snap)
  | Call.flush => some (lcd.Flush r.saveErr)
  | Call.setStrategy s => lcd.SetStrategy r.saveErr s
  | Call.setConfig cfg => lcd.SetConfig cfg
  | Call.close => some (lcd.Close r.saveErr r.closeErr)
  | Call.timerFires =>
    some ({ lcd with cachePreserveReminder := lcd.cachePreserveReminder.fire }, none)

/-- A history: the steps in order, each with the replies of the wrapped storage. -/
def run (lcd : LocalCachedDisk) : List (Call × DiskReply) → Option LocalCachedDisk
  | [] => some lcd
  | (call, r) :: rest =>
    match lcd.step r call with
    | none => none
    | some (lcd1, _) => run lcd1 rest

/-- The entries passed to the wrapped `Save`, concatenated in call order. -/
def savedEntries : List DiskCall → List Entry
  | [] => []
  | DiskCall.save _ ents :: rest => ents ++ savedEntries rest
  | _ :: rest => savedEntries rest

/-- The number of wrapped `Save` calls in a call record. -/
def countSaves : List DiskCall → Nat
  | [] => 0
  | DiskCall.save _ _ :: rest => countSaves rest + 1
  | _ :: rest => countSaves rest

/-- The entries passed to the manager's `Save`, concatenated in call order. -/
def offeredEntries : List (Call × DiskReply) → List Entry
  | [] => []
  | (Call.save _ ents, _) :: rest => ents ++ offeredEntries rest
  | _ :: rest => offeredEntries rest

/-- The Go invariants of the cache slice: its length is at most its capacity, and the
capacity covers `maxLocalCacheSize`. -/
def CacheFits (lcd : LocalCachedDisk) : Prop :=
  (lcd.cachedEntries.length : Int) ≤ lcd.cachedCap ∧ lcd.maxLocalCacheSize ≤ lcd.cachedCap

/-- The values returned by the calls of a history, in order; `none` is a panic. -/
def runResults (lcd : LocalCachedDisk) : List (Call × DiskReply) → Option (List Error)
  | [] => some []
  | (call, r) :: rest =>
    match lcd.step r call with
    | none => none
    | some (lcd1, err) => (runResults lcd1 rest).map (fun errs => err :: errs)

/-- The hard states passed to the manager's `Save`, in call order. -/
def offeredHardStates : List (Call × DiskReply) → List HardState
  | [] => []
  | (Call.save st _, _) :: rest => st :: offeredHardStates rest
  | _ :: rest => offeredHardStates rest

/-- The latest non-empty hard state of a sequence, `emptyState` when there is none. -/
def latestNonEmptyHardState (sts : List HardState) : HardState :=
  ((sts.filter (fun st => !IsEmptyHardState st)).getLast?).getD emptyState

/-- The step is a call of `Save`. -/
def Call.isSave : Call → Bool
  | Call.save _ _ => true
  | _ => false

/-- Every step of the history is a call of `Save`. -/
def OnlySaves (calls : List (Call × DiskReply)) : Prop :=
  ∀ c ∈ calls, c.1.isSave = true

/-- The step asks for no cache larger than `cap`: it is not a `SetStrategy` or `SetConfig`
whose `MaxLocalCacheSize` exceeds `cap` (such a call makes `updateStrategy` allocate). -/
def Call.fitsCap (cap : Int) : Call → Bool
  | Call.setStrategy s => decide (s.MaxLocalCacheSize ≤ cap)
  | Call.setConfig cfg =>
    match cfg.Strategy with
    | some s => decide (s.MaxLocalCacheSize ≤ cap)
    | none => true
  | _ => true

end LocalCachedDisk

/-! ## The heartbeat counters of `adaptive/hbcounter.go` -/

/-- The struct `CustomizedBucketCounterConfig`. -/
structure CustomizedBucketCounterConfig where
  N : Int
  wPlus : Int
  wMinus : Int
  xiPlus : Int
  xiMinus : Int
  t : Int
deriving DecidableEq, Repr

/-- The variable `NaiveCounterCfg`. -/
def NaiveCounterCfg : CustomizedBucketCounterConfig :=
  { N := 2, wPlus := 1, wMinus := 1, xiPlus := 2, xiMinus := 0, t := 0 }

/-- The variable `BoldCounterCfg`. -/
def BoldCounterCfg : CustomizedBucketCounterConfig :=
  { N := 100, wPlus := 30, wMinus := 10, xiPlus := 100, xiMinus := 0, t := 55 }

/-- The variable `CautiousCounterCfg`. -/
def CautiousCounterCfg : CustomizedBucketCounterConfig :=
  { N := 100, wPlus := 30, wMinus := 10, xiPlus := 100, xiMinus := 0, t := 75 }

/-- The struct `SimpleBucketCounter`. -/
structure SimpleBucketCounter where
  counter : Int
  maxToken : Int
deriving DecidableEq, Repr

namespace SimpleBucketCounter

/-- The method `SimpleBucketCounter.Init`. -/
def Init (sbc : SimpleBucketCounter) (_positive : Bool) : SimpleBucketCounter :=
  { sbc with counter := 0 }

/-- The method `SimpleBucketCounter.Positive`. -/
def Positive (sbc : SimpleBucketCounter) : SimpleBucketCounter :=
  if sbc.counter ≥ sbc.maxToken then { sbc with counter := sbc.maxToken }
  else { sbc with counter := sbc.counter + 1 }

/-- The method `SimpleBucketCounter.Negative`. -/
def Negative (sbc : SimpleBucketCounter) : SimpleBucketCounter :=
  if sbc.counter ≤ 0 then { sbc with counter := 0 }
  else { sbc with counter := sbc.counter - 1 }

/-- The method `SimpleBucketCounter.Report`. -/
def Report (sbc : SimpleBucketCounter) : Bool := decide (sbc.counter > 0)

end SimpleBucketCounter

/-- The struct `CustomizedBucketCounter`. -/
structure CustomizedBucketCounter where
  counter : Int
  lastResult : Bool
  polarize : Bool
  config : CustomizedBucketCounterConfig
deriving DecidableEq, Repr

namespace CustomizedBucketCounter

/-- The method `CustomizedBucketCounter.Init`. -/
def Init (cbc : CustomizedBucketCounter) (positive : Bool) : CustomizedBucketCounter :=
  if positive then { cbc with counter := cbc.config.xiPlus, lastResult := positive }
  else { cbc with counter := cbc.config.xiMinus, lastResult := positive }

/-- The method `CustomizedBucketCounter.Positive`. -/
def Positive (cbc : CustomizedBucketCounter) : CustomizedBucketCounter :=
  if cbc.counter < cbc.config.N then
    let c1 := cbc.counter + cbc.config.wPlus
    if c1 > cbc.config.N then { cbc with counter := cbc.config.N }
    else { cbc with counter := c1 }
  else cbc

/-- The method `CustomizedBucketCounter.Negative`. -/
def Negative (cbc : CustomizedBucketCounter) : CustomizedBucketCounter :=
  if cbc.counter > 0 then
    let c1 := cbc.counter - cbc.config.wMinus
    if c1 < 0 then { cbc with counter := 0 } else { cbc with counter := c1 }
  else cbc

/-- The method `CustomizedBucketCounter.Report`: the value returned and the counter
afterwards. -/
def Report (cbc : CustomizedBucketCounter) : Bool × CustomizedBucketCounter :=
  let result := decide (cbc.counter > cbc.config.t)
  let cbc1 :=
    if cbc.polarize ∧ cbc.lastResult ≠ result then cbc.Init result
    else { cbc with lastResult := result }
  (cbc1.lastResult, cbc1)

end CustomizedBucketCounter

/-- The struct `DummyHbCounter`. -/
structure DummyHbCounter where
  always : Bool
deriving DecidableEq, Repr

/-- The struct `BipolarHbCounter`; the array `bipolar` is the pair `bipolar0`,
`bipolar1`.  The counter is a Go `int` that a call sets to one of the two bounds or
changes by one; the model is without its wrap-around, which is more than `2^62` calls away
from a counter between `-2^62` and `2^62`. -/
structure BipolarHbCounter where
  critical : Bool
  counter : Int
  bipolar0 : Int
  bipolar1 : Int
deriving DecidableEq, Repr

namespace BipolarHbCounter

/-- The method `BipolarHbCounter.Init`. -/
def Init (bhc : BipolarHbCounter) (positive : Bool) : BipolarHbCounter :=
  if positive then { bhc with critical := false, counter := bhc.bipolar1 }
  else { bhc with critical := true, counter := bhc.bipolar0 }

/-- The method `BipolarHbCounter.Positive`. -/
def Positive (bhc : BipolarHbCounter) : BipolarHbCounter :=
  if !bhc.critical then { bhc with counter := bhc.bipolar1 }
  else { bhc with counter := bhc.counter - 1 }

/-- The method `BipolarHbCounter.Negative`. -/
def Negative (bhc : BipolarHbCounter) : BipolarHbCounter :=
  if bhc.critical ∧ bhc.counter < bhc.bipolar0 then { bhc with counter := bhc.counter + 1 }
  else { bhc with counter := bhc.counter - 1 }

/-- The method `BipolarHbCounter.Report`: the value returned and the counter afterwards. -/
def Report (bhc : BipolarHbCounter) : Bool × BipolarHbCounter :=
  let bhc1 := if bhc.counter ≤ 0 then bhc.Init bhc.critical else bhc
  (!bhc1.critical, bhc1)

end BipolarHbCounter

/-- The interface `HeartbeatCounter` with its four implementations. -/
inductive HeartbeatCounter where
  | simple (sbc : SimpleBucketCounter)
  | customized (cbc : CustomizedBucketCounter)
  | dummy (d : DummyHbCounter)
  | bipolar (bhc : BipolarHbCounter)
deriving DecidableEq, Repr

namespace HeartbeatCounter

/-- The interface method `Init`. -/
def Init : HeartbeatCounter → Bool → HeartbeatCounter
  | simple sbc, positive => simple (sbc.Init positive)
  | customized cbc, positive => customized (cbc.Init positive)
  | dummy d, _ => dummy d
  | bipolar bhc, positive => bipolar (bhc.Init positive)

/-- The interface method `Positive`. -/
def Positive : HeartbeatCounter → HeartbeatCounter
  | simple sbc => simple sbc.Positive
  | customized cbc => customized cbc.Positive
  | dummy d => dummy d
  | bipolar bhc => bipolar bhc.Positive

/-- The interface method `Negative`. -/
def Negative : HeartbeatCounter → HeartbeatCounter
  | simple sbc => simple sbc.Negative
  | customized cbc => customized cbc.Negative
  | dummy d => dummy d
  | bipolar bhc => bipolar bhc.Negative

/-- The interface method `Report`: the value returned and the counter afterwards. -/
def Report : HeartbeatCounter → Bool × HeartbeatCounter
  | simple sbc => (sbc.Report, simple sbc)
  | customized cbc => (cbc.Report.1, customized cbc.Report.2)
  | dummy d => (d.always, dummy d)
  | bipolar bhc => (bhc.Report.1, bipolar bhc.Report.2)

end HeartbeatCounter

/-- The function `NewSimpleBucketCounterFactory`: the counter every call of the factory
returns. -/
def NewSimpleBucketCounterFactory (maxToken : Int) : HeartbeatCounter :=
  HeartbeatCounter.simple { counter := 0, maxToken := maxToken }

/-! ## The connectivity monitor of `adaptive/saucr.go`

The logger is nil throughout (with a logger, a rejected `SetConfig` ends the process in
`Fatal`). -/

/-- Modelled from the spec: the type `raft.StateType` (package `raft`, not in the sources at
hand), the role of a peer: follower, candidate or leader, and the pre-candidate state of
the raft kernel; the zero value is `StateFollower`. -/
inductive StateType where
  | StateFollower
  | StateCandidate
  | StateLeader
  | StatePreCandidate
deriving DecidableEq, Repr

/-- Modelled from the spec: the constant `raft.None` (package `raft`, not in the sources at
hand); zero denotes "none". -/
def None : Nat := 0

/-- The struct `PerceptibleConfig`; a nil `Peers` is the empty list. -/
structure PerceptibleConfig where
  State : StateType
  Leader : Nat
  Self : Nat
  Critical : Bool
  Peers : List Nat
deriving DecidableEq, Repr

/-- The struct `SaucrMonitor`; `hbCounterFactory` is the counter the factory returns, a nil
slice is the empty list. -/
structure SaucrMonitor where
  leader : Nat
  self : Nat
  state : StateType
  peers : List Nat
  unconnected : List Bool
  hbCounter : List HeartbeatCounter
  hbCounterFactory : HeartbeatCounter
  threshold : Int
  mustCritical : Bool
deriving DecidableEq, Repr

namespace SaucrMonitor

/-- The method `refreshStateWithOption`. -/
def refreshStateWithOption (sm : SaucrMonitor) (state : StateType) (isInitCritical : Bool) :
    SaucrMonitor × Error :=
  let sm1 := { sm with state := state }
  if state = StateType.StateLeader then ({ sm1 with mustCritical := false }, none)
  else if state = StateType.StateFollower then
    ({ sm1 with mustCritical := isInitCritical }, none)
  else
    let sm2 := { sm1 with mustCritical := isInitCritical }
    if !isInitCritical then (sm2, some "illegal refresh of the field 'mustCritical'")
    else (sm2, none)

/-- The second loop of `refreshPeersWithOption`, `remaining` iterations from index `i`:
`hbCounter[i].Init(!isInitCritical)` and `unconnected[i] = isInitCritical`; `none` is a
panic (index out of range). -/
def initLoop (isInitCritical : Bool) :
    Nat → Nat → List HeartbeatCounter → List Bool →
      Option (List HeartbeatCounter × List Bool)
  | 0, _, hb, un => some (hb, un)
  | remaining + 1, i, hb, un =>
    match hb[i]? with
    | none => none
    | some h =>
      if i < un.length then
        initLoop isInitCritical remaining (i + 1) (hb.set i (h.Init (!isInitCritical)))
          (un.set i isInitCritical)
      else none

/-- The method `refreshPeersWithOption`; `none` is a panic.  The peer list has at least
three members where the threshold is computed, so the division is of non-negative
numbers. -/
def refreshPeersWithOption (sm : SaucrMonitor) (peers : List Nat) (isInitCritical : Bool) :
    Option (SaucrMonitor × Error) :=
  if peers.length = 0 then some (sm, some "monitor is refreshed by empty peer list")
  else if peers.length < 3 then
    some (sm, some "monitor is refreshed by peer list with length < 3")
  else
    let sm1 : SaucrMonitor :=
      if sm.peers.length ≠ peers.length then
        { sm with
          unconnected := List.replicate peers.length false
          hbCounter := List.replicate peers.length sm.hbCounterFactory }
      else sm
    let sm2 := { sm1 with peers := peers }
    match initLoop isInitCritical sm2.peers.length 0 sm2.hbCounter sm2.unconnected with
    | none => none
    | some (hb, un) =>
      some ({ sm2 with
              hbCounter := hb
              unconnected := un
              threshold := ((sm2.peers.length : Int) - 1) / 2 }, none)

/-- The loop of `findIndex` from position `i`. -/
def findIndexFrom (key : Nat) : List Nat → Int → Int
  | [], _ => -1
  | peer :: rest, i => if peer = key then i else findIndexFrom key rest (i + 1)

/-- The method `findIndex`. -/
def findIndex (sm : SaucrMonitor) (key : Nat) : Int := findIndexFrom key sm.peers 0

/-- The loop of `countUnconnectedExceptSelf` over the rest of `unconnected` from position
`i`; `none` is a panic (index out of range in `peers`). -/
def countLoop (peers : List Nat) (self : Nat) : List Bool → Nat → Int → Option Int
  | [], _, counter => some counter
  | u :: rest, i, counter =>
    if u then
      match peers[i]? with
      | none => none
      | some p => countLoop peers self rest (i + 1) (if p ≠ self then counter + 1 else counter)
    else countLoop peers self rest (i + 1) counter

/-- The method `countUnconnectedExceptSelf`; `none` is a panic. -/
def countUnconnectedExceptSelf (sm : SaucrMonitor) : Option Int :=
  countLoop sm.peers sm.self sm.unconnected 0 0

/-- The method `evaluate`; `none` is a panic. -/
def evaluate (sm : SaucrMonitor) : Option Bool :=
  if sm.mustCritical then some true
  else if sm.state = StateType.StateLeader then
    sm.countUnconnectedExceptSelf.map (fun n => decide (n ≥ sm.threshold))
  else if sm.state = StateType.StateFollower ∧ sm.leader ≠ None
      ∧ sm.findIndex sm.leader ≠ -1 then
    getInt sm.unconnected (sm.findIndex sm.leader)
  else some true

/-- The method `IsCritical`; `none` is a panic. -/
def IsCritical (sm : SaucrMonitor) : Option Bool := sm.evaluate

/-- The method `GetConfig`; `none` is a panic. -/
def GetConfig (sm : SaucrMonitor) : Option PerceptibleConfig :=
  sm.evaluate.map (fun critical =>
    { State := sm.state, Leader := sm.leader, Self := sm.self, Critical := critical,
      Peers := sm.peers })

/-- The method `SetConfig`; `none` is a panic. -/
def SetConfig (sm : SaucrMonitor) (config : PerceptibleConfig) :
    Option (SaucrMonitor × Error) :=
  if config.State = StateType.StateLeader ∧ config.Leader ≠ config.Self then
    some (sm, some "incoherent leader settings")
  else
    let sm1 := { sm with leader := config.Leader, self := config.Self }
    match sm1.refreshStateWithOption config.State config.Critical with
    | (sm2, some err) => some (sm2, some err)
    | (sm2, none) => sm2.refreshPeersWithOption config.Peers config.Critical

/-- The method `Perceive`; `none` is a panic. -/
def Perceive (sm : SaucrMonitor) (id : Nat) (isConnected : Bool) : Option SaucrMonitor :=
  if id = sm.self then some sm
  else if sm.state ≠ StateType.StateLeader then some sm
  else
    let index := sm.findIndex id
    if index ≠ -1 then
      match getInt sm.hbCounter index with
      | none => none
      | some h =>
        let h1 := if isConnected then h.Positive else h.Negative
        let rep := h1.Report
        if index.toNat < sm.unconnected.length then
          some { sm with
                 hbCounter := sm.hbCounter.set index.toNat rep.2
                 unconnected := sm.unconnected.set index.toNat (!rep.1) }
        else none
    else some sm

/-- The function `NewSaucrMonitor` with a nil logger; `none` in the first component is a
panic, in the second the returned monitor is nil. -/
def NewSaucrMonitor (hbCounterFactory : HeartbeatCounter) (config : PerceptibleConfig) :
    Option (Option SaucrMonitor × Error) :=
  let ret : SaucrMonitor :=
    { leader := 0, self := 0, state := StateType.StateFollower, peers := [],
      unconnected := [], hbCounter := [], hbCounterFactory := hbCounterFactory,
      threshold := 0, mustCritical := false }
  match ret.SetConfig config with
  | none => none
  | some (_, some err) => some (none, some err)
  | some (sm, none) => some (some sm, none)

/-- A sequence of `Perceive(p, isConnected)` calls, one for each `p` of `ids` in order. -/
def perceiveAll (sm : SaucrMonitor) : List Nat → Bool → Option SaucrMonitor
  | [], _ => some sm
  | p :: rest, isConnected =>
    match sm.Perceive p isConnected with
    | none => none
    | some sm1 => perceiveAll sm1 rest isConnected

/-- The parallel arrays have the length of the peer list. -/
def Coherent (sm : SaucrMonitor) : Prop :=
  sm.unconnected.length = sm.peers.length ∧ sm.hbCounter.length = sm.peers.length

/-- The verdict the specification gives right after `SetConfig(c)`: `c.Critical` for a
leader and for a follower whose leader is set and among the peers, true otherwise. -/
def expectedCritical (c : PerceptibleConfig) : Bool :=
  match c.State with
  | StateType.StateLeader => c.Critical
  | StateType.StateFollower =>
    if c.Leader ≠ None ∧ c.Leader ∈ c.Peers then c.Critical else true
  | _ => true

end SaucrMonitor

namespace SaucrMonitor

/-- A sequence of `Perceive(id, isConnected)` calls, one for each pair of `calls` in
order; `none` is a panic. -/
def perceiveSeq (sm : SaucrMonitor) : List (Nat × Bool) → Option SaucrMonitor
  | [] => some sm
  | (id, isConnected) :: rest =>
    match sm.Perceive id isConnected with
    | none => none
    | some sm1 => perceiveSeq sm1 rest

end SaucrMonitor

/-! ## The inactivated monitor of `adaptive/inactivated.go`

The closure `activation` is not part of the state: whether it fails is an argument of
`TryGetActivate`.  The field `hasLogger` says whether `logger` is not nil. -/

/-- The struct `InactivatedMonitor`. -/
structure InactivatedMonitor where
  hasLogger : Bool
  leader : Nat
  self : Nat
  state : StateType
  peer : List Nat
  disableCriticalUpdate : Bool
  mustCritical : Bool
  giveUpIfFail : Bool
deriving DecidableEq, Repr

namespace InactivatedMonitor

/-- The method `InactivatedMonitor.GetConfig`. -/
def GetConfig (iam : InactivatedMonitor) : PerceptibleConfig :=
  { State := iam.state, Leader := iam.leader, Self := iam.self,
    Critical := iam.mustCritical, Peers := iam.peer }

/-- The method `InactivatedMonitor.SetConfig`. -/
def SetConfig (iam : InactivatedMonitor) (config : PerceptibleConfig) :
    InactivatedMonitor × Error :=
  let iam1 : InactivatedMonitor :=
    { iam with
      state := config.State, leader := config.Leader, self := config.Self,
      peer := config.Peers }
  if !iam1.disableCriticalUpdate then ({ iam1 with mustCritical := config.Critical }, none)
  else if iam1.mustCritical ≠ config.Critical then (iam1, some "update has been disabled")
  else (iam1, none)

/-- The method `InactivatedMonitor.Perceive`. -/
def Perceive (iam : InactivatedMonitor) (_id : Nat) (_isConnected : Bool) :
    InactivatedMonitor := iam

/-- The method `InactivatedMonitor.IsCritical`. -/
def IsCritical (iam : InactivatedMonitor) : Bool := iam.mustCritical

/-- The method `InactivatedMonitor.TryGetActivate`, given whether the activation closure
returns an error.  The result is the monitor afterwards, whether the returned
`Perceptible` is this monitor itself (rather than the activated one) and the returned flag;
`none` is the panic of calling `Error` on a nil logger. -/
def TryGetActivate (iam : InactivatedMonitor) (activationFails : Bool) :
    Option (InactivatedMonitor × Bool × Bool) :=
  if activationFails then
    if iam.giveUpIfFail then some (iam, true, true)
    else if !iam.hasLogger then none
    else some ({ iam with mustCritical := true }, true, false)
  else some (iam, false, true)

/-- The function `NewInactivatedMonitor`. -/
def NewInactivatedMonitor (hasLogger : Bool) (cfg : PerceptibleConfig) :
    Option InactivatedMonitor × Error :=
  let ret : InactivatedMonitor :=
    { hasLogger := hasLogger, leader := 0, self := 0, state := StateType.StateFollower,
      peer := [], disableCriticalUpdate := false, mustCritical := false,
      giveUpIfFail := false }
  match ret.SetConfig cfg with
  | (_, some err) => (none, some err)
  | (ret1, none) => (some ret1, none)

/-- The function `NewDisabledMonitor`. -/
def NewDisabledMonitor (hasLogger : Bool) (cfg : PerceptibleConfig) :
    Option InactivatedMonitor × Error :=
  match NewInactivatedMonitor hasLogger cfg with
  | (some m, err) => (some { m with disableCriticalUpdate := true, giveUpIfFail := true }, err)
  | (none, err) => (none, err)

/-- A later call on an inactivated monitor. -/
inductive Op where
  | setConfig (config : PerceptibleConfig)
  | perceive (id : Nat) (isConnected : Bool)
  | tryGetActivate (activationFails : Bool)
deriving DecidableEq, Repr

/-- The monitor after one call; `none` is a panic. -/
def step (iam : InactivatedMonitor) : Op → Option InactivatedMonitor
  | Op.setConfig config => some (iam.SetConfig config).1
  | Op.perceive id isConnected => some (iam.Perceive id isConnected)
  | Op.tryGetActivate activationFails => (iam.TryGetActivate activationFails).map (fun r => r.1)

/-- The monitor after a sequence of calls; `none` is a panic. -/
def run (iam : InactivatedMonitor) : List Op → Option InactivatedMonitor
  | [] => some iam
  | op :: rest =>
    match iam.step op with
    | none => none
    | some iam1 => run iam1 rest

/-- The call is not a `SetConfig` with `Critical = false`. -/
def Op.keepsCritical : Op → Bool
  | Op.setConfig config => config.Critical
  | _ => true

end InactivatedMonitor

/-! ## Counter factories and test drivers of `adaptive/hbcounter.go` -/

/-- The function `CautiousHbCounterFactory`. -/
def CautiousHbCounterFactory : HeartbeatCounter :=
  HeartbeatCounter.customized
    { counter := 0, lastResult := false, polarize := false, config := CautiousCounterCfg }

/-- The function `BipolarHbCounterFactoryGenerator`: the counter every call of the
generated factory returns. -/
def BipolarHbCounterFactoryGenerator (bPlus bMinus : Int) : HeartbeatCounter :=
  HeartbeatCounter.bipolar
    { critical := true, counter := bMinus, bipolar0 := bMinus, bipolar1 := bPlus }

namespace HeartbeatCounter

/-- One `Negative()` followed by one `Positive()`. -/
def negativePositive (h : HeartbeatCounter) : HeartbeatCounter := h.Negative.Positive

/-- The values `Report()` returns when it is called after each of `k` rounds of `round`. -/
def reportsAfterEach (round : HeartbeatCounter → HeartbeatCounter) :
    Nat → HeartbeatCounter → List Bool
  | 0, _ => []
  | k + 1, h => ((round h).Report).1 :: reportsAfterEach round k ((round h).Report).2

end HeartbeatCounter

/-! ## Brief segments of `draft/collector/brief.go` -/

/-- The struct `BriefSegment`. -/
structure BriefSegment where
  Term : Nat
  PrevLogTerm : Nat
  FirstIndex : Nat
  LastIndex : Nat
deriving DecidableEq, Repr

/-- The loop of `ExtractBriefFromEntries` over the rest of `ent`, with the open segment
`brief` (`none` is nil) and the result so far. -/
def extractLoop (prevLogTerm : Nat) :
    List Entry → Option BriefSegment → List BriefSegment →
      Option BriefSegment × List BriefSegment
  | [], brief, res => (brief, res)
  | entry :: rest, some brief, res =>
    if brief.Term = entry.term then
      extractLoop prevLogTerm rest (some { brief with LastIndex := entry.index }) res
    else
      extractLoop prevLogTerm rest
        (some { Term := entry.term, PrevLogTerm := brief.Term, FirstIndex := entry.index,
                LastIndex := entry.index }) (res ++ [brief])
  | entry :: rest, none, res =>
    extractLoop prevLogTerm rest
      (some { Term := entry.term, PrevLogTerm := prevLogTerm, FirstIndex := entry.index,
              LastIndex := entry.index }) res

/-- The function `ExtractBriefFromEntries`. -/
def ExtractBriefFromEntries (prevLogTerm : Nat) (ent : List Entry) : List BriefSegment :=
  match extractLoop prevLogTerm ent none [] with
  | (some brief, res) => res ++ [brief]
  | (none, res) => res

/-- The maximal runs of consecutive entries with equal term, in order (the specification's
view of an entry sequence). -/
def sameTermRuns : List Entry → List (List Entry)
  | [] => []
  | e :: es =>
    match sameTermRuns es with
    | [] => [[e]]
    | r :: rs =>
      if r.head?.map (fun x => x.term) = some e.term then (e :: r) :: rs
      else [e] :: r :: rs

/-- One segment per run, as the specification words it: the run's term, the indices of its
first and last entries, and as `PrevLogTerm` the given term for the first segment and the
preceding segment's term for every later one. -/
def segmentsOfRuns (prevLogTerm : Nat) : List (List Entry) → List BriefSegment
  | [] => []
  | r :: rs =>
    match r.head?, r.getLast? with
    | some f, some l =>
      { Term := f.term, PrevLogTerm := prevLogTerm, FirstIndex := f.index,
        LastIndex := l.index } :: segmentsOfRuns f.term rs
    | _, _ => segmentsOfRuns prevLogTerm rs

/-! ## Slices -/

/-- The slice expression `xs[lo:hi]` with Go `int` bounds; `none` is the run-time panic.
The capacity of a slice is taken to be its length; `sliceCap` is the expression on a slice
with spare capacity. -/
def sliceInt {α : Type} (xs : List α) (lo hi : Int) : Option (List α) :=
  if 0 ≤ lo ∧ lo ≤ hi ∧ hi ≤ xs.length then some ((xs.take hi.toNat).drop lo.toNat) else none

/-! ## Fetching from the collector of `draft/collector/consecutive.go` -/

namespace MimicRaftKernelCollector

/-- The method `EntrySize`. -/
def EntrySize (c : MimicRaftKernelCollector) : Int :=
  if c.IsRefreshed then 0 else c.content.length

/-- The method `IsEmpty`. -/
def IsEmpty (c : MimicRaftKernelCollector) : Bool := decide (c.EntrySize = 0)

/-- The method `FetchAllEntries`. -/
def FetchAllEntries (c : MimicRaftKernelCollector) : Bool × List Entry × Nat × Nat :=
  if c.IsRefreshed then (false, [], 0, 0) else (true, c.content, c.logTerm, c.logIndex)

/-- The method `Refresh`. -/
def Refresh (c : MimicRaftKernelCollector) : MimicRaftKernelCollector :=
  if c.IsRefreshed then c
  else { c with content := [], copied := false, initialized := false }.destroyCachedTable

/-- The method `LocateIndex`; `none` is a panic. -/
def LocateIndex (c : MimicRaftKernelCollector) (index : Nat) : Option (Location × Nat) :=
  if c.IsRefreshed then none
  else if c.logIndex > index then some (Location.UNDERFLOW, 0)
  else if c.logIndex = index then some (Location.PREV, c.logTerm)
  else
    let r := c.locateEntryWithIndex index
    if !r.1 then some (Location.OVERFLOW, 0)
    else
      match getInt c.content r.2 with
      | none => none
      | some e => some (Location.WITHIN, e.term)

/-- The method `PrevLogTerm`; `none` is a panic. -/
def PrevLogTerm (c : MimicRaftKernelCollector) : Option Nat :=
  if c.IsRefreshed then none else some c.logTerm

/-- The method `FirstIndex`; `none` is a panic. -/
def FirstIndex (c : MimicRaftKernelCollector) : Option Nat :=
  if c.IsRefreshed || c.IsEmpty then none else some (addU64 c.logIndex 1)

/-- The method `LastIndex`; `none` is a panic. -/
def LastIndex (c : MimicRaftKernelCollector) : Option Nat :=
  if c.IsRefreshed || c.IsEmpty then none
  else some (addU64 c.logIndex (ofInt c.content.length))

/-- The method `FetchEntriesWithStartIndex`; `none` is a panic. -/
def FetchEntriesWithStartIndex (c : MimicRaftKernelCollector) (index : Nat) :
    Option (Bool × List Entry × Nat × Nat) :=
  if c.IsRefreshed then some (false, [], 0, 0)
  else if index ≤ addU64 c.logIndex 1 then some (true, c.content, c.logTerm, c.logIndex)
  else if index ≥ c.nextIndex then some (false, [], 0, 0)
  else
    let idx := (c.locateEntryWithIndex index).2
    match getInt c.content (idx - 1), sliceInt c.content idx c.content.length with
    | some before, some rest => some (true, rest, before.term, before.index)
    | _, _ => none

/-- The function `CloneMimicRaftKernelCollector`; `none` is a panic. -/
def CloneMimicRaftKernelCollector (rkc : MimicRaftKernelCollector) :
    Option MimicRaftKernelCollector :=
  match rkc.FetchAllEntries with
  | (true, f, lt, li) => (new.AddEntries f lt li).map (fun r => r.1)
  | (false, _, _, _) => some new

/-- The loop of `locateCachedTableWithTerm`; `none` is a panic or a loop that has not ended
when the fuel is used up. -/
def locateCachedTableLoop (table : List CachedRow) (term : Nat) (from_ to_ : Int) :
    Nat → Int → Int → Option (Bool × Int × Int)
  | 0, start, end_ => if start < end_ then none else some (false, 0, 0)
  | fuel + 1, start, end_ =>
    if start < end_ then
      let mid := (start + end_) / 2
      match getInt table mid with
      | none => none
      | some row =>
        if row.term = term then
          if row.first ≥ to_ ∨ row.last < from_ then some (false, 0, 0)
          else
            some (true, if row.first < from_ then from_ else row.first,
              if row.last > to_ - 1 then to_ - 1 else row.last)
        else if row.term < term then locateCachedTableLoop table term from_ to_ fuel (mid + 1) end_
        else locateCachedTableLoop table term from_ to_ fuel start mid
    else some (false, 0, 0)

/-- The method `locateCachedTableWithTerm`; `none` is a panic. -/
def locateCachedTableWithTerm (c : MimicRaftKernelCollector) (term : Nat) (from_ to_ : Int) :
    Option (Bool × Int × Int) :=
  if c.cachedTable.length = 0 then some (false, 0, 0)
  else locateCachedTableLoop c.cachedTable term from_ to_ c.cachedTable.length 0
    c.cachedTable.length

/-- The loop of `locateEntryWithTerm`. -/
def locateEntryLoop (content : List Entry) (term : Nat) : Nat → Int → Int → Option (Bool × Int)
  | 0, start, end_ => if start < end_ then none else some (false, start)
  | fuel + 1, start, end_ =>
    if start < end_ then
      let mid := (start + end_) / 2
      match getInt content mid with
      | none => none
      | some e =>
        if e.term = term then some (true, mid)
        else if e.term < term then locateEntryLoop content term fuel (mid + 1) end_
        else locateEntryLoop content term fuel start mid
    else some (false, start)

/-- The method `locateEntryWithTerm`; `none` is a panic. -/
def locateEntryWithTerm (c : MimicRaftKernelCollector) (term : Nat) (from_ to_ : Int) :
    Option (Bool × Int) :=
  match c.locateCachedTableWithTerm term from_ to_ with
  | none => none
  | some (true, l, _) => some (true, l)
  | some (false, _, _) => locateEntryLoop c.content term (to_ - from_).toNat from_ to_

/-- The loop of `locateFirstEntryWithTerm`. -/
def locateFirstLoop (content : List Entry) (term : Nat) (from_ : Int) :
    Nat → Int → Int → Option (Bool × Int)
  | 0, start, end_ => if start < end_ then none else some (false, start)
  | fuel + 1, start, end_ =>
    if start < end_ then
      let mid := (start + end_) / 2
      match getInt content mid with
      | none => none
      | some e =>
        if e.term = term then
          if mid = from_ then some (true, mid)
          else
            match getInt content (mid - 1) with
            | none => none
            | some p =>
              if p.term ≠ term then some (true, mid)
              else locateFirstLoop content term from_ fuel start mid
        else if e.term < term then locateFirstLoop content term from_ fuel (mid + 1) end_
        else locateFirstLoop content term from_ fuel start mid
    else some (false, start)

/-- The method `locateFirstEntryWithTerm`; `none` is a panic. -/
def locateFirstEntryWithTerm (c : MimicRaftKernelCollector) (term : Nat) (from_ to_ : Int) :
    Option (Bool × Int) :=
  match c.locateCachedTableWithTerm term from_ to_ with
  | none => none
  | some (true, l, _) => some (true, l)
  | some (false, _, _) => locateFirstLoop c.content term from_ (to_ - from_).toNat from_ to_

/-- The loop of `locateLastEntryWithTerm`. -/
def locateLastLoop (content : List Entry) (term : Nat) (to_ : Int) :
    Nat → Int → Int → Option (Bool × Int)
  | 0, start, end_ => if start < end_ then none else some (false, start)
  | fuel + 1, start, end_ =>
    if start < end_ then
      let mid := (start + end_) / 2
      match getInt content mid with
      | none => none
      | some e =>
        if e.term = term then
          if mid = to_ - 1 then some (true, mid)
          else
            match getInt content (mid + 1) with
            | none => none
            | some n =>
              if n.term ≠ term then some (true, mid)
              else locateLastLoop content term to_ fuel (mid + 1) end_
        else if e.term < term then locateLastLoop content term to_ fuel (mid + 1) end_
        else locateLastLoop content term to_ fuel start mid
    else some (false, start)

/-- The method `locateLastEntryWithTerm`; `none` is a panic. -/
def locateLastEntryWithTerm (c : MimicRaftKernelCollector) (term : Nat) (from_ to_ : Int) :
    Option (Bool × Int) :=
  match c.locateCachedTableWithTerm term from_ to_ with
  | none => none
  | some (true, _, r) => some (true, r)
  | some (false, _, _) => locateLastLoop c.content term to_ (to_ - from_).toNat from_ to_

/-- The method `FetchEntries`; `none` is a panic. -/
def FetchEntries (c : MimicRaftKernelCollector) (term : Nat) :
    Option (Bool × List Entry × Nat × Nat) :=
  if c.IsRefreshed then some (false, [], 0, 0)
  else
    let cLen : Int := c.content.length
    match c.locateEntryWithTerm term 0 cLen with
    | none => none
    | some (false, _) => some (false, [], 0, 0)
    | some (true, idx) =>
      match c.locateFirstEntryWithTerm term 0 (idx + 1), c.locateLastEntryWithTerm term idx cLen with
      | some (_, left), some (_, right) =>
        if left = 0 then
          (sliceInt c.content 0 (right + 1)).map (fun ent => (true, ent, c.logTerm, c.logIndex))
        else
          match getInt c.content (left - 1), sliceInt c.content left (right + 1) with
          | some last, some ent => some (true, ent, last.term, last.index)
          | _, _ => none
      | _, _ => none

/-- The loop of `Briefing` from position `left`: the segments and the rows of the cached
table it appends; `none` is a panic. -/
def briefingLoop (content : List Entry) :
    Nat → Int → Nat → Option (List BriefSegment × List CachedRow)
  | 0, left, _ => if left < content.length then none else some ([], [])
  | fuel + 1, left, logTerm =>
    if left < content.length then
      match getInt content left with
      | none => none
      | some e =>
        match locateLastLoop content e.term content.length
            ((content.length : Int) - left).toNat left content.length with
        | none => none
        | some (_, right) =>
          match getInt content right, briefingLoop content fuel (right + 1) e.term with
          | some r, some (segs, rows) =>
            some ({ Term := e.term, PrevLogTerm := logTerm, FirstIndex := e.index,
                    LastIndex := r.index } :: segs,
                  { term := e.term, first := left, last := right } :: rows)
          | _, _ => none
    else some ([], [])

/-- The method `Briefing`: the collector afterwards and the segments returned; `none` is a
panic. -/
def Briefing (c : MimicRaftKernelCollector) :
    Option (MimicRaftKernelCollector × List BriefSegment) :=
  if c.IsRefreshed || c.IsEmpty then some (c, [])
  else
    (briefingLoop c.content c.content.length 0 c.logTerm).map
      (fun r => ({ c with cachedTable := r.2 }, r.1))

end MimicRaftKernelCollector

/-! ## The brief collector of `draft/collector/brief.go`

The collector holds pointers to `BriefSegment` values, and the same segment can be
reached from several collectors.  A pointer is an index into a heap of segments that is
passed through every operation; allocation appends to the heap. -/

/-- The method `BriefSegment.Hit`. -/
def BriefSegment.Hit (b : BriefSegment) (term index : Nat) : Bool :=
  decide (term = b.Term) && decide (b.FirstIndex ≤ index) && decide (index ≤ b.LastIndex)

/-- The method `BriefSegment.HitPrev`. -/
def BriefSegment.HitPrev (b : BriefSegment) (term index : Nat) : Bool :=
  decide (term = b.PrevLogTerm) && decide (subU64 b.FirstIndex 1 = index)

/-- The heap of `BriefSegment` values; a `*BriefSegment` is an index into it. -/
abbrev SegmentHeap := List BriefSegment

/-- Allocation of the segments a call of `ExtractBriefFromEntries` returns: the heap
afterwards and the pointers to the new segments. -/
def allocSegments (h : SegmentHeap) (segs : List BriefSegment) : SegmentHeap × List Nat :=
  (h ++ segs, List.range' h.length segs.length)

/-- The struct `MimicRaftKernelBriefCollector`; `next = none` is the nil pointer. -/
structure MimicRaftKernelBriefCollector where
  b : List Nat
  next : Option Nat
  logTerm : Nat
  logIndex : Nat
  initialized : Bool
deriving DecidableEq, Repr

namespace MimicRaftKernelBriefCollector

/-- The function `NewMimicRaftKernelBriefCollector`. -/
def NewMimicRaftKernelBriefCollector : MimicRaftKernelBriefCollector :=
  { b := [], next := none, logTerm := 0, logIndex := 0, initialized := false }

/-- The function `NewInitializedMimicRaftKernelBriefCollector`. -/
def NewInitializedMimicRaftKernelBriefCollector (logTerm logIndex : Nat) :
    MimicRaftKernelBriefCollector :=
  { b := [], next := none, logTerm := logTerm, logIndex := logIndex, initialized := true }

/-- The method `IsEmpty`. -/
def IsEmpty (c : MimicRaftKernelBriefCollector) : Bool :=
  c.next.isNone || decide (c.b.length = 0)

/-- The method `IsRefreshed`. -/
def IsRefreshed (c : MimicRaftKernelBriefCollector) : Bool := !c.initialized

/-- The method `Refresh`. -/
def Refresh (c : MimicRaftKernelBriefCollector) : MimicRaftKernelBriefCollector :=
  { c with b := [], next := none, initialized := false }

/-- The function `CloneMimicRaftKernelBriefCollector`, called on a collector that is not
nil; `none` is a panic.  The new collector holds the same pointers. -/
def CloneMimicRaftKernelBriefCollector (rkb : MimicRaftKernelBriefCollector) :
    Option MimicRaftKernelBriefCollector :=
  if !rkb.initialized then none
  else
    some { b := rkb.b, next := rkb.b.getLast?, logTerm := rkb.logTerm,
           logIndex := rkb.logIndex, initialized := true }

/-- The segment `c.b[i]` read through its pointer; `none` is a panic. -/
def seg (h : SegmentHeap) (c : MimicRaftKernelBriefCollector) (i : Int) : Option BriefSegment :=
  (getInt c.b i).bind (fun p => h[p]?)

/-- The method `init`. -/
def init (h : SegmentHeap) (c : MimicRaftKernelBriefCollector) (ent : List Entry)
    (logTerm logIndex : Nat) : SegmentHeap × MimicRaftKernelBriefCollector :=
  let r := allocSegments h (ExtractBriefFromEntries logTerm ent)
  (r.1, { c with initialized := true, logTerm := logTerm, logIndex := logIndex, b := r.2,
                 next := r.2.getLast? })

/-- The loop of `locateTerm`; `none` is a panic or a loop that has not ended when the fuel
is used up. -/
def locateTermLoop (h : SegmentHeap) (c : MimicRaftKernelBriefCollector) (term : Nat) :
    Nat → Int → Int → Option Int
  | 0, start, end_ => if start < end_ then none else some start
  | fuel + 1, start, end_ =>
    if start < end_ then
      let mid := (start + end_) / 2
      match c.seg h mid with
      | none => none
      | some s =>
        if s.Term < term then locateTermLoop h c term fuel (mid + 1) end_
        else if term < s.Term then locateTermLoop h c term fuel start mid
        else some mid
    else some start

/-- The method `locateTerm`. -/
def locateTerm (h : SegmentHeap) (c : MimicRaftKernelBriefCollector) (term : Nat)
    (from_ to_ : Int) : Option Int :=
  locateTermLoop h c term (to_ - from_).toNat from_ to_

/-- The loop of `locateIndex`. -/
def locateIndexLoop (h : SegmentHeap) (c : MimicRaftKernelBriefCollector) (index : Nat) :
    Nat → Int → Int → Option Int
  | 0, start, end_ => if start < end_ then none else some start
  | fuel + 1, start, end_ =>
    if start < end_ then
      let mid := (start + end_) / 2
      match c.seg h mid with
      | none => none
      | some s =>
        if s.LastIndex < index then locateIndexLoop h c index fuel (mid + 1) end_
        else if index < s.FirstIndex then locateIndexLoop h c index fuel start mid
        else some mid
    else some start

/-- The method `locateIndex`. -/
def locateIndex (h : SegmentHeap) (c : MimicRaftKernelBriefCollector) (index : Nat)
    (from_ to_ : Int) : Option Int :=
  locateIndexLoop h c index (to_ - from_).toNat from_ to_

/-- The method `matchIndex`; `none` is a panic. -/
def matchIndex (h : SegmentHeap) (c : MimicRaftKernelBriefCollector) (index term : Nat) :
    Option (Location × Int) :=
  match c.seg h 0, c.seg h ((c.b.length : Int) - 1) with
  | some s0, some sl =>
    if index < subU64 s0.FirstIndex 1 then some (Location.UNDERFLOW, -1)
    else if index = subU64 s0.FirstIndex 1 then
      if s0.HitPrev term index then some (Location.PREV, -1) else some (Location.CONFLICT, -1)
    else if index > sl.LastIndex then some (Location.OVERFLOW, -1)
    else
      match c.locateTerm h term 0 c.b.length with
      | none => none
      | some idx =>
        if 0 ≤ idx ∧ idx < c.b.length then
          match c.seg h idx with
          | none => none
          | some s =>
            if s.Hit term index then some (Location.WITHIN, idx)
            else some (Location.CONFLICT, -1)
        else some (Location.CONFLICT, -1)
  | _, _ => none

/-- The method `MatchIndex`; `none` is a panic. -/
def MatchIndex (h : SegmentHeap) (c : MimicRaftKernelBriefCollector) (index term : Nat) :
    Option Location :=
  if c.IsRefreshed then none
  else if c.IsEmpty then
    if index < c.logIndex then some Location.UNDERFLOW
    else if index = c.logIndex then
      if term = c.logTerm then some Location.PREV else some Location.CONFLICT
    else some Location.OVERFLOW
  else (c.matchIndex h index term).map (fun r => r.1)

/-- The method `LocateIndex`; `none` is a panic. -/
def LocateIndex (h : SegmentHeap) (c : MimicRaftKernelBriefCollector) (index : Nat) :
    Option (Location × Nat) :=
  if c.IsRefreshed then none
  else if c.IsEmpty then
    if index < c.logIndex then some (Location.UNDERFLOW, 0)
    else if index = c.logIndex then some (Location.PREV, c.logTerm)
    else some (Location.OVERFLOW, 0)
  else
    match c.seg h 0, c.seg h ((c.b.length : Int) - 1) with
    | some s0, some sl =>
      if index < subU64 s0.FirstIndex 1 then some (Location.UNDERFLOW, 0)
      else if index = subU64 s0.FirstIndex 1 then some (Location.PREV, s0.PrevLogTerm)
      else if index > sl.LastIndex then some (Location.OVERFLOW, 0)
      else
        match c.locateIndex h index 0 c.b.length with
        | none => none
        | some idx => (c.seg h idx).map (fun s => (Location.WITHIN, s.Term))
    | _, _ => none

/-- The method `PrevLogTerm`; `none` is a panic. -/
def PrevLogTerm (c : MimicRaftKernelBriefCollector) : Option Nat :=
  if c.IsRefreshed then none else some c.logTerm

/-- The method `FirstIndex`; `none` is a panic. -/
def FirstIndex (c : MimicRaftKernelBriefCollector) : Option Nat :=
  if c.IsRefreshed || c.IsEmpty then none else some (addU64 c.logIndex 1)

/-- The method `LastIndex`; `none` is a panic. -/
def LastIndex (h : SegmentHeap) (c : MimicRaftKernelBriefCollector) : Option Nat :=
  if c.IsRefreshed || c.IsEmpty then none
  else (c.next.bind (fun p => h[p]?)).map (fun s => s.LastIndex)

/-- The method `Briefing`: the pointers held, as the segments they point to. -/
def Briefing (h : SegmentHeap) (c : MimicRaftKernelBriefCollector) : List (Option BriefSegment) :=
  c.b.map (fun p => h[p]?)

/-- The write `p.LastIndex = v` through a pointer; `none` is a nil or dangling pointer. -/
def setLastIndex (h : SegmentHeap) (p : Option Nat) (v : Nat) : Option SegmentHeap :=
  match p with
  | none => none
  | some a =>
    match h[a]? with
    | none => none
    | some s => some (h.set a { s with LastIndex := v })

/-- The method `ResizeBriefToIndex`; `none` is a panic. -/
def ResizeBriefToIndex (h : SegmentHeap) (c : MimicRaftKernelBriefCollector) (index : Nat) :
    Option (SegmentHeap × MimicRaftKernelBriefCollector × Bool × Location) :=
  if c.IsRefreshed then none
  else if c.IsEmpty then
    if index < c.logIndex then some (h, c, false, Location.UNDERFLOW)
    else if index = c.logIndex then some (h, c, true, Location.PREV)
    else some (h, c, false, Location.OVERFLOW)
  else
    match c.seg h 0, c.seg h ((c.b.length : Int) - 1) with
    | some s0, some sl =>
      if index < subU64 s0.FirstIndex 1 then some (h, c, false, Location.UNDERFLOW)
      else if index = subU64 s0.FirstIndex 1 then
        some (h, { c with b := [], next := none }, true, Location.PREV)
      else if index > sl.LastIndex then some (h, c, false, Location.OVERFLOW)
      else
        match c.locateIndex h index 0 c.b.length with
        | none => none
        | some idx =>
          match sliceInt c.b 0 (idx + 1) with
          | none => none
          | some b1 =>
            match getInt b1 idx with
            | none => none
            | some p =>
              (setLastIndex h (some p) index).map
                (fun h1 => (h1, { c with b := b1, next := some p }, true, Location.WITHIN))
    | _, _ => none

/-- The method `absorbBriefs`; `none` is a panic. -/
def absorbBriefs (h : SegmentHeap) (c : MimicRaftKernelBriefCollector) (b : List Nat) :
    Option (SegmentHeap × MimicRaftKernelBriefCollector) :=
  if b.length = 0 then some (h, c)
  else
    match (getInt b 0).bind (fun p => h[p]?), c.next.bind (fun p => h[p]?) with
    | some succ, some nx =>
      if succ.Term = nx.Term then
        (setLastIndex h c.next succ.LastIndex).map
          (fun h1 => (h1, { c with b := c.b ++ b.drop 1, next := b.getLast? }))
      else if succ.PrevLogTerm = nx.Term then
        some (h, { c with b := c.b ++ b, next := b.getLast? })
      else some (h, c)
    | _, _ => none

/-- The comparison loop of `mimic`: `rest` is `entries[eIdx:]`, `brief` the pointer held in
the variable `brief`.  It returns the final `(cIdx, brief, eIdx)`; `none` is a panic. -/
def mimicLoop (h : SegmentHeap) (c : MimicRaftKernelBriefCollector) :
    List Entry → Int → Nat → Int → Option (Int × Nat × Int)
  | [], cIdx, brief, eIdx => some (cIdx, brief, eIdx)
  | ent :: rest, cIdx, brief, eIdx =>
    if cIdx < c.b.length then
      match h[brief]? with
      | none => none
      | some s =>
        if !s.Hit ent.term ent.index then
          if cIdx + 1 = c.b.length then some (cIdx + 1, brief, eIdx)
          else
            match getInt c.b (cIdx + 1) with
            | none => none
            | some brief1 =>
              match h[brief1]? with
              | none => none
              | some s1 =>
                if !s1.Hit ent.term ent.index then some (cIdx + 1, brief1, eIdx)
                else mimicLoop h c rest (cIdx + 1) brief1 (eIdx + 1)
        else mimicLoop h c rest cIdx brief (eIdx + 1)
    else some (cIdx, brief, eIdx)

/-- The method `mimic`; `none` is a panic. -/
def mimic (h : SegmentHeap) (c : MimicRaftKernelBriefCollector) (entries : List Entry)
    (logTerm logIndex : Nat) :
    Option (SegmentHeap × MimicRaftKernelBriefCollector × Bool × Location) :=
  match c.matchIndex h logIndex logTerm with
  | none => none
  | some (loc, _) =>
    if loc ≠ Location.PREV ∧ loc ≠ Location.WITHIN then some (h, c, false, loc)
    else
      match entries with
      | [] => some (h, c, true, loc)
      | e0 :: _ =>
        match c.matchIndex h e0.index e0.term with
        | none => none
        | some (l, cIdx0) =>
          if l ≠ Location.WITHIN then some (h, c, true, loc)
          else
            match getInt c.b cIdx0 with
            | none => none
            | some brief0 =>
              match c.mimicLoop h entries cIdx0 brief0 0 with
              | none => none
              | some (cIdx, brief, eIdx) =>
                if eIdx ≠ entries.length then
                  let entries1 := entries.drop eIdx.toNat
                  match (if eIdx = 0 then some logTerm
                         else (getInt entries1 (eIdx - 1)).map (fun e => e.term)),
                        getInt entries1 0, c.next.bind (fun p => h[p]?) with
                  | some prevLogTerm, some first, some nx =>
                    let after := first.index
                    if addU64 nx.LastIndex 1 = after then
                      let r := allocSegments h (ExtractBriefFromEntries prevLogTerm entries1)
                      (c.absorbBriefs r.1 r.2).map (fun x => (x.1, x.2, true, loc))
                    else
                      match sliceInt c.b 0 (cIdx + 1) with
                      | none => none
                      | some b1 =>
                        match setLastIndex h (some brief) (subU64 after 1) with
                        | none => none
                        | some h1 =>
                          let r := allocSegments h1 (ExtractBriefFromEntries prevLogTerm entries1)
                          (absorbBriefs r.1 { c with b := b1, next := some brief } r.2).map
                            (fun x => (x.1, x.2, true, loc))
                  | _, _, _ => none
                else some (h, c, true, loc)

/-- The method `AddEntriesToBrief`; `none` is a panic. -/
def AddEntriesToBrief (h : SegmentHeap) (c : MimicRaftKernelBriefCollector)
    (entries : List Entry) (logTerm logIndex : Nat) :
    Option (SegmentHeap × MimicRaftKernelBriefCollector × Bool) :=
  if c.IsRefreshed then
    let r := c.init h entries logTerm logIndex
    some (r.1, r.2, true)
  else if c.IsEmpty then
    if c.logTerm = logTerm ∧ c.logIndex = logIndex then
      let r := c.init h entries logTerm logIndex
      some (r.1, r.2, true)
    else some (h, c, false)
  else
    match c.next.bind (fun p => h[p]?) with
    | none => none
    | some nx =>
      if nx.LastIndex = logIndex ∧ nx.Term = logTerm then
        let r := allocSegments h (ExtractBriefFromEntries logTerm entries)
        match r.2 with
        | [] => some (h, c, true)
        | p0 :: ps =>
          match r.1[p0]? with
          | none => none
          | some n0 =>
            if n0.Term = nx.Term then
              match setLastIndex r.1 c.next n0.LastIndex with
              | none => none
              | some h1 =>
                if ps.length + 1 > 1 then
                  some (h1, { c with b := c.b ++ ps, next := (c.b ++ ps).getLast? }, true)
                else some (h1, c, true)
            else
              some (r.1, { c with b := c.b ++ p0 :: ps, next := (c.b ++ p0 :: ps).getLast? },
                true)
      else (c.mimic h entries logTerm logIndex).map (fun x => (x.1, x.2.1, x.2.2.1))

end MimicRaftKernelBriefCollector

/-! ## The analyzer of `draft/rprog.go`

The analyzer holds its two collectors by value (`CloneMimicRaftKernelAnalyzer` allocates
fresh collector objects); the `BriefSegment` and `EntryFragment` values they point to live
in the memory that is passed through every operation.  The offers of a remote collector
(`OfferRemoteEntries`) and the preparation of a rollback follow further below; the
rollback buffer `rbFragments` is passed beside the analyzer. -/

/-- The struct `EntryFragment` of `draft/collector/fragment.go`. -/
structure EntryFragment where
  LogTerm : Nat
  LogIndex : Nat
  Fragment : List Entry
  CTerm : Nat
deriving DecidableEq, Repr

/-- The memory shared by all analyzers: the heap of `BriefSegment` values and the heap of
`EntryFragment` values; a pointer is an index. -/
structure Memory where
  segs : SegmentHeap
  frags : List EntryFragment
deriving DecidableEq, Repr

/-- The type `AnalysisPolicy`. -/
inductive AnalysisPolicy where
  | UpdateCommittedOnly
  | MatchFirstFragment
  | MatchLastFragment
  | StrictlyMatchFirst
  | AccordingToCompacted
  | IgnoreCompacted
deriving DecidableEq, Repr

/-- The struct `MimicRaftKernelAnalyzer`; `beforeAnalysis` holds pointers to fragments and
`beforeFingerprint` is the map from such pointers to ids, latest binding first. -/
structure MimicRaftKernelAnalyzer where
  term : Nat
  commit : Nat
  compacted : MimicRaftKernelBriefCollector
  beforeCompact : MimicRaftKernelCollector
  bcCTerm : Nat
  bcCTHolder : Nat
  analyzed : Bool
  beforeAnalysis : List Nat
  beforeFingerprint : List (Nat × Nat)
  beforeCommitted : Nat
  beforeTerm : Nat
  bufSize : Int
deriving DecidableEq, Repr

namespace MimicRaftKernelAnalyzer

/-- The function `NewMimicRaftKernelAnalyzer`. -/
def NewMimicRaftKernelAnalyzer (offerBufSize : Int) : MimicRaftKernelAnalyzer :=
  { term := 0, commit := 0,
    compacted := MimicRaftKernelBriefCollector.NewInitializedMimicRaftKernelBriefCollector 0 0,
    beforeCompact := MimicRaftKernelCollector.new,
    bcCTerm := 0, bcCTHolder := 0, analyzed := false, beforeAnalysis := [],
    beforeFingerprint := [], beforeCommitted := 0, beforeTerm := 0, bufSize := offerBufSize }

/-- The function `CloneMimicRaftKernelAnalyzer`; `none` is a panic. -/
def CloneMimicRaftKernelAnalyzer (an : MimicRaftKernelAnalyzer) :
    Option MimicRaftKernelAnalyzer :=
  match MimicRaftKernelBriefCollector.CloneMimicRaftKernelBriefCollector an.compacted,
        MimicRaftKernelCollector.CloneMimicRaftKernelCollector an.beforeCompact with
  | some compacted, some beforeCompact =>
    some { an with compacted := compacted, beforeCompact := beforeCompact }
  | _, _ => none

/-- The function `CopyMimicRaftKernelAnalyzer`: the value of `dst` afterwards.  The code
copies the pointers to the two collectors, so `dst` shares them with `src` from then on;
the model copies their values and stands for the code as long as `src` is not used
again. -/
def CopyMimicRaftKernelAnalyzer (_dst src : MimicRaftKernelAnalyzer) : MimicRaftKernelAnalyzer :=
  src

/-- The map read `an.beforeFingerprint[f]`: zero when the key is absent. -/
def fingerprint (an : MimicRaftKernelAnalyzer) (f : Nat) : Nat :=
  ((an.beforeFingerprint.find? (fun kv => kv.1 == f)).map (fun kv => kv.2)).getD 0

/-- The method `OfferLocalEntries`. -/
def OfferLocalEntries (m : Memory) (an : MimicRaftKernelAnalyzer)
    (oTerm oId committed prevLogTerm : Nat) (ent : List Entry) :
    Memory × MimicRaftKernelAnalyzer :=
  if oTerm < an.term then (m, an)
  else
    let an1 : MimicRaftKernelAnalyzer :=
      { an with
        analyzed := false
        beforeTerm := if oTerm > an.beforeTerm then oTerm else an.beforeTerm
        beforeCommitted := if an.beforeCommitted < committed then committed
                           else an.beforeCommitted }
    match ent with
    | [] => (m, an1)
    | e0 :: _ =>
      if e0.index ≤ an1.commit then (m, an1)
      else
        let f : EntryFragment :=
          { LogTerm := prevLogTerm, LogIndex := subU64 e0.index 1, Fragment := ent,
            CTerm := oTerm }
        ({ m with frags := m.frags ++ [f] },
         { an1 with
           beforeAnalysis := an1.beforeAnalysis ++ [m.frags.length]
           beforeFingerprint := (m.frags.length, oId) :: an1.beforeFingerprint })

/-- The method `updateCommit`. -/
def updateCommit (an : MimicRaftKernelAnalyzer) (committed : Nat) : MimicRaftKernelAnalyzer :=
  if committed > an.commit then { an with commit := committed } else an

/-- The method `alignBeforeCommitted`; `none` is a panic. -/
def alignBeforeCommitted (an : MimicRaftKernelAnalyzer) : Option MimicRaftKernelAnalyzer :=
  if an.beforeCompact.IsEmpty then some (an.updateCommit an.beforeCommitted)
  else
    match an.beforeCompact.LastIndex with
    | none => none
    | some lastIndex =>
      let an1 := if an.beforeCommitted < lastIndex then an.updateCommit an.beforeCommitted
                 else an.updateCommit lastIndex
      some { an1 with beforeCommitted := an1.commit }

/-- The method `removeOffers`. -/
def removeOffers (an : MimicRaftKernelAnalyzer) : MimicRaftKernelAnalyzer :=
  { an with beforeAnalysis := [], beforeFingerprint := [] }

/-- The comparison function of `sortBeforeAnalysis` on two fragments; `none` is a panic. -/
def fragmentLess (ai aj : EntryFragment) : Option Bool :=
  if ai.CTerm ≠ aj.CTerm then some (decide (ai.CTerm < aj.CTerm))
  else
    match getInt ai.Fragment ((ai.Fragment.length : Int) - 1),
          getInt aj.Fragment ((aj.Fragment.length : Int) - 1) with
    | some lastI, some lastJ => some (decide (lastI.index < lastJ.index))
    | _, _ => none

/-- One step of the insertion sort that `sort.Slice` runs on short slices: the pointer `x`
moves left over the sorted part (given last element first) while it is less. -/
def insertLeft (frags : List EntryFragment) (x : Nat) : List Nat → Option (List Nat)
  | [] => some [x]
  | y :: rest =>
    match frags[x]?, frags[y]? with
    | some fx, some fy =>
      match fragmentLess fx fy with
      | none => none
      | some true => (insertLeft frags x rest).map (fun r => y :: r)
      | some false => some (x :: y :: rest)
    | _, _ => none

/-- The insertion sort over the pointers `todo`, with the sorted part `sorted` given last
element first. -/
def insertionSort (frags : List EntryFragment) : List Nat → List Nat → Option (List Nat)
  | [], sorted => some sorted.reverse
  | x :: todo, sorted =>
    match insertLeft frags x sorted with
    | none => none
    | some sorted1 => insertionSort frags todo sorted1

/-- The method `sortBeforeAnalysis`; `none` is a panic.  `sort.Slice` is not stable: it is
modelled by the insertion sort it runs on slices of fewer than 12 elements.
`AnalyzeAndRemoveOffersSorted` is the analysis for any order the sort may leave. -/
def sortBeforeAnalysis (m : Memory) (an : MimicRaftKernelAnalyzer) :
    Option MimicRaftKernelAnalyzer :=
  (insertionSort m.frags an.beforeAnalysis []).map (fun l => { an with beforeAnalysis := l })

/-- The method `truncateCompacted`; `none` is a panic. -/
def truncateCompacted (m : Memory) (an : MimicRaftKernelAnalyzer) :
    Option (Memory × MimicRaftKernelAnalyzer) :=
  if !an.beforeCompact.IsEmpty then
    match an.beforeCompact.PrevLogTerm, an.beforeCompact.FirstIndex with
    | some prevLogTerm, some firstIndex =>
      match an.compacted.MatchIndex m.segs (subU64 firstIndex 1) prevLogTerm with
      | none => none
      | some Location.UNDERFLOW => none
      | some Location.CONFLICT => none
      | some Location.OVERFLOW => some (m, an)
      | some _ =>
        match an.compacted.ResizeBriefToIndex m.segs (subU64 firstIndex 1),
              an.beforeCompact.LastIndex with
        | some (h1, compacted1, _, _), some lastIndex =>
          let an1 : MimicRaftKernelAnalyzer := { an with compacted := compacted1 }
          let an2 := if an1.beforeCommitted < lastIndex then an1.updateCommit an1.beforeCommitted
                     else an1.updateCommit lastIndex
          some ({ m with segs := h1 }, { an2 with beforeCommitted := an2.commit })
        | _, _ => none
    | _, _ => none
  else some (m, an)

/-- The assignment of `bcCTerm` and `bcCTHolder` from the fragment at pointer `p`. -/
def holdBy (an : MimicRaftKernelAnalyzer) (p : Nat) (f : EntryFragment) :
    MimicRaftKernelAnalyzer :=
  { an with bcCTerm := f.CTerm, bcCTHolder := an.fingerprint p }

/-- The loop of `mergeBeforeAnalysisForward` with `strict = false` over the pointers
`rest`; `none` is a panic. -/
def mergeForwardLoop (m : Memory) : List Nat → MimicRaftKernelAnalyzer →
    Option MimicRaftKernelAnalyzer
  | [], an => some an
  | p :: rest, an =>
    match m.frags[p]? with
    | none => none
    | some f =>
      match an.beforeCompact.TryAddEntries f.Fragment f.LogTerm f.LogIndex with
      | none => none
      | some (bc1, true, _) =>
        mergeForwardLoop m rest ({ an with beforeCompact := bc1 }.holdBy p f)
      | some (bc1, false, loc) =>
        if loc = Location.UNDERFLOW then
          match an.compacted.MatchIndex m.segs f.LogIndex f.LogTerm with
          | none => none
          | some Location.UNDERFLOW => none
          | some Location.PREV | some Location.WITHIN =>
            match bc1.Refresh.AddEntries f.Fragment f.LogTerm f.LogIndex with
            | none => none
            | some (bc2, _) =>
              mergeForwardLoop m rest ({ an with beforeCompact := bc2 }.holdBy p f)
          | some _ => mergeForwardLoop m rest { an with beforeCompact := bc1 }
        else mergeForwardLoop m rest { an with beforeCompact := bc1 }

/-- The inner loop of `mergeBeforeAnalysisForward` with `strict = true`: the first pointer
of `rest` whose fragment starts after `picked` and is accepted by `AddEntries`, the
pointers behind it and the analyzer; `none` inside is "no such fragment", outside a
panic. -/
def strictScan (m : Memory) (picked : EntryFragment) : List Nat → MimicRaftKernelAnalyzer →
    Option (Option (Nat × List Nat) × MimicRaftKernelAnalyzer)
  | [], an => some (none, an)
  | p :: rest, an =>
    match m.frags[p]? with
    | none => none
    | some f =>
      if f.LogIndex > picked.LogIndex then
        match an.beforeCompact.AddEntries f.Fragment f.LogTerm f.LogIndex with
        | none => none
        | some (bc1, true) => some (some (p, rest), { an with beforeCompact := bc1 }.holdBy p f)
        | some (bc1, false) => strictScan m picked rest { an with beforeCompact := bc1 }
      else strictScan m picked rest an

/-- The outer loop of `mergeBeforeAnalysisForward` with `strict = true`, from the pointer
`picked` with the pointers `rest` behind it. -/
def strictLoop (m : Memory) : Nat → Nat → List Nat → MimicRaftKernelAnalyzer →
    Option MimicRaftKernelAnalyzer
  | 0, _, _, _ => none
  | fuel + 1, picked, rest, an =>
    match m.frags[picked]? with
    | none => none
    | some fp =>
      match strictScan m fp rest an with
      | none => none
      | some (none, an1) => some an1
      | some (some (p, rest1), an1) => strictLoop m fuel p rest1 an1

/-- The method `mergeBeforeAnalysisForward(from, strict)` called with `from` the position
right after the pointer `picked`, `rest = beforeAnalysis[from:]`. -/
def mergeBeforeAnalysisForward (m : Memory) (an : MimicRaftKernelAnalyzer) (picked : Nat)
    (rest : List Nat) (strict : Bool) : Option MimicRaftKernelAnalyzer :=
  if strict then strictLoop m (rest.length + 1) picked rest an
  else mergeForwardLoop m rest an

/-- The inner loop of `mergeBeforeAnalysisBackward` over the window given last pointer
first: the pointers behind the first accepted fragment (in slice order) and the analyzer;
`none` inside is "no fragment accepted". -/
def backwardScan (m : Memory) : List Nat → List Nat → MimicRaftKernelAnalyzer →
    Option (Option (List Nat) × MimicRaftKernelAnalyzer)
  | [], _, an => some (none, an)
  | p :: before, behind, an =>
    match m.frags[p]? with
    | none => none
    | some f =>
      match an.beforeCompact.AddEntries f.Fragment f.LogTerm f.LogIndex with
      | none => none
      | some (bc1, true) => some (some behind, { an with beforeCompact := bc1 }.holdBy p f)
      | some (bc1, false) => backwardScan m before (p :: behind) { an with beforeCompact := bc1 }

/-- The method `mergeBeforeAnalysisBackward(from)` with `window = beforeAnalysis[from:]`. -/
def mergeBeforeAnalysisBackward (m : Memory) : Nat → List Nat → MimicRaftKernelAnalyzer →
    Option MimicRaftKernelAnalyzer
  | 0, window, an => if window.length = 0 then some an else none
  | fuel + 1, window, an =>
    if window.length = 0 then some an
    else
      match backwardScan m window.reverse [] an with
      | none => none
      | some (none, an1) => some an1
      | some (some behind, an1) => mergeBeforeAnalysisBackward m fuel behind an1

/-- Whether `compacted` matches the anchor of a non-empty `beforeCompact` (the variable
`checkBeforeCompact`); `none` is a panic. -/
def checkBeforeCompact (m : Memory) (an : MimicRaftKernelAnalyzer) : Option Bool :=
  if !an.beforeCompact.IsEmpty then
    match an.beforeCompact.PrevLogTerm, an.beforeCompact.FirstIndex with
    | some prevLogTerm, some firstIndex =>
      (an.compacted.MatchIndex m.segs (subU64 firstIndex 1) prevLogTerm).map
        (fun loc => decide (loc = Location.PREV) || decide (loc = Location.WITHIN))
    | _, _ => none
  else some false

/-- The loop `MergeInit` of `analyzePolicyFirstMatch` over `rest = beforeAnalysis[index:]`;
`none` is a panic. -/
def firstMatchLoop (m : Memory) (check strict : Bool) : List Nat → MimicRaftKernelAnalyzer →
    Option (Memory × MimicRaftKernelAnalyzer)
  | [], an => some (m, an)
  | p :: rest, an =>
    match m.frags[p]? with
    | none => none
    | some f =>
      match an.compacted.MatchIndex m.segs f.LogIndex f.LogTerm with
      | none => none
      | some Location.UNDERFLOW => none
      | some Location.PREV | some Location.WITHIN =>
        match an.beforeCompact.Refresh.AddEntries f.Fragment f.LogTerm f.LogIndex with
        | none => none
        | some (bc1, _) =>
          match mergeBeforeAnalysisForward m ({ an with beforeCompact := bc1 }.holdBy p f) p rest
              strict with
          | none => none
          | some an1 => truncateCompacted m an1
      | some Location.OVERFLOW =>
        if check then
          match an.beforeCompact.AddEntries f.Fragment f.LogTerm f.LogIndex with
          | none => none
          | some (bc1, true) =>
            match mergeBeforeAnalysisForward m ({ an with beforeCompact := bc1 }.holdBy p f) p
                rest strict with
            | none => none
            | some an1 => truncateCompacted m an1
          | some (bc1, false) => firstMatchLoop m check strict rest { an with beforeCompact := bc1 }
        else firstMatchLoop m check strict rest an
      | some Location.CONFLICT => firstMatchLoop m check strict rest an

/-- The method `analyzePolicyFirstMatch`; `none` is a panic. -/
def analyzePolicyFirstMatch (m : Memory) (an : MimicRaftKernelAnalyzer) (strict : Bool) :
    Option (Memory × MimicRaftKernelAnalyzer) :=
  match checkBeforeCompact m an with
  | none => none
  | some check =>
    match firstMatchLoop m check strict an.beforeAnalysis an with
    | none => none
    | some (m1, an1) => an1.alignBeforeCommitted.map (fun an2 => (m1, an2))

/-- The loop `MergeInit` of `analyzePolicyLastMatch`: `before` is `beforeAnalysis[:index+1]`
given last pointer first, `behind` is `beforeAnalysis[index+1:]`; `none` is a panic. -/
def lastMatchLoop (m : Memory) (check : Bool) : List Nat → List Nat → MimicRaftKernelAnalyzer →
    Option (Memory × MimicRaftKernelAnalyzer)
  | [], _, an => some (m, an)
  | p :: before, behind, an =>
    match m.frags[p]? with
    | none => none
    | some f =>
      match an.compacted.MatchIndex m.segs f.LogIndex f.LogTerm with
      | none => none
      | some Location.UNDERFLOW => none
      | some Location.PREV | some Location.WITHIN =>
        match an.beforeCompact.Refresh.AddEntries f.Fragment f.LogTerm f.LogIndex with
        | none => none
        | some (bc1, _) =>
          match mergeBeforeAnalysisBackward m (behind.length + 1) behind
              ({ an with beforeCompact := bc1 }.holdBy p f) with
          | none => none
          | some an1 => truncateCompacted m an1
      | some Location.OVERFLOW =>
        if check then
          match an.beforeCompact.AddEntries f.Fragment f.LogTerm f.LogIndex with
          | none => none
          | some (bc1, true) =>
            match mergeBeforeAnalysisBackward m (behind.length + 1) behind
                ({ an with beforeCompact := bc1 }.holdBy p f) with
            | none => none
            | some an1 => truncateCompacted m an1
          | some (bc1, false) =>
            lastMatchLoop m check before (p :: behind) { an with beforeCompact := bc1 }
        else lastMatchLoop m check before (p :: behind) an
      | some Location.CONFLICT => lastMatchLoop m check before (p :: behind) an

/-- The method `analyzePolicyLastMatch`; `none` is a panic. -/
def analyzePolicyLastMatch (m : Memory) (an : MimicRaftKernelAnalyzer) :
    Option (Memory × MimicRaftKernelAnalyzer) :=
  match checkBeforeCompact m an with
  | none => none
  | some check =>
    match lastMatchLoop m check an.beforeAnalysis.reverse [] an with
    | none => none
    | some (m1, an1) => an1.alignBeforeCommitted.map (fun an2 => (m1, an2))

/-- The loop of `analyzeWithoutCompacted`; `none` is a panic. -/
def withoutCompactedLoop (m : Memory) : List Nat → MimicRaftKernelAnalyzer →
    Option MimicRaftKernelAnalyzer
  | [], an => some an
  | p :: rest, an =>
    match m.frags[p]? with
    | none => none
    | some f =>
      match an.beforeCompact.TryAddEntries f.Fragment f.LogTerm f.LogIndex with
      | none => none
      | some (bc1, true, _) =>
        withoutCompactedLoop m rest ({ an with beforeCompact := bc1 }.holdBy p f)
      | some (bc1, false, loc) =>
        if loc = Location.UNDERFLOW then
          match bc1.Refresh.AddEntries f.Fragment f.LogTerm f.LogIndex with
          | none => none
          | some (bc2, true) =>
            withoutCompactedLoop m rest ({ an with beforeCompact := bc2 }.holdBy p f)
          | some (bc2, false) => withoutCompactedLoop m rest { an with beforeCompact := bc2 }
        else withoutCompactedLoop m rest { an with beforeCompact := bc1 }

/-- The loop of `analyzeWithCompacted`; `none` is a panic. -/
def withCompactedLoop : Memory → List Nat → MimicRaftKernelAnalyzer →
    Option (Memory × MimicRaftKernelAnalyzer)
  | m, [], an => some (m, an)
  | m, p :: rest, an =>
    match m.frags[p]? with
    | none => none
    | some f =>
      match an.compacted.MatchIndex m.segs f.LogIndex f.LogTerm with
      | none => none
      | some Location.UNDERFLOW => none
      | some Location.PREV | some Location.WITHIN =>
        match an.beforeCompact.Refresh.AddEntries f.Fragment f.LogTerm f.LogIndex with
        | none => none
        | some (bc1, _) =>
          match truncateCompacted m ({ an with beforeCompact := bc1 }.holdBy p f) with
          | none => none
          | some (m1, an1) => withCompactedLoop m1 rest an1
      | some Location.OVERFLOW =>
        match an.beforeCompact.AddEntries f.Fragment f.LogTerm f.LogIndex with
        | none => none
        | some (bc1, true) =>
          withCompactedLoop m rest ({ an with beforeCompact := bc1 }.holdBy p f)
        | some (bc1, false) => withCompactedLoop m rest { an with beforeCompact := bc1 }
      | some Location.CONFLICT => withCompactedLoop m rest an

/-- The method `AnalyzeAndRemoveOffers`; `none` is a panic. -/
def AnalyzeAndRemoveOffers (m : Memory) (an : MimicRaftKernelAnalyzer)
    (policy : AnalysisPolicy) : Option (Memory × MimicRaftKernelAnalyzer) :=
  let an0 := if an.beforeTerm > an.term then { an with term := an.beforeTerm } else an
  if an0.analyzed then some (m, an0)
  else
    let r : Option (Memory × MimicRaftKernelAnalyzer) :=
      match policy with
      | AnalysisPolicy.UpdateCommittedOnly => an0.alignBeforeCommitted.map (fun a => (m, a))
      | AnalysisPolicy.MatchFirstFragment =>
        (sortBeforeAnalysis m an0).bind (fun a => analyzePolicyFirstMatch m a false)
      | AnalysisPolicy.MatchLastFragment =>
        (sortBeforeAnalysis m an0).bind (fun a => analyzePolicyLastMatch m a)
      | AnalysisPolicy.StrictlyMatchFirst =>
        (sortBeforeAnalysis m an0).bind (fun a => analyzePolicyFirstMatch m a true)
      | AnalysisPolicy.AccordingToCompacted =>
        (sortBeforeAnalysis m an0).bind (fun a =>
          (withCompactedLoop m a.beforeAnalysis a).bind (fun x =>
            (truncateCompacted x.1 x.2).bind (fun y =>
              y.2.alignBeforeCommitted.map (fun z => (y.1, z)))))
      | AnalysisPolicy.IgnoreCompacted =>
        (sortBeforeAnalysis m an0).bind (fun a =>
          (withoutCompactedLoop m a.beforeAnalysis a).bind (fun x =>
            x.alignBeforeCommitted.map (fun z => (m, z))))
    r.map (fun x => (x.1, { x.2 with analyzed := true }.removeOffers))

/-- The method `Compact`; `none` is a panic. -/
def Compact (m : Memory) (an : MimicRaftKernelAnalyzer) :
    Option (Memory × MimicRaftKernelAnalyzer) :=
  if an.beforeCompact.IsEmpty then some (m, an)
  else
    let r := an.beforeCompact.FetchAllEntries
    (an.compacted.AddEntriesToBrief m.segs r.2.1 r.2.2.1 r.2.2.2).map
      (fun x => ({ m with segs := x.1 },
        { an with compacted := x.2.1, beforeCompact := an.beforeCompact.Refresh }))

/-- The method `CompactBefore`; `none` is a panic. -/
def CompactBefore (m : Memory) (an : MimicRaftKernelAnalyzer) (index : Nat) :
    Option (Memory × MimicRaftKernelAnalyzer × Location) :=
  if an.beforeCompact.IsEmpty then some (m, an, Location.UNDERFLOW)
  else
    match an.beforeCompact.LocateIndex index with
    | none => none
    | some (Location.CONFLICT, _) => none
    | some (Location.WITHIN, _) =>
      match an.beforeCompact.FetchEntriesWithStartIndex index with
      | none => none
      | some (_, nEnt, nLogTerm, nLogIndex) =>
        let a := an.beforeCompact.FetchAllEntries
        match sliceInt a.2.1 0 ((a.2.1.length : Int) - nEnt.length) with
        | none => none
        | some aEnt =>
          match an.compacted.AddEntriesToBrief m.segs aEnt a.2.2.1 a.2.2.2,
                an.beforeCompact.Refresh.AddEntries nEnt nLogTerm nLogIndex with
          | some x, some (bc1, _) =>
            some ({ m with segs := x.1 },
              { an with compacted := x.2.1, beforeCompact := bc1 }, Location.WITHIN)
          | _, _ => none
    | some (Location.OVERFLOW, _) =>
      let a := an.beforeCompact.FetchAllEntries
      (an.compacted.AddEntriesToBrief m.segs a.2.1 a.2.2.1 a.2.2.2).map
        (fun x => ({ m with segs := x.1 },
          { an with compacted := x.2.1, beforeCompact := an.beforeCompact.Refresh },
          Location.OVERFLOW))
    | some (loc, _) => some (m, an, loc)

end MimicRaftKernelAnalyzer

/-! ## The sandbox of `draft/rprog.sandbox.go` -/

/-- The struct `sbxMimicRaftKernelAnalyzer`; `sandbox = none` is the nil pointer. -/
structure SbxMimicRaftKernelAnalyzer where
  base : MimicRaftKernelAnalyzer
  sandbox : Option MimicRaftKernelAnalyzer
deriving DecidableEq, Repr

namespace SbxMimicRaftKernelAnalyzer

/-- The function `NewSandboxForMimicRaftKernelAnalyzer`. -/
def NewSandboxForMimicRaftKernelAnalyzer (an : MimicRaftKernelAnalyzer) :
    SbxMimicRaftKernelAnalyzer := { base := an, sandbox := none }

/-- The method `PrepareSandbox`; `none` is a panic. -/
def PrepareSandbox (sbx : SbxMimicRaftKernelAnalyzer) : Option SbxMimicRaftKernelAnalyzer :=
  (MimicRaftKernelAnalyzer.CloneMimicRaftKernelAnalyzer sbx.base).map
    (fun s => { sbx with sandbox := some s })

/-- The method `CommitSandbox`; `none` is a panic. -/
def CommitSandbox (sbx : SbxMimicRaftKernelAnalyzer) : Option SbxMimicRaftKernelAnalyzer :=
  sbx.sandbox.map (fun s =>
    { sbx with base := MimicRaftKernelAnalyzer.CopyMimicRaftKernelAnalyzer sbx.base s })

end SbxMimicRaftKernelAnalyzer

/-! ## Vote responses of `draft/interpreter.go` -/

/-- The message types of `raftpb` (package `raft/raftpb`) that the code here reads or
writes; `MsgHup` is the zero value. -/
inductive MessageType where
  | MsgHup
  | MsgVote
  | MsgVoteResp
  | MsgPreVote
  | MsgPreVoteResp
  | MsgPerMode
deriving DecidableEq, Repr

/-- The struct `raftpb.Message` (package `raft/raftpb`): the fields the code here reads or
writes. -/
structure Message where
  Type_ : MessageType
  To : Nat
  From : Nat
  Term : Nat
  LogTerm : Nat
  Index : Nat
  Commit : Nat
  Entries : List Entry
  Reject : Bool
deriving DecidableEq, Repr

/-- The zero value `raftpb.Message{}`. -/
def Message.zero : Message :=
  { Type_ := MessageType.MsgHup, To := 0, From := 0, Term := 0, LogTerm := 0, Index := 0,
    Commit := 0, Entries := [], Reject := false }

/-- The interface `collector.Locator` with its two implementations; the brief collector
comes with the heap its pointers refer to. -/
inductive Locator where
  | consecutive (c : MimicRaftKernelCollector)
  | brief (h : SegmentHeap) (c : MimicRaftKernelBriefCollector)
deriving DecidableEq, Repr

namespace Locator

/-- The interface method `LastIndex`; `none` is a panic. -/
def LastIndex : Locator → Option Nat
  | consecutive c => c.LastIndex
  | brief h c => c.LastIndex h

/-- The interface method `LocateIndex`; `none` is a panic. -/
def LocateIndex : Locator → Nat → Option (Location × Nat)
  | consecutive c, index => c.LocateIndex index
  | brief h c, index => c.LocateIndex h index

end Locator

/-- The function `newVoteRespAccept`. -/
def newVoteRespAccept (preVote : Bool) (voteSender voteResponder term : Nat) : Message :=
  { Message.zero with
    Type_ := if preVote then MessageType.MsgPreVoteResp else MessageType.MsgVoteResp
    To := voteSender, From := voteResponder, Term := term }

/-- The function `newVoteRespReject`. -/
def newVoteRespReject (preVote : Bool) (voteSender voteResponder term : Nat) : Message :=
  { Message.zero with
    Type_ := if preVote then MessageType.MsgPreVoteResp else MessageType.MsgVoteResp
    To := voteSender, From := voteResponder, Term := term, Reject := true }

/-- The function `isUpdateTo`; `none` is a panic. -/
def isUpdateTo (m : Message) (locator : Locator) : Option Bool :=
  match locator.LastIndex with
  | none => none
  | some lastIndex =>
    match locator.LocateIndex lastIndex with
    | none => none
    | some (_, lastTerm) =>
      some (decide (m.LogTerm > lastTerm) ||
        (decide (m.LogTerm = lastTerm) && decide (m.Index ≥ lastIndex)))

/-- The function `handleRequestVote`; `none` is a panic. -/
def handleRequestVote (vote : Message) (term : Nat) (locator : Locator) : Option Message :=
  let preVote := decide (vote.Type_ = MessageType.MsgPreVote)
  if vote.Term ≤ term then some (newVoteRespReject preVote vote.From vote.To term)
  else
    match isUpdateTo vote locator with
    | none => none
    | some true => some (newVoteRespAccept preVote vote.From vote.To term)
    | some false => some (newVoteRespReject preVote vote.From vote.To term)

/-! ## The `MsgSaucr` slot of `etcdserver/raft.adaptive.go` -/

/-- The fields of the struct `SaucrRaftNode` that record a received `MsgPerMode`. -/
structure SaucrRaftNode where
  msgSaucrEmpty : Bool
  msgSaucrTerm : Nat
  msgSaucrMessage : Message
deriving DecidableEq, Repr

namespace SaucrRaftNode

/-- The function `NewSaucrRaftNode`: the fields above of the node it returns, which its
struct literal does not mention. -/
def NewSaucrRaftNode : SaucrRaftNode :=
  { msgSaucrEmpty := false, msgSaucrTerm := 0, msgSaucrMessage := Message.zero }

/-- The method `ReceiveMsgSaucr`. -/
def ReceiveMsgSaucr (srn : SaucrRaftNode) (message : Message) : SaucrRaftNode :=
  if srn.msgSaucrTerm ≤ message.Term then
    { msgSaucrEmpty := false, msgSaucrTerm := message.Term, msgSaucrMessage := message }
  else srn

/-- The method `GetExactlyAndDropMsgSaucr`: the node afterwards and the two values
returned. -/
def GetExactlyAndDropMsgSaucr (srn : SaucrRaftNode) (term : Nat) :
    SaucrRaftNode × Message × Bool :=
  if !srn.msgSaucrEmpty ∧ srn.msgSaucrTerm = term then
    ({ srn with msgSaucrTerm := term, msgSaucrEmpty := true }, srn.msgSaucrMessage, true)
  else ({ srn with msgSaucrTerm := term, msgSaucrEmpty := true }, Message.zero, false)

/-- A call on the slot. -/
inductive SlotCall where
  | receive (message : Message)
  | getAndDrop (term : Nat)
deriving DecidableEq, Repr

/-- The node after a sequence of calls. -/
def runCalls (srn : SaucrRaftNode) : List SlotCall → SaucrRaftNode
  | [] => srn
  | SlotCall.receive message :: rest => runCalls (srn.ReceiveMsgSaucr message) rest
  | SlotCall.getAndDrop term :: rest => runCalls (srn.GetExactlyAndDropMsgSaucr term).1 rest

end SaucrRaftNode

/-! ## Well-formed brief collectors -/

namespace MimicRaftKernelBriefCollector

/-- The segments follow one another without gap or overlap: each starts right after the
one before it ends, and none is empty. -/
def ContiguousSegments (segs : List BriefSegment) : Prop :=
  List.Chain' (fun s t => t.FirstIndex = s.LastIndex + 1) segs ∧
  ∀ s ∈ segs, s.FirstIndex ≤ s.LastIndex

/-- The collector `c` is initialised and holds, through distinct pointers into the heap `h`,
exactly the segments `segs` in order, with `next` pointing to the last of them. -/
def Holds (h : SegmentHeap) (c : MimicRaftKernelBriefCollector) (segs : List BriefSegment) :
    Prop :=
  c.initialized = true ∧ c.Briefing h = segs.map some ∧ c.b.Nodup ∧ c.next = c.b.getLast?

end MimicRaftKernelBriefCollector

namespace MimicRaftKernelBriefCollector

/-- The terms of the segments increase strictly from each segment to the next: the brief
of a log whose terms never decrease. -/
def IncreasingTerms (segs : List BriefSegment) : Prop :=
  List.Pairwise (fun s t => s.Term < t.Term) segs

end MimicRaftKernelBriefCollector

namespace MimicRaftKernelCollector

/-- The terms of the stored entries never decrease along the array (the order of a raft
log). -/
def NonDecreasingTerms (l : List Entry) : Prop :=
  List.Pairwise (fun a b => a.term ≤ b.term) l

/-- A row of `cachedTable` describes the array: the positions `first..last` lie inside
`content` and are exactly the positions of the entries with the term of the row. -/
def RowAccurate (content : List Entry) (row : CachedRow) : Prop :=
  0 ≤ row.first ∧ row.first ≤ row.last ∧ row.last < content.length ∧
  ∀ i (h : i < content.length),
    (content[i]).term = row.term ↔ (row.first ≤ (i : Int) ∧ (i : Int) ≤ row.last)

/-- The state of `cachedTable` that the methods of the collector keep: a refreshed
collector has no rows, and every row describes the array. -/
def CacheValid (c : MimicRaftKernelCollector) : Prop :=
  (c.initialized = false → c.cachedTable = []) ∧
  ∀ row ∈ c.cachedTable, RowAccurate c.content row

end MimicRaftKernelCollector

/-! ## The mode damper of `etcdserver/raft.adaptive.go` -/

/-- The type `SaucrMode` (a `uint8`): `NORMAL` is 0 and `SHELTERING` is 1.  Only equality of
modes is used. -/
abbrev SaucrMode := Nat

/-- The struct `SaucrModeDamper`. -/
structure SaucrModeDamper where
  window : List Bool
  winSize : Int
  ptr : Int
  fluctuate : Int
  lastMode : SaucrMode
deriving DecidableEq, Repr

namespace SaucrModeDamper

/-- The function `NewSaucrModeDamper` on the two fields of the configuration it reads.  The
outer `none` is a panic (`make` with a negative length, or `window[0]` on an empty window),
the inner `none` is the error "illegal Damper Configuration". -/
def NewSaucrModeDamper (damperWindowSize damperFluctuate : Int) :
    Option (Option SaucrModeDamper) :=
  if damperWindowSize < damperFluctuate then some none
  else if damperWindowSize < 0 then none
  else if damperWindowSize.toNat = 0 then none
  else
    some (some { window := true :: List.replicate (damperWindowSize.toNat - 1) false,
                 winSize := damperWindowSize, ptr := 0, fluctuate := damperFluctuate,
                 lastMode := 0 })

/-- The method `Current`; `none` is a panic (division by zero or an index out of range). -/
def Current (damper : SaucrModeDamper) (mode : SaucrMode) : Option SaucrModeDamper :=
  if damper.winSize = 0 then none
  else
    let ptr := Int.tmod (damper.ptr + 1) damper.winSize
    if 0 ≤ ptr ∧ ptr < damper.window.length then
      some { damper with
             ptr := ptr
             window := damper.window.set ptr.toNat (decide (mode ≠ damper.lastMode))
             lastMode := mode }
    else none

/-- The method `IsFluctuate`. -/
def IsFluctuate (damper : SaucrModeDamper) : Bool :=
  decide (damper.window.foldl (fun (count : Int) changed => if changed then count + 1 else count) 0
    ≥ damper.fluctuate)

/-- The damper after the calls `Current(mode)` for the modes of the list, in order. -/
def observe (damper : SaucrModeDamper) : List SaucrMode → Option SaucrModeDamper
  | [] => some damper
  | mode :: rest => (damper.Current mode).bind (fun d => observe d rest)

/-- Which observations are flips: an observation is a flip when its mode differs from the
mode of the observation before it; `last` is the mode before the first one. -/
def flips (last : SaucrMode) : List SaucrMode → List Bool
  | [] => []
  | mode :: rest => decide (mode ≠ last) :: flips mode rest

/-- The state in which the methods keep a damper of window size `W` and threshold `F` whose
recorded history of flips is `H`: read in a circle from the slot after `ptr`, the window
holds the last `W` elements of `H`. -/
def Tracks (W : Nat) (F : Int) (damper : SaucrModeDamper) (H : List Bool) : Prop :=
  damper.winSize = (W : Int) ∧ damper.fluctuate = F ∧ damper.window.length = W ∧
  W ≤ H.length ∧
  ∃ p : Nat, damper.ptr = (p : Int) ∧ p < W ∧
    damper.window.drop ((p + 1) % W) ++ damper.window.take ((p + 1) % W)
      = H.drop (H.length - W)

end SaucrModeDamper

/-! ## Sequences of calls on the collector of `draft/collector/consecutive.go` -/

namespace MimicRaftKernelCollector

/-- A call of one of the methods that change the collector. -/
inductive CollectorCall where
  | addEntries (entries : List Entry) (logTerm logIndex : Nat)
  | tryAddEntries (entries : List Entry) (logTerm logIndex : Nat)
  | refresh
deriving DecidableEq, Repr

/-- The collector after one call; `none` is a panic. -/
def call (c : MimicRaftKernelCollector) : CollectorCall → Option MimicRaftKernelCollector
  | CollectorCall.addEntries entries logTerm logIndex =>
    (c.AddEntries entries logTerm logIndex).map (fun r => r.1)
  | CollectorCall.tryAddEntries entries logTerm logIndex =>
    (c.TryAddEntries entries logTerm logIndex).map (fun r => r.1)
  | CollectorCall.refresh => some c.Refresh

/-- The collector after a sequence of calls; `none` is a panic. -/
def calls (c : MimicRaftKernelCollector) : List CollectorCall → Option MimicRaftKernelCollector
  | [] => some c
  | x :: rest => (c.call x).bind (fun c1 => calls c1 rest)

/-- The fragment of a call is well formed: `entries[k].Index = logIndex + 1 + k`, all
indices being `uint64` values. -/
def CollectorCall.WellFormed : CollectorCall → Prop
  | CollectorCall.addEntries entries _ logIndex =>
    Consecutive logIndex entries ∧ logIndex < 18446744073709551616 ∧
      ∀ e ∈ entries, e.index < 18446744073709551616
  | CollectorCall.tryAddEntries entries _ logIndex =>
    Consecutive logIndex entries ∧ logIndex < 18446744073709551616 ∧
      ∀ e ∈ entries, e.index < 18446744073709551616
  | CollectorCall.refresh => True

/-- The number of entries in the fragment of a call. -/
def CollectorCall.size : CollectorCall → Nat
  | CollectorCall.addEntries entries _ _ => entries.length
  | CollectorCall.tryAddEntries entries _ _ => entries.length
  | CollectorCall.refresh => 0

/-- The state of the stored array that the calls keep: `content[k].Index =
c.logIndex + 1 + k` for every `k`, all indices are `uint64` values, and a refreshed
collector stores nothing. -/
def Invariant (c : MimicRaftKernelCollector) : Prop :=
  Consecutive c.logIndex c.content ∧ c.logIndex < 18446744073709551616 ∧
  (∀ e ∈ c.content, e.index < 18446744073709551616) ∧
  (c.initialized = false → c.content = [])

end MimicRaftKernelCollector

/-! ## The helpers of `adaptive/perceptible.go` on a `SaucrMonitor` -/

/-- The function `SetPerceptibleState` on a `SaucrMonitor`; `none` is a panic. -/
def SetPerceptibleState (p : SaucrMonitor) (state : StateType) :
    Option (SaucrMonitor × Error) :=
  match p.GetConfig with
  | none => none
  | some cfg => p.SetConfig { cfg with State := state }

/-- The function `SetPerceptibleLeader` on a `SaucrMonitor`; `none` is a panic. -/
def SetPerceptibleLeader (p : SaucrMonitor) (leader : Nat) :
    Option (SaucrMonitor × Error) :=
  match p.GetConfig with
  | none => none
  | some cfg => p.SetConfig { cfg with Leader := leader }

namespace SaucrMonitor

/-- A call on the monitor: `SetConfig(config)` or `Perceive(id, isConnected)`. -/
inductive MonitorCall where
  | setConfig (config : PerceptibleConfig)
  | perceive (id : Nat) (isConnected : Bool)
deriving DecidableEq, Repr

/-- One call on the monitor, whatever error `SetConfig` returns; `none` is a panic. -/
def applyCall (sm : SaucrMonitor) : MonitorCall → Option SaucrMonitor
  | MonitorCall.setConfig config => (sm.SetConfig config).map (fun r => r.1)
  | MonitorCall.perceive id isConnected => sm.Perceive id isConnected

/-- A sequence of calls on the monitor, in order; `none` is a panic. -/
def applyCalls (sm : SaucrMonitor) : List MonitorCall → Option SaucrMonitor
  | [] => some sm
  | x :: rest =>
    match sm.applyCall x with
    | none => none
    | some sm1 => applyCalls sm1 rest

/-- The state every monitor built by `NewSaucrMonitor` stays in: the parallel arrays have
the length of the peer list, there are at least three peers, the threshold is the one
computed from the peer list, and a leader has itself as leader and no forced verdict. -/
def Settled (sm : SaucrMonitor) : Prop :=
  Coherent sm ∧ 3 ≤ sm.peers.length ∧
  sm.threshold = ((sm.peers.length : Int) - 1) / 2 ∧
  (sm.state = StateType.StateLeader → sm.leader = sm.self ∧ sm.mustCritical = false)

end SaucrMonitor

/-! ## Remote offers, term changes and rollback preparation of `draft/rprog.go` -/

/-- The interface `collector.EntryFragmentCollector` as `OfferRemoteEntries` uses it: what
`FetchFragmentsWithStartIndex` returns for each index (`none` is a panic), the fragments
given by value, and what `IsRefreshed` returns after that call. -/
structure EntryFragmentCollector where
  FetchFragmentsWithStartIndex : Nat → Option (Bool × List EntryFragment)
  IsRefreshed : Bool

namespace MimicRaftKernelAnalyzer

/-- The loop `for _, f := range fs` of `OfferRemoteEntries` over the pointers `fs`. -/
def markOffers (oId : Nat) : List Nat → List (Nat × Nat) → List (Nat × Nat)
  | [], fp => fp
  | f :: rest, fp => markOffers oId rest ((f, oId) :: fp)

/-- The method `OfferRemoteEntries`; `none` is a panic.  The fragments the collector
returns are new objects: they are allocated at the end of the fragment heap. -/
def OfferRemoteEntries (m : Memory) (an : MimicRaftKernelAnalyzer)
    (oTerm oId committed : Nat) (efc : EntryFragmentCollector) :
    Option (Memory × MimicRaftKernelAnalyzer) :=
  if oTerm < an.term then some (m, an)
  else
    let an1 : MimicRaftKernelAnalyzer :=
      { an with
        analyzed := false
        beforeTerm := if oTerm > an.beforeTerm then oTerm else an.beforeTerm
        beforeCommitted := if an.beforeCommitted < committed then committed
                           else an.beforeCommitted }
    match efc.FetchFragmentsWithStartIndex (addU64 an1.commit 1) with
    | none => none
    | some (ok, fs) =>
      if !efc.IsRefreshed ∧ ok then
        let ptrs := List.range' m.frags.length fs.length
        some ({ m with frags := m.frags ++ fs },
          { an1 with
            beforeAnalysis := an1.beforeAnalysis ++ ptrs
            beforeFingerprint := markOffers oId ptrs an1.beforeFingerprint })
      else some (m, an1)

/-- The method `TrySetTerm`: the analyzer afterwards and the value returned. -/
def TrySetTerm (an : MimicRaftKernelAnalyzer) (term : Nat) : MimicRaftKernelAnalyzer × Bool :=
  if an.term > term then (an, false) else ({ an with term := term }, true)

/-- The method `DropOffers`: the analyzer afterwards and the value returned. -/
def DropOffers (an : MimicRaftKernelAnalyzer) : MimicRaftKernelAnalyzer × Bool :=
  if an.analyzed then (an, false)
  else ({ an.removeOffers with analyzed := true }, true)

/-- The statement `rbFragments[id] = append(rbFragments[id], f)` on the map
`rbFragments`, kept as a list of bindings. -/
def rbAppend : List (Nat × List Nat) → Nat → Nat → List (Nat × List Nat)
  | [], id, f => [(id, [f])]
  | (k, fs) :: rest, id, f =>
    if k = id then (k, fs ++ [f]) :: rest else (k, fs) :: rbAppend rest id f

/-- The loop of `PrepareRollback` over the pointers of `beforeAnalysis`. -/
def rbLoop (an : MimicRaftKernelAnalyzer) : List Nat → List (Nat × List Nat) →
    List (Nat × List Nat)
  | [], rb => rb
  | f :: rest, rb => rbLoop an rest (rbAppend rb (an.fingerprint f) f)

/-- The method `PrepareRollback` with the field `rbFragments` passed beside the analyzer
(`none` is the nil map): the analyzer and `rbFragments` afterwards and the value
returned; `none` is a panic. -/
def PrepareRollback (an : MimicRaftKernelAnalyzer) (rbFragments : Option (List (Nat × List Nat))) :
    Option (MimicRaftKernelAnalyzer × Option (List (Nat × List Nat)) × Bool) :=
  if an.analyzed then some (an, rbFragments, false)
  else
    match rbFragments with
    | some _ => none
    | none =>
      some ({ an.removeOffers with analyzed := true }, some (rbLoop an an.beforeAnalysis []),
        true)

/-- The fields that the merging loops of the analysis leave alone. -/
def Frame (a b : MimicRaftKernelAnalyzer) : Prop :=
  b.term = a.term ∧ b.commit = a.commit ∧ b.compacted = a.compacted ∧
  b.beforeCommitted = a.beforeCommitted

/-- The term is kept and the commit has not decreased from `a` to `b`. -/
def Keeps (a b : MimicRaftKernelAnalyzer) : Prop :=
  b.term = a.term ∧ a.commit ≤ b.commit

/-- The anchor of an initialised entry collector satisfies `P`. -/
def Anchored (P : Nat → Prop) (bc : MimicRaftKernelCollector) : Prop :=
  bc.initialized = true → P bc.logIndex

end MimicRaftKernelAnalyzer

namespace MimicRaftKernelAnalyzer

/-! ## Sequences of offers to the analyzer -/

/-- An offer to the analyzer: a call of `OfferLocalEntries` or of `OfferRemoteEntries`. -/
inductive Offer where
  | localEntries (oTerm oId committed prevLogTerm : Nat) (ent : List Entry)
  | remoteEntries (oTerm oId committed : Nat) (efc : EntryFragmentCollector)

/-- One offer; `none` is a panic. -/
def offer (m : Memory) (an : MimicRaftKernelAnalyzer) :
    Offer → Option (Memory × MimicRaftKernelAnalyzer)
  | Offer.localEntries oTerm oId committed prevLogTerm ent =>
    some (OfferLocalEntries m an oTerm oId committed prevLogTerm ent)
  | Offer.remoteEntries oTerm oId committed efc =>
    OfferRemoteEntries m an oTerm oId committed efc

/-- A sequence of offers, in order; `none` is a panic. -/
def offers : Memory → MimicRaftKernelAnalyzer → List Offer →
    Option (Memory × MimicRaftKernelAnalyzer)
  | m, an, [] => some (m, an)
  | m, an, o :: rest =>
    match offer m an o with
    | none => none
    | some (m1, an1) => offers m1 an1 rest

/-- The offer carries `uint64` indices, and a remote collector asked for the fragments from
a start index on returns fragments anchored at the index before it or later (as
`FetchEntriesWithStartIndex` of a consecutive collector does). -/
def Offer.WellFormed : Offer → Prop
  | Offer.localEntries _ _ _ _ ent =>
    ∀ e, ent.head? = some e → e.index < 18446744073709551616
  | Offer.remoteEntries _ _ _ efc =>
    ∀ index ok fs, efc.FetchFragmentsWithStartIndex index = some (ok, fs) →
      ∀ f ∈ fs, index ≤ f.LogIndex + 1 ∧ f.LogIndex < 18446744073709551616

/-- No buffered fragment is anchored before the commit. -/
def FreshOffers (m : Memory) (an : MimicRaftKernelAnalyzer) : Prop :=
  ∀ p ∈ an.beforeAnalysis, ∀ f, m.frags[p]? = some f →
    an.commit ≤ f.LogIndex ∧ f.LogIndex < 18446744073709551616

end MimicRaftKernelAnalyzer

/-! ## The linked list of collectors of `draft/collector/collector.go`

The nodes live in a heap that is part of the list value; a `*nodeCollector` is an index
into it, `none` the nil pointer.  The node factory `cg` is the one
`NewMultiFragmentsCollector` passes, `NewMimicRaftKernelCollector`. -/

/-- The struct `nodeCollector`; the embedded `Collector` is the field `collector`. -/
structure NodeCollector where
  collector : MimicRaftKernelCollector
  startIndex : Nat
  info : Nat
  prev : Option Nat
  next : Option Nat
deriving DecidableEq, Repr

/-- The struct `LinkedListCollector` together with the heap of its nodes. -/
structure LinkedListCollector where
  nodes : List NodeCollector
  head : Option Nat
  tail : Option Nat
  regularized : Bool
  defaultRegOpt : Bool
deriving DecidableEq, Repr

namespace LinkedListCollector

/-- The function `NewLinkedListCollector`. -/
def NewLinkedListCollector (defaultRegOpt : Bool) : LinkedListCollector :=
  { nodes := [], head := none, tail := none, regularized := defaultRegOpt,
    defaultRegOpt := defaultRegOpt }

/-- A write through the pointer `p`; `none` is a dangling pointer. -/
def update (c : LinkedListCollector) (p : Nat) (f : NodeCollector → NodeCollector) :
    Option LinkedListCollector :=
  match c.nodes[p]? with
  | none => none
  | some n => some { c with nodes := c.nodes.set p (f n) }

/-- The method `newNodeCollector`: the list with the new node in its heap, and the pointer
to the node; `none` is a panic. -/
def newNodeCollector (c : LinkedListCollector) (entries : List Entry) (logTerm logIndex : Nat) :
    Option (LinkedListCollector × Nat) :=
  match MimicRaftKernelCollector.new.AddEntries entries logTerm logIndex with
  | none => none
  | some (col, _) =>
    some ({ c with
            nodes := c.nodes ++ [{ collector := col, startIndex := addU64 logIndex 1, info := 0,
                                   prev := none, next := none }] },
          c.nodes.length)

/-- The method `insertAfter`; `none` is a panic (a nil or dangling pointer). -/
def insertAfter (c : LinkedListCollector) (node after : Nat) : Option LinkedListCollector :=
  match c.update node (fun x => { x with prev := some after }) with
  | none => none
  | some c1 =>
    match c1.nodes[after]? with
    | none => none
    | some a =>
      match c1.update node (fun x => { x with next := a.next }) with
      | none => none
      | some c2 =>
        match c2.update after (fun x => { x with next := some node }) with
        | none => none
        | some c3 =>
          match c3.nodes[node]? with
          | none => none
          | some n =>
            match n.next with
            | none => some { c3 with tail := some node }
            | some q => c3.update q (fun x => { x with prev := some node })

/-- The method `insertBefore`; `none` is a panic. -/
def insertBefore (c : LinkedListCollector) (node before : Nat) : Option LinkedListCollector :=
  match c.update node (fun x => { x with next := some before }) with
  | none => none
  | some c1 =>
    match c1.nodes[before]? with
    | none => none
    | some b =>
      match c1.update node (fun x => { x with prev := b.prev }) with
      | none => none
      | some c2 =>
        match c2.update before (fun x => { x with prev := some node }) with
        | none => none
        | some c3 =>
          match c3.nodes[node]? with
          | none => none
          | some n =>
            match n.prev with
            | none => some { c3 with head := some node }
            | some q => c3.update q (fun x => { x with next := some node })

/-- The method `deleteAfter`; `none` is a panic. -/
def deleteAfter (c : LinkedListCollector) (node : Nat) : Option LinkedListCollector :=
  match c.nodes[node]? with
  | none => none
  | some n =>
    match (match n.next with
           | none => some c
           | some q => c.update q (fun x => { x with prev := none })) with
    | none => none
    | some c1 =>
      (c1.update node (fun x => { x with next := none })).map
        (fun c2 => { c2 with tail := some node })

/-- The loop of `regularizeFrom`: `needle` walks the nodes behind `node` while `node`
accepts their entries.  The outer `none` is a walk that has not ended when the fuel is
used up, the inner `none` a panic. -/
def regularizeLoop (node : Nat) : Nat → LinkedListCollector → Option Nat →
    Option (Option LinkedListCollector)
  | _, c, none => some (some c)
  | 0, _, some _ => none
  | fuel + 1, c, some needle =>
    match c.nodes[needle]?, c.nodes[node]? with
    | some nd, some n =>
      let r := nd.collector.FetchAllEntries
      if r.1 then
        match n.collector.AddEntries r.2.1 r.2.2.1 r.2.2.2 with
        | none => some none
        | some (col, ok) =>
          match c.update node (fun x => { x with collector := col }) with
          | none => some none
          | some c1 => if ok then regularizeLoop node fuel c1 nd.next else some (some c1)
      else some (some c)
    | _, _ => some none

/-- The method `regularizeFrom`, with outer and inner `none` as in `regularizeLoop`. -/
def regularizeFrom (c : LinkedListCollector) (node : Nat) :
    Option (Option LinkedListCollector) :=
  match c.nodes[node]? with
  | none => some none
  | some n =>
    match regularizeLoop node c.nodes.length c n.next with
    | none => none
    | some none => some none
    | some (some c1) => some (c1.deleteAfter node)

/-- The loop of `addEntries` from the pointer `needle`: the list afterwards and the node
returned, with outer and inner `none` as in `regularizeLoop`. -/
def addEntriesLoop (regularize : Bool) (entries : List Entry) (logTerm logIndex : Nat) :
    Nat → LinkedListCollector → Option Nat → Option (Option (LinkedListCollector × Nat))
  | _, c, none =>
    match c.newNodeCollector entries logTerm logIndex, c.tail with
    | some (c1, node), some t => some ((c1.insertAfter node t).map (fun c2 => (c2, node)))
    | _, _ => some none
  | 0, _, some _ => none
  | fuel + 1, c, some needle =>
    match c.nodes[needle]? with
    | none => some none
    | some nd =>
      if nd.startIndex > addU64 logIndex 1 then
        match c.newNodeCollector entries logTerm logIndex with
        | none => some none
        | some (c1, node) =>
          match c1.insertBefore node needle with
          | none => some none
          | some c2 =>
            if regularize then
              (c2.regularizeFrom node).map (fun r => r.map (fun c3 => (c3, node)))
            else some ((c2.deleteAfter node).map (fun c3 => (c3, node)))
      else
        match nd.collector.AddEntries entries logTerm logIndex with
        | none => some none
        | some (col, ok) =>
          match c.update needle (fun x => { x with collector := col }) with
          | none => some none
          | some c1 =>
            if ok then some ((c1.deleteAfter needle).map (fun c2 => (c2, needle)))
            else addEntriesLoop regularize entries logTerm logIndex fuel c1 nd.next

/-- The method `addEntries`: the list afterwards and the node returned, with outer and
inner `none` as in `regularizeLoop`. -/
def addEntries (c : LinkedListCollector) (regularize : Bool) (entries : List Entry)
    (logTerm logIndex : Nat) : Option (Option (LinkedListCollector × Nat)) :=
  match c.head with
  | none =>
    some ((c.newNodeCollector entries logTerm logIndex).map
      (fun r => ({ r.1 with head := some r.2, tail := some r.2 }, r.2)))
  | some h => addEntriesLoop regularize entries logTerm logIndex c.nodes.length c (some h)

/-- The method `AddEntries`, with outer and inner `none` as in `regularizeLoop`. -/
def AddEntries (c : LinkedListCollector) (entries : List Entry) (logTerm logIndex : Nat) :
    Option (Option (LinkedListCollector × Bool)) :=
  if entries.length = 0 then some (some (c, false))
  else (c.addEntries c.regularized entries logTerm logIndex).map
    (fun r => r.map (fun x => (x.1, true)))

/-- The nodes of the list from `head` along `next` are the pointers `l`, with `prev`
pointing back along it and `tail` pointing to the last of them. -/
def Chain (c : LinkedListCollector) (l : List Nat) : Prop :=
  l.Nodup ∧ c.head = l.head? ∧ c.tail = l.getLast? ∧
  ∀ i p : Nat, l[i]? = some p →
    ∃ n, c.nodes[p]? = some n ∧ n.next = l[i + 1]? ∧
      n.prev = (if i = 0 then none else l[i - 1]?)

/-- The list `c1` has the heads, tails and links of `c`: the two differ at most in what the
collectors of the nodes hold. -/
def SameLinks (c c1 : LinkedListCollector) : Prop :=
  c1.head = c.head ∧ c1.tail = c.tail ∧
  ∀ q : Nat, (c1.nodes[q]?).map (fun n => (n.startIndex, n.prev, n.next))
    = (c.nodes[q]?).map (fun n => (n.startIndex, n.prev, n.next))

/-- The `startIndex` of the node at `p` (zero for a dangling pointer). -/
def startOf (c : LinkedListCollector) (p : Nat) : Nat :=
  ((c.nodes[p]?).map (fun n => n.startIndex)).getD 0

/-- The nodes `l` are ordered by non-decreasing `startIndex`. -/
def Ordered (c : LinkedListCollector) (l : List Nat) : Prop :=
  (l.map c.startOf).Pairwise (fun a b => a ≤ b)

/-- A list of two nodes: the entries 6 and 7 of term 1 behind index 5, and the entry 11 of
term 2 behind index 10. -/
def twoNodes : LinkedListCollector :=
  { nodes :=
      [{ collector := MimicRaftKernelCollector.new.init [⟨1, 6, 0⟩, ⟨1, 7, 0⟩] 1 5,
         startIndex := 6, info := 0, prev := none, next := some 1 },
       { collector := MimicRaftKernelCollector.new.init [⟨2, 11, 0⟩] 2 10,
         startIndex := 11, info := 0, prev := some 0, next := none }],
    head := some 0, tail := some 1, regularized := true, defaultRegOpt := true }

end LinkedListCollector

namespace InactivatedMonitor

end InactivatedMonitor

/-! ## Spare capacity and the order left by `sort.Slice`

Two things the Go run time decides are inputs of the definitions below.  A re-slice
`xs[:hi]` may reach beyond `len(xs)` into the capacity of the backing array; what it finds
there is the argument `spare`.  `sort.Slice` is not stable and the order it leaves among
equal keys is not fixed by the language; the order it leaves is the argument `sorted`.
The definitions above are these at `spare = []` (capacity equal to length) and at the order
the insertion sort gives. -/

/-- The slice expression `xs[lo:hi]` of a slice whose backing array holds the elements
`spare` behind those of `xs` (the capacity is `len(xs) + len(spare)`); `none` is the
run-time panic. -/
def sliceCap {α : Type} (xs spare : List α) (lo hi : Int) : Option (List α) :=
  if 0 ≤ lo ∧ lo ≤ hi ∧ hi ≤ (xs.length : Int) + spare.length then
    some (((xs ++ spare).take hi.toNat).drop lo.toNat)
  else none

namespace MimicRaftKernelBriefCollector

/-- The method `mimic` on a collector whose slice `c.b` has the pointers `spare` in its
backing array behind its length (pointers that an earlier re-slice or `append` left there;
a nil pointer is a pointer outside the heap); `none` is a panic. -/
def mimicCap (h : SegmentHeap) (c : MimicRaftKernelBriefCollector) (entries : List Entry)
    (logTerm logIndex : Nat) (spare : List Nat) :
    Option (SegmentHeap × MimicRaftKernelBriefCollector × Bool × Location) :=
  match c.matchIndex h logIndex logTerm with
  | none => none
  | some (loc, _) =>
    if loc ≠ Location.PREV ∧ loc ≠ Location.WITHIN then some (h, c, false, loc)
    else
      match entries with
      | [] => some (h, c, true, loc)
      | e0 :: _ =>
        match c.matchIndex h e0.index e0.term with
        | none => none
        | some (l, cIdx0) =>
          if l ≠ Location.WITHIN then some (h, c, true, loc)
          else
            match getInt c.b cIdx0 with
            | none => none
            | some brief0 =>
              match c.mimicLoop h entries cIdx0 brief0 0 with
              | none => none
              | some (cIdx, brief, eIdx) =>
                if eIdx ≠ entries.length then
                  let entries1 := entries.drop eIdx.toNat
                  match (if eIdx = 0 then some logTerm
                         else (getInt entries1 (eIdx - 1)).map (fun e => e.term)),
                        getInt entries1 0, c.next.bind (fun p => h[p]?) with
                  | some prevLogTerm, some first, some nx =>
                    let after := first.index
                    if addU64 nx.LastIndex 1 = after then
                      let r := allocSegments h (ExtractBriefFromEntries prevLogTerm entries1)
                      (c.absorbBriefs r.1 r.2).map (fun x => (x.1, x.2, true, loc))
                    else
                      match sliceCap c.b spare 0 (cIdx + 1) with
                      | none => none
                      | some b1 =>
                        match setLastIndex h (some brief) (subU64 after 1) with
                        | none => none
                        | some h1 =>
                          let r := allocSegments h1 (ExtractBriefFromEntries prevLogTerm entries1)
                          (absorbBriefs r.1 { c with b := b1, next := some brief } r.2).map
                            (fun x => (x.1, x.2, true, loc))
                  | _, _, _ => none
                else some (h, c, true, loc)

/-- The method `AddEntriesToBrief` on a collector whose slice `c.b` has the pointers
`spare` in its backing array behind its length; `none` is a panic. -/
def AddEntriesToBriefCap (h : SegmentHeap) (c : MimicRaftKernelBriefCollector)
    (entries : List Entry) (logTerm logIndex : Nat) (spare : List Nat) :
    Option (SegmentHeap × MimicRaftKernelBriefCollector × Bool) :=
  if c.IsRefreshed then
    let r := c.init h entries logTerm logIndex
    some (r.1, r.2, true)
  else if c.IsEmpty then
    if c.logTerm = logTerm ∧ c.logIndex = logIndex then
      let r := c.init h entries logTerm logIndex
      some (r.1, r.2, true)
    else some (h, c, false)
  else
    match c.next.bind (fun p => h[p]?) with
    | none => none
    | some nx =>
      if nx.LastIndex = logIndex ∧ nx.Term = logTerm then
        let r := allocSegments h (ExtractBriefFromEntries logTerm entries)
        match r.2 with
        | [] => some (h, c, true)
        | p0 :: ps =>
          match r.1[p0]? with
          | none => none
          | some n0 =>
            if n0.Term = nx.Term then
              match setLastIndex r.1 c.next n0.LastIndex with
              | none => none
              | some h1 =>
                if ps.length + 1 > 1 then
                  some (h1, { c with b := c.b ++ ps, next := (c.b ++ ps).getLast? }, true)
                else some (h1, c, true)
            else
              some (r.1, { c with b := c.b ++ p0 :: ps, next := (c.b ++ p0 :: ps).getLast? },
                true)
      else (c.mimicCap h entries logTerm logIndex spare).map (fun x => (x.1, x.2.1, x.2.2.1))

end MimicRaftKernelBriefCollector

namespace MimicRaftKernelAnalyzer

/-- The method `AnalyzeAndRemoveOffers`, with the order in which `sort.Slice` leaves
`beforeAnalysis` given as `sorted` (a permutation of `beforeAnalysis`); `none` is a
panic. -/
def AnalyzeAndRemoveOffersSorted (m : Memory) (an : MimicRaftKernelAnalyzer)
    (policy : AnalysisPolicy) (sorted : List Nat) :
    Option (Memory × MimicRaftKernelAnalyzer) :=
  let an0 := if an.beforeTerm > an.term then { an with term := an.beforeTerm } else an
  if an0.analyzed then some (m, an0)
  else
    let a : MimicRaftKernelAnalyzer := { an0 with beforeAnalysis := sorted }
    let r : Option (Memory × MimicRaftKernelAnalyzer) :=
      match policy with
      | AnalysisPolicy.UpdateCommittedOnly => an0.alignBeforeCommitted.map (fun a => (m, a))
      | AnalysisPolicy.MatchFirstFragment => analyzePolicyFirstMatch m a false
      | AnalysisPolicy.MatchLastFragment => analyzePolicyLastMatch m a
      | AnalysisPolicy.StrictlyMatchFirst => analyzePolicyFirstMatch m a true
      | AnalysisPolicy.AccordingToCompacted =>
        (withCompactedLoop m a.beforeAnalysis a).bind (fun x =>
          (truncateCompacted x.1 x.2).bind (fun y =>
            y.2.alignBeforeCommitted.map (fun z => (y.1, z))))
      | AnalysisPolicy.IgnoreCompacted =>
        (withoutCompactedLoop m a.beforeAnalysis a).bind (fun x =>
          x.alignBeforeCommitted.map (fun z => (m, z)))
    r.map (fun x => (x.1, { x.2 with analyzed := true }.removeOffers))

/-- The method `Compact` on an analyzer whose `compacted.b` has the pointers `spare` in its
backing array behind its length; `none` is a panic. -/
def CompactCap (m : Memory) (an : MimicRaftKernelAnalyzer) (spare : List Nat) :
    Option (Memory × MimicRaftKernelAnalyzer) :=
  if an.beforeCompact.IsEmpty then some (m, an)
  else
    let r := an.beforeCompact.FetchAllEntries
    (an.compacted.AddEntriesToBriefCap m.segs r.2.1 r.2.2.1 r.2.2.2 spare).map
      (fun x => ({ m with segs := x.1 },
        { an with compacted := x.2.1, beforeCompact := an.beforeCompact.Refresh }))

/-- The method `CompactBefore` on an analyzer whose `compacted.b` has the pointers `spare`
in its backing array behind its length; `none` is a panic. -/
def CompactBeforeCap (m : Memory) (an : MimicRaftKernelAnalyzer) (index : Nat)
    (spare : List Nat) : Option (Memory × MimicRaftKernelAnalyzer × Location) :=
  if an.beforeCompact.IsEmpty then some (m, an, Location.UNDERFLOW)
  else
    match an.beforeCompact.LocateIndex index with
    | none => none
    | some (Location.CONFLICT, _) => none
    | some (Location.WITHIN, _) =>
      match an.beforeCompact.FetchEntriesWithStartIndex index with
      | none => none
      | some (_, nEnt, nLogTerm, nLogIndex) =>
        let a := an.beforeCompact.FetchAllEntries
        match sliceInt a.2.1 0 ((a.2.1.length : Int) - nEnt.length) with
        | none => none
        | some aEnt =>
          match an.compacted.AddEntriesToBriefCap m.segs aEnt a.2.2.1 a.2.2.2 spare,
                an.beforeCompact.Refresh.AddEntries nEnt nLogTerm nLogIndex with
          | some x, some (bc1, _) =>
            some ({ m with segs := x.1 },
              { an with compacted := x.2.1, beforeCompact := bc1 }, Location.WITHIN)
          | _, _ => none
    | some (Location.OVERFLOW, _) =>
      let a := an.beforeCompact.FetchAllEntries
      (an.compacted.AddEntriesToBriefCap m.segs a.2.1 a.2.2.1 a.2.2.2 spare).map
        (fun x => ({ m with segs := x.1 },
          { an with compacted := x.2.1, beforeCompact := an.beforeCompact.Refresh },
          Location.OVERFLOW))
    | some (loc, _) => some (m, an, loc)

end MimicRaftKernelAnalyzer

end Etcd

/-! # Theorems -/

namespace Etcd
namespace MimicRaftKernelCollector

theorem getInt_natCast {α : Type} (xs : List α) (i : Nat) : getInt xs (i : Int) = xs[i]? := by
  simp [getInt]

theorem mimicLoop_spec (content : List Entry) :
    ∀ (rest : List Entry) (cIdx : Nat) (eIdx : Int),
      ∃ n : Nat, mimicLoop content rest cIdx eIdx = some ((cIdx : Int) + n, eIdx + n) ∧
        n ≤ rest.length ∧ cIdx + n ≤ max cIdx content.length ∧
        (∀ k, k < n → ∃ s e, content[cIdx + k]? = some s ∧ rest[k]? = some e ∧
          e.term = s.term) ∧
        (n < rest.length → content.length ≤ cIdx + n ∨
          ∃ s e, content[cIdx + n]? = some s ∧ rest[n]? = some e ∧ e.term ≠ s.term) := by
  intro rest
  induction rest with
  | nil =>
    intro cIdx eIdx
    exact ⟨0, by simp [mimicLoop], by simp, by simp, by simp, by simp⟩
  | cons e rest ih =>
    intro cIdx eIdx
    by_cases h : cIdx < content.length
    · by_cases ht : e.term = (content[cIdx]).term
      · obtain ⟨n, hn, hle, hmax, hpre, hstop⟩ := ih (cIdx + 1) (eIdx + 1)
        refine ⟨n + 1, ?_, by simp; omega, by omega, ?_, ?_⟩
        · have h1 : ((cIdx : Int) < (content.length : Int)) := by exact_mod_cast h
          simp only [mimicLoop, h1, if_true, getInt_natCast, List.getElem?_eq_getElem h]
          simp only [ht, ne_eq, not_true_eq_false, if_false]
          have h2 : ((cIdx : Int) + 1) = ((cIdx + 1 : Nat) : Int) := by push_cast; rfl
          rw [h2, hn]
          simp only [Option.some.injEq, Prod.mk.injEq]
          constructor <;> push_cast <;> ring
        · intro k hk
          cases k with
          | zero => exact ⟨content[cIdx], e, by simp [h], by simp, ht⟩
          | succ k =>
            obtain ⟨s, e', h1, h2, h3⟩ := hpre k (by omega)
            refine ⟨s, e', ?_, by simpa using h2, h3⟩
            rw [← h1]; congr 1; omega
        · intro hlt
          rcases hstop (by simpa using hlt) with h1 | ⟨s, e', h1, h2, h3⟩
          · left; omega
          · right
            refine ⟨s, e', ?_, by simpa using h2, h3⟩
            rw [← h1]; congr 1; omega
      · refine ⟨0, ?_, by simp, by simp, by simp, ?_⟩
        · have h1 : ((cIdx : Int) < (content.length : Int)) := by exact_mod_cast h
          simp only [mimicLoop, h1, if_true, getInt_natCast, List.getElem?_eq_getElem h]
          simp [ht]
        · intro _
          right
          exact ⟨content[cIdx], e, by simp [h], by simp, ht⟩
    · refine ⟨0, ?_, by simp, by simp, by simp, ?_⟩
      · have h1 : ¬ ((cIdx : Int) < (content.length : Int)) := by exact_mod_cast h
        simp [mimicLoop, h1]
      · intro _; left; omega


theorem toInt_of_lt (x : Nat) (h : x < 9223372036854775808) : toInt x = (x : Int) := by
  unfold toInt; rw [if_pos h]

theorem toInt_of_ge (x : Nat) (h : ¬ x < 9223372036854775808) :
    toInt x = (x : Int) - 18446744073709551616 := by
  unfold toInt; rw [if_neg h]

theorem subU64_sub_one (idx base : Nat) (hb : base < 18446744073709551616)
    (hi : idx < 18446744073709551616) (h : base < idx) :
    subU64 (subU64 idx base) 1 = idx - base - 1 := by
  unfold subU64; omega

theorem subU64_succ_sub_one (idx base : Nat) (hb : base < 18446744073709551616)
    (hi : idx < 18446744073709551616) (h : base ≤ idx) :
    subU64 (subU64 (addU64 idx 1) base) 1 = idx - base := by
  unfold subU64 addU64; omega

theorem locate_snd (c : MimicRaftKernelCollector) (index : Nat) :
    (c.locateEntryWithIndex index).2 = toInt (subU64 (subU64 index c.logIndex) 1) := by
  simp only [locateEntryWithIndex]

theorem locate_fst (c : MimicRaftKernelCollector) (index : Nat) :
    (c.locateEntryWithIndex index).1 = true ↔
      0 ≤ toInt (subU64 (subU64 index c.logIndex) 1) ∧
      toInt (subU64 (subU64 index c.logIndex) 1) < (c.content.length : Int) := by
  unfold locateEntryWithIndex
  simp only [Bool.and_eq_true, decide_eq_true_eq, ge_iff_le]

theorem locate_after_match (c : MimicRaftKernelCollector) (logTerm logIndex : Nat)
    (hlen : c.content.length < 9223372036854775808)
    (hcl : c.logIndex < 18446744073709551616) (hl : logIndex < 18446744073709551616)
    (hloc : c.MatchIndex logIndex logTerm = some Location.PREV ∨
      c.MatchIndex logIndex logTerm = some Location.WITHIN) :
    c.initialized = true ∧
    ∃ m : Nat, c.logIndex + m = logIndex ∧ m ≤ c.content.length ∧
      (c.locateEntryWithIndex (addU64 logIndex 1)).2 = (m : Int) := by
  have hinit : c.initialized = true := by
    cases h : c.initialized
    · simp [MatchIndex, IsRefreshed, h] at hloc
    · rfl
  refine ⟨hinit, ?_⟩
  simp only [MatchIndex, IsRefreshed, hinit, Bool.not_true, Bool.false_eq_true, if_false] at hloc
  by_cases h1 : c.logIndex > logIndex
  · simp [h1] at hloc
  · have hle : c.logIndex ≤ logIndex := by omega
    have hrel := subU64_succ_sub_one logIndex c.logIndex hcl hl hle
    by_cases h2 : c.logIndex = logIndex
    · refine ⟨0, by omega, by omega, ?_⟩
      rw [locate_snd, hrel, toInt_of_lt _ (by omega)]
      simp [h2]
    · simp only [h1, h2, if_false] at hloc
      by_cases h3 : (c.locateEntryWithIndex logIndex).1 = true
      · rw [locate_fst, subU64_sub_one logIndex c.logIndex hcl hl (by omega)] at h3
        have h4 : logIndex - c.logIndex - 1 < 9223372036854775808 := by
          by_contra hc
          rw [toInt_of_ge _ hc] at h3
          omega
        rw [toInt_of_lt _ h4] at h3
        refine ⟨logIndex - c.logIndex, by omega, by omega, ?_⟩
        rw [locate_snd, hrel, toInt_of_lt _ (by omega)]
      · simp [h3] at hloc


theorem directAddEntries_content (c : MimicRaftKernelCollector) (entries : List Entry)
    (hne : entries ≠ []) :
    ∃ c2, c.directAddEntries entries = some c2 ∧ c2.content = c.content ++ entries := by
  have hpos : 0 < entries.length := List.length_pos.mpr hne
  have h0 : ¬ entries.length = 0 := by omega
  have h1 : ((entries.length : Int) - 1) = ((entries.length - 1 : Nat) : Int) := by omega
  have h2 : entries.length - 1 < entries.length := by omega
  simp only [directAddEntries, h0, if_false, h1, getInt_natCast, List.getElem?_eq_getElem h2]
  cases c.copied <;> exact ⟨_, rfl, rfl⟩

theorem resize_content (c : MimicRaftKernelCollector) (k : Nat) (logTerm logIndex : Nat) :
    ∃ c2 r, c.resize (k : Int) logTerm logIndex = some (c2, r) ∧
      c2.content = c.content.take k := by
  by_cases h1 : c.content.length ≤ k
  · have h1i : (k : Int) ≥ (c.content.length : Int) := by exact_mod_cast h1
    refine ⟨c, (c.content.length : Int), ?_, ?_⟩
    · simp only [resize, h1i, if_true]
    · rw [List.take_of_length_le h1]
  · have h1i : ¬ (k : Int) ≥ (c.content.length : Int) := by exact_mod_cast h1
    by_cases h2 : k = 0
    · subst h2
      refine ⟨c.init [] logTerm logIndex, 0, ?_, ?_⟩
      · have h1z : ¬ (0 : Int) ≥ (c.content.length : Int) := by simpa using h1i
        simp only [resize, Nat.cast_zero, h1z, if_false, if_true]
      · simp [init]
    · have h2i : ¬ (k : Int) = 0 := by exact_mod_cast h2
      have h3i : ¬ (k : Int) < 0 := by omega
      simp only [resize, h1i, h2i, h3i, if_false, Int.toNat_ofNat]
      cases c.copied <;> exact ⟨_, _, rfl, rfl⟩

theorem filter_consecutive (l : List Entry) :
    ∀ (base k : Nat), Consecutive base l →
      l.filter (fun s => decide (s.index < base + 1 + k)) = l.take k := by
  induction l with
  | nil => intro base k _; simp
  | cons e l ih =>
    intro base k h
    have he : e.index = base + 1 := by simpa using h 0 (by simp)
    have hl : Consecutive (base + 1) l := by
      intro j hj
      have := h (j + 1) (by simpa using hj)
      simp only [List.getElem_cons_succ] at this
      omega
    cases k with
    | zero =>
      rw [List.filter_cons_of_neg (by simp [he])]
      have := ih (base + 1) 0 hl
      simp only [List.take_zero] at this ⊢
      rw [List.filter_eq_nil_iff] at this ⊢
      intro a ha
      have := this a ha
      simp only [decide_eq_true_eq] at this ⊢
      omega
    | succ k =>
      rw [List.filter_cons_of_pos (by simp [he]), List.take_succ_cons]
      congr 1
      have := ih (base + 1) k hl
      rw [← this]
      congr 1
      funext s
      congr 1
      apply propext
      omega


theorem mimic_result (c : MimicRaftKernelCollector) (entries : List Entry)
    (logTerm logIndex : Nat) (loc : Location) (m n : Nat)
    (hloc : c.MatchIndex logIndex logTerm = some loc)
    (hpw : loc = Location.PREV ∨ loc = Location.WITHIN)
    (hm : (c.locateEntryWithIndex (addU64 logIndex 1)).2 = (m : Int))
    (hcm : c.logIndex + m = logIndex)
    (hloop : mimicLoop c.content entries (m : Int) 0 = some ((m : Int) + n, 0 + (n : Int)))
    (hmn : m + n ≤ c.content.length)
    (hlen : c.content.length < 9223372036854775808)
    (hcl : c.logIndex < 18446744073709551616)
    (hcont : Consecutive c.logIndex c.content)
    (hfrag : Consecutive logIndex entries)
    (hfragU : ∀ e ∈ entries, e.index < 18446744073709551616)
    (hne : c.content ≠ []) :
    (n = entries.length → c.mimic entries logTerm logIndex = some (c, true, loc)) ∧
    (n < entries.length → ∃ c2, c.mimic entries logTerm logIndex = some (c2, true, loc) ∧
      c2.content = c.content.take (m + n) ++ entries.drop n) := by
  have hcond : ¬ (loc ≠ Location.PREV ∧ loc ≠ Location.WITHIN) := by
    rcases hpw with h | h <;> simp [h]
  constructor
  · intro hnl
    have he : ¬ ((0 : Int) + (n : Int) ≠ (entries.length : Int)) := by
      simp [hnl]
    simp only [mimic, hloc, hcond, if_false, hm, hloop, he]
  · intro hlt
    have he : ((0 : Int) + (n : Int) ≠ (entries.length : Int)) := by
      omega
    have hsne : entries.drop n ≠ [] := by
      intro h
      have := congrArg List.length h
      simp at this
      omega
    have hpos : 0 < c.content.length := List.length_pos.mpr hne
    have hfirst : getInt (entries.drop n) 0 = some (entries[n]) := by
      have : (0 : Int) = ((0 : Nat) : Int) := rfl
      rw [this, getInt_natCast]
      simp [List.getElem?_drop, hlt]
    have hlastIdx : ((c.content.length : Int) - 1) = ((c.content.length - 1 : Nat) : Int) := by
      omega
    have hl1 : c.content.length - 1 < c.content.length := by omega
    have hlast : getInt c.destroyCachedTable.content ((c.content.length : Int) - 1)
        = some (c.content[c.content.length - 1]) := by
      rw [hlastIdx, getInt_natCast]
      simp only [destroyCachedTable]
      exact List.getElem?_eq_getElem hl1
    have hli : (c.content[c.content.length - 1]).index = c.logIndex + 1 + (c.content.length - 1) :=
      hcont _ hl1
    have hfi : (entries[n]).index = logIndex + 1 + n := hfrag n hlt
    have hfu : (entries[n]).index < 18446744073709551616 := hfragU _ (List.getElem_mem _)
    have htoNat : ((0 : Int) + (n : Int)).toNat = n := by simp
    by_cases hdir : m + n = c.content.length
    · have hif : addU64 (c.content[c.content.length - 1]).index 1 = (entries[n]).index := by
        unfold addU64; omega
      obtain ⟨c2, hc2, hcc⟩ := directAddEntries_content c.destroyCachedTable _ hsne
      refine ⟨c2, ?_, ?_⟩
      · simp only [mimic, hloc, hcond, if_false, hm, hloop, he, if_true, htoNat, hfirst, hlast,
          hif, hc2, Option.map_some']
        exact if_pos he
      · rw [hcc, hdir, List.take_of_length_le (le_refl _)]
        simp [destroyCachedTable]
    · have hif : ¬ addU64 (c.content[c.content.length - 1]).index 1 = (entries[n]).index := by
        unfold addU64; omega
      have hcast : ((m : Int) + (n : Int)) = ((m + n : Nat) : Int) := by push_cast; rfl
      obtain ⟨c2, r, hc2, hcc⟩ := resize_content c.destroyCachedTable (m + n) logTerm logIndex
      obtain ⟨c3, hc3, hcc3⟩ := directAddEntries_content c2 _ hsne
      refine ⟨c3, ?_, ?_⟩
      · simp only [mimic, hloc, hcond, if_false, hm, hloop, he, if_true, htoNat, hfirst, hlast,
          hif, hcast, hc2, hc3, Option.map_some']
        exact if_pos he
      · rw [hcc3, hcc]
        simp [destroyCachedTable]


theorem loop_matches (c : MimicRaftKernelCollector) (entries : List Entry)
    (logIndex m n : Nat)
    (hcm : c.logIndex + m = logIndex)
    (hcont : Consecutive c.logIndex c.content)
    (hfrag : Consecutive logIndex entries)
    (hpre : ∀ k, k < n → ∃ s e, c.content[m + k]? = some s ∧ entries[k]? = some e ∧
      e.term = s.term)
    (hstop : n < entries.length → c.content.length ≤ m + n ∨
      ∃ s e, c.content[m + n]? = some s ∧ entries[n]? = some e ∧ e.term ≠ s.term) :
    (∀ k (hk : k < entries.length), k < n → StoredSameTerm c.content (entries[k])) ∧
    (∀ hn : n < entries.length, ¬ StoredSameTerm c.content (entries[n])) := by
  constructor
  · intro k hk hkn
    obtain ⟨s, e, h1, h2, h3⟩ := hpre k hkn
    obtain ⟨hlt, hs⟩ := List.getElem?_eq_some.mp h1
    have he : entries[k] = e := by
      rw [List.getElem?_eq_getElem hk] at h2
      exact Option.some.inj h2
    refine ⟨s, ?_, ?_, ?_⟩
    · rw [← hs]; exact List.getElem_mem _
    · have h4 := hcont (m + k) hlt
      have h5 := hfrag k hk
      rw [hs] at h4
      rw [he] at h5 ⊢
      omega
    · rw [he]; exact h3.symm
  · intro hn hex
    obtain ⟨s, hs, hidx, hterm⟩ := hex
    obtain ⟨j, hj, hjs⟩ := List.getElem_of_mem hs
    have h4 := hcont j hj
    have h5 := hfrag n hn
    rw [hjs] at h4
    have hjeq : j = m + n := by omega
    rcases hstop hn with h | ⟨s2, e, h1, h2, h3⟩
    · omega
    · obtain ⟨hlt, hs2⟩ := List.getElem?_eq_some.mp h1
      have he : entries[n] = e := by
        rw [List.getElem?_eq_getElem hn] at h2
        exact Option.some.inj h2
      have hss : s = s2 := by
        rw [← hjs, ← hs2]
        congr 1
      rw [he, hss] at hterm
      exact h3 hterm.symm

/-- Canonical Raft append on an initialised collector whose stored array is contiguous and
not empty, for a well-formed fragment anchored at `PREV` or `WITHIN` (all values in the
range of their Go types): the call returns true; when every fragment entry agrees in term
with the stored entry at its index the array is unchanged; otherwise, with `d` the first
fragment position that has no stored entry of the same index and term, the array becomes
the stored entries of index below `entries[d].index` followed by `entries[d..]`, and its
length is the number of those kept entries plus the length of the new suffix. -/
theorem AddEntries_canonical_append (c : MimicRaftKernelCollector) (entries : List Entry)
    (logTerm logIndex : Nat)
    (hlen : c.content.length < 9223372036854775808)
    (hcl : c.logIndex < 18446744073709551616) (hl : logIndex < 18446744073709551616)
    (hcont : Consecutive c.logIndex c.content)
    (hfrag : Consecutive logIndex entries)
    (hfragU : ∀ e ∈ entries, e.index < 18446744073709551616)
    (hne : c.content ≠ [])
    (hloc : c.MatchIndex logIndex logTerm = some Location.PREV ∨
      c.MatchIndex logIndex logTerm = some Location.WITHIN) :
    ∃ c2, c.AddEntries entries logTerm logIndex = some (c2, true) ∧
      ((∀ k (hk : k < entries.length), StoredSameTerm c.content (entries[k])) →
        c2.content = c.content) ∧
      (∀ d (hd : d < entries.length),
        (∀ k (hk : k < d), StoredSameTerm c.content (entries[k])) →
        ¬ StoredSameTerm c.content (entries[d]) →
        c2.content = c.content.filter (fun s => decide (s.index < (entries[d]).index))
            ++ entries.drop d ∧
        c2.content.length
          = (c.content.filter (fun s => decide (s.index < (entries[d]).index))).length
            + (entries.length - d)) := by
  obtain ⟨hinit, m, hcm, hmle, hm⟩ := locate_after_match c logTerm logIndex hlen hcl hl hloc
  obtain ⟨n, hloop, hn, hmax, hpre, hstop⟩ := mimicLoop_spec c.content entries m 0
  have hmn : m + n ≤ c.content.length := by
    rw [max_eq_right hmle] at hmax; exact hmax
  obtain ⟨hA, hB⟩ := loop_matches c entries logIndex m n hcm hcont hfrag hpre hstop
  obtain ⟨loc, hlocEq, hpw⟩ : ∃ loc, c.MatchIndex logIndex logTerm = some loc ∧
      (loc = Location.PREV ∨ loc = Location.WITHIN) := by
    rcases hloc with h | h
    · exact ⟨_, h, Or.inl rfl⟩
    · exact ⟨_, h, Or.inr rfl⟩
  obtain ⟨hfull, hpart⟩ := mimic_result c entries logTerm logIndex loc m n hlocEq hpw hm hcm
    hloop hmn hlen hcl hcont hfrag hfragU hne
  have hadd : c.AddEntries entries logTerm logIndex
      = (c.mimic entries logTerm logIndex).map (fun r => (r.1, r.2.1)) := by
    simp [AddEntries, IsRefreshed, hinit]
  rcases Nat.lt_or_ge n entries.length with hlt | hge
  · obtain ⟨c2, hc2, hcc⟩ := hpart hlt
    refine ⟨c2, by rw [hadd, hc2]; rfl, ?_, ?_⟩
    · intro hall
      exact absurd (hall n hlt) (hB hlt)
    · intro d hd hbefore hat
      have hdn : d = n := by
        rcases Nat.lt_trichotomy d n with h | h | h
        · exact absurd (hA d hd h) hat
        · exact h
        · exact absurd (hbefore n h) (hB hlt)
      subst hdn
      have hfi : (entries[d]).index = c.logIndex + 1 + (m + d) := by
        have := hfrag d hd
        omega
      have hfilter := filter_consecutive c.content c.logIndex (m + d) hcont
      rw [hfi, hfilter]
      refine ⟨hcc, ?_⟩
      rw [hcc]
      simp
  · have hnl : n = entries.length := by omega
    refine ⟨c, by rw [hadd, hfull hnl]; rfl, fun _ => rfl, ?_⟩
    intro d hd _ hat
    exact absurd (hA d hd (by omega)) hat


theorem mimic_false (c c2 : MimicRaftKernelCollector) (entries : List Entry)
    (logTerm logIndex : Nat) (loc : Location)
    (h : c.mimic entries logTerm logIndex = some (c2, false, loc)) :
    c.MatchIndex logIndex logTerm = some loc ∧
      (loc ≠ Location.PREV ∧ loc ≠ Location.WITHIN) ∧ c2 = c := by
  unfold mimic at h
  split at h
  · exact absurd h (by simp)
  · rename_i loc2 hloc2
    split at h
    · rename_i hcond
      simp only [Option.some.injEq, Prod.mk.injEq, true_and] at h
      obtain ⟨h1, h2⟩ := h
      subst h1 h2
      exact ⟨hloc2, hcond, rfl⟩
    · exfalso
      revert h
      simp only []
      split
      · simp
      · split
        · split
          · split
            · cases c.destroyCachedTable.directAddEntries (List.drop _ entries) <;> simp
            · split
              · simp
              · rename_i c3 _ _
                cases c3.directAddEntries (List.drop _ entries) <;> simp
          · simp
        · simp

/-- C1 (defect of the code): a collector initialised with an empty entry array holds a
contiguous array, the fragment `[(term 1, index 6)]` is well formed for the anchor
`(logTerm 1, logIndex 5)` and `MatchIndex 5 1` is `PREV`, yet `AddEntries` does not
return true: `mimic` reads `c.content[cLen-1]` with `cLen = 0` and panics. -/
theorem C1_AddEntries_panics_on_empty_array :
    new.AddEntries [] 1 5 = some (new.init [] 1 5, true) ∧
    (new.init [] 1 5).initialized = true ∧
    Consecutive 5 (new.init [] 1 5).content ∧
    Consecutive 5 [⟨1, 6, 0⟩] ∧
    (new.init [] 1 5).MatchIndex 5 1 = some Location.PREV ∧
    (new.init [] 1 5).AddEntries [⟨1, 6, 0⟩] 1 5 = none := by
  refine ⟨by decide, by decide, ?_, ?_, by decide, by decide⟩
  · unfold Consecutive; decide
  · unfold Consecutive; decide

/-- C2: on an initialised collector `AddEntries` returns false exactly when
`MatchIndex(logIndex, logTerm)` is `UNDERFLOW`, `OVERFLOW` or `CONFLICT`; in that case
`TryAddEntries` returns false together with that location and the collector (its entries,
`logTerm` and `logIndex` included) is left as it was. -/
theorem C2_AddEntries_rejects_iff (c : MimicRaftKernelCollector) (entries : List Entry)
    (logTerm logIndex : Nat) (hinit : c.initialized = true) :
    ((∃ c2, c.AddEntries entries logTerm logIndex = some (c2, false)) ↔
      (c.MatchIndex logIndex logTerm = some Location.UNDERFLOW ∨
       c.MatchIndex logIndex logTerm = some Location.OVERFLOW ∨
       c.MatchIndex logIndex logTerm = some Location.CONFLICT)) ∧
    (∀ loc, c.MatchIndex logIndex logTerm = some loc →
      (loc = Location.UNDERFLOW ∨ loc = Location.OVERFLOW ∨ loc = Location.CONFLICT) →
      c.TryAddEntries entries logTerm logIndex = some (c, false, loc) ∧
      c.AddEntries entries logTerm logIndex = some (c, false)) := by
  have hadd : c.AddEntries entries logTerm logIndex
      = (c.mimic entries logTerm logIndex).map (fun r => (r.1, r.2.1)) := by
    simp [AddEntries, IsRefreshed, hinit]
  have htry : c.TryAddEntries entries logTerm logIndex = c.mimic entries logTerm logIndex := by
    simp [TryAddEntries, IsRefreshed, hinit]
  have hrej : ∀ loc, c.MatchIndex logIndex logTerm = some loc →
      (loc = Location.UNDERFLOW ∨ loc = Location.OVERFLOW ∨ loc = Location.CONFLICT) →
      c.mimic entries logTerm logIndex = some (c, false, loc) := by
    intro loc hloc hbad
    have hcond : loc ≠ Location.PREV ∧ loc ≠ Location.WITHIN := by
      rcases hbad with h | h | h <;> subst h <;> exact ⟨by decide, by decide⟩
    simp only [mimic, hloc]
    exact if_pos hcond
  refine ⟨⟨?_, ?_⟩, ?_⟩
  · rintro ⟨c2, h⟩
    rw [hadd] at h
    cases hm : c.mimic entries logTerm logIndex with
    | none => rw [hm] at h; exact absurd h (by simp)
    | some r =>
      obtain ⟨c3, ok, loc⟩ := r
      rw [hm] at h
      simp only [Option.map_some', Option.some.injEq, Prod.mk.injEq] at h
      obtain ⟨h1, h2⟩ := h
      subst h1 h2
      obtain ⟨hloc, ⟨hp, hw⟩, _⟩ := mimic_false c c3 entries logTerm logIndex loc hm
      rw [hloc]
      cases loc <;> simp at hp hw ⊢
  · intro h
    rcases h with h | h | h
    · exact ⟨c, by rw [hadd, hrej _ h (Or.inl rfl)]; rfl⟩
    · exact ⟨c, by rw [hadd, hrej _ h (Or.inr (Or.inl rfl))]; rfl⟩
    · exact ⟨c, by rw [hadd, hrej _ h (Or.inr (Or.inr rfl))]; rfl⟩
  · intro loc hloc hbad
    exact ⟨by rw [htry, hrej loc hloc hbad], by rw [hadd, hrej loc hloc hbad]; rfl⟩

/-- Witness for C2: the collector holding `[(1,6),(1,7)]` after `(1,5)`, offered a fragment
anchored at `(logTerm 2, logIndex 6)`, which conflicts. -/
theorem C2_AddEntries_rejects_iff_witness :
    (new.init [⟨1, 6, 0⟩, ⟨1, 7, 0⟩] 1 5).MatchIndex 6 2 = some Location.CONFLICT ∧
    (new.init [⟨1, 6, 0⟩, ⟨1, 7, 0⟩] 1 5).TryAddEntries [⟨2, 7, 1⟩] 2 6
      = some (new.init [⟨1, 6, 0⟩, ⟨1, 7, 0⟩] 1 5, false, Location.CONFLICT) ∧
    (new.init [⟨1, 6, 0⟩, ⟨1, 7, 0⟩] 1 5).AddEntries [⟨2, 7, 1⟩] 2 6
      = some (new.init [⟨1, 6, 0⟩, ⟨1, 7, 0⟩] 1 5, false) :=
  ⟨by decide,
   (C2_AddEntries_rejects_iff (new.init [⟨1, 6, 0⟩, ⟨1, 7, 0⟩] 1 5) [⟨2, 7, 1⟩] 2 6
      (by decide)).2 Location.CONFLICT (by decide) (Or.inr (Or.inr rfl))⟩

end MimicRaftKernelCollector
end Etcd
namespace Etcd
namespace LocalCachedDisk

theorem savedEntries_append (a b : List DiskCall) :
    savedEntries (a ++ b) = savedEntries a ++ savedEntries b := by
  induction a with
  | nil => rfl
  | cons x a ih => cases x <;> simp [savedEntries, ih]

theorem flushInternal_entries (lcd : LocalCachedDisk) (saveErr : Error) (hs : HardState)
    (other : Option (List Entry)) :
    savedEntries (lcd.flushInternal saveErr hs other).1.disk
        ++ (lcd.flushInternal saveErr hs other).1.cachedEntries
      = savedEntries lcd.disk ++
        (match other with
          | some e => if e.length = 0 then lcd.cachedEntries else e
          | none => lcd.cachedEntries) := by
  unfold flushInternal
  cases other with
  | none =>
    simp only []
    split_ifs <;> simp_all [savedEntries_append, savedEntries]
  | some e =>
    simp only []
    split_ifs <;> simp_all [savedEntries_append, savedEntries]

theorem flushInternal_fits (lcd : LocalCachedDisk) (saveErr : Error) (hs : HardState)
    (other : Option (List Entry)) (h : CacheFits lcd) :
    CacheFits (lcd.flushInternal saveErr hs other).1 := by
  unfold flushInternal CacheFits at *
  simp only []
  split_ifs <;> simp_all <;> omega


theorem flushInternal_cap (lcd : LocalCachedDisk) (saveErr : Error) (hs : HardState)
    (other : Option (List Entry)) :
    (lcd.flushInternal saveErr hs other).1.cachedCap = lcd.cachedCap := by
  unfold flushInternal
  simp only []
  split_ifs <;> rfl

theorem updateStrategy_frame (lcd lcd1 : LocalCachedDisk) (s : PersistentStrategy)
    (h : lcd.updateStrategy s = some lcd1) :
    lcd1.disk = lcd.disk ∧ lcd1.cachedEntries = lcd.cachedEntries ∧
      lcd1.cachedHardState = lcd.cachedHardState ∧
      lcd1.cachePreserveReminder = lcd.cachePreserveReminder ∧
      lcd1.fsync = s.Fsync ∧ lcd1.maxLocalCacheSize = s.MaxLocalCacheSize := by
  unfold updateStrategy at h
  simp only [] at h
  split_ifs at h <;> (rw [← Option.some.inj h]; exact ⟨rfl, rfl, rfl, rfl, rfl, rfl⟩)

theorem updateStrategy_spec (lcd : LocalCachedDisk) (s : PersistentStrategy)
    (h : CacheFits lcd) (hs : s.MaxLocalCacheSize ≤ lcd.cachedCap) :
    ∃ lcd1, lcd.updateStrategy s = some lcd1 ∧ CacheFits lcd1 ∧
      lcd1.cachedCap = lcd.cachedCap ∧
      lcd1.disk = lcd.disk ∧ lcd1.cachedEntries = lcd.cachedEntries ∧
      lcd1.cachedHardState = lcd.cachedHardState ∧
      lcd1.cachePreserveReminder = lcd.cachePreserveReminder ∧
      lcd1.fsync = s.Fsync ∧ lcd1.maxLocalCacheSize = s.MaxLocalCacheSize := by
  unfold CacheFits at h
  unfold updateStrategy
  simp only []
  have h1 : ¬ s.MaxLocalCacheSize > lcd.cachedCap := by omega
  rw [if_neg h1]
  refine ⟨_, rfl, ?_, rfl, rfl, rfl, rfl, rfl, rfl, rfl⟩
  unfold CacheFits
  simp only []
  omega

theorem Save_fired (lcd : LocalCachedDisk) (e : Error) (st : HardState) (ents : List Entry)
    (hf : lcd.cachePreserveReminder = Reminder.fired) :
    lcd.Save e st ents
      = some ({ lcd with cachePreserveReminder := Reminder.drained }.flushInternal e st
          (some (lcd.cachedEntries ++ ents))) := by
  unfold Save
  simp only [hf, if_true]

theorem Save_flush (lcd : LocalCachedDisk) (e : Error) (st : HardState) (ents : List Entry)
    (hf : lcd.cachePreserveReminder ≠ Reminder.fired)
    (hc : ¬ ((!lcd.fsync) = true ∧
      (lcd.cachedEntries.length : Int) + (ents.length : Int) < lcd.maxLocalCacheSize)) :
    lcd.Save e st ents = some (lcd.flushInternal e st (some (lcd.cachedEntries ++ ents))) := by
  unfold Save
  simp only [hf, if_false, hc]

theorem Save_cache (lcd : LocalCachedDisk) (e : Error) (st : HardState) (ents : List Entry)
    (hf : lcd.cachePreserveReminder ≠ Reminder.fired)
    (hc : (!lcd.fsync) = true ∧
      (lcd.cachedEntries.length : Int) + (ents.length : Int) < lcd.maxLocalCacheSize)
    (hcap : ¬ ((lcd.cachedEntries.length : Int) + (ents.length : Int) > lcd.cachedCap)) :
    ∃ lcd1, lcd.Save e st ents = some (lcd1, none) ∧
      lcd1.cachedEntries = lcd.cachedEntries ++ ents ∧ lcd1.disk = lcd.disk ∧
      lcd1.cachedCap = lcd.cachedCap ∧ lcd1.maxLocalCacheSize = lcd.maxLocalCacheSize ∧
      lcd1.fsync = lcd.fsync ∧
      lcd1.cachedHardState = (if !IsEmptyHardState st then st else lcd.cachedHardState) ∧
      lcd1.cachePreserveReminder
        = (if lcd.cachePreserveReminder = Reminder.nil then Reminder.waiting
            else lcd.cachePreserveReminder) := by
  unfold Save
  simp only [hf, if_false, hc, hcap, and_self, if_true]
  refine ⟨_, rfl, ?_⟩
  split_ifs <;> simp_all

theorem append_of_length_zero (a b : List Entry) :
    (if (a ++ b).length = 0 then a else a ++ b) = a ++ b := by
  split_ifs with hz
  · have hz2 : a ++ b = [] := List.length_eq_zero.mp hz
    have : b = [] := (List.append_eq_nil.mp hz2).2
    simp [this]
  · rfl

theorem step_entries (lcd lcd1 : LocalCachedDisk) (r : DiskReply) (call : Call) (err : Error)
    (h : lcd.step r call = some (lcd1, err)) :
    savedEntries lcd1.disk ++ lcd1.cachedEntries
      = savedEntries lcd.disk ++ lcd.cachedEntries ++ offeredEntries [(call, r)] := by
  cases call with
  | save st ents =>
    simp only [step, offeredEntries, List.append_nil] at h ⊢
    by_cases hf : lcd.cachePreserveReminder = Reminder.fired
    · rw [Save_fired lcd _ st ents hf] at h
      have h1 := congrArg Prod.fst (Option.some.inj h)
      simp only [] at h1
      rw [← h1, flushInternal_entries]
      simp only [append_of_length_zero, List.append_assoc]
    · by_cases hc : (!lcd.fsync) = true ∧
          (lcd.cachedEntries.length : Int) + (ents.length : Int) < lcd.maxLocalCacheSize
      · by_cases hcap : (lcd.cachedEntries.length : Int) + (ents.length : Int) > lcd.cachedCap
        · unfold Save at h
          simp only [hf, if_false, hc, and_self, if_true, hcap] at h
          exact absurd h (by simp)
        · obtain ⟨lcd2, h1, h2, h3, _⟩ := Save_cache lcd r.saveErr st ents hf hc hcap
          rw [h1] at h
          have h4 := congrArg Prod.fst (Option.some.inj h)
          simp only [] at h4
          rw [← h4, h2, h3, List.append_assoc]
      · rw [Save_flush lcd _ st ents hf hc] at h
        have h1 := congrArg Prod.fst (Option.some.inj h)
        simp only [] at h1
        rw [← h1, flushInternal_entries]
        simp only [append_of_length_zero, List.append_assoc]
  | saveSnap snap =>
    simp only [step, offeredEntries, List.append_nil, Option.some.injEq] at h ⊢
    have h1 := congrArg Prod.fst h
    simp only [] at h1
    rw [← h1]
    unfold SaveSnap
    split_ifs with h1 h2
    · rw [flushInternal_entries]
    · rfl
    · have := flushInternal_entries lcd r.saveErr emptyState none
      simp only [savedEntries_append, savedEntries, List.append_nil]
      exact this
  | flush =>
    simp only [step, offeredEntries, List.append_nil, Flush, Option.some.injEq] at h ⊢
    have h1 := congrArg Prod.fst h
    simp only [] at h1
    rw [← h1, flushInternal_entries]
  | setStrategy s =>
    simp only [step, offeredEntries, List.append_nil] at h ⊢
    unfold SetStrategy at h
    by_cases h1 : s.MaxLocalCacheSize < 0
    · rw [if_pos h1] at h
      have h4 := congrArg Prod.fst (Option.some.inj h)
      simp only [] at h4
      rw [← h4]
    · rw [if_neg h1] at h
      cases hu : lcd.updateStrategy s with
      | none => rw [hu] at h; exact absurd h (by simp)
      | some lcd2 =>
        rw [hu] at h
        simp only [] at h
        obtain ⟨hd, hce, _⟩ := updateStrategy_frame lcd lcd2 s hu
        split_ifs at h
        · have h4 := congrArg Prod.fst (Option.some.inj h)
          simp only [] at h4
          rw [← h4, flushInternal_entries, hd, hce]
        · have h4 := congrArg Prod.fst (Option.some.inj h)
          simp only [] at h4
          rw [← h4, hd, hce]
  | setConfig cfg =>
    simp only [step, offeredEntries, List.append_nil] at h ⊢
    unfold SetConfig at h
    by_cases h1 : cfg.Remotes ≠ none
    · rw [if_pos h1] at h
      have h4 := congrArg Prod.fst (Option.some.inj h)
      simp only [] at h4
      rw [← h4]
    · rw [if_neg h1] at h
      cases hs : cfg.Strategy with
      | none =>
        rw [hs] at h
        have h4 := congrArg Prod.fst (Option.some.inj h)
        simp only [] at h4
        rw [← h4]
      | some s =>
        rw [hs] at h
        simp only [] at h
        by_cases h2 : s.MaxLocalCacheSize < 0
        · rw [if_pos h2] at h
          have h4 := congrArg Prod.fst (Option.some.inj h)
          simp only [] at h4
          rw [← h4]
        · rw [if_neg h2] at h
          cases hu : lcd.updateStrategy s with
          | none => rw [hu] at h; exact absurd h (by simp)
          | some lcd2 =>
            rw [hu] at h
            obtain ⟨hd, hce, _⟩ := updateStrategy_frame lcd lcd2 s hu
            have h4 := congrArg Prod.fst (Option.some.inj h)
            simp only [] at h4
            rw [← h4, hd, hce]
  | close =>
    simp only [step, offeredEntries, List.append_nil, Option.some.injEq] at h ⊢
    have h1 := congrArg Prod.fst h
    simp only [] at h1
    rw [← h1]
    unfold Close
    have := flushInternal_entries lcd r.saveErr emptyState none
    simp only [savedEntries_append, savedEntries, List.append_nil]
    exact this
  | timerFires =>
    simp only [step, offeredEntries, List.append_nil, Option.some.injEq] at h ⊢
    have h1 := congrArg Prod.fst h
    simp only [] at h1
    rw [← h1]

theorem step_spec (lcd : LocalCachedDisk) (r : DiskReply) (call : Call)
    (h : CacheFits lcd) (hcall : call.fitsCap lcd.cachedCap = true) :
    ∃ lcd1 err, lcd.step r call = some (lcd1, err) ∧ CacheFits lcd1 ∧
      lcd1.cachedCap = lcd.cachedCap := by
  cases call with
  | save st ents =>
    simp only [step]
    by_cases hf : lcd.cachePreserveReminder = Reminder.fired
    · have hd : CacheFits { lcd with cachePreserveReminder := Reminder.drained } := h
      exact ⟨({ lcd with cachePreserveReminder := Reminder.drained }.flushInternal r.saveErr st
          (some (lcd.cachedEntries ++ ents))).1, ({ lcd with cachePreserveReminder :=
          Reminder.drained }.flushInternal r.saveErr st (some (lcd.cachedEntries ++ ents))).2,
          Save_fired lcd _ st ents hf, flushInternal_fits _ _ _ _ hd,
          flushInternal_cap _ _ _ _⟩
    · by_cases hc : (!lcd.fsync) = true ∧
          (lcd.cachedEntries.length : Int) + (ents.length : Int) < lcd.maxLocalCacheSize
      · have hcap : ¬ ((lcd.cachedEntries.length : Int) + (ents.length : Int) > lcd.cachedCap) := by
          unfold CacheFits at h; omega
        obtain ⟨lcd1, h1, h2, h3, h4, h5, _, _, _⟩ := Save_cache lcd r.saveErr st ents hf hc hcap
        refine ⟨lcd1, none, h1, ?_, h4⟩
        unfold CacheFits at *
        rw [h2, h4, h5]
        simp only [List.length_append, Nat.cast_add]
        omega
      · exact ⟨(lcd.flushInternal r.saveErr st (some (lcd.cachedEntries ++ ents))).1,
          (lcd.flushInternal r.saveErr st (some (lcd.cachedEntries ++ ents))).2,
          Save_flush lcd _ st ents hf hc, flushInternal_fits _ _ _ _ h,
          flushInternal_cap _ _ _ _⟩
  | saveSnap snap =>
    simp only [step]
    unfold SaveSnap
    split_ifs with h1 h2
    · have hd : CacheFits { lcd with cachePreserveReminder := Reminder.drained } := h
      exact ⟨({ lcd with cachePreserveReminder := Reminder.drained }.flushInternal r.saveErr
          emptyState none).1, ({ lcd with cachePreserveReminder :=
          Reminder.drained }.flushInternal r.saveErr emptyState none).2, rfl,
          flushInternal_fits _ _ _ _ hd, flushInternal_cap _ _ _ _⟩
    · exact ⟨_, _, rfl, h, rfl⟩
    · refine ⟨_, _, rfl, ?_, flushInternal_cap lcd r.saveErr emptyState none⟩
      have := flushInternal_fits lcd r.saveErr emptyState none h
      unfold CacheFits at *
      exact this
  | flush =>
    simp only [step, Flush]
    exact ⟨(lcd.flushInternal r.saveErr emptyState none).1,
      (lcd.flushInternal r.saveErr emptyState none).2, rfl, flushInternal_fits _ _ _ _ h,
      flushInternal_cap _ _ _ _⟩
  | setStrategy s =>
    have hs : s.MaxLocalCacheSize ≤ lcd.cachedCap := by
      simpa [Call.fitsCap] using hcall
    simp only [step]
    unfold SetStrategy
    by_cases h1 : s.MaxLocalCacheSize < 0
    · rw [if_pos h1]
      exact ⟨_, _, rfl, h, rfl⟩
    · rw [if_neg h1]
      obtain ⟨lcd1, hu, hfit, hcap, _⟩ := updateStrategy_spec lcd s h hs
      rw [hu]
      simp only []
      split_ifs
      · exact ⟨(lcd1.flushInternal r.saveErr emptyState none).1,
          (lcd1.flushInternal r.saveErr emptyState none).2, rfl,
          flushInternal_fits _ _ _ _ hfit, (flushInternal_cap _ _ _ _).trans hcap⟩
      · exact ⟨_, _, rfl, hfit, hcap⟩
  | setConfig cfg =>
    simp only [step]
    unfold SetConfig
    by_cases h1 : cfg.Remotes ≠ none
    · rw [if_pos h1]
      exact ⟨_, _, rfl, h, rfl⟩
    · rw [if_neg h1]
      cases hs : cfg.Strategy with
      | none => exact ⟨_, _, rfl, h, rfl⟩
      | some s =>
        have hsz : s.MaxLocalCacheSize ≤ lcd.cachedCap := by
          simpa [Call.fitsCap, hs] using hcall
        simp only []
        by_cases h2 : s.MaxLocalCacheSize < 0
        · rw [if_pos h2]
          exact ⟨_, _, rfl, h, rfl⟩
        · rw [if_neg h2]
          obtain ⟨lcd1, hu, hfit, hcap, _⟩ := updateStrategy_spec lcd s h hsz
          rw [hu]
          exact ⟨_, _, rfl, hfit, hcap⟩
  | close =>
    simp only [step]
    unfold Close
    refine ⟨_, _, rfl, ?_, flushInternal_cap lcd r.saveErr emptyState none⟩
    have := flushInternal_fits lcd r.saveErr emptyState none h
    unfold CacheFits at *
    exact this
  | timerFires =>
    simp only [step]
    exact ⟨_, _, rfl, h, rfl⟩

theorem offeredEntries_cons (x : Call × DiskReply) (rest : List (Call × DiskReply)) :
    offeredEntries (x :: rest) = offeredEntries [x] ++ offeredEntries rest := by
  obtain ⟨call, r⟩ := x
  cases call <;> simp [offeredEntries]

theorem run_entries (calls : List (Call × DiskReply)) :
    ∀ lcd lcd1 : LocalCachedDisk, run lcd calls = some lcd1 →
      savedEntries lcd1.disk ++ lcd1.cachedEntries
        = savedEntries lcd.disk ++ lcd.cachedEntries ++ offeredEntries calls := by
  induction calls with
  | nil =>
    intro lcd lcd1 h
    simp only [run, Option.some.injEq] at h
    subst h
    simp [offeredEntries]
  | cons x rest ih =>
    intro lcd lcd1 h
    obtain ⟨call, r⟩ := x
    simp only [run] at h
    cases hs : lcd.step r call with
    | none => rw [hs] at h; exact absurd h (by simp)
    | some y =>
      obtain ⟨lcd2, err⟩ := y
      rw [hs] at h
      simp only [] at h
      rw [ih lcd2 lcd1 h, step_entries lcd lcd2 r call err hs,
        offeredEntries_cons (call, r) rest, List.append_assoc]

theorem run_spec (calls : List (Call × DiskReply)) :
    ∀ lcd : LocalCachedDisk, CacheFits lcd →
      (∀ c ∈ calls, c.1.fitsCap lcd.cachedCap = true) →
      ∃ lcd1, run lcd calls = some lcd1 ∧ CacheFits lcd1 := by
  induction calls with
  | nil =>
    intro lcd h _
    exact ⟨lcd, rfl, h⟩
  | cons x rest ih =>
    intro lcd h hc
    obtain ⟨call, r⟩ := x
    obtain ⟨lcd1, err, hstep, hfit, hcap⟩ :=
      step_spec lcd r call h (hc (call, r) (List.mem_cons_self _ _))
    obtain ⟨lcd2, hrun, hfit2⟩ := ih lcd1 hfit
      (fun c hm => by rw [hcap]; exact hc c (List.mem_cons_of_mem _ hm))
    refine ⟨lcd2, ?_, hfit2⟩
    simp only [run, hstep]
    exact hrun

theorem NewLocalCachedDisk_spec (cfg : PersistentConfig) (lcd0 : LocalCachedDisk)
    (h0 : NewLocalCachedDisk cfg = some lcd0) :
    CacheFits lcd0 ∧ lcd0.disk = [] ∧ lcd0.cachedEntries = [] ∧
      lcd0.cachedHardState = emptyState ∧ lcd0.cachePreserveReminder = Reminder.nil := by
  unfold NewLocalCachedDisk at h0
  cases hs : cfg.Strategy with
  | none => rw [hs] at h0; exact absurd h0 (by simp)
  | some s =>
    rw [hs] at h0
    simp only [] at h0
    by_cases hneg : s.MaxLocalCacheSize < 0
    · rw [if_pos hneg] at h0; exact absurd h0 (by simp)
    · rw [if_neg hneg] at h0
      have := Option.some.inj h0
      subst this
      refine ⟨?_, rfl, rfl, rfl, rfl⟩
      unfold CacheFits
      simp only [List.length_nil, Nat.cast_zero]
      omega

theorem IsEmptyHardState_emptyState : IsEmptyHardState emptyState = true := by
  simp [IsEmptyHardState]

theorem flushInternal_cache (lcd : LocalCachedDisk) (e : Error) :
    lcd.flushInternal e emptyState none =
      if lcd.cachedEntries.length = 0 then
        if !IsEmptyHardState lcd.cachedHardState then
          ({ lcd with disk := lcd.disk ++ [DiskCall.save lcd.cachedHardState []] }, e)
        else (lcd, none)
      else
        ({ lcd with
            disk := lcd.disk ++ [DiskCall.save lcd.cachedHardState lcd.cachedEntries]
            cachePreserveReminder := Reminder.nil
            cachedEntries := []
            cachedHardState := emptyState }, e) := by
  unfold flushInternal
  simp only [IsEmptyHardState_emptyState, Bool.not_true, Bool.false_eq_true, if_false]

theorem Flush_clears_entries (lcd : LocalCachedDisk) (e : Error) :
    (lcd.Flush e).1.cachedEntries = [] := by
  unfold Flush
  rw [flushInternal_cache]
  split_ifs with h1 h2
  · exact List.length_eq_zero.mp h1
  · exact List.length_eq_zero.mp h1
  · rfl

theorem addInt_max : addInt 9223372036854775807 1 = -9223372036854775808 := by
  unfold addInt ofInt toInt
  norm_num

/-- C3: on a manager made by `NewLocalCachedDisk`, after every history of `Save`, `Flush`,
`SetStrategy`, `SaveSnap` (and `SetConfig`, `Close`) calls with any pattern of timer
firings that runs without panic (whatever the wrapped storage replies, so in particular
when it never fails), the entries passed to the wrapped `Save`, in call order, followed by
the cached entries are exactly the entries passed to `Save`, in call order; after one more
`Flush` the wrapped storage has received exactly these entries and the cache is empty.  A
history in which no `SetStrategy` or `SetConfig` asks for a cache larger than the one the
manager was made with (so that `updateStrategy` never allocates) runs without panic; a
history that begins with a `SetStrategy` asking for a cache of the largest `int`, on a
manager made with a smaller one, panics inside `make`. -/
theorem C3_no_entry_lost_duplicated_or_reordered (cfg : PersistentConfig)
    (lcd0 : LocalCachedDisk) (calls : List (Call × DiskReply))
    (h0 : NewLocalCachedDisk cfg = some lcd0) :
    (∀ lcd, run lcd0 calls = some lcd →
      savedEntries lcd.disk ++ lcd.cachedEntries = offeredEntries calls ∧
      ∀ e : Error, savedEntries (lcd.Flush e).1.disk = offeredEntries calls ∧
        (lcd.Flush e).1.cachedEntries = []) ∧
    ((∀ c ∈ calls, c.1.fitsCap lcd0.cachedCap = true) →
      ∃ lcd, run lcd0 calls = some lcd) ∧
    (∀ (s : PersistentStrategy) (r : DiskReply),
      s.MaxLocalCacheSize = 9223372036854775807 → lcd0.cachedCap < 9223372036854775807 →
      run lcd0 ((Call.setStrategy s, r) :: calls) = none) := by
  obtain ⟨hfit, hd, hc, _, _⟩ := NewLocalCachedDisk_spec cfg lcd0 h0
  refine ⟨?_, ?_, ?_⟩
  · intro lcd hrun
    have heq := run_entries calls lcd0 lcd hrun
    rw [hd, hc] at heq
    simp only [savedEntries, List.nil_append] at heq
    refine ⟨heq, ?_⟩
    intro e
    have h1 := flushInternal_entries lcd e emptyState none
    have h2 := Flush_clears_entries lcd e
    refine ⟨?_, h2⟩
    unfold Flush at h2 ⊢
    rw [h2] at h1
    simp only [List.append_nil] at h1
    rw [h1, heq]
  · intro hcalls
    obtain ⟨lcd, hrun, _⟩ := run_spec calls lcd0 hfit hcalls
    exact ⟨lcd, hrun⟩
  · intro s r hs hcap
    have hneg : ¬ s.MaxLocalCacheSize < 0 := by omega
    have h1 : s.MaxLocalCacheSize > lcd0.cachedCap := by omega
    have h2 : (lcd0.cachedEntries.length : Int) > addInt s.MaxLocalCacheSize 1 := by
      rw [hs, addInt_max]
      omega
    have hu : lcd0.updateStrategy s = none := by
      unfold updateStrategy
      simp only []
      rw [if_pos h1, if_pos h2]
    have hst : lcd0.step r (Call.setStrategy s) = none := by
      show lcd0.SetStrategy r.saveErr s = none
      unfold SetStrategy
      rw [if_neg hneg, hu]
    show (match lcd0.step r (Call.setStrategy s) with
      | none => none
      | some (lcd1, _) => run lcd1 calls) = none
    rw [hst]

/-- Witness for C3: a cache of size 3; one entry is cached, the timer fires, the next `Save`
flushes both entries, a third entry is cached and `SetStrategy` with `Fsync` flushes it. -/
theorem C3_no_entry_lost_duplicated_or_reordered_witness :
    (∀ lcd, run
        { fsync := false, disk := [], cachedHardState := emptyState, cachedEntries := [],
          cachedCap := 3, maxLocalCacheSize := 3, cachePreserveTime := 5,
          cachePreserveReminder := Reminder.nil }
        [(Call.save ⟨1, 0, 0⟩ [⟨1, 1, 0⟩], noFailure), (Call.timerFires, noFailure),
         (Call.save ⟨1, 0, 1⟩ [⟨1, 2, 0⟩], noFailure),
         (Call.save ⟨0, 0, 0⟩ [⟨1, 3, 0⟩], noFailure),
         (Call.setStrategy ⟨true, 3, 5⟩, noFailure)] = some lcd →
      savedEntries lcd.disk ++ lcd.cachedEntries
        = offeredEntries
          [(Call.save ⟨1, 0, 0⟩ [⟨1, 1, 0⟩], noFailure), (Call.timerFires, noFailure),
           (Call.save ⟨1, 0, 1⟩ [⟨1, 2, 0⟩], noFailure),
           (Call.save ⟨0, 0, 0⟩ [⟨1, 3, 0⟩], noFailure),
           (Call.setStrategy ⟨true, 3, 5⟩, noFailure)] ∧
      ∀ e : Error, savedEntries (lcd.Flush e).1.disk
        = offeredEntries
          [(Call.save ⟨1, 0, 0⟩ [⟨1, 1, 0⟩], noFailure), (Call.timerFires, noFailure),
           (Call.save ⟨1, 0, 1⟩ [⟨1, 2, 0⟩], noFailure),
           (Call.save ⟨0, 0, 0⟩ [⟨1, 3, 0⟩], noFailure),
           (Call.setStrategy ⟨true, 3, 5⟩, noFailure)] ∧
        (lcd.Flush e).1.cachedEntries = []) ∧
    ((∀ c ∈ [(Call.save ⟨1, 0, 0⟩ [⟨1, 1, 0⟩], noFailure), (Call.timerFires, noFailure),
           (Call.save ⟨1, 0, 1⟩ [⟨1, 2, 0⟩], noFailure),
           (Call.save ⟨0, 0, 0⟩ [⟨1, 3, 0⟩], noFailure),
           (Call.setStrategy ⟨true, 3, 5⟩, noFailure)],
        c.1.fitsCap (3 : Int) = true) →
      ∃ lcd, run
        { fsync := false, disk := [], cachedHardState := emptyState, cachedEntries := [],
          cachedCap := 3, maxLocalCacheSize := 3, cachePreserveTime := 5,
          cachePreserveReminder := Reminder.nil }
        [(Call.save ⟨1, 0, 0⟩ [⟨1, 1, 0⟩], noFailure), (Call.timerFires, noFailure),
         (Call.save ⟨1, 0, 1⟩ [⟨1, 2, 0⟩], noFailure),
         (Call.save ⟨0, 0, 0⟩ [⟨1, 3, 0⟩], noFailure),
         (Call.setStrategy ⟨true, 3, 5⟩, noFailure)] = some lcd) ∧
    (∀ (s : PersistentStrategy) (r : DiskReply),
      s.MaxLocalCacheSize = 9223372036854775807 → (3 : Int) < 9223372036854775807 →
      run
        { fsync := false, disk := [], cachedHardState := emptyState, cachedEntries := [],
          cachedCap := 3, maxLocalCacheSize := 3, cachePreserveTime := 5,
          cachePreserveReminder := Reminder.nil }
        ((Call.setStrategy s, r) ::
          [(Call.save ⟨1, 0, 0⟩ [⟨1, 1, 0⟩], noFailure), (Call.timerFires, noFailure),
           (Call.save ⟨1, 0, 1⟩ [⟨1, 2, 0⟩], noFailure),
           (Call.save ⟨0, 0, 0⟩ [⟨1, 3, 0⟩], noFailure),
           (Call.setStrategy ⟨true, 3, 5⟩, noFailure)]) = none) :=
  C3_no_entry_lost_duplicated_or_reordered ⟨some ⟨false, 3, 5⟩, none⟩ _ _ (by decide)


theorem getLast_filter_cons (p : HardState → Bool) (st acc : HardState) (l : List HardState) :
    (((st :: l).filter p).getLast?).getD acc
      = ((l.filter p).getLast?).getD (if p st then st else acc) := by
  by_cases h : p st = true
  · rw [List.filter_cons_of_pos h, List.getLast?_cons, if_pos h]
    simp
  · rw [List.filter_cons_of_neg h, if_neg h]

theorem saves_are_cached (calls : List (Call × DiskReply)) :
    ∀ lcd : LocalCachedDisk, OnlySaves calls → lcd.fsync = false →
      lcd.cachePreserveReminder ≠ Reminder.fired → CacheFits lcd →
      (lcd.cachedEntries.length : Int) + ((offeredEntries calls).length : Int)
        < lcd.maxLocalCacheSize →
      ∃ lcd1, run lcd calls = some lcd1 ∧
        runResults lcd calls = some (calls.map (fun _ => none)) ∧
        lcd1.disk = lcd.disk ∧
        lcd1.cachedEntries = lcd.cachedEntries ++ offeredEntries calls ∧
        lcd1.cachedHardState
          = (((offeredHardStates calls).filter (fun st => !IsEmptyHardState st)).getLast?).getD
              lcd.cachedHardState := by
  induction calls with
  | nil =>
    intro lcd _ _ _ _ _
    exact ⟨lcd, rfl, rfl, rfl, by simp [offeredEntries], by simp [offeredHardStates]⟩
  | cons c rest ih =>
    intro lcd hsaves hfs hrem hfit hlt
    obtain ⟨call, r⟩ := c
    obtain ⟨st, ents, hcall⟩ : ∃ st ents, call = Call.save st ents := by
      have := hsaves (call, r) (List.mem_cons_self _ _)
      cases call <;> simp [Call.isSave] at this
      exact ⟨_, _, rfl⟩
    subst hcall
    have hrest : OnlySaves rest := fun c hc => hsaves c (List.mem_cons_of_mem _ hc)
    simp only [offeredEntries, List.length_append, Nat.cast_add] at hlt
    have hc : (!lcd.fsync) = true ∧
        (lcd.cachedEntries.length : Int) + (ents.length : Int) < lcd.maxLocalCacheSize := by
      refine ⟨by simp [hfs], ?_⟩
      omega
    have hcap : ¬ ((lcd.cachedEntries.length : Int) + (ents.length : Int) > lcd.cachedCap) := by
      unfold CacheFits at hfit; omega
    obtain ⟨lcd1, h1, h2, h3, h4, h5, h6, h7, h8⟩ := Save_cache lcd r.saveErr st ents hrem hc hcap
    have hrem1 : lcd1.cachePreserveReminder ≠ Reminder.fired := by
      rw [h8]
      split_ifs
      · decide
      · exact hrem
    have hfit1 : CacheFits lcd1 := by
      unfold CacheFits at *
      rw [h2, h4, h5]
      simp only [List.length_append, Nat.cast_add]
      omega
    have hlt1 : (lcd1.cachedEntries.length : Int) + ((offeredEntries rest).length : Int)
        < lcd1.maxLocalCacheSize := by
      rw [h2, h5]
      simp only [List.length_append, Nat.cast_add]
      omega
    obtain ⟨lcd2, hrun, hres, hd, hce, hhs⟩ := ih lcd1 hrest (by rw [h6, hfs]) hrem1 hfit1 hlt1
    refine ⟨lcd2, ?_, ?_, by rw [hd, h3], ?_, ?_⟩
    · simp only [run, step, h1]
      exact hrun
    · simp only [runResults, step, h1, hres, Option.map_some', List.map_cons]
    · rw [hce, h2, List.append_assoc]
      rfl
    · rw [hhs, h7]
      simp only [offeredHardStates]
      rw [getLast_filter_cons]

/-- C5: from an empty cache with `fsync = false` and `maxLocalCacheSize = C` (the cache
slice within its capacity and the capacity covering `C`, as `NewLocalCachedDisk` and every
call keep it), a sequence of `Save` calls whose entries number fewer than `C` in total, with
the preserve timer not fired and no other call in between, runs without panic and calls
the wrapped storage not once; every `Save` returns nil; afterwards the cache holds all the
entries in order and the latest non-empty hard state. -/
theorem C5_saves_below_capacity_stay_cached (lcd : LocalCachedDisk) (C : Int)
    (calls : List (Call × DiskReply))
    (hfs : lcd.fsync = false) (hC : lcd.maxLocalCacheSize = C)
    (hce : lcd.cachedEntries = []) (hhs : lcd.cachedHardState = emptyState)
    (hfit : CacheFits lcd) (hrem : lcd.cachePreserveReminder ≠ Reminder.fired)
    (hsaves : OnlySaves calls)
    (hlt : ((offeredEntries calls).length : Int) < C) :
    ∃ lcd1, run lcd calls = some lcd1 ∧
      runResults lcd calls = some (calls.map (fun _ => none)) ∧
      lcd1.disk = lcd.disk ∧
      lcd1.cachedEntries = offeredEntries calls ∧
      lcd1.cachedHardState = latestNonEmptyHardState (offeredHardStates calls) := by
  have hlt2 : (lcd.cachedEntries.length : Int) + ((offeredEntries calls).length : Int)
      < lcd.maxLocalCacheSize := by
    rw [hce, hC]
    simpa using hlt
  obtain ⟨lcd1, h1, h2, h3, h4, h5⟩ := saves_are_cached calls lcd hsaves hfs hrem hfit hlt2
  refine ⟨lcd1, h1, h2, h3, ?_, ?_⟩
  · rw [h4, hce, List.nil_append]
  · rw [h5, hhs]
    rfl

/-- Witness for C5: a fresh manager with `maxLocalCacheSize = 5` receives three entries in
two `Save` calls. -/
theorem C5_saves_below_capacity_stay_cached_witness :
    ∃ lcd1, run
        { fsync := false, disk := [], cachedHardState := emptyState, cachedEntries := [],
          cachedCap := 5, maxLocalCacheSize := 5, cachePreserveTime := 7,
          cachePreserveReminder := Reminder.nil }
        [(Call.save ⟨2, 1, 0⟩ [⟨2, 1, 0⟩, ⟨2, 2, 0⟩], noFailure),
         (Call.save ⟨0, 0, 0⟩ [⟨2, 3, 0⟩], noFailure)] = some lcd1 ∧
      runResults
        { fsync := false, disk := [], cachedHardState := emptyState, cachedEntries := [],
          cachedCap := 5, maxLocalCacheSize := 5, cachePreserveTime := 7,
          cachePreserveReminder := Reminder.nil }
        [(Call.save ⟨2, 1, 0⟩ [⟨2, 1, 0⟩, ⟨2, 2, 0⟩], noFailure),
         (Call.save ⟨0, 0, 0⟩ [⟨2, 3, 0⟩], noFailure)] = some [none, none] ∧
      lcd1.disk = [] ∧
      lcd1.cachedEntries = [⟨2, 1, 0⟩, ⟨2, 2, 0⟩, ⟨2, 3, 0⟩] ∧
      lcd1.cachedHardState = ⟨2, 1, 0⟩ :=
  C5_saves_below_capacity_stay_cached
    { fsync := false, disk := [], cachedHardState := emptyState, cachedEntries := [],
      cachedCap := 5, maxLocalCacheSize := 5, cachePreserveTime := 7,
      cachePreserveReminder := Reminder.nil } 5
    [(Call.save ⟨2, 1, 0⟩ [⟨2, 1, 0⟩, ⟨2, 2, 0⟩], noFailure),
     (Call.save ⟨0, 0, 0⟩ [⟨2, 3, 0⟩], noFailure)]
    rfl rfl rfl rfl (by unfold CacheFits; decide) (by decide)
    (by unfold OnlySaves; decide) (by decide)


/-- C4 (defect of the code): a manager made by `NewLocalCachedDisk` with `fsync = false`
caches one entry; `SetConfig` with a strategy whose `Fsync` is true then returns nil and
leaves `fsync = true` with the entry still cached and the timer armed (`SetConfig` never
flushes, `SetStrategy` does).  Likewise `SetStrategy` with `Fsync` true leaves the timer
armed when only a hard state is cached. -/
theorem C4_fsync_true_with_cached_entries :
    (NewLocalCachedDisk ⟨some ⟨false, 10, 5⟩, none⟩).bind (fun l =>
        run l [(Call.save ⟨1, 0, 0⟩ [⟨1, 1, 0⟩], noFailure),
          (Call.setConfig ⟨some ⟨true, 10, 5⟩, none⟩, noFailure)])
      = some
        { fsync := true, disk := [], cachedHardState := ⟨1, 0, 0⟩,
          cachedEntries := [⟨1, 1, 0⟩], cachedCap := 10, maxLocalCacheSize := 10,
          cachePreserveTime := 5, cachePreserveReminder := Reminder.waiting } ∧
    (NewLocalCachedDisk ⟨some ⟨false, 10, 5⟩, none⟩).bind (fun l =>
        runResults l [(Call.save ⟨1, 0, 0⟩ [⟨1, 1, 0⟩], noFailure),
          (Call.setConfig ⟨some ⟨true, 10, 5⟩, none⟩, noFailure)])
      = some [none, none] ∧
    (NewLocalCachedDisk ⟨some ⟨false, 10, 5⟩, none⟩).bind (fun l =>
        run l [(Call.save ⟨1, 0, 0⟩ [], noFailure),
          (Call.setStrategy ⟨true, 10, 5⟩, noFailure)])
      = some
        { fsync := true, disk := [], cachedHardState := ⟨1, 0, 0⟩,
          cachedEntries := [], cachedCap := 10, maxLocalCacheSize := 10,
          cachePreserveTime := 5, cachePreserveReminder := Reminder.waiting } := by
  refine ⟨by decide, by decide, by decide⟩

/-- C6 (counterexample): with one entry cached, `SetStrategy` with `Fsync = true` and
`MaxLocalCacheSize = -1` returns the error "illegal configuration"; no wrapped `Save` is
issued and the cache keeps its entry and its timer. -/
theorem C6_counterexample_negative_cache_size :
    LocalCachedDisk.SetStrategy
        { fsync := false, disk := [], cachedHardState := ⟨1, 0, 0⟩,
          cachedEntries := [⟨1, 1, 0⟩], cachedCap := 10, maxLocalCacheSize := 10,
          cachePreserveTime := 5, cachePreserveReminder := Reminder.waiting }
        none ⟨true, -1, 5⟩
      = some
        ({ fsync := false, disk := [], cachedHardState := ⟨1, 0, 0⟩,
           cachedEntries := [⟨1, 1, 0⟩], cachedCap := 10, maxLocalCacheSize := 10,
           cachePreserveTime := 5, cachePreserveReminder := Reminder.waiting },
         some "illegal configuration") := by
  decide

/-- C6 (amended): for every manager holding at least one cached entry, a call of
`SetStrategy` with `Fsync = true` and `MaxLocalCacheSize ≥ 0` that returns has issued
exactly one wrapped `Save`, whose arguments are the cached hard state and all cached
entries in order, returns what that `Save` returned, and leaves the cache empty and no
timer armed.  The call returns when `MaxLocalCacheSize` does not exceed the capacity of the
cache; it panics inside `make`, before any `Save`, when `MaxLocalCacheSize` exceeds that
capacity and is the largest `int`. -/
theorem C6_SetStrategy_fsync_flushes_once (lcd : LocalCachedDisk) (saveErr : Error)
    (strategy : PersistentStrategy)
    (hne : lcd.cachedEntries ≠ [])
    (hf : strategy.Fsync = true) (hmax : 0 ≤ strategy.MaxLocalCacheSize) :
    (∀ lcd1 err, lcd.SetStrategy saveErr strategy = some (lcd1, err) →
      err = saveErr ∧
      lcd1.disk = lcd.disk ++ [DiskCall.save lcd.cachedHardState lcd.cachedEntries] ∧
      lcd1.cachedEntries = [] ∧ lcd1.cachedHardState = emptyState ∧
      lcd1.cachePreserveReminder = Reminder.nil ∧ lcd1.fsync = true) ∧
    (strategy.MaxLocalCacheSize ≤ lcd.cachedCap →
      ∃ r, lcd.SetStrategy saveErr strategy = some r) ∧
    (lcd.cachedCap < strategy.MaxLocalCacheSize →
      strategy.MaxLocalCacheSize = 9223372036854775807 →
      lcd.SetStrategy saveErr strategy = none) := by
  have hpos : 0 < lcd.cachedEntries.length := List.length_pos.mpr hne
  have hnz : ¬ lcd.cachedEntries.length = 0 := by omega
  have hneg : ¬ strategy.MaxLocalCacheSize < 0 := by omega
  refine ⟨?_, ?_, ?_⟩
  · intro lcd1 err h
    unfold SetStrategy at h
    rw [if_neg hneg] at h
    cases hu : lcd.updateStrategy strategy with
    | none => rw [hu] at h; exact absurd h (by simp)
    | some lcd2 =>
      rw [hu] at h
      simp only [] at h
      obtain ⟨hd, hce, hhs, _, hfs, _⟩ := updateStrategy_frame lcd lcd2 strategy hu
      have hc : strategy.Fsync = true ∧ lcd2.cachedEntries.length > 0 := by
        rw [hce]
        exact ⟨hf, hpos⟩
      have hnz2 : ¬ lcd2.cachedEntries.length = 0 := by rw [hce]; exact hnz
      rw [if_pos hc, flushInternal_cache, if_neg hnz2] at h
      simp only [Option.some.injEq, Prod.mk.injEq] at h
      obtain ⟨e1, e2⟩ := h
      subst e1
      subst e2
      refine ⟨rfl, ?_, rfl, rfl, rfl, ?_⟩
      · show lcd2.disk ++ [DiskCall.save lcd2.cachedHardState lcd2.cachedEntries] = _
        rw [hd, hhs, hce]
      · show lcd2.fsync = true
        rw [hfs, hf]
  · intro hle
    unfold SetStrategy
    rw [if_neg hneg]
    unfold updateStrategy
    simp only []
    have h1 : ¬ strategy.MaxLocalCacheSize > lcd.cachedCap := by omega
    rw [if_neg h1]
    simp only []
    split_ifs <;> exact ⟨_, rfl⟩
  · intro hlt heq
    unfold SetStrategy
    rw [if_neg hneg]
    unfold updateStrategy
    simp only []
    have h1 : strategy.MaxLocalCacheSize > lcd.cachedCap := hlt
    have h2 : (lcd.cachedEntries.length : Int) > addInt strategy.MaxLocalCacheSize 1 := by
      rw [heq, addInt_max]
      omega
    rw [if_pos h1, if_pos h2]

/-- Witness for C6 (amended). -/
theorem C6_SetStrategy_fsync_flushes_once_witness :
    (∀ lcd1 err, LocalCachedDisk.SetStrategy
        { fsync := false, disk := [], cachedHardState := ⟨1, 0, 0⟩,
          cachedEntries := [⟨1, 1, 0⟩, ⟨1, 2, 0⟩], cachedCap := 10, maxLocalCacheSize := 10,
          cachePreserveTime := 5, cachePreserveReminder := Reminder.waiting }
        none ⟨true, 10, 5⟩ = some (lcd1, err) →
      err = none ∧
      lcd1.disk = [] ++ [DiskCall.save ⟨1, 0, 0⟩ [⟨1, 1, 0⟩, ⟨1, 2, 0⟩]] ∧
      lcd1.cachedEntries = [] ∧ lcd1.cachedHardState = emptyState ∧
      lcd1.cachePreserveReminder = Reminder.nil ∧ lcd1.fsync = true) ∧
    ((10 : Int) ≤ 10 →
      ∃ r, LocalCachedDisk.SetStrategy
        { fsync := false, disk := [], cachedHardState := ⟨1, 0, 0⟩,
          cachedEntries := [⟨1, 1, 0⟩, ⟨1, 2, 0⟩], cachedCap := 10, maxLocalCacheSize := 10,
          cachePreserveTime := 5, cachePreserveReminder := Reminder.waiting }
        none ⟨true, 10, 5⟩ = some r) ∧
    ((10 : Int) < 10 → (10 : Int) = 9223372036854775807 →
      LocalCachedDisk.SetStrategy
        { fsync := false, disk := [], cachedHardState := ⟨1, 0, 0⟩,
          cachedEntries := [⟨1, 1, 0⟩, ⟨1, 2, 0⟩], cachedCap := 10, maxLocalCacheSize := 10,
          cachePreserveTime := 5, cachePreserveReminder := Reminder.waiting }
        none ⟨true, 10, 5⟩ = none) :=
  C6_SetStrategy_fsync_flushes_once
    { fsync := false, disk := [], cachedHardState := ⟨1, 0, 0⟩,
      cachedEntries := [⟨1, 1, 0⟩, ⟨1, 2, 0⟩], cachedCap := 10, maxLocalCacheSize := 10,
      cachePreserveTime := 5, cachePreserveReminder := Reminder.waiting }
    none ⟨true, 10, 5⟩ (by decide) rfl (by decide)

/-- C7 (defect of the code): a manager made by `NewLocalCachedDisk` caches a hard state
with no entries; `Flush` then hands the hard state to the wrapped `Save` and returns nil,
but takes the early return of the "dummy flush" branch: the hard state stays cached, the
timer stays armed and `UnPersisted` is still true. -/
theorem C7_Flush_keeps_cached_hard_state :
    (NewLocalCachedDisk ⟨some ⟨false, 10, 5⟩, none⟩).bind (fun l =>
        run l [(Call.save ⟨1, 0, 0⟩ [], noFailure)])
      = some
        { fsync := false, disk := [], cachedHardState := ⟨1, 0, 0⟩,
          cachedEntries := [], cachedCap := 10, maxLocalCacheSize := 10,
          cachePreserveTime := 5, cachePreserveReminder := Reminder.waiting } ∧
    LocalCachedDisk.Flush
        { fsync := false, disk := [], cachedHardState := ⟨1, 0, 0⟩,
          cachedEntries := [], cachedCap := 10, maxLocalCacheSize := 10,
          cachePreserveTime := 5, cachePreserveReminder := Reminder.waiting } none
      = ({ fsync := false, disk := [DiskCall.save ⟨1, 0, 0⟩ []],
           cachedHardState := ⟨1, 0, 0⟩,
           cachedEntries := [], cachedCap := 10, maxLocalCacheSize := 10,
           cachePreserveTime := 5, cachePreserveReminder := Reminder.waiting }, none) ∧
    LocalCachedDisk.UnPersisted
        { fsync := false, disk := [DiskCall.save ⟨1, 0, 0⟩ []],
          cachedHardState := ⟨1, 0, 0⟩,
          cachedEntries := [], cachedCap := 10, maxLocalCacheSize := 10,
          cachePreserveTime := 5, cachePreserveReminder := Reminder.waiting } = true := by
  refine ⟨by decide, by decide, by decide⟩


theorem flushInternal_propagates (lcd : LocalCachedDisk) (e : Error) (hs : HardState)
    (other : Option (List Entry))
    (h : (lcd.flushInternal e hs other).1.disk ≠ lcd.disk) :
    (lcd.flushInternal e hs other).2 = e := by
  unfold flushInternal at h ⊢
  simp only [] at h ⊢
  split_ifs at h ⊢ <;> first | rfl | exact absurd rfl h

/-- When entries are cached, `Flush` leaves the cache clean. -/
theorem Flush_cleans_cached_entries (lcd : LocalCachedDisk) (e : Error)
    (hne : lcd.cachedEntries ≠ []) :
    (lcd.Flush e).2 = e ∧ (lcd.Flush e).1.cachedHardState = emptyState ∧
      (lcd.Flush e).1.cachedEntries = [] ∧
      (lcd.Flush e).1.cachePreserveReminder = Reminder.nil ∧
      (lcd.Flush e).1.UnPersisted = false := by
  have hnz : ¬ lcd.cachedEntries.length = 0 := by
    have := List.length_pos.mpr hne
    omega
  unfold Flush
  rw [flushInternal_cache, if_neg hnz]
  refine ⟨rfl, rfl, rfl, rfl, ?_⟩
  simp [UnPersisted, IsEmptyHardState_emptyState]

/-- C8 (counterexample): with one entry cached and a wrapped `Save` that fails with
"disk failure", `Close` performs that `Save` and returns nil (the result of the wrapped
`Close`), and `SaveSnap` of a non-empty snapshot performs it and returns nil (the result of
the wrapped `SaveSnap`). -/
theorem C8_counterexample_Close_discards_error :
    LocalCachedDisk.Close
        { fsync := false, disk := [], cachedHardState := ⟨1, 0, 0⟩,
          cachedEntries := [⟨1, 1, 0⟩], cachedCap := 10, maxLocalCacheSize := 10,
          cachePreserveTime := 5, cachePreserveReminder := Reminder.waiting }
        (some "disk failure") none
      = ({ fsync := false, disk := [DiskCall.save ⟨1, 0, 0⟩ [⟨1, 1, 0⟩], DiskCall.close],
           cachedHardState := emptyState, cachedEntries := [], cachedCap := 10,
           maxLocalCacheSize := 10, cachePreserveTime := 5,
           cachePreserveReminder := Reminder.nil }, none) ∧
    LocalCachedDisk.SaveSnap
        { fsync := false, disk := [], cachedHardState := ⟨1, 0, 0⟩,
          cachedEntries := [⟨1, 1, 0⟩], cachedCap := 10, maxLocalCacheSize := 10,
          cachePreserveTime := 5, cachePreserveReminder := Reminder.waiting }
        (some "disk failure") none ⟨4, 1, 0⟩
      = ({ fsync := false,
           disk := [DiskCall.save ⟨1, 0, 0⟩ [⟨1, 1, 0⟩], DiskCall.saveSnap ⟨4, 1, 0⟩],
           cachedHardState := emptyState, cachedEntries := [], cachedCap := 10,
           maxLocalCacheSize := 10, cachePreserveTime := 5,
           cachePreserveReminder := Reminder.nil }, none) := by
  refine ⟨by decide, by decide⟩

/-- C8 (amended): whenever a flush inside `Save`, `Flush`, `SetStrategy` or `SaveSnap` of an
empty snapshot performs a wrapped `Save`, the public call returns exactly what that `Save`
returned; `SaveSnap` of a non-empty snapshot and `Close` return what the wrapped `SaveSnap`,
respectively `Close`, returned. -/
theorem C8_storage_errors_propagate (lcd : LocalCachedDisk) (r : DiskReply) :
    (∀ st ents lcd1 err, lcd.Save r.saveErr st ents = some (lcd1, err) →
      lcd1.disk ≠ lcd.disk → err = r.saveErr) ∧
    ((lcd.Flush r.saveErr).1.disk ≠ lcd.disk → (lcd.Flush r.saveErr).2 = r.saveErr) ∧
    (∀ s lcd1 err, lcd.SetStrategy r.saveErr s = some (lcd1, err) →
      lcd1.disk ≠ lcd.disk → err = r.saveErr) ∧
    (∀ snap, IsEmptySnap snap = true →
      (lcd.SaveSnap r.saveErr r.snapErr snap).1.disk ≠ lcd.disk →
      (lcd.SaveSnap r.saveErr r.snapErr snap).2 = r.saveErr) ∧
    (∀ snap, IsEmptySnap snap = false →
      (lcd.SaveSnap r.saveErr r.snapErr snap).2 = r.snapErr) ∧
    (lcd.Close r.saveErr r.closeErr).2 = r.closeErr := by
  refine ⟨?_, ?_, ?_, ?_, ?_, rfl⟩
  · intro st ents lcd1 err hsave hdisk
    by_cases hf : lcd.cachePreserveReminder = Reminder.fired
    · rw [Save_fired lcd _ st ents hf] at hsave
      have h1 := congrArg Prod.fst (Option.some.inj hsave)
      have h2 := congrArg Prod.snd (Option.some.inj hsave)
      simp only [] at h1 h2
      rw [← h2]
      apply flushInternal_propagates
      rw [h1]
      exact hdisk
    · by_cases hc : (!lcd.fsync) = true ∧
          (lcd.cachedEntries.length : Int) + (ents.length : Int) < lcd.maxLocalCacheSize
      · by_cases hcap : (lcd.cachedEntries.length : Int) + (ents.length : Int) > lcd.cachedCap
        · unfold Save at hsave
          simp only [hf, if_false, hc, and_self, if_true, hcap] at hsave
          exact absurd hsave (by simp)
        · obtain ⟨lcd2, h1, _, h3, _⟩ := Save_cache lcd r.saveErr st ents hf hc hcap
          rw [h1] at hsave
          have h4 := congrArg Prod.fst (Option.some.inj hsave)
          simp only [] at h4
          rw [← h4] at hdisk
          exact absurd h3 hdisk
      · rw [Save_flush lcd _ st ents hf hc] at hsave
        have h1 := congrArg Prod.fst (Option.some.inj hsave)
        have h2 := congrArg Prod.snd (Option.some.inj hsave)
        simp only [] at h1 h2
        rw [← h2]
        apply flushInternal_propagates
        rw [h1]
        exact hdisk
  · intro h
    exact flushInternal_propagates lcd _ _ _ h
  · intro s lcd1 err hset hdisk
    unfold SetStrategy at hset
    by_cases h1 : s.MaxLocalCacheSize < 0
    · rw [if_pos h1] at hset
      have h4 := congrArg Prod.fst (Option.some.inj hset)
      simp only [] at h4
      exact absurd (by rw [← h4]) hdisk
    · rw [if_neg h1] at hset
      cases hu : lcd.updateStrategy s with
      | none => rw [hu] at hset; exact absurd hset (by simp)
      | some lcd2 =>
        rw [hu] at hset
        simp only [] at hset
        have hd2 : lcd2.disk = lcd.disk := by
          unfold updateStrategy at hu
          simp only [] at hu
          split_ifs at hu <;> rw [← Option.some.inj hu]
        split_ifs at hset
        · have h4 := congrArg Prod.fst (Option.some.inj hset)
          have h5 := congrArg Prod.snd (Option.some.inj hset)
          simp only [] at h4 h5
          rw [← h5]
          apply flushInternal_propagates
          rw [h4, hd2]
          exact hdisk
        · have h4 := congrArg Prod.fst (Option.some.inj hset)
          simp only [] at h4
          rw [← h4, hd2] at hdisk
          exact absurd rfl hdisk
  · intro snap hempty hdisk
    unfold SaveSnap at hdisk ⊢
    rw [if_pos hempty] at hdisk ⊢
    split_ifs at hdisk ⊢
    · exact flushInternal_propagates _ _ _ _ hdisk
    · exact absurd rfl hdisk
  · intro snap hne
    unfold SaveSnap
    simp [hne]

/-- Witness for C8 (amended): `Flush` with one cached entry and a failing wrapped `Save`. -/
theorem C8_storage_errors_propagate_witness :
    (LocalCachedDisk.Flush
        { fsync := false, disk := [], cachedHardState := ⟨1, 0, 0⟩,
          cachedEntries := [⟨1, 1, 0⟩], cachedCap := 10, maxLocalCacheSize := 10,
          cachePreserveTime := 5, cachePreserveReminder := Reminder.waiting }
        (some "disk failure")).2 = some "disk failure" :=
  (C8_storage_errors_propagate
    { fsync := false, disk := [], cachedHardState := ⟨1, 0, 0⟩,
      cachedEntries := [⟨1, 1, 0⟩], cachedCap := 10, maxLocalCacheSize := 10,
      cachePreserveTime := 5, cachePreserveReminder := Reminder.waiting }
    ⟨some "disk failure", none, none⟩).2.1 (by decide)

end LocalCachedDisk
end Etcd
namespace Etcd
namespace SaucrMonitor

theorem initLoop_spec (crit : Bool) :
    ∀ (todoH : List HeartbeatCounter) (todoU : List Bool) (doneH : List HeartbeatCounter)
      (doneU : List Bool), todoH.length = todoU.length → doneH.length = doneU.length →
      initLoop crit todoH.length doneH.length (doneH ++ todoH) (doneU ++ todoU)
        = some (doneH ++ todoH.map (fun h => h.Init (!crit)),
            doneU ++ List.replicate todoH.length crit) := by
  intro todoH
  induction todoH with
  | nil =>
    intro todoU doneH doneU h1 _
    have : todoU = [] := List.length_eq_zero.mp h1.symm
    subst this
    simp [initLoop]
  | cons h t ih =>
    intro todoU doneH doneU h1 h2
    cases todoU with
    | nil => simp at h1
    | cons u tu =>
      have h1' : t.length = tu.length := by simpa using h1
      have hlt : doneH.length < (doneU ++ u :: tu).length := by
        simp [h2]
      simp only [List.length_cons, initLoop]
      rw [List.getElem?_append_right (le_refl _)]
      simp only [Nat.sub_self, List.getElem?_cons_zero, hlt, if_true]
      have e1 : (doneH ++ h :: t).set doneH.length (h.Init (!crit))
          = (doneH ++ [h.Init (!crit)]) ++ t := by
        rw [List.set_append_right _ _ (le_refl _)]
        simp
      have e2 : (doneU ++ u :: tu).set doneH.length crit = (doneU ++ [crit]) ++ tu := by
        rw [h2, List.set_append_right _ _ (le_refl _)]
        simp
      have e3 : doneH.length + 1 = (doneH ++ [h.Init (!crit)]).length := by simp
      rw [e1, e2, e3, ih tu (doneH ++ [h.Init (!crit)]) (doneU ++ [crit]) h1' (by simp [h2])]
      simp [List.replicate_succ]

theorem initLoop_all (crit : Bool) (hb : List HeartbeatCounter) (un : List Bool)
    (h : hb.length = un.length) :
    initLoop crit hb.length 0 hb un
      = some (hb.map (fun h => h.Init (!crit)), List.replicate hb.length crit) := by
  have := initLoop_spec crit hb un [] [] h rfl
  simpa using this


theorem refreshState_spec (sm : SaucrMonitor) (state : StateType) (crit : Bool) :
    (sm.refreshStateWithOption state crit).1
      = { sm with state := state,
                  mustCritical := if state = StateType.StateLeader then false else crit } ∧
    ((sm.refreshStateWithOption state crit).2 = none ↔
      (state = StateType.StateLeader ∨ state = StateType.StateFollower ∨ crit = true)) := by
  unfold refreshStateWithOption
  cases state <;> cases crit <;> simp

theorem refreshPeers_accepted (sm sm1 : SaucrMonitor) (peers : List Nat) (crit : Bool)
    (hcoh : Coherent sm)
    (h : sm.refreshPeersWithOption peers crit = some (sm1, none)) :
    3 ≤ peers.length ∧
    sm1 = { sm with
      peers := peers
      unconnected := List.replicate peers.length crit
      hbCounter := (if sm.peers.length ≠ peers.length then
          List.replicate peers.length sm.hbCounterFactory else sm.hbCounter).map
            (fun h => h.Init (!crit))
      threshold := ((peers.length : Int) - 1) / 2 } := by
  unfold refreshPeersWithOption at h
  by_cases h0 : peers.length = 0
  · rw [if_pos h0] at h
    simp at h
  · rw [if_neg h0] at h
    by_cases h3 : peers.length < 3
    · rw [if_pos h3] at h
      simp at h
    · rw [if_neg h3] at h
      refine ⟨by omega, ?_⟩
      obtain ⟨hu, hh⟩ := hcoh
      by_cases hl : sm.peers.length ≠ peers.length
      · simp only [hl, if_true, ne_eq, not_false_eq_true] at h ⊢
        have hi := initLoop_all crit (List.replicate peers.length sm.hbCounterFactory)
          (List.replicate peers.length false) (by simp)
        simp only [List.length_replicate] at hi
        rw [hi] at h
        simp only [Option.some.injEq, Prod.mk.injEq, and_true] at h
        rw [← h]
      · simp only [hl, if_false] at h ⊢
        have hl2 : sm.peers.length = peers.length := by
          by_contra hc; exact hl hc
        have hi := initLoop_all crit sm.hbCounter sm.unconnected (by rw [hu, hh])
        rw [hh, hl2] at hi
        rw [hi] at h
        simp only [Option.some.injEq, Prod.mk.injEq, and_true] at h
        rw [← h]

theorem SetConfig_accepted (sm sm1 : SaucrMonitor) (c : PerceptibleConfig)
    (hcoh : Coherent sm) (h : sm.SetConfig c = some (sm1, none)) :
    3 ≤ c.Peers.length ∧
    (c.State = StateType.StateLeader → c.Leader = c.Self) ∧
    (c.State = StateType.StateLeader ∨ c.State = StateType.StateFollower ∨
      c.Critical = true) ∧
    sm1 = { sm with
      leader := c.Leader
      self := c.Self
      state := c.State
      mustCritical := if c.State = StateType.StateLeader then false else c.Critical
      peers := c.Peers
      unconnected := List.replicate c.Peers.length c.Critical
      hbCounter := (if sm.peers.length ≠ c.Peers.length then
          List.replicate c.Peers.length sm.hbCounterFactory else sm.hbCounter).map
            (fun h => h.Init (!c.Critical))
      threshold := ((c.Peers.length : Int) - 1) / 2 } := by
  unfold SetConfig at h
  by_cases h0 : c.State = StateType.StateLeader ∧ c.Leader ≠ c.Self
  · rw [if_pos h0] at h
    simp at h
  · rw [if_neg h0] at h
    simp only [] at h
    obtain ⟨hs1, hs2⟩ := refreshState_spec
      { sm with leader := c.Leader, self := c.Self } c.State c.Critical
    generalize hr : ({ sm with leader := c.Leader, self := c.Self } : SaucrMonitor).refreshStateWithOption
      c.State c.Critical = res at h hs1 hs2
    obtain ⟨sm2, err⟩ := res
    simp only [] at hs1 hs2
    cases err with
    | some e => simp at h
    | none =>
      simp only [] at h
      have hok := hs2.mp rfl
      have hcoh2 : Coherent sm2 := by
        rw [hs1]
        exact hcoh
      obtain ⟨h3, heq⟩ := refreshPeers_accepted sm2 sm1 c.Peers c.Critical hcoh2 h
      refine ⟨h3, ?_, hok, ?_⟩
      · intro hl
        by_contra hne
        exact h0 ⟨hl, hne⟩
      · rw [heq, hs1]


theorem countLoop_spec (self : Nat) (un : Nat → Bool) :
    ∀ (rest done : List Nat) (counter : Int),
      countLoop (done ++ rest) self (rest.map un) done.length counter
        = some (counter + (rest.countP (fun p => un p && decide (p ≠ self)) : Nat)) := by
  intro rest
  induction rest with
  | nil => intro done counter; simp [countLoop]
  | cons p rest ih =>
    intro done counter
    have e1 : done ++ p :: rest = (done ++ [p]) ++ rest := by simp
    have e2 : done.length + 1 = (done ++ [p]).length := by simp
    have hget : (done ++ p :: rest)[done.length]? = some p := by
      rw [List.getElem?_append_right (le_refl _)]
      simp
    simp only [List.map_cons, countLoop, hget]
    by_cases hu : un p = true
    · simp only [hu, if_true, Bool.true_and]
      rw [e1, e2, ih]
      by_cases hp : p = self
      · simp [hp, List.countP_cons]
      · simp only [ne_eq, hp, not_false_eq_true, if_true, List.countP_cons, hu, Bool.true_and,
          decide_True]
        congr 1
        push_cast
        ring
    · have hu' : un p = false := by simpa using hu
      simp only [hu', Bool.false_eq_true, if_false]
      rw [e1, e2, ih]
      simp [List.countP_cons, hu']

theorem count_of_map (sm : SaucrMonitor) (un : Nat → Bool)
    (h : sm.unconnected = sm.peers.map un) :
    sm.countUnconnectedExceptSelf
      = some ((sm.peers.countP (fun p => un p && decide (p ≠ sm.self)) : Nat) : Int) := by
  unfold countUnconnectedExceptSelf
  rw [h]
  have := countLoop_spec sm.self un sm.peers [] 0
  simpa using this

theorem findIndexFrom_spec (key : Nat) :
    ∀ (l : List Nat) (i : Nat),
      (key ∉ l → findIndexFrom key l (i : Int) = -1) ∧
      (key ∈ l → ∃ j : Nat, findIndexFrom key l (i : Int) = ((i + j : Nat) : Int) ∧
        l[j]? = some key) := by
  intro l
  induction l with
  | nil => intro i; simp [findIndexFrom]
  | cons p l ih =>
    intro i
    by_cases hp : p = key
    · subst hp
      refine ⟨fun h => absurd (List.mem_cons_self _ _) h, fun _ => ⟨0, ?_, by simp⟩⟩
      simp [findIndexFrom]
    · have hcast : ((i : Int) + 1) = ((i + 1 : Nat) : Int) := by push_cast; rfl
      obtain ⟨h1, h2⟩ := ih (i + 1)
      constructor
      · intro hn
        have hn' : key ∉ l := fun hm => hn (List.mem_cons_of_mem _ hm)
        simp only [findIndexFrom, hp, if_false, hcast]
        exact h1 hn'
      · intro hm
        have hm' : key ∈ l := by
          rcases List.mem_cons.mp hm with h | h
          · exact absurd h.symm hp
          · exact h
        obtain ⟨j, hj1, hj2⟩ := h2 hm'
        refine ⟨j + 1, ?_, by simpa using hj2⟩
        simp only [findIndexFrom, hp, if_false, hcast, hj1]
        congr 1
        omega

theorem findIndex_not_mem (sm : SaucrMonitor) (key : Nat) (h : key ∉ sm.peers) :
    sm.findIndex key = -1 := by
  have := (findIndexFrom_spec key sm.peers 0).1 h
  simpa [findIndex] using this

theorem findIndex_mem (sm : SaucrMonitor) (key : Nat) (h : key ∈ sm.peers) :
    ∃ j : Nat, sm.findIndex key = (j : Int) ∧ sm.peers[j]? = some key := by
  obtain ⟨j, h1, h2⟩ := (findIndexFrom_spec key sm.peers 0).2 h
  refine ⟨j, ?_, h2⟩
  simpa [findIndex] using h1

theorem countP_ne_of_nodup (l : List Nat) (self : Nat) (hn : l.Nodup) (hs : self ∈ l) :
    l.countP (fun p => decide (p ≠ self)) + 1 = l.length := by
  have h1 : l.countP (fun p => decide (p = self)) = 1 := by
    have := List.count_eq_one_of_mem hn hs
    rw [List.count] at this
    rw [← this]
    congr 1
  have h2 := List.length_eq_countP_add_countP (fun p => decide (p = self)) l
  rw [h1] at h2
  have h3 : l.countP (fun a => decide ¬(decide (a = self)) = true)
      = l.countP (fun p => decide (p ≠ self)) := by
    congr 1
    funext p
    simp
  omega


/-- C9: for every config `c` accepted by `SetConfig` (on a monitor whose parallel arrays
have the length of its peer list) whose peer list consists of pairwise distinct ids
including `c.Self`: right after `SetConfig(c)`, `IsCritical()` and `GetConfig().Critical`
equal `c.Critical` for a leader (whose `mustCritical` is false) and for a follower whose
leader is not `None` and is among the peers, and equal true for a follower whose leader is
`None` or not among the peers and for a candidate. -/
theorem C9_IsCritical_right_after_SetConfig (sm sm1 : SaucrMonitor) (c : PerceptibleConfig)
    (hcoh : Coherent sm) (hset : sm.SetConfig c = some (sm1, none))
    (hnodup : c.Peers.Nodup) (hself : c.Self ∈ c.Peers) :
    3 ≤ c.Peers.length ∧
    sm1.IsCritical = some (expectedCritical c) ∧
    sm1.GetConfig.map (fun g => g.Critical) = some (expectedCritical c) ∧
    (c.State = StateType.StateLeader → sm1.mustCritical = false) := by
  obtain ⟨h3, hlead, hok, heq⟩ := SetConfig_accepted sm sm1 c hcoh hset
  have hun : sm1.unconnected = sm1.peers.map (fun _ => c.Critical) := by
    rw [heq]
    simp
  have hpe : sm1.peers = c.Peers := by rw [heq]
  have hse : sm1.self = c.Self := by rw [heq]
  have hst : sm1.state = c.State := by rw [heq]
  have hle : sm1.leader = c.Leader := by rw [heq]
  have hth : sm1.threshold = ((c.Peers.length : Int) - 1) / 2 := by rw [heq]
  have hmc : sm1.mustCritical = if c.State = StateType.StateLeader then false else c.Critical := by
    rw [heq]
  have hev : sm1.evaluate = some (expectedCritical c) := by
    unfold evaluate expectedCritical
    rw [hmc, hst, hle]
    cases hs : c.State with
    | StateLeader =>
      simp only [if_true, Bool.false_eq_true, if_false]
      rw [count_of_map sm1 _ hun, hpe, hse, hth]
      simp only [Option.map_some', Option.some.injEq]
      cases hc : c.Critical with
      | false =>
        simp only [Bool.false_and, List.countP_false, Function.const_apply, Nat.cast_zero,
          decide_eq_false_iff_not]
        omega
      | true =>
        have := countP_ne_of_nodup c.Peers c.Self hnodup hself
        simp only [Bool.true_and, decide_eq_true_eq]
        omega
    | StateFollower =>
      simp only [reduceCtorEq, if_false, true_and]
      cases hc : c.Critical with
      | true => simp
      | false =>
        simp only [Bool.false_eq_true, if_false]
        by_cases hl : c.Leader ≠ None ∧ c.Leader ∈ c.Peers
        · obtain ⟨j, hj1, hj2⟩ := findIndex_mem sm1 c.Leader (by rw [hpe]; exact hl.2)
          have hjn : sm1.findIndex c.Leader ≠ -1 := by rw [hj1]; omega
          rw [if_pos ⟨hl.1, hjn⟩, if_pos hl, hj1, MimicRaftKernelCollector.getInt_natCast, hun]
          obtain ⟨hlt, _⟩ := List.getElem?_eq_some.mp hj2
          simp [hlt, hc]
        · have hcond : ¬ (c.Leader ≠ None ∧ sm1.findIndex c.Leader ≠ -1) := by
            rintro ⟨h1, h2⟩
            by_cases hm : c.Leader ∈ c.Peers
            · exact hl ⟨h1, hm⟩
            · exact h2 (findIndex_not_mem sm1 c.Leader (by rw [hpe]; exact hm))
          rw [if_neg hcond, if_neg hl]
    | StateCandidate =>
      have hc : c.Critical = true := by
        rcases hok with h | h | h
        · rw [hs] at h; cases h
        · rw [hs] at h; cases h
        · exact h
      simp [hc]
    | StatePreCandidate =>
      have hc : c.Critical = true := by
        rcases hok with h | h | h
        · rw [hs] at h; cases h
        · rw [hs] at h; cases h
        · exact h
      simp [hc]
  refine ⟨h3, hev, ?_, ?_⟩
  · unfold GetConfig
    rw [hev]
    rfl
  · intro hl
    rw [hmc, if_pos hl]

/-- Witness for C9: a follower of leader 3 among five peers, set non-critical. -/
theorem C9_IsCritical_right_after_SetConfig_witness :
    3 ≤ [1, 2, 3, 4, 5].length ∧
    SaucrMonitor.IsCritical
        { leader := 3, self := 1, state := StateType.StateFollower, peers := [1, 2, 3, 4, 5],
          unconnected := [false, false, false, false, false],
          hbCounter := List.replicate 5 (NewSimpleBucketCounterFactory 2),
          hbCounterFactory := NewSimpleBucketCounterFactory 2, threshold := 2,
          mustCritical := false }
      = some (expectedCritical ⟨StateType.StateFollower, 3, 1, false, [1, 2, 3, 4, 5]⟩) ∧
    (SaucrMonitor.GetConfig
        { leader := 3, self := 1, state := StateType.StateFollower, peers := [1, 2, 3, 4, 5],
          unconnected := [false, false, false, false, false],
          hbCounter := List.replicate 5 (NewSimpleBucketCounterFactory 2),
          hbCounterFactory := NewSimpleBucketCounterFactory 2, threshold := 2,
          mustCritical := false }).map (fun g => g.Critical)
      = some (expectedCritical ⟨StateType.StateFollower, 3, 1, false, [1, 2, 3, 4, 5]⟩) ∧
    ((⟨StateType.StateFollower, 3, 1, false, [1, 2, 3, 4, 5]⟩ : PerceptibleConfig).State
        = StateType.StateLeader →
      SaucrMonitor.mustCritical
        { leader := 3, self := 1, state := StateType.StateFollower, peers := [1, 2, 3, 4, 5],
          unconnected := [false, false, false, false, false],
          hbCounter := List.replicate 5 (NewSimpleBucketCounterFactory 2),
          hbCounterFactory := NewSimpleBucketCounterFactory 2, threshold := 2,
          mustCritical := false } = false) :=
  C9_IsCritical_right_after_SetConfig
    { leader := 0, self := 0, state := StateType.StateFollower, peers := [],
      unconnected := [], hbCounter := [],
      hbCounterFactory := NewSimpleBucketCounterFactory 2, threshold := 0,
      mustCritical := false }
    _ ⟨StateType.StateFollower, 3, 1, false, [1, 2, 3, 4, 5]⟩
    (by unfold Coherent; decide) (by decide) (by decide) (by decide)


theorem map_set_of_nodup {β : Type} (l : List Nat) (f : Nat → β) (i : Nat) (p : Nat) (v : β)
    (hn : l.Nodup) (hi : l[i]? = some p) :
    (l.map f).set i v = l.map (Function.update f p v) := by
  obtain ⟨hlt, hp⟩ := List.getElem?_eq_some.mp hi
  apply List.ext_getElem
  · simp
  · intro j h1 h2
    simp only [List.getElem_set, List.getElem_map]
    by_cases hij : i = j
    · subst hij
      rw [if_pos rfl, hp]
      simp
    · rw [if_neg hij]
      have hj : j < l.length := by simpa using h2
      have hne : l[j] ≠ p := by
        intro heq
        rw [← hp] at heq
        exact hij ((List.Nodup.getElem_inj_iff hn).mp heq).symm
      simp [Function.update, hne]

theorem Perceive_spec (sm : SaucrMonitor) (p : Nat) (flag : Bool) (un : Nat → Bool)
    (hb : Nat → HeartbeatCounter)
    (hst : sm.state = StateType.StateLeader) (hps : p ≠ sm.self) (hp : p ∈ sm.peers)
    (hn : sm.peers.Nodup) (hun : sm.unconnected = sm.peers.map un)
    (hhb : sm.hbCounter = sm.peers.map hb) :
    sm.Perceive p flag = some
      { sm with
        hbCounter := sm.peers.map (Function.update hb p
          ((if flag then (hb p).Positive else (hb p).Negative).Report).2)
        unconnected := sm.peers.map (Function.update un p
          (!((if flag then (hb p).Positive else (hb p).Negative).Report).1)) } := by
  obtain ⟨j, hj1, hj2⟩ := findIndex_mem sm p hp
  obtain ⟨hlt, hpj⟩ := List.getElem?_eq_some.mp hj2
  have hjn : sm.findIndex p ≠ -1 := by rw [hj1]; omega
  have hst' : ¬ sm.state ≠ StateType.StateLeader := by simp [hst]
  have hget : getInt sm.hbCounter (j : Int) = some (hb p) := by
    rw [MimicRaftKernelCollector.getInt_natCast, hhb]
    simp [hlt, hpj]
  have hlen : j < sm.unconnected.length := by rw [hun]; simpa using hlt
  unfold Perceive
  rw [if_neg hps, if_neg hst']
  simp only [hjn, ne_eq, not_false_eq_true, if_true, hj1, hget, Int.toNat_ofNat, hlen]
  rw [hhb, hun, map_set_of_nodup _ _ _ _ _ hn hj2, map_set_of_nodup _ _ _ _ _ hn hj2]
  have hjn2 : ¬ ((j : Int) = -1) := by omega
  rw [if_pos hjn2]

theorem countP_mem_of_nodup (l d : List Nat) (self : Nat) (hl : l.Nodup) (hd : d.Nodup)
    (hsub : ∀ p ∈ d, p ∈ l ∧ p ≠ self) :
    l.countP (fun p => decide (p ∈ d) && decide (p ≠ self)) = d.length := by
  rw [List.countP_eq_length_filter]
  apply List.Perm.length_eq
  apply (List.perm_ext_iff_of_nodup (hl.filter _) hd).mpr
  intro a
  simp only [List.mem_filter, Bool.and_eq_true, decide_eq_true_eq]
  constructor
  · rintro ⟨_, h, _⟩; exact h
  · intro h; exact ⟨(hsub a h).1, h, (hsub a h).2⟩

theorem length_filter_not_mem (ps qs : List Nat) (hps : ps.Nodup) (hqs : qs.Nodup)
    (hsub : ∀ q ∈ qs, q ∈ ps) :
    (ps.filter (fun p => !decide (p ∈ qs))).length = ps.length - qs.length := by
  have h1 : (ps.filter (fun p => decide (p ∈ qs))).length = qs.length := by
    apply List.Perm.length_eq
    apply (List.perm_ext_iff_of_nodup (hps.filter _) hqs).mpr
    intro a
    simp only [List.mem_filter, decide_eq_true_eq]
    constructor
    · rintro ⟨_, h⟩; exact h
    · intro h; exact ⟨hsub a h, h⟩
  have h2 := List.length_eq_countP_add_countP (fun p => decide (p ∈ qs)) ps
  rw [List.countP_eq_length_filter, List.countP_eq_length_filter, h1] at h2
  have h3 : (ps.filter (fun a => decide ¬(decide (a ∈ qs)) = true))
      = ps.filter (fun p => !decide (p ∈ qs)) := by
    congr 1
    funext p
    simp
  rw [h3] at h2
  omega


theorem perceive_negatives (m : Int) :
    ∀ (ps A : List Nat) (sm : SaucrMonitor),
      sm.state = StateType.StateLeader → sm.peers.Nodup →
      (∀ p ∈ ps, p ∈ sm.peers ∧ p ≠ sm.self) →
      sm.unconnected = sm.peers.map (fun q => decide (q ∈ A)) →
      sm.hbCounter = sm.peers.map (fun _ => HeartbeatCounter.simple ⟨0, m⟩) →
      ∃ sm1, sm.perceiveAll ps false = some sm1 ∧
        sm1.unconnected = sm.peers.map (fun q => decide (q ∈ ps ++ A)) ∧
        sm1.hbCounter = sm.hbCounter ∧
        sm1.peers = sm.peers ∧ sm1.self = sm.self ∧ sm1.state = sm.state ∧
        sm1.threshold = sm.threshold ∧ sm1.mustCritical = sm.mustCritical := by
  intro ps
  induction ps with
  | nil =>
    intro A sm _ _ _ hun _
    exact ⟨sm, rfl, by simpa using hun, rfl, rfl, rfl, rfl, rfl, rfl⟩
  | cons p rest ih =>
    intro A sm hst hn hin hun hhb
    have hp := hin p (List.mem_cons_self _ _)
    have h1 := Perceive_spec sm p false _ _ hst hp.2 hp.1 hn hun hhb
    have e1 : Function.update (fun _ : Nat => HeartbeatCounter.simple ⟨0, m⟩) p
        ((if false = true then (HeartbeatCounter.simple ⟨0, m⟩).Positive
          else (HeartbeatCounter.simple ⟨0, m⟩).Negative).Report).2
        = fun _ => HeartbeatCounter.simple ⟨0, m⟩ := by
      funext q
      by_cases hq : q = p <;>
        simp [Function.update, hq, HeartbeatCounter.Negative, HeartbeatCounter.Report,
          SimpleBucketCounter.Negative]
    have e2 : Function.update (fun q => decide (q ∈ A)) p
        (!((if false = true then (HeartbeatCounter.simple ⟨0, m⟩).Positive
          else (HeartbeatCounter.simple ⟨0, m⟩).Negative).Report).1)
        = fun q => decide (q ∈ p :: A) := by
      funext q
      by_cases hq : q = p <;>
        simp [Function.update, hq, HeartbeatCounter.Negative, HeartbeatCounter.Report,
          SimpleBucketCounter.Negative, SimpleBucketCounter.Report]
    rw [e1, e2] at h1
    obtain ⟨sm2, hrun, hu2, hh2, hp2, hs2, hst2, ht2, hm2⟩ :=
      ih (p :: A)
        { sm with
          hbCounter := sm.peers.map (fun _ => HeartbeatCounter.simple ⟨0, m⟩)
          unconnected := sm.peers.map (fun q => decide (q ∈ p :: A)) }
        hst hn (fun q hq => hin q (List.mem_cons_of_mem _ hq)) rfl rfl
    refine ⟨sm2, ?_, ?_, by rw [hh2, hhb], hp2, hs2, hst2, ht2, hm2⟩
    · simp only [perceiveAll, h1]
      exact hrun
    · rw [hu2]
      apply List.map_congr_left
      intro q _
      simp only [List.mem_append, List.mem_cons, List.cons_append, decide_eq_decide]
      tauto

theorem perceive_positives (m : Int) (hm : 1 ≤ m) :
    ∀ (qs : List Nat) (un : Nat → Bool) (hb : Nat → HeartbeatCounter) (sm : SaucrMonitor),
      sm.state = StateType.StateLeader → sm.peers.Nodup →
      (∀ q ∈ qs, q ∈ sm.peers ∧ q ≠ sm.self) →
      sm.unconnected = sm.peers.map un → sm.hbCounter = sm.peers.map hb →
      (∀ q, ∃ c : Int, 0 ≤ c ∧ hb q = HeartbeatCounter.simple ⟨c, m⟩) →
      ∃ sm1, sm.perceiveAll qs true = some sm1 ∧
        sm1.unconnected = sm.peers.map (fun q => un q && !decide (q ∈ qs)) ∧
        sm1.peers = sm.peers ∧ sm1.self = sm.self ∧ sm1.state = sm.state ∧
        sm1.threshold = sm.threshold ∧ sm1.mustCritical = sm.mustCritical := by
  intro qs
  induction qs with
  | nil =>
    intro un hb sm _ _ _ hun _ _
    refine ⟨sm, rfl, ?_, rfl, rfl, rfl, rfl, rfl⟩
    rw [hun]
    simp
  | cons q rest ih =>
    intro un hb sm hst hn hin hun hhb hsimple
    have hq := hin q (List.mem_cons_self _ _)
    have h1 := Perceive_spec sm q true un hb hst hq.2 hq.1 hn hun hhb
    obtain ⟨c, hc, hbq⟩ := hsimple q
    have hrep : ((if true = true then (hb q).Positive else (hb q).Negative).Report)
        = (true, HeartbeatCounter.simple ⟨if c ≥ m then m else c + 1, m⟩) := by
      rw [hbq]
      simp only [if_true, HeartbeatCounter.Positive, HeartbeatCounter.Report,
        SimpleBucketCounter.Positive, SimpleBucketCounter.Report]
      split_ifs with hcm
      · simp only [Prod.mk.injEq, decide_eq_true_eq, and_true]
        omega
      · simp only [Prod.mk.injEq, decide_eq_true_eq, and_true]
        omega
    rw [hrep] at h1
    simp only [Bool.not_true] at h1
    obtain ⟨sm2, hrun, hu2, hp2, hs2, hst2, ht2, hm2⟩ :=
      ih (Function.update un q false)
        (Function.update hb q (HeartbeatCounter.simple ⟨if c ≥ m then m else c + 1, m⟩))
        { sm with
          hbCounter := sm.peers.map (Function.update hb q
            (HeartbeatCounter.simple ⟨if c ≥ m then m else c + 1, m⟩))
          unconnected := sm.peers.map (Function.update un q false) }
        hst hn (fun x hx => hin x (List.mem_cons_of_mem _ hx)) rfl rfl
        (by
          intro x
          by_cases hx : x = q
          · subst hx
            refine ⟨if c ≥ m then m else c + 1, ?_, by simp⟩
            split_ifs <;> omega
          · obtain ⟨c2, hc2, hx2⟩ := hsimple x
            exact ⟨c2, hc2, by simp [Function.update, hx, hx2]⟩)
    refine ⟨sm2, ?_, ?_, hp2, hs2, hst2, ht2, hm2⟩
    · simp only [perceiveAll, h1]
      exact hrun
    · rw [hu2]
      apply List.map_congr_left
      intro x _
      by_cases hx : x = q
      · simp [Function.update, hx]
      · simp [Function.update, hx]


theorem init_simple_counters (m : Int) (b : Bool) (l : List HeartbeatCounter) (peers : List Nat)
    (hlen : l.length = peers.length)
    (hs : ∀ h ∈ l, ∃ c, h = HeartbeatCounter.simple ⟨c, m⟩) :
    l.map (fun h => h.Init b) = peers.map (fun _ => HeartbeatCounter.simple ⟨0, m⟩) := by
  apply List.ext_getElem
  · simp [hlen]
  · intro i h1 h2
    simp only [List.getElem_map]
    have hi : i < l.length := by simpa using h1
    obtain ⟨c, hc⟩ := hs l[i] (List.getElem_mem _)
    rw [hc]
    simp [HeartbeatCounter.Init, SimpleBucketCounter.Init]

/-- C10 (counterexample): with simple-bucket counters of `maxToken = 0`, a leader among the
three peers `1, 2, 3` (self `1`) set non-critical becomes critical after `Perceive(2, false)`
(`k = 1 ≥ (3-1)/2`) and stays critical after `Perceive(2, true)`, although then
`k - j = 0 < 1`: the counter cannot rise above its zero `maxToken`. -/
theorem C10_counterexample_zero_maxToken :
    (NewSaucrMonitor (NewSimpleBucketCounterFactory 0)
        ⟨StateType.StateLeader, 1, 1, false, [1, 2, 3]⟩).map (fun r =>
      r.1.bind (fun sm => (sm.perceiveAll [2] false).bind (fun sm2 =>
        (sm2.perceiveAll [2] true).map (fun sm3 => (sm2.IsCritical, sm3.IsCritical)))))
      = some (some (some true, some true)) := by
  decide

/-- C10 (amended): on a leader monitor with `n ≥ 3` distinct peers and simple-bucket
counters whose `maxToken` is at least 1 (the parallel arrays of the monitor having the
length of its peer list), right after `SetConfig` with `critical = false`: after
`Perceive(p, false)` for `k` distinct non-self peers `p`, `IsCritical()` is true iff
`k ≥ (n-1)/2`, and after then `Perceive(p, true)` for `j` of those peers it is true iff
`k - j ≥ (n-1)/2`; for `n = 5` the bound is 2.  No call panics. -/
theorem C10_leader_detection (sm sm1 : SaucrMonitor) (c : PerceptibleConfig) (m : Int)
    (ps qs : List Nat)
    (hcoh : Coherent sm)
    (hfac : sm.hbCounterFactory = NewSimpleBucketCounterFactory m)
    (hsimple : ∀ h ∈ sm.hbCounter, ∃ cnt, h = HeartbeatCounter.simple ⟨cnt, m⟩)
    (hm : 1 ≤ m)
    (hstate : c.State = StateType.StateLeader) (hcrit : c.Critical = false)
    (hnodup : c.Peers.Nodup)
    (hset : sm.SetConfig c = some (sm1, none))
    (hps : ps.Nodup) (hpsin : ∀ p ∈ ps, p ∈ c.Peers ∧ p ≠ c.Self)
    (hqs : qs.Nodup) (hqsin : ∀ q ∈ qs, q ∈ ps) :
    3 ≤ c.Peers.length ∧
    ∃ sm2 sm3, sm1.perceiveAll ps false = some sm2 ∧
      sm2.IsCritical = some (decide (((c.Peers.length : Int) - 1) / 2 ≤ (ps.length : Int))) ∧
      sm2.perceiveAll qs true = some sm3 ∧
      sm3.IsCritical = some (decide (((c.Peers.length : Int) - 1) / 2
        ≤ ((ps.length - qs.length : Nat) : Int))) ∧
      (c.Peers.length = 5 →
        sm2.IsCritical = some (decide (2 ≤ ps.length)) ∧
        sm3.IsCritical = some (decide (2 ≤ ps.length - qs.length))) := by
  obtain ⟨h3, _, _, heq⟩ := SetConfig_accepted sm sm1 c hcoh hset
  have hpe : sm1.peers = c.Peers := by rw [heq]
  have hse : sm1.self = c.Self := by rw [heq]
  have hst : sm1.state = StateType.StateLeader := by rw [heq]; exact hstate
  have hth : sm1.threshold = ((c.Peers.length : Int) - 1) / 2 := by rw [heq]
  have hmc : sm1.mustCritical = false := by rw [heq]; simp [hstate]
  have hun : sm1.unconnected = sm1.peers.map (fun q => decide (q ∈ ([] : List Nat))) := by
    rw [heq]
    simp [hcrit]
  have hhb : sm1.hbCounter = sm1.peers.map (fun _ => HeartbeatCounter.simple ⟨0, m⟩) := by
    rw [heq]
    simp only []
    apply init_simple_counters
    · split_ifs with hl
      · simp
      · have hl2 : sm.peers.length = c.Peers.length := by
          by_contra hc; exact hl hc
        rw [hcoh.2, hl2]
    · intro h hh
      split_ifs at hh with hl
      · have := List.eq_of_mem_replicate hh
        rw [this, hfac]
        exact ⟨0, rfl⟩
      · exact hsimple h hh
  have hn1 : sm1.peers.Nodup := by rw [hpe]; exact hnodup
  obtain ⟨sm2, hrun2, hu2, hh2, hp2, hs2, hst2, ht2, hm2⟩ :=
    perceive_negatives m ps [] sm1 hst hn1 (by rw [hpe, hse]; exact hpsin) hun hhb
  have hcount2 : sm2.countUnconnectedExceptSelf = some ((ps.length : Nat) : Int) := by
    rw [count_of_map sm2 (fun q => decide (q ∈ ps ++ [])) (by rw [hu2, hp2])]
    rw [hp2, hs2, hpe, hse, List.append_nil, countP_mem_of_nodup c.Peers ps c.Self hnodup hps hpsin]
  have hcrit2 : sm2.IsCritical
      = some (decide (((c.Peers.length : Int) - 1) / 2 ≤ (ps.length : Int))) := by
    unfold IsCritical evaluate
    rw [hm2, hmc, hst2, hst, hcount2, ht2, hth]
    simp
  have hn2 : sm2.peers.Nodup := by rw [hp2]; exact hn1
  have hqsin2 : ∀ q ∈ qs, q ∈ sm2.peers ∧ q ≠ sm2.self := by
    intro q hq
    rw [hp2, hs2, hpe, hse]
    exact hpsin q (hqsin q hq)
  obtain ⟨sm3, hrun3, hu3, hp3, hs3, hst3, ht3, hm3⟩ :=
    perceive_positives m hm qs (fun q => decide (q ∈ ps ++ []))
      (fun _ => HeartbeatCounter.simple ⟨0, m⟩) sm2 (by rw [hst2, hst]) hn2 hqsin2
      (by rw [hu2, hp2]) (by rw [hh2, hhb, hp2]) (fun _ => ⟨0, le_refl _, rfl⟩)
  have hcount3 : sm3.countUnconnectedExceptSelf
      = some ((ps.length - qs.length : Nat) : Int) := by
    rw [count_of_map sm3 (fun q => decide (q ∈ ps ++ []) && !decide (q ∈ qs))
      (by rw [hu3, hp3])]
    rw [hp3, hs3, hp2, hs2, hpe, hse, List.append_nil]
    have hD : c.Peers.countP (fun p => decide (p ∈ ps.filter (fun x => !decide (x ∈ qs)))
        && decide (p ≠ c.Self)) = (ps.filter (fun x => !decide (x ∈ qs))).length :=
      countP_mem_of_nodup c.Peers _ c.Self hnodup (hps.filter _)
        (fun p hp => hpsin p (List.mem_filter.mp hp).1)
    rw [length_filter_not_mem ps qs hps hqs hqsin] at hD
    rw [← hD]
    congr 3
    funext p
    simp [List.mem_filter]
  have hcrit3 : sm3.IsCritical = some (decide (((c.Peers.length : Int) - 1) / 2
      ≤ ((ps.length - qs.length : Nat) : Int))) := by
    unfold IsCritical evaluate
    rw [hm3, hm2, hmc, hst3, hst2, hst, hcount3, ht3, ht2, hth]
    simp
  refine ⟨h3, sm2, sm3, hrun2, hcrit2, hrun3, hcrit3, ?_⟩
  intro h5
  rw [hcrit2, hcrit3, h5]
  constructor
  · congr 1
    simp only [decide_eq_decide]
    omega
  · congr 1
    simp only [decide_eq_decide]
    omega

/-- Witness for C10 (amended): five peers, `maxToken = 2`; peers 2 and 3 are perceived as
disconnected, then peer 3 as connected again. -/
theorem C10_leader_detection_witness :
    3 ≤ (⟨StateType.StateLeader, 1, 1, false, [1, 2, 3, 4, 5]⟩ : PerceptibleConfig).Peers.length ∧
    ∃ sm2 sm3,
      SaucrMonitor.perceiveAll
          { leader := 1, self := 1, state := StateType.StateLeader, peers := [1, 2, 3, 4, 5],
            unconnected := [false, false, false, false, false],
            hbCounter := List.replicate 5 (NewSimpleBucketCounterFactory 2),
            hbCounterFactory := NewSimpleBucketCounterFactory 2, threshold := 2,
            mustCritical := false } [2, 3] false = some sm2 ∧
      sm2.IsCritical = some (decide
        ((((⟨StateType.StateLeader, 1, 1, false, [1, 2, 3, 4, 5]⟩ :
          PerceptibleConfig).Peers.length : Int) - 1) / 2 ≤ (([2, 3] : List Nat).length : Int))) ∧
      sm2.perceiveAll [3] true = some sm3 ∧
      sm3.IsCritical = some (decide
        ((((⟨StateType.StateLeader, 1, 1, false, [1, 2, 3, 4, 5]⟩ :
          PerceptibleConfig).Peers.length : Int) - 1) / 2
          ≤ ((([2, 3] : List Nat).length - ([3] : List Nat).length : Nat) : Int))) ∧
      ((⟨StateType.StateLeader, 1, 1, false, [1, 2, 3, 4, 5]⟩ : PerceptibleConfig).Peers.length = 5 →
        sm2.IsCritical = some (decide (2 ≤ ([2, 3] : List Nat).length)) ∧
        sm3.IsCritical
          = some (decide (2 ≤ ([2, 3] : List Nat).length - ([3] : List Nat).length))) :=
  C10_leader_detection
    { leader := 0, self := 0, state := StateType.StateFollower, peers := [],
      unconnected := [], hbCounter := [],
      hbCounterFactory := NewSimpleBucketCounterFactory 2, threshold := 0,
      mustCritical := false }
    { leader := 1, self := 1, state := StateType.StateLeader, peers := [1, 2, 3, 4, 5],
      unconnected := [false, false, false, false, false],
      hbCounter := List.replicate 5 (NewSimpleBucketCounterFactory 2),
      hbCounterFactory := NewSimpleBucketCounterFactory 2, threshold := 2,
      mustCritical := false }
    ⟨StateType.StateLeader, 1, 1, false, [1, 2, 3, 4, 5]⟩ 2 [2, 3] [3]
    (by unfold Coherent; decide) rfl (fun h hh => absurd hh (List.not_mem_nil h)) (by decide)
    rfl rfl (by decide) (by decide) (by decide) (by decide) (by decide) (by decide)


/-- The monitor `NewSaucrMonitor` starts from has coherent (empty) arrays, and `SetConfig`
neither panics on a coherent monitor nor breaks coherence, whether it accepts the config
or not. -/
theorem SetConfig_coherent (sm : SaucrMonitor) (c : PerceptibleConfig) (hcoh : Coherent sm) :
    ∃ r, sm.SetConfig c = some r ∧ Coherent r.1 := by
  unfold SetConfig
  by_cases h0 : c.State = StateType.StateLeader ∧ c.Leader ≠ c.Self
  · rw [if_pos h0]
    exact ⟨_, rfl, hcoh⟩
  · rw [if_neg h0]
    simp only []
    obtain ⟨hs1, _⟩ := refreshState_spec
      { sm with leader := c.Leader, self := c.Self } c.State c.Critical
    generalize ({ sm with leader := c.Leader, self := c.Self } :
      SaucrMonitor).refreshStateWithOption c.State c.Critical = res at hs1
    obtain ⟨sm2, err⟩ := res
    simp only [] at hs1
    have hcoh2 : Coherent sm2 := by
      rw [hs1]
      exact hcoh
    cases err with
    | some e => exact ⟨_, rfl, hcoh2⟩
    | none =>
      simp only []
      unfold refreshPeersWithOption
      by_cases h1 : c.Peers.length = 0
      · rw [if_pos h1]
        exact ⟨_, rfl, hcoh2⟩
      · rw [if_neg h1]
        by_cases h3 : c.Peers.length < 3
        · rw [if_pos h3]
          exact ⟨_, rfl, hcoh2⟩
        · rw [if_neg h3]
          by_cases hl : sm2.peers.length ≠ c.Peers.length
          · simp only [hl, if_true, ne_eq, not_false_eq_true]
            have hi := initLoop_all c.Critical
              (List.replicate c.Peers.length sm2.hbCounterFactory)
              (List.replicate c.Peers.length false) (by simp)
            simp only [List.length_replicate] at hi
            rw [hi]
            refine ⟨_, rfl, ?_⟩
            simp [Coherent]
          · simp only [hl, if_false]
            have hl2 : sm2.peers.length = c.Peers.length := by
              by_contra hc; exact hl hc
            have hi := initLoop_all c.Critical sm2.hbCounter sm2.unconnected
              (by rw [hcoh2.1, hcoh2.2])
            rw [hcoh2.2, hl2] at hi
            rw [hi]
            refine ⟨_, rfl, ?_⟩
            simp [Coherent, hcoh2.2, hl2]

end SaucrMonitor

namespace MimicRaftKernelCollector

/-- An instance of `AddEntries_canonical_append`: the array `[(1,6),(1,7),(2,8)]` after
`(1,5)` receives `[(1,7),(3,8),(3,9)]` anchored at `(1,6)`; the entry at index 7 agrees, the
one at index 8 differs in term. -/
theorem AddEntries_canonical_append_example :
    ∃ c2, (new.init [⟨1, 6, 0⟩, ⟨1, 7, 0⟩, ⟨2, 8, 0⟩] 1 5).AddEntries
        [⟨1, 7, 1⟩, ⟨3, 8, 1⟩, ⟨3, 9, 1⟩] 1 6 = some (c2, true) ∧
      c2.content = [⟨1, 6, 0⟩, ⟨1, 7, 0⟩, ⟨3, 8, 1⟩, ⟨3, 9, 1⟩] := by
  obtain ⟨c2, h1, _, h3⟩ := AddEntries_canonical_append
    (new.init [⟨1, 6, 0⟩, ⟨1, 7, 0⟩, ⟨2, 8, 0⟩] 1 5) [⟨1, 7, 1⟩, ⟨3, 8, 1⟩, ⟨3, 9, 1⟩] 1 6
    (by decide) (by decide) (by decide) (by unfold Consecutive; decide)
    (by unfold Consecutive; decide) (by decide) (by decide) (Or.inr (by decide))
  refine ⟨c2, h1, ?_⟩
  have := (h3 1 (by decide) (by unfold StoredSameTerm; decide)
    (by unfold StoredSameTerm; decide)).1
  rw [this]
  decide

end MimicRaftKernelCollector
end Etcd

namespace Etcd
namespace SaucrMonitor

/-- What `SetConfig` does on a monitor with coherent arrays, branch by branch. -/
theorem SetConfig_eq (sm : SaucrMonitor) (c : PerceptibleConfig) (hcoh : Coherent sm) :
    sm.SetConfig c =
      if c.State = StateType.StateLeader ∧ c.Leader ≠ c.Self then
        some (sm, some "incoherent leader settings")
      else if c.State ≠ StateType.StateLeader ∧ c.State ≠ StateType.StateFollower
          ∧ c.Critical = false then
        some ({ sm with
                leader := c.Leader, self := c.Self, state := c.State,
                mustCritical := if c.State = StateType.StateLeader then false
                  else c.Critical },
              some "illegal refresh of the field 'mustCritical'")
      else if c.Peers.length = 0 then
        some ({ sm with
                leader := c.Leader, self := c.Self, state := c.State,
                mustCritical := if c.State = StateType.StateLeader then false
                  else c.Critical },
              some "monitor is refreshed by empty peer list")
      else if c.Peers.length < 3 then
        some ({ sm with
                leader := c.Leader, self := c.Self, state := c.State,
                mustCritical := if c.State = StateType.StateLeader then false
                  else c.Critical },
              some "monitor is refreshed by peer list with length < 3")
      else
        some ({ sm with
                leader := c.Leader
                self := c.Self
                state := c.State
                mustCritical := if c.State = StateType.StateLeader then false else c.Critical
                peers := c.Peers
                unconnected := List.replicate c.Peers.length c.Critical
                hbCounter := (if sm.peers.length ≠ c.Peers.length then
                    List.replicate c.Peers.length sm.hbCounterFactory else sm.hbCounter).map
                      (fun h => h.Init (!c.Critical))
                threshold := ((c.Peers.length : Int) - 1) / 2 }, none) := by
  by_cases h0 : c.State = StateType.StateLeader ∧ c.Leader ≠ c.Self
  · rw [if_pos h0]
    unfold SetConfig
    rw [if_pos h0]
  · rw [if_neg h0]
    by_cases h1 : c.State ≠ StateType.StateLeader ∧ c.State ≠ StateType.StateFollower
        ∧ c.Critical = false
    · rw [if_pos h1]
      unfold SetConfig
      rw [if_neg h0]
      obtain ⟨ha, hb, hc⟩ := h1
      unfold refreshStateWithOption
      simp [ha, hb, hc]
    · rw [if_neg h1]
      have hok : c.State = StateType.StateLeader ∨ c.State = StateType.StateFollower ∨
          c.Critical = true := by
        by_contra hn
        apply h1
        refine ⟨fun h => hn (Or.inl h), fun h => hn (Or.inr (Or.inl h)), ?_⟩
        cases hcr : c.Critical
        · rfl
        · exact absurd (Or.inr (Or.inr hcr)) hn
      by_cases h3 : c.Peers.length = 0 ∨ c.Peers.length < 3
      · have hrej : sm.SetConfig c = some ({ sm with
                leader := c.Leader, self := c.Self, state := c.State,
                mustCritical := if c.State = StateType.StateLeader then false
                  else c.Critical },
              some (if c.Peers.length = 0 then "monitor is refreshed by empty peer list"
                else "monitor is refreshed by peer list with length < 3")) := by
          unfold SetConfig
          rw [if_neg h0]
          simp only []
          obtain ⟨hs1, hs2⟩ := refreshState_spec
            { sm with leader := c.Leader, self := c.Self } c.State c.Critical
          generalize ({ sm with leader := c.Leader, self := c.Self } :
            SaucrMonitor).refreshStateWithOption c.State c.Critical = res at hs1 hs2
          obtain ⟨sm2, err⟩ := res
          simp only [] at hs1 hs2
          have herr : err = none := hs2.mpr hok
          subst herr
          simp only []
          unfold refreshPeersWithOption
          by_cases hz : c.Peers.length = 0
          · rw [if_pos hz, if_pos hz, hs1]
          · have hlt : c.Peers.length < 3 := by
              rcases h3 with h | h
              · exact absurd h hz
              · exact h
            rw [if_neg hz, if_neg hz, if_pos hlt, hs1]
        rw [hrej]
        by_cases hz : c.Peers.length = 0
        · rw [if_pos hz, if_pos hz]
        · have hlt : c.Peers.length < 3 := by
            rcases h3 with h | h
            · exact absurd h hz
            · exact h
          rw [if_neg hz, if_neg hz, if_pos hlt]
      · have hz : ¬ c.Peers.length = 0 := fun h => h3 (Or.inl h)
        have hlt : ¬ c.Peers.length < 3 := fun h => h3 (Or.inr h)
        rw [if_neg hz, if_neg hlt]
        obtain ⟨r, hr, _⟩ := SetConfig_coherent sm c hcoh
        obtain ⟨sm1, err⟩ := r
        have herr : err = none := by
          unfold SetConfig at hr
          rw [if_neg h0] at hr
          simp only [] at hr
          obtain ⟨hs1, hs2⟩ := refreshState_spec
            { sm with leader := c.Leader, self := c.Self } c.State c.Critical
          generalize ({ sm with leader := c.Leader, self := c.Self } :
            SaucrMonitor).refreshStateWithOption c.State c.Critical = res at hr hs1 hs2
          obtain ⟨sm2, err2⟩ := res
          simp only [] at hs1 hs2
          have herr2 : err2 = none := hs2.mpr hok
          subst herr2
          simp only [] at hr
          unfold refreshPeersWithOption at hr
          rw [if_neg hz, if_neg hlt] at hr
          simp only [] at hr
          split at hr
          · exact absurd hr (by simp)
          · have := congrArg Prod.snd (Option.some.inj hr)
            exact this.symm
        subst herr
        obtain ⟨_, _, _, heq⟩ := SetConfig_accepted sm sm1 c hcoh hr
        rw [hr, heq]

end SaucrMonitor
end Etcd
namespace Etcd
namespace SaucrMonitor

theorem perceiveSeq_not_leader (calls : List (Nat × Bool)) (sm : SaucrMonitor)
    (h : sm.state ≠ StateType.StateLeader) : sm.perceiveSeq calls = some sm := by
  induction calls with
  | nil => rfl
  | cons x rest ih =>
    obtain ⟨id, flag⟩ := x
    have hp : sm.Perceive id flag = some sm := by
      unfold Perceive
      by_cases hid : id = sm.self
      · rw [if_pos hid]
      · rw [if_neg hid, if_pos h]
    simp only [perceiveSeq, hp]
    exact ih

/-- C11 (counterexample): a simple-bucket monitor over the peers `1, 2, 3` (self `1`) is
set up as candidate (critical); a later `SetConfig` with role leader and an empty peer
list is rejected, yet it has already stored the role and cleared `mustCritical`; after
`Perceive(2, true)` and `Perceive(3, true)` the monitor, whose latest successful
`SetConfig` had role candidate, reports not critical. -/
theorem C11_counterexample_failed_SetConfig_in_between :
    (NewSaucrMonitor (NewSimpleBucketCounterFactory 2)
        ⟨StateType.StateCandidate, 0, 1, true, [1, 2, 3]⟩).map (fun r =>
      r.1.bind (fun sm => (sm.SetConfig ⟨StateType.StateLeader, 1, 1, false, []⟩).bind
        (fun r2 => (r2.1.perceiveSeq [(2, true), (3, true)]).map
          (fun sm3 => (r2.2, sm3.IsCritical)))))
      = some (some (some "monitor is refreshed by empty peer list", some false)) := by
  decide

/-- C11 (amended): for every monitor (with coherent arrays) whose latest `SetConfig` call
was accepted and had role candidate (or any role other than leader and follower), every
sequence of `Perceive(id, connected)` calls, for any ids and flags, runs without panic and
`IsCritical()` returns true after it. -/
theorem C11_candidate_stays_critical (sm sm1 : SaucrMonitor) (c : PerceptibleConfig)
    (calls : List (Nat × Bool)) (hcoh : Coherent sm)
    (hset : sm.SetConfig c = some (sm1, none))
    (hrole : c.State ≠ StateType.StateLeader ∧ c.State ≠ StateType.StateFollower) :
    ∃ sm2, sm1.perceiveSeq calls = some sm2 ∧ sm2.IsCritical = some true := by
  obtain ⟨_, _, hok, heq⟩ := SetConfig_accepted sm sm1 c hcoh hset
  have hcrit : c.Critical = true := by
    rcases hok with h | h | h
    · exact absurd h hrole.1
    · exact absurd h hrole.2
    · exact h
  have hst : sm1.state ≠ StateType.StateLeader := by rw [heq]; exact hrole.1
  have hmc : sm1.mustCritical = true := by
    rw [heq]
    simp [hrole.1, hcrit]
  refine ⟨sm1, perceiveSeq_not_leader calls sm1 hst, ?_⟩
  unfold IsCritical evaluate
  rw [hmc]
  rfl

/-- Witness for C11 (amended): a candidate among five peers. -/
theorem C11_candidate_stays_critical_witness :
    ∃ sm2, SaucrMonitor.perceiveSeq
        { leader := 0, self := 1, state := StateType.StateCandidate, peers := [1, 2, 3, 4, 5],
          unconnected := [true, true, true, true, true],
          hbCounter := List.replicate 5 (NewSimpleBucketCounterFactory 2),
          hbCounterFactory := NewSimpleBucketCounterFactory 2, threshold := 2,
          mustCritical := true } [(2, true), (3, false), (9, true)] = some sm2 ∧
      sm2.IsCritical = some true :=
  C11_candidate_stays_critical
    { leader := 0, self := 0, state := StateType.StateFollower, peers := [],
      unconnected := [], hbCounter := [],
      hbCounterFactory := NewSimpleBucketCounterFactory 2, threshold := 0,
      mustCritical := false }
    _ ⟨StateType.StateCandidate, 0, 1, true, [1, 2, 3, 4, 5]⟩ [(2, true), (3, false), (9, true)]
    (by unfold Coherent; decide) (by decide) (by decide)

/-- C12: on a monitor with coherent arrays (and no logger) `SetConfig` does not panic, and
it returns an error if and only if the config has role leader with `Leader ≠ Self`, or a
role other than leader and follower with `Critical = false`, or a peer list of fewer than
three members (nil and empty included); every other config is accepted. -/
theorem C12_SetConfig_rejects_iff (sm : SaucrMonitor) (c : PerceptibleConfig)
    (hcoh : Coherent sm) :
    ∃ sm1 err, sm.SetConfig c = some (sm1, err) ∧
      (err ≠ none ↔
        ((c.State = StateType.StateLeader ∧ c.Leader ≠ c.Self) ∨
         (c.State ≠ StateType.StateLeader ∧ c.State ≠ StateType.StateFollower
            ∧ c.Critical = false) ∨
         c.Peers.length < 3)) := by
  rw [SetConfig_eq sm c hcoh]
  by_cases h0 : c.State = StateType.StateLeader ∧ c.Leader ≠ c.Self
  · rw [if_pos h0]
    exact ⟨_, _, rfl, by simp [h0]⟩
  · rw [if_neg h0]
    by_cases h1 : c.State ≠ StateType.StateLeader ∧ c.State ≠ StateType.StateFollower
        ∧ c.Critical = false
    · rw [if_pos h1]
      exact ⟨_, _, rfl, by simp [h1]⟩
    · rw [if_neg h1]
      by_cases hz : c.Peers.length = 0
      · rw [if_pos hz]
        exact ⟨_, _, rfl, by simp [hz]⟩
      · rw [if_neg hz]
        by_cases hlt : c.Peers.length < 3
        · rw [if_pos hlt]
          exact ⟨_, _, rfl, by simp [hlt]⟩
        · rw [if_neg hlt]
          refine ⟨_, _, rfl, ?_⟩
          constructor
          · intro h; exact absurd rfl h
          · rintro (h | h | h)
            · exact absurd h h0
            · exact absurd h h1
            · exact absurd h hlt

/-- Witness for C12: a candidate config with `Critical = false` is rejected. -/
theorem C12_SetConfig_rejects_iff_witness :
    ∃ sm1 err, SaucrMonitor.SetConfig
        { leader := 0, self := 0, state := StateType.StateFollower, peers := [],
          unconnected := [], hbCounter := [],
          hbCounterFactory := NewSimpleBucketCounterFactory 2, threshold := 0,
          mustCritical := false }
        ⟨StateType.StateCandidate, 0, 1, false, [1, 2, 3]⟩ = some (sm1, err) ∧
      (err ≠ none ↔
        (((⟨StateType.StateCandidate, 0, 1, false, [1, 2, 3]⟩ : PerceptibleConfig).State
            = StateType.StateLeader ∧
          (⟨StateType.StateCandidate, 0, 1, false, [1, 2, 3]⟩ : PerceptibleConfig).Leader
            ≠ (⟨StateType.StateCandidate, 0, 1, false, [1, 2, 3]⟩ : PerceptibleConfig).Self) ∨
         ((⟨StateType.StateCandidate, 0, 1, false, [1, 2, 3]⟩ : PerceptibleConfig).State
            ≠ StateType.StateLeader ∧
          (⟨StateType.StateCandidate, 0, 1, false, [1, 2, 3]⟩ : PerceptibleConfig).State
            ≠ StateType.StateFollower ∧
          (⟨StateType.StateCandidate, 0, 1, false, [1, 2, 3]⟩ : PerceptibleConfig).Critical
            = false) ∨
         (⟨StateType.StateCandidate, 0, 1, false, [1, 2, 3]⟩ : PerceptibleConfig).Peers.length
            < 3)) :=
  C12_SetConfig_rejects_iff
    { leader := 0, self := 0, state := StateType.StateFollower, peers := [],
      unconnected := [], hbCounter := [],
      hbCounterFactory := NewSimpleBucketCounterFactory 2, threshold := 0,
      mustCritical := false }
    ⟨StateType.StateCandidate, 0, 1, false, [1, 2, 3]⟩ (by unfold Coherent; decide)

/-- C13 (counterexample): a follower of leader `3` among the peers `1..5`, not critical;
`SetConfig` with leader `None` and an empty peer list returns an error, but afterwards
`GetConfig()` shows leader `None` and `Critical = true`: the monitor has changed. -/
theorem C13_counterexample_rejected_SetConfig_changes_monitor :
    SaucrMonitor.GetConfig
        { leader := 3, self := 1, state := StateType.StateFollower, peers := [1, 2, 3, 4, 5],
          unconnected := [false, false, false, false, false],
          hbCounter := List.replicate 5 (NewSimpleBucketCounterFactory 2),
          hbCounterFactory := NewSimpleBucketCounterFactory 2, threshold := 2,
          mustCritical := false }
      = some ⟨StateType.StateFollower, 3, 1, false, [1, 2, 3, 4, 5]⟩ ∧
    (SaucrMonitor.SetConfig
        { leader := 3, self := 1, state := StateType.StateFollower, peers := [1, 2, 3, 4, 5],
          unconnected := [false, false, false, false, false],
          hbCounter := List.replicate 5 (NewSimpleBucketCounterFactory 2),
          hbCounterFactory := NewSimpleBucketCounterFactory 2, threshold := 2,
          mustCritical := false }
        ⟨StateType.StateFollower, 0, 1, false, []⟩).map (fun r => (r.2, r.1.GetConfig))
      = some (some "monitor is refreshed by empty peer list",
          some ⟨StateType.StateFollower, 0, 1, true, [1, 2, 3, 4, 5]⟩) := by
  refine ⟨by decide, by decide⟩

/-- C13 (amended): when `SetConfig(c)` returns an error (on a monitor with coherent arrays),
the peer list, the `unconnected` flags, the counters and the threshold are the same as
before the call; the monitor as a whole is unchanged when the error is the incoherent
leader (role leader with `Leader ≠ Self`); for the other errors `leader`, `self` and
`state` are those of `c` and `mustCritical` is false for role leader and `c.Critical`
otherwise. -/
theorem C13_rejected_SetConfig_keeps_peers (sm sm1 : SaucrMonitor) (c : PerceptibleConfig)
    (e : String) (hcoh : Coherent sm) (hset : sm.SetConfig c = some (sm1, some e)) :
    sm1.peers = sm.peers ∧ sm1.unconnected = sm.unconnected ∧ sm1.hbCounter = sm.hbCounter ∧
    sm1.threshold = sm.threshold ∧ sm1.hbCounterFactory = sm.hbCounterFactory ∧
    ((c.State = StateType.StateLeader ∧ c.Leader ≠ c.Self) → sm1 = sm) ∧
    (¬ (c.State = StateType.StateLeader ∧ c.Leader ≠ c.Self) →
      sm1.leader = c.Leader ∧ sm1.self = c.Self ∧ sm1.state = c.State ∧
      sm1.mustCritical = (if c.State = StateType.StateLeader then false else c.Critical)) := by
  rw [SetConfig_eq sm c hcoh] at hset
  by_cases h0 : c.State = StateType.StateLeader ∧ c.Leader ≠ c.Self
  · rw [if_pos h0] at hset
    have h1 := congrArg Prod.fst (Option.some.inj hset)
    simp only [] at h1
    subst h1
    exact ⟨rfl, rfl, rfl, rfl, rfl, fun _ => rfl, fun h => absurd h0 h⟩
  · rw [if_neg h0] at hset
    have key : sm1 = { sm with
        leader := c.Leader, self := c.Self, state := c.State,
        mustCritical := if c.State = StateType.StateLeader then false else c.Critical } := by
      by_cases h1 : c.State ≠ StateType.StateLeader ∧ c.State ≠ StateType.StateFollower
          ∧ c.Critical = false
      · rw [if_pos h1] at hset
        exact (congrArg Prod.fst (Option.some.inj hset)).symm
      · rw [if_neg h1] at hset
        by_cases hz : c.Peers.length = 0
        · rw [if_pos hz] at hset
          exact (congrArg Prod.fst (Option.some.inj hset)).symm
        · rw [if_neg hz] at hset
          by_cases hlt : c.Peers.length < 3
          · rw [if_pos hlt] at hset
            exact (congrArg Prod.fst (Option.some.inj hset)).symm
          · rw [if_neg hlt] at hset
            exact absurd (congrArg Prod.snd (Option.some.inj hset)) (by simp)
    rw [key]
    exact ⟨rfl, rfl, rfl, rfl, rfl, fun h => absurd h h0, fun _ => ⟨rfl, rfl, rfl, rfl⟩⟩

/-- Witness for C13 (amended): the rejected call of the counterexample. -/
theorem C13_rejected_SetConfig_keeps_peers_witness :
    SaucrMonitor.peers
        { leader := 0, self := 1, state := StateType.StateFollower, peers := [1, 2, 3, 4, 5],
          unconnected := [false, false, false, false, false],
          hbCounter := List.replicate 5 (NewSimpleBucketCounterFactory 2),
          hbCounterFactory := NewSimpleBucketCounterFactory 2, threshold := 2,
          mustCritical := false }
      = SaucrMonitor.peers
        { leader := 3, self := 1, state := StateType.StateFollower, peers := [1, 2, 3, 4, 5],
          unconnected := [false, false, false, false, false],
          hbCounter := List.replicate 5 (NewSimpleBucketCounterFactory 2),
          hbCounterFactory := NewSimpleBucketCounterFactory 2, threshold := 2,
          mustCritical := false } :=
  (C13_rejected_SetConfig_keeps_peers
    { leader := 3, self := 1, state := StateType.StateFollower, peers := [1, 2, 3, 4, 5],
      unconnected := [false, false, false, false, false],
      hbCounter := List.replicate 5 (NewSimpleBucketCounterFactory 2),
      hbCounterFactory := NewSimpleBucketCounterFactory 2, threshold := 2,
      mustCritical := false }
    { leader := 0, self := 1, state := StateType.StateFollower, peers := [1, 2, 3, 4, 5],
      unconnected := [false, false, false, false, false],
      hbCounter := List.replicate 5 (NewSimpleBucketCounterFactory 2),
      hbCounterFactory := NewSimpleBucketCounterFactory 2, threshold := 2,
      mustCritical := false }
    ⟨StateType.StateFollower, 0, 1, false, []⟩ "monitor is refreshed by empty peer list"
    (by unfold Coherent; decide) (by decide)).1

end SaucrMonitor
end Etcd
namespace Etcd
namespace InactivatedMonitor

theorem step_keeps_critical (iam iam1 : InactivatedMonitor) (op : Op)
    (hm : iam.mustCritical = true) (hop : op.keepsCritical = true)
    (hs : iam.step op = some iam1) :
    iam1.mustCritical = true ∧ iam1.hasLogger = iam.hasLogger := by
  cases op with
  | setConfig config =>
    have hc : config.Critical = true := hop
    simp only [step, SetConfig, Option.some.injEq] at hs
    subst hs
    by_cases hd : iam.disableCriticalUpdate = true
    · simp [hd, hm, hc]
    · simp [hd, hc]
  | perceive id isConnected =>
    simp only [step, Perceive, Option.some.injEq] at hs
    subst hs
    exact ⟨hm, rfl⟩
  | tryGetActivate activationFails =>
    simp only [step, TryGetActivate] at hs
    by_cases ha : activationFails = true
    · by_cases hg : iam.giveUpIfFail = true
      · simp [ha, hg] at hs
        subst hs
        exact ⟨hm, rfl⟩
      · by_cases hl : iam.hasLogger = true
        · simp [ha, hg, hl] at hs
          subst hs
          exact ⟨rfl, hl.symm⟩
        · simp [ha, hg, hl] at hs
    · simp [ha] at hs
      subst hs
      exact ⟨hm, rfl⟩

theorem step_total (iam : InactivatedMonitor) (op : Op) (hl : iam.hasLogger = true) :
    ∃ iam1, iam.step op = some iam1 := by
  cases op with
  | setConfig config => exact ⟨_, rfl⟩
  | perceive id isConnected => exact ⟨_, rfl⟩
  | tryGetActivate activationFails =>
    simp only [step, TryGetActivate, hl]
    by_cases ha : activationFails = true
    · by_cases hg : iam.giveUpIfFail = true
      · simp [ha, hg]
      · simp [ha, hg]
    · simp [ha]

theorem run_keeps_critical (ops : List Op) (iam : InactivatedMonitor)
    (hm : iam.mustCritical = true) (hops : ∀ op ∈ ops, op.keepsCritical = true) :
    (∀ iam1, iam.run ops = some iam1 → iam1.IsCritical = true) ∧
    (iam.hasLogger = true → ∃ iam1, iam.run ops = some iam1) := by
  induction ops generalizing iam with
  | nil =>
    refine ⟨fun iam1 h => ?_, fun _ => ⟨iam, rfl⟩⟩
    simp only [run, Option.some.injEq] at h
    subst h
    exact hm
  | cons op rest ih =>
    have hop := hops op (List.mem_cons_self _ _)
    have hrest : ∀ o ∈ rest, o.keepsCritical = true :=
      fun o ho => hops o (List.mem_cons_of_mem _ ho)
    constructor
    · intro iam1 h
      simp only [run] at h
      cases hs : iam.step op with
      | none => rw [hs] at h; exact absurd h (by simp)
      | some iam2 =>
        rw [hs] at h
        exact (ih iam2 (step_keeps_critical iam iam2 op hm hop hs).1 hrest).1 iam1 h
    · intro hl
      obtain ⟨iam2, hs⟩ := step_total iam op hl
      have h2 := step_keeps_critical iam iam2 op hm hop hs
      obtain ⟨iam1, h1⟩ := (ih iam2 h2.1 hrest).2 (h2.2.trans hl)
      exact ⟨iam1, by simp only [run, hs]; exact h1⟩

end InactivatedMonitor
end Etcd
namespace Etcd
namespace HeartbeatCounter

theorem cautious_Report (c : Int) (lr : Bool) :
    (HeartbeatCounter.customized
        { counter := c, lastResult := lr, polarize := false, config := CautiousCounterCfg }).Report
      = (decide (c > 75), HeartbeatCounter.customized
          { counter := c, lastResult := decide (c > 75), polarize := false,
            config := CautiousCounterCfg }) := by
  simp [Report, CustomizedBucketCounter.Report, CautiousCounterCfg]

theorem cautious_Negative (c : Int) (lr : Bool) :
    (HeartbeatCounter.customized
        { counter := c, lastResult := lr, polarize := false, config := CautiousCounterCfg }).Negative
      = HeartbeatCounter.customized
        { counter := if c > 0 then (if c - 10 < 0 then 0 else c - 10) else c,
          lastResult := lr, polarize := false, config := CautiousCounterCfg } := by
  simp only [Negative, CustomizedBucketCounter.Negative, CautiousCounterCfg]
  split_ifs <;> rfl

theorem cautious_Positive (c : Int) (lr : Bool) :
    (HeartbeatCounter.customized
        { counter := c, lastResult := lr, polarize := false, config := CautiousCounterCfg }).Positive
      = HeartbeatCounter.customized
        { counter := if c < 100 then (if c + 30 > 100 then 100 else c + 30) else c,
          lastResult := lr, polarize := false, config := CautiousCounterCfg } := by
  simp only [Positive, CustomizedBucketCounter.Positive, CautiousCounterCfg]
  split_ifs <;> rfl

theorem cautious_Negative_counter (k : Nat) :
    (if (if k ≤ 10 then 100 - 10 * (k : Int) else 0) > 0 then
        (if (if k ≤ 10 then 100 - 10 * (k : Int) else 0) - 10 < 0 then 0
         else (if k ≤ 10 then 100 - 10 * (k : Int) else 0) - 10)
      else (if k ≤ 10 then 100 - 10 * (k : Int) else 0))
      = if k + 1 ≤ 10 then 100 - 10 * ((k + 1 : Nat) : Int) else 0 := by
  split_ifs <;> push_cast <;> omega

theorem cautious_pair_counter (i : Nat) (c : Int)
    (hc : c = if i = 0 then 0 else if i ≤ 4 then 10 + 20 * (i : Int) else 100) :
    (if (if c > 0 then (if c - 10 < 0 then 0 else c - 10) else c) < 100 then
        (if (if c > 0 then (if c - 10 < 0 then 0 else c - 10) else c) + 30 > 100 then 100
         else (if c > 0 then (if c - 10 < 0 then 0 else c - 10) else c) + 30)
      else (if c > 0 then (if c - 10 < 0 then 0 else c - 10) else c))
      = if i + 1 = 0 then 0 else if i + 1 ≤ 4 then 10 + 20 * ((i + 1 : Nat) : Int) else 100 := by
  split_ifs at hc ⊢ <;> push_cast <;> first | omega | contradiction

theorem cautious_Negative_step (k : Nat) (lr : Bool) :
    (HeartbeatCounter.customized
        { counter := if k ≤ 10 then 100 - 10 * (k : Int) else 0, lastResult := lr,
          polarize := false, config := CautiousCounterCfg }).Negative
      = HeartbeatCounter.customized
        { counter := if k + 1 ≤ 10 then 100 - 10 * ((k + 1 : Nat) : Int) else 0,
          lastResult := lr, polarize := false, config := CautiousCounterCfg } := by
  rw [cautious_Negative, cautious_Negative_counter]

theorem cautious_pair_step (i : Nat) (lr : Bool) :
    (HeartbeatCounter.customized
        { counter := if i = 0 then 0 else if i ≤ 4 then 10 + 20 * (i : Int) else 100,
          lastResult := lr, polarize := false, config := CautiousCounterCfg }).negativePositive
      = HeartbeatCounter.customized
        { counter := if i + 1 = 0 then 0 else if i + 1 ≤ 4 then 10 + 20 * ((i + 1 : Nat) : Int)
            else 100,
          lastResult := lr, polarize := false, config := CautiousCounterCfg } := by
  unfold negativePositive
  rw [cautious_Negative, cautious_Positive, cautious_pair_counter i _ rfl]

theorem cautious_negatives_iterate (j k : Nat) (lr : Bool) :
    Negative^[j] (HeartbeatCounter.customized
        { counter := if k ≤ 10 then 100 - 10 * (k : Int) else 0, lastResult := lr,
          polarize := false, config := CautiousCounterCfg })
      = HeartbeatCounter.customized
        { counter := if k + j ≤ 10 then 100 - 10 * ((k + j : Nat) : Int) else 0,
          lastResult := lr, polarize := false, config := CautiousCounterCfg } := by
  induction j generalizing k with
  | zero => rfl
  | succ j ih =>
    rw [Function.iterate_succ_apply, cautious_Negative_step, ih (k + 1)]
    have h : k + 1 + j = k + (j + 1) := by omega
    rw [h]

theorem cautious_pairs_iterate (j i : Nat) (lr : Bool) :
    negativePositive^[j] (HeartbeatCounter.customized
        { counter := if i = 0 then 0 else if i ≤ 4 then 10 + 20 * (i : Int) else 100,
          lastResult := lr, polarize := false, config := CautiousCounterCfg })
      = HeartbeatCounter.customized
        { counter := if i + j = 0 then 0 else if i + j ≤ 4 then 10 + 20 * ((i + j : Nat) : Int)
            else 100,
          lastResult := lr, polarize := false, config := CautiousCounterCfg } := by
  induction j generalizing i with
  | zero => rfl
  | succ j ih =>
    rw [Function.iterate_succ_apply, cautious_pair_step, ih (i + 1)]
    have h : i + 1 + j = i + (j + 1) := by omega
    rw [h]

theorem cautious_negatives_reports (n k : Nat) (lr : Bool) :
    reportsAfterEach Negative n (HeartbeatCounter.customized
        { counter := if k ≤ 10 then 100 - 10 * (k : Int) else 0, lastResult := lr,
          polarize := false, config := CautiousCounterCfg })
      = (List.range n).map (fun j => decide (k + j + 1 < 3)) := by
  induction n generalizing k lr with
  | zero => rfl
  | succ n ih =>
    rw [reportsAfterEach, cautious_Negative_step, cautious_Report, ih (k + 1),
      List.range_succ_eq_map, List.map_cons, List.map_map]
    congr 1
    · simp only [decide_eq_decide]
      split_ifs <;> push_cast <;> first | omega | contradiction | (simp; omega)
    · apply List.map_congr_left
      intro j _
      simp only [Function.comp_apply, decide_eq_decide]
      omega

theorem cautious_pairs_reports (n i : Nat) (lr : Bool) :
    reportsAfterEach negativePositive n (HeartbeatCounter.customized
        { counter := if i = 0 then 0 else if i ≤ 4 then 10 + 20 * (i : Int) else 100,
          lastResult := lr, polarize := false, config := CautiousCounterCfg })
      = (List.range n).map (fun j => decide (4 ≤ i + j + 1)) := by
  induction n generalizing i lr with
  | zero => rfl
  | succ n ih =>
    rw [reportsAfterEach, cautious_pair_step, cautious_Report, ih (i + 1),
      List.range_succ_eq_map, List.map_cons, List.map_map]
    congr 1
    · simp only [decide_eq_decide]
      split_ifs <;> push_cast <;> first | omega | contradiction | (simp; omega)
    · apply List.map_congr_left
      intro j _
      simp only [Function.comp_apply, decide_eq_decide]
      omega

/-- C15: on the Cautious counter (the one `CautiousHbCounterFactory` returns) after
`Init(true)`, for every `k` the value `Report()` returns after `k` consecutive
`Negative()` calls is true when `k < 3` and false when `k ≥ 3`; the same holds when
`Report()` is also called after each of the earlier `Negative()` calls, as the test does. -/
theorem C15_cautious_three_negatives (k : Nat) :
    CautiousCounterCfg = { N := 100, wPlus := 30, wMinus := 10, xiPlus := 100, xiMinus := 0,
                           t := 75 } ∧
    ((Negative^[k] (CautiousHbCounterFactory.Init true)).Report).1 = decide (k < 3) ∧
    reportsAfterEach Negative k (CautiousHbCounterFactory.Init true)
      = (List.range k).map (fun j => decide (j + 1 < 3)) := by
  have h0 : CautiousHbCounterFactory.Init true = HeartbeatCounter.customized
      { counter := if 0 ≤ 10 then 100 - 10 * ((0 : Nat) : Int) else 0, lastResult := true,
        polarize := false, config := CautiousCounterCfg } := by decide
  refine ⟨rfl, ?_, ?_⟩
  · rw [h0, cautious_negatives_iterate, cautious_Report]
    simp only [decide_eq_decide]
    split_ifs <;> push_cast <;> first | omega | contradiction | (simp; omega)
  · rw [h0, cautious_negatives_reports]
    apply List.map_congr_left
    intro j _
    simp only [decide_eq_decide]
    omega

/-- C16: on the Cautious counter after `Init(false)`, for every `i` the value `Report()`
returns after `i` pairs of `Negative()` then `Positive()` is false when `i < 4` and true
when `i ≥ 4`; the same holds when `Report()` is also called after each earlier pair. -/
theorem C16_cautious_four_pairs (i : Nat) :
    ((negativePositive^[i] (CautiousHbCounterFactory.Init false)).Report).1 = decide (4 ≤ i) ∧
    reportsAfterEach negativePositive i (CautiousHbCounterFactory.Init false)
      = (List.range i).map (fun j => decide (4 ≤ j + 1)) := by
  have h0 : CautiousHbCounterFactory.Init false = HeartbeatCounter.customized
      { counter := if 0 = 0 then 0 else if 0 ≤ 4 then 10 + 20 * ((0 : Nat) : Int) else 100,
        lastResult := false, polarize := false, config := CautiousCounterCfg } := by decide
  refine ⟨?_, ?_⟩
  · rw [h0, cautious_pairs_iterate, cautious_Report]
    simp only [decide_eq_decide]
    split_ifs <;> push_cast <;> first | omega | contradiction | (simp; omega)
  · rw [h0, cautious_pairs_reports]
    apply List.map_congr_left
    intro j _
    simp only [decide_eq_decide]
    omega

theorem bipolar_pair_stuck (c b0 b1 : Int) (h1 : 1 ≤ c) (h2 : c < b0) :
    (HeartbeatCounter.bipolar
        { critical := true, counter := c, bipolar0 := b0, bipolar1 := b1 }).negativePositive.Report
      = (false, HeartbeatCounter.bipolar
          { critical := true, counter := c, bipolar0 := b0, bipolar1 := b1 }) := by
  have hn : ¬ c ≤ 0 := by omega
  simp [negativePositive, Negative, Positive, Report, BipolarHbCounter.Negative,
    BipolarHbCounter.Positive, BipolarHbCounter.Report, h2, hn]

theorem bipolar_reports_stuck (k : Nat) (c b0 b1 : Int) (h1 : 1 ≤ c) (h2 : c < b0) :
    reportsAfterEach negativePositive k (HeartbeatCounter.bipolar
        { critical := true, counter := c, bipolar0 := b0, bipolar1 := b1 })
      = List.replicate k false := by
  induction k with
  | zero => rfl
  | succ k ih =>
    rw [reportsAfterEach, bipolar_pair_stuck c b0 b1 h1 h2, ih]
    rfl

theorem bipolar_never_recovers (bPlus bMinus : Int) (k : Nat) (h : 3 ≤ bMinus) :
    reportsAfterEach negativePositive k ((BipolarHbCounterFactoryGenerator bPlus bMinus).Init false)
      = List.replicate k false := by
  cases k with
  | zero => rfl
  | succ k =>
    have hfirst : ((BipolarHbCounterFactoryGenerator bPlus bMinus).Init false).negativePositive.Report
        = (false, HeartbeatCounter.bipolar
            { critical := true, counter := bMinus - 1 - 1, bipolar0 := bMinus,
              bipolar1 := bPlus }) := by
      have hn : ¬ bMinus - 1 - 1 ≤ 0 := by omega
      simp [BipolarHbCounterFactoryGenerator, Init, BipolarHbCounter.Init, negativePositive,
        Negative, Positive, Report, BipolarHbCounter.Negative, BipolarHbCounter.Positive,
        BipolarHbCounter.Report, hn]
    rw [reportsAfterEach, hfirst,
      bipolar_reports_stuck k (bMinus - 1 - 1) bMinus bPlus (by omega) (by omega)]
    rfl

/-- C17: the bipolar counter does not cross after exactly `bMinus` pairs.  With
`bPlus = 3`, `bMinus = 2`, after `Init(false)`, `Report()` already returns true after the
first `Negative(); Positive()` pair (the claim and `TestBipolarHbCounter` expect false
there); with `bMinus = 3` it returns false after each of the first three pairs (they expect
true after the third), and after each of the first ten. -/
theorem C17_bipolar_crossing_miscounts :
    reportsAfterEach negativePositive 2 ((BipolarHbCounterFactoryGenerator 3 2).Init false)
      = [true, true] ∧
    reportsAfterEach negativePositive 3 ((BipolarHbCounterFactoryGenerator 3 3).Init false)
      = [false, false, false] ∧
    reportsAfterEach negativePositive 10 ((BipolarHbCounterFactoryGenerator 3 3).Init false)
      = List.replicate 10 false := by
  decide

end HeartbeatCounter

namespace CustomizedBucketCounter

/-- C18: for every customized-bucket counter, `Report()` returns `counter > t` evaluated
on the counter before the call and leaves `lastResult` equal to that value; the counter is
reset to `xiPlus` (value true) or `xiMinus` (value false) exactly when `polarize` is set
and the value differs from the previous `lastResult`, and is unchanged otherwise;
`polarize` and the config are unchanged. -/
theorem C18_Report_value_and_polarize (cbc : CustomizedBucketCounter) :
    cbc.Report =
      (decide (cbc.counter > cbc.config.t),
       { counter :=
           if cbc.polarize = true ∧ cbc.lastResult ≠ decide (cbc.counter > cbc.config.t) then
             (if cbc.counter > cbc.config.t then cbc.config.xiPlus else cbc.config.xiMinus)
           else cbc.counter,
         lastResult := decide (cbc.counter > cbc.config.t),
         polarize := cbc.polarize,
         config := cbc.config }) := by
  obtain ⟨c, lr, pol, cfg⟩ := cbc
  by_cases hr : c > cfg.t <;> cases pol <;> cases lr <;> simp [Report, Init, hr]

end CustomizedBucketCounter
end Etcd
namespace Etcd

theorem sameTermRuns_cons_head (e : Entry) (es : List Entry) :
    ∃ r rs, sameTermRuns (e :: es) = (e :: r) :: rs := by
  simp only [sameTermRuns]
  cases sameTermRuns es with
  | nil => exact ⟨[], [], rfl⟩
  | cons r rs =>
    by_cases hc : r.head?.map (fun x => x.term) = some e.term
    · exact ⟨r, rs, by simp only [if_pos hc]⟩
    · exact ⟨[], r :: rs, by simp only [if_neg hc]⟩

theorem sameTermRuns_run_then_other (f : Entry) (pre : List Entry) (e : Entry)
    (rest : List Entry) (hconst : ∀ x ∈ pre, x.term = f.term) (hne : f.term ≠ e.term) :
    sameTermRuns (f :: pre ++ e :: rest) = (f :: pre) :: sameTermRuns (e :: rest) := by
  induction pre generalizing f with
  | nil =>
    obtain ⟨r, rs, hr⟩ := sameTermRuns_cons_head e rest
    have hc : ¬ (some e.term = some f.term) := fun h => hne (Option.some.inj h).symm
    simp only [List.nil_append, List.cons_append]
    rw [sameTermRuns, hr]
    simp only [List.head?_cons, Option.map_some', if_neg hc]
  | cons y pre ih =>
    have hy : y.term = f.term := hconst y (List.mem_cons_self _ _)
    have h1 := ih y (fun x hx => (hconst x (List.mem_cons_of_mem _ hx)).trans hy.symm)
      (hy ▸ hne)
    simp only [List.cons_append] at h1 ⊢
    rw [sameTermRuns, h1]
    simp only [List.head?_cons, Option.map_some', hy, if_true]

theorem sameTermRuns_single_run (f : Entry) (pre : List Entry)
    (hconst : ∀ x ∈ pre, x.term = f.term) :
    sameTermRuns (f :: pre) = [f :: pre] := by
  induction pre generalizing f with
  | nil => rfl
  | cons y pre ih =>
    have hy : y.term = f.term := hconst y (List.mem_cons_self _ _)
    have h1 := ih y (fun x hx => (hconst x (List.mem_cons_of_mem _ hx)).trans hy.symm)
    rw [sameTermRuns, h1]
    simp only [List.head?_cons, Option.map_some', hy, if_true]

theorem extractLoop_open_run (p : Nat) (es : List Entry) (f : Entry) (pre : List Entry)
    (q : Nat) (res : List BriefSegment) (hconst : ∀ x ∈ pre, x.term = f.term) :
    (match extractLoop p es
        (some { Term := f.term, PrevLogTerm := q, FirstIndex := f.index,
                LastIndex := (pre.getLast?.getD f).index }) res with
      | (some brief, res1) => res1 ++ [brief]
      | (none, res1) => res1)
      = res ++ segmentsOfRuns q (sameTermRuns (f :: pre ++ es)) := by
  induction es generalizing f pre q res with
  | nil =>
    rw [List.append_nil, sameTermRuns_single_run f pre hconst]
    simp only [extractLoop, segmentsOfRuns, List.head?_cons, List.getLast?_cons]
  | cons e rest ih =>
    by_cases he : f.term = e.term
    · have h1 := ih f (pre ++ [e]) q res (by
        intro x hx
        rcases List.mem_append.mp hx with h | h
        · exact hconst x h
        · rw [List.mem_singleton.mp h]; exact he.symm)
      simp only [List.getLast?_append, List.getLast?_singleton,
        Option.getD_some, List.cons_append, List.append_assoc, List.singleton_append] at h1
      simp only [extractLoop, if_pos he, List.cons_append]
      exact h1
    · have h1 := ih e [] f.term (res ++ [(⟨f.term, q, f.index, (pre.getLast?.getD f).index⟩ : BriefSegment)])
          (fun x hx => absurd hx (List.not_mem_nil x))
      simp only [List.getLast?_nil, Option.getD_none, List.cons_append, List.nil_append,
        List.append_assoc, List.singleton_append] at h1
      rw [sameTermRuns_run_then_other f pre e rest hconst he]
      simp only [extractLoop, if_neg he, segmentsOfRuns, List.head?_cons, List.getLast?_cons]
      exact h1

theorem ExtractBrief_eq_segmentsOfRuns (p : Nat) (E : List Entry) :
    ExtractBriefFromEntries p E = segmentsOfRuns p (sameTermRuns E) := by
  cases E with
  | nil => rfl
  | cons e rest =>
    have h := extractLoop_open_run p rest e [] p [] (fun x hx => absurd hx (List.not_mem_nil x))
    simp only [List.getLast?_nil, Option.getD_none, List.nil_append, List.cons_append] at h
    simp only [ExtractBriefFromEntries, extractLoop]
    exact h

theorem sameTermRuns_spec (E : List Entry) :
    (sameTermRuns E).flatten = E ∧
    (∀ r ∈ sameTermRuns E, r ≠ [] ∧ ∀ x ∈ r, ∀ y ∈ r, x.term = y.term) ∧
    List.Chain' (fun r1 r2 => ∀ x ∈ r1, ∀ y ∈ r2, x.term ≠ y.term) (sameTermRuns E) := by
  induction E with
  | nil => exact ⟨rfl, fun r hr => absurd hr (List.not_mem_nil r), List.chain'_nil⟩
  | cons e es ih =>
    obtain ⟨hf, hc, hch⟩ := ih
    rw [sameTermRuns]
    cases hruns : sameTermRuns es with
    | nil =>
      rw [hruns] at hf
      have hes : es = [] := hf.symm
      subst hes
      refine ⟨rfl, ?_, List.chain'_singleton _⟩
      intro r hr
      rw [List.mem_singleton.mp hr]
      refine ⟨List.cons_ne_nil _ _, ?_⟩
      intro x hx y hy
      rw [List.mem_singleton.mp hx, List.mem_singleton.mp hy]
    | cons r rs =>
      rw [hruns] at hf hc hch
      have hr := hc r (List.mem_cons_self _ _)
      cases r with
      | nil => exact absurd rfl hr.1
      | cons y r1 =>
        have hy : ∀ x ∈ y :: r1, x.term = y.term :=
          fun x hx => hr.2 x hx y (List.mem_cons_self _ _)
        simp only [List.head?_cons, Option.map_some', Option.some.injEq]
        by_cases hye : y.term = e.term
        · rw [if_pos hye]
          have hall : ∀ x ∈ e :: y :: r1, x.term = e.term := by
            intro x hx
            rcases List.mem_cons.mp hx with h | h
            · rw [h]
            · exact (hy x h).trans hye
          refine ⟨?_, ?_, ?_⟩
          · rw [← hf]; rfl
          · intro r2 hr2
            rcases List.mem_cons.mp hr2 with h | h
            · rw [h]
              exact ⟨List.cons_ne_nil _ _, fun a ha b hb => (hall a ha).trans (hall b hb).symm⟩
            · exact hc r2 (List.mem_cons_of_mem _ h)
          · cases rs with
            | nil => exact List.chain'_singleton _
            | cons r2 rs2 =>
              rw [List.chain'_cons] at hch ⊢
              refine ⟨?_, hch.2⟩
              intro a ha b hb
              rw [hall a ha, ← hye]
              exact hch.1 y (List.mem_cons_self _ _) b hb
        · rw [if_neg hye]
          refine ⟨?_, ?_, ?_⟩
          · rw [← hf]; rfl
          · intro r2 hr2
            rcases List.mem_cons.mp hr2 with h | h
            · rw [h]
              refine ⟨List.cons_ne_nil _ _, ?_⟩
              intro a ha b hb
              rw [List.mem_singleton.mp ha, List.mem_singleton.mp hb]
            · exact hc r2 h
          · rw [List.chain'_cons]
            refine ⟨?_, hch⟩
            intro a ha b hb
            rw [List.mem_singleton.mp ha, hy b hb]
            exact fun h => hye h.symm

theorem segmentsOfRuns_cons (q : Nat) (f : Entry) (r : List Entry) (rs : List (List Entry)) :
    segmentsOfRuns q ((f :: r) :: rs)
      = { Term := f.term, PrevLogTerm := q, FirstIndex := f.index,
          LastIndex := (r.getLast?.getD f).index } :: segmentsOfRuns f.term rs := by
  simp only [segmentsOfRuns, List.head?_cons, List.getLast?_cons]

theorem segmentsOfRuns_spec (runs : List (List Entry)) (q : Nat)
    (hne : ∀ r ∈ runs, r ≠ [])
    (hch : List.Chain' (fun r1 r2 => ∀ x ∈ r1, ∀ y ∈ r2, x.term ≠ y.term) runs) :
    (segmentsOfRuns q runs).length = runs.length ∧
    List.Chain' (fun s1 s2 => s1.Term ≠ s2.Term ∧ s2.PrevLogTerm = s1.Term)
      (segmentsOfRuns q runs) := by
  induction runs generalizing q with
  | nil => exact ⟨rfl, List.chain'_nil⟩
  | cons r rs ih =>
    cases r with
    | nil => exact absurd rfl (hne [] (List.mem_cons_self _ _))
    | cons f r1 =>
      have hne2 : ∀ r ∈ rs, r ≠ [] := fun r hr => hne r (List.mem_cons_of_mem _ hr)
      rw [segmentsOfRuns_cons]
      cases rs with
      | nil => exact ⟨rfl, List.chain'_singleton _⟩
      | cons r2 rs2 =>
        cases r2 with
        | nil => exact absurd rfl (hne2 [] (List.mem_cons_self _ _))
        | cons g r3 =>
          rw [List.chain'_cons] at hch
          have h2 := ih f.term hne2 hch.2
          rw [segmentsOfRuns_cons] at h2 ⊢
          refine ⟨by simp only [List.length_cons] at h2 ⊢; omega, ?_⟩
          rw [List.chain'_cons]
          exact ⟨⟨hch.1 f (List.mem_cons_self _ _) g (List.mem_cons_self _ _), rfl⟩, h2.2⟩

/-- C20: `ExtractBriefFromEntries(p, E)` returns exactly one segment per maximal run of
consecutive entries with equal term, in order.  The runs `sameTermRuns E` concatenate to
`E`, each is non-empty with one term, and adjacent runs differ in term; the result is the
list that has for each run the run's term, the indices of its first and last entries, and
as `PrevLogTerm` the value `p` for the first segment and the preceding segment's term for
every later one.  Adjacent segments have different terms, and the result is empty iff
`E` is empty. -/
theorem C20_ExtractBrief_one_segment_per_run (p : Nat) (E : List Entry) :
    ExtractBriefFromEntries p E = segmentsOfRuns p (sameTermRuns E) ∧
    (sameTermRuns E).flatten = E ∧
    (∀ r ∈ sameTermRuns E, r ≠ [] ∧ ∀ x ∈ r, ∀ y ∈ r, x.term = y.term) ∧
    List.Chain' (fun r1 r2 => ∀ x ∈ r1, ∀ y ∈ r2, x.term ≠ y.term) (sameTermRuns E) ∧
    (ExtractBriefFromEntries p E).length = (sameTermRuns E).length ∧
    (ExtractBriefFromEntries p E).map (fun s => (s.Term, s.FirstIndex, s.LastIndex))
      = (sameTermRuns E).filterMap (fun r =>
          match r.head?, r.getLast? with
          | some f, some l => some (f.term, f.index, l.index)
          | _, _ => none) ∧
    (ExtractBriefFromEntries p E).head?.map (fun s => s.PrevLogTerm) = E.head?.map (fun _ => p) ∧
    List.Chain' (fun s1 s2 => s1.Term ≠ s2.Term ∧ s2.PrevLogTerm = s1.Term)
      (ExtractBriefFromEntries p E) ∧
    (ExtractBriefFromEntries p E = [] ↔ E = []) := by
  obtain ⟨hf, hc, hch⟩ := sameTermRuns_spec E
  have hs := segmentsOfRuns_spec (sameTermRuns E) p (fun r hr => (hc r hr).1) hch
  rw [ExtractBrief_eq_segmentsOfRuns]
  refine ⟨rfl, hf, hc, hch, hs.1, ?_, ?_, hs.2, ?_⟩
  · generalize sameTermRuns E = runs
    generalize p = q
    induction runs generalizing q with
    | nil => rfl
    | cons r rs ih =>
      cases hh : r.head? <;> cases hl : r.getLast? <;>
        simp [segmentsOfRuns, List.filterMap_cons, hh, hl, ih]
  · cases E with
    | nil => rfl
    | cons e es =>
      obtain ⟨r, rs, hr⟩ := sameTermRuns_cons_head e es
      rw [hr, segmentsOfRuns_cons]
      rfl
  · cases E with
    | nil => exact ⟨fun _ => rfl, fun _ => rfl⟩
    | cons e es =>
      obtain ⟨r, rs, hr⟩ := sameTermRuns_cons_head e es
      rw [hr, segmentsOfRuns_cons]
      exact ⟨fun h => absurd h (List.cons_ne_nil _ _), fun h => absurd h (List.cons_ne_nil _ _)⟩

end Etcd

namespace Etcd
namespace MimicRaftKernelCollector

theorem directAddEntries_anchor (c c2 : MimicRaftKernelCollector) (entries : List Entry)
    (h : c.directAddEntries entries = some c2) :
    c2.logIndex = c.logIndex ∧ c2.logTerm = c.logTerm ∧ c2.initialized = c.initialized := by
  by_cases h0 : entries.length = 0
  · simp only [directAddEntries, h0, if_true, Option.some.injEq] at h
    rw [← h]
    exact ⟨rfl, rfl, rfl⟩
  · have h1 : ((entries.length : Int) - 1) = ((entries.length - 1 : Nat) : Int) := by omega
    have h2 : entries.length - 1 < entries.length := by omega
    simp only [directAddEntries, h0, if_false, h1, getInt_natCast, List.getElem?_eq_getElem h2,
      Option.some.injEq] at h
    rw [← h]
    cases c.copied <;> exact ⟨rfl, rfl, rfl⟩

theorem resize_anchor (c c2 : MimicRaftKernelCollector) (length r : Int)
    (logTerm logIndex : Nat) (h : c.resize length logTerm logIndex = some (c2, r)) :
    (c2.logIndex = c.logIndex ∧ c2.logTerm = c.logTerm ∧ c2.initialized = c.initialized) ∨
    (c2.logIndex = logIndex ∧ c2.logTerm = logTerm ∧ c2.initialized = true ∧ length = 0) := by
  unfold resize at h
  split at h
  · rw [← (Prod.mk.inj (Option.some.inj h)).1]
    exact Or.inl ⟨rfl, rfl, rfl⟩
  · split at h
    · rename_i hz
      rw [← (Prod.mk.inj (Option.some.inj h)).1]
      exact Or.inr ⟨rfl, rfl, rfl, hz⟩
    · split at h
      · exact absurd h (by simp)
      · rw [← (Prod.mk.inj (Option.some.inj h)).1]
        cases c.copied <;> exact Or.inl ⟨rfl, rfl, rfl⟩

theorem mimic_anchor (c c2 : MimicRaftKernelCollector) (entries : List Entry)
    (logTerm logIndex : Nat) (b : Bool) (loc : Location)
    (h : c.mimic entries logTerm logIndex = some (c2, b, loc)) :
    c.MatchIndex logIndex logTerm = some loc ∧
    ((c2.logIndex = c.logIndex ∧ c2.logTerm = c.logTerm ∧ c2.initialized = c.initialized) ∨
     (c2.logIndex = logIndex ∧ c2.logTerm = logTerm ∧ c2.initialized = true ∧
      ∃ e, mimicLoop c.content entries (c.locateEntryWithIndex (addU64 logIndex 1)).2 0
        = some (0, e))) := by
  unfold mimic at h
  split at h
  · exact absurd h (by simp)
  · rename_i loc2 hloc2
    split at h
    · simp only [Option.some.injEq, Prod.mk.injEq] at h
      obtain ⟨h1, _, h3⟩ := h
      subst h1 h3
      exact ⟨hloc2, Or.inl ⟨rfl, rfl, rfl⟩⟩
    · simp only [] at h
      split at h
      · exact absurd h (by simp)
      · rename_i cIdx eIdx hloop
        split at h
        · split at h
          · split at h
            · cases hd : c.destroyCachedTable.directAddEntries (List.drop eIdx.toNat entries) with
              | none => rw [hd] at h; exact absurd h (by simp)
              | some c3 =>
                rw [hd] at h
                simp only [Option.map_some', Option.some.injEq, Prod.mk.injEq] at h
                obtain ⟨h1, _, h3⟩ := h
                subst h1 h3
                exact ⟨hloc2, Or.inl (directAddEntries_anchor c.destroyCachedTable _ _ hd)⟩
            · split at h
              · exact absurd h (by simp)
              · rename_i c3 r hres
                cases hd : c3.directAddEntries (List.drop eIdx.toNat entries) with
                | none => rw [hd] at h; exact absurd h (by simp)
                | some c4 =>
                  rw [hd] at h
                  simp only [Option.map_some', Option.some.injEq, Prod.mk.injEq] at h
                  obtain ⟨h1, _, h3⟩ := h
                  subst h1 h3
                  have ha := directAddEntries_anchor _ _ _ hd
                  refine ⟨hloc2, ?_⟩
                  rcases resize_anchor c.destroyCachedTable _ _ _ _ _ hres with hr | hr
                  · left
                    exact ⟨ha.1.trans hr.1, ha.2.1.trans hr.2.1, ha.2.2.trans hr.2.2⟩
                  · right
                    refine ⟨ha.1.trans hr.1, ha.2.1.trans hr.2.1, ha.2.2.trans hr.2.2.1,
                      eIdx, ?_⟩
                    rw [hloop, hr.2.2.2]
          · exact absurd h (by simp)
        · simp only [Option.some.injEq, Prod.mk.injEq] at h
          obtain ⟨h1, _, h3⟩ := h
          subst h1 h3
          exact ⟨hloc2, Or.inl ⟨rfl, rfl, rfl⟩⟩

theorem mimic_unchanged (c : MimicRaftKernelCollector) (entries : List Entry)
    (logTerm logIndex : Nat) (loc : Location) (m : Nat)
    (hloc : c.MatchIndex logIndex logTerm = some loc)
    (hpw : loc = Location.PREV ∨ loc = Location.WITHIN)
    (hm : (c.locateEntryWithIndex (addU64 logIndex 1)).2 = (m : Int))
    (hloop : mimicLoop c.content entries (m : Int) 0
      = some ((m : Int) + entries.length, 0 + (entries.length : Int))) :
    c.mimic entries logTerm logIndex = some (c, true, loc) := by
  have hcond : ¬ (loc ≠ Location.PREV ∧ loc ≠ Location.WITHIN) := by
    rcases hpw with h | h <;> simp [h]
  have he : ¬ ((0 : Int) + (entries.length : Int) ≠ (entries.length : Int)) := by simp
  simp only [mimic, hloc, hcond, if_false, hm, hloop, he]

theorem loop_runs_through (content entries : List Entry) (m : Nat)
    (hall : ∀ k, k < entries.length → ∃ s e, content[m + k]? = some s ∧
      entries[k]? = some e ∧ e.term = s.term) :
    mimicLoop content entries (m : Int) 0
      = some ((m : Int) + entries.length, 0 + (entries.length : Int)) := by
  obtain ⟨n, hn, hle, _, _, hstop⟩ := mimicLoop_spec content entries m 0
  have hnl : n = entries.length := by
    by_contra hne
    have hlt : n < entries.length := by omega
    obtain ⟨s, e, hs, he, hse⟩ := hall n hlt
    rcases hstop hlt with h | ⟨s2, e2, hs2, he2, hne2⟩
    · have := (List.getElem?_eq_some.mp hs).1
      omega
    · rw [hs] at hs2
      rw [he] at he2
      rw [← Option.some.inj hs2, ← Option.some.inj he2] at hne2
      exact hne2 hse
  rw [hn, hnl]

theorem mimic_returns_nonempty (c c2 : MimicRaftKernelCollector) (entries : List Entry)
    (logTerm logIndex : Nat) (b : Bool) (loc : Location) (m n : Nat)
    (h : c.mimic entries logTerm logIndex = some (c2, b, loc))
    (hpw : loc = Location.PREV ∨ loc = Location.WITHIN)
    (hm : (c.locateEntryWithIndex (addU64 logIndex 1)).2 = (m : Int))
    (hloop : mimicLoop c.content entries (m : Int) 0 = some ((m : Int) + n, 0 + (n : Int)))
    (hlt : n < entries.length) : c.content ≠ [] := by
  intro hc
  have hloc := (mimic_anchor c c2 entries logTerm logIndex b loc h).1
  have hcond : ¬ (loc ≠ Location.PREV ∧ loc ≠ Location.WITHIN) := by
    rcases hpw with h | h <;> simp [h]
  have he : ((0 : Int) + (n : Int) ≠ (entries.length : Int)) := by omega
  have hlast : getInt c.destroyCachedTable.content ((c.content.length : Int) - 1) = none := by
    simp [getInt, hc]
  simp only [mimic, hloc, hcond, if_false, hm, hloop, he, if_true, hlast] at h
  revert h
  split <;> simp

theorem locate_eq (c : MimicRaftKernelCollector) (index k : Nat)
    (hcl : c.logIndex < 18446744073709551616) (hi : index < 18446744073709551616)
    (h : c.logIndex + k + 1 = index) (hk : k < c.content.length)
    (hk63 : k < 9223372036854775808) :
    c.locateEntryWithIndex index = (true, (k : Int)) := by
  have h1 : index - c.logIndex - 1 = k := by omega
  simp only [locateEntryWithIndex]
  rw [subU64_sub_one index c.logIndex hcl hi (by omega), h1, toInt_of_lt k hk63]
  have h2 : (k : Int) ≥ 0 := by omega
  have h3 : (k : Int) < (c.content.length : Int) := by exact_mod_cast hk
  simp [h2, h3]

theorem MatchIndex_total (c : MimicRaftKernelCollector) (index term : Nat)
    (hinit : c.initialized = true) : ∃ loc, c.MatchIndex index term = some loc := by
  simp only [MatchIndex, IsRefreshed, hinit, Bool.not_true, Bool.false_eq_true, if_false]
  by_cases h1 : c.logIndex > index
  · exact ⟨_, by rw [if_pos h1]⟩
  · rw [if_neg h1]
    by_cases h2 : c.logIndex = index
    · rw [if_pos h2]
      by_cases h3 : c.logTerm ≠ term
      · exact ⟨_, by rw [if_pos h3]⟩
      · exact ⟨_, by rw [if_neg h3]⟩
    · rw [if_neg h2]
      by_cases h3 : (c.locateEntryWithIndex index).1 = true
      · have h4 := (locate_fst c index).mp h3
        rw [← locate_snd] at h4
        have h5 : (c.locateEntryWithIndex index).2
            = (((c.locateEntryWithIndex index).2.toNat : Nat) : Int) := by omega
        have h6 : (c.locateEntryWithIndex index).2.toNat < c.content.length := by omega
        rw [h5, getInt_natCast, List.getElem?_eq_getElem h6]
        simp only [h3, Bool.not_true, Bool.false_eq_true, if_false]
        by_cases h7 : (c.content[(c.locateEntryWithIndex index).2.toNat]).term ≠ term
        · exact ⟨_, by rw [if_pos h7]⟩
        · exact ⟨_, by rw [if_neg h7]⟩
      · exact ⟨Location.OVERFLOW, by simp [h3]⟩

theorem MatchIndex_accept_anchor (c : MimicRaftKernelCollector) (logTerm logIndex : Nat)
    (loc : Location) (hloc : c.MatchIndex logIndex logTerm = some loc)
    (hpw : loc = Location.PREV ∨ loc = Location.WITHIN) (heq : c.logIndex = logIndex) :
    c.logTerm = logTerm := by
  have hinit : c.initialized = true := by
    cases h : c.initialized
    · simp [MatchIndex, IsRefreshed, h] at hloc
    · rfl
  subst heq
  simp only [MatchIndex, IsRefreshed, hinit, Bool.not_true, Bool.false_eq_true, if_false,
    gt_iff_lt, lt_irrefl, if_true] at hloc
  by_contra hne
  rw [if_pos hne] at hloc
  rcases hpw with h | h <;> rw [h] at hloc <;> exact absurd (Option.some.inj hloc) (by decide)

theorem MatchIndex_second (c c1 : MimicRaftKernelCollector) (logTerm logIndex : Nat)
    (loc : Location) (m : Nat)
    (hloc : c.MatchIndex logIndex logTerm = some loc)
    (hcm : c.logIndex + m = logIndex) (hmle : m ≤ c.content.length)
    (hlen : c.content.length < 9223372036854775808)
    (hcl : c.logIndex < 18446744073709551616) (hl : logIndex < 18446744073709551616)
    (hinit1 : c1.initialized = true) (hli : c1.logIndex = c.logIndex)
    (hlt : c1.logTerm = c.logTerm) (hlen1 : m ≤ c1.content.length)
    (hpre : ∀ k, k < m → c1.content[k]? = c.content[k]?) :
    c1.MatchIndex logIndex logTerm = some loc := by
  have hinit : c.initialized = true := by
    cases h : c.initialized
    · simp [MatchIndex, IsRefreshed, h] at hloc
    · rfl
  have h1 : ¬ c.logIndex > logIndex := by omega
  simp only [MatchIndex, IsRefreshed, hinit, hinit1, hli, hlt, Bool.not_true,
    Bool.false_eq_true, if_false, h1] at hloc ⊢
  by_cases h2 : c.logIndex = logIndex
  · rw [if_pos h2] at hloc ⊢
    exact hloc
  · rw [if_neg h2] at hloc ⊢
    have hm1 : 1 ≤ m := by omega
    have e0 := locate_eq c logIndex (m - 1) hcl hl (by omega) (by omega) (by omega)
    have e1 := locate_eq c1 logIndex (m - 1) (by rw [hli]; exact hcl) hl
      (by rw [hli]; omega) (by omega) (by omega)
    rw [e0] at hloc
    rw [e1]
    simp only [getInt_natCast] at hloc ⊢
    rw [hpre (m - 1) (by omega)]
    exact hloc

theorem loop_after_overwrite (content entries : List Entry) (m n : Nat)
    (hmn : m + n ≤ content.length)
    (hpfx : ∀ k, k < n → ∃ s e, content[m + k]? = some s ∧ entries[k]? = some e ∧
      e.term = s.term) :
    mimicLoop (content.take (m + n) ++ entries.drop n) entries (m : Int) 0
      = some ((m : Int) + entries.length, 0 + (entries.length : Int)) := by
  have htake : (List.take (m + n) content).length = m + n := by
    rw [List.length_take]; omega
  apply loop_runs_through
  intro k hk
  by_cases hkn : k < n
  · have hk3 : m + k < m + n := Nat.add_lt_add_left hkn m
    have hk2 : m + k < (List.take (m + n) content).length := by omega
    rw [List.getElem?_append_left hk2, List.getElem?_take_of_lt hk3]
    exact hpfx k hkn
  · refine ⟨entries[k], entries[k], ?_, List.getElem?_eq_getElem hk, rfl⟩
    have hge : (List.take (m + n) content).length ≤ m + k := by omega
    have hidx : n + (m + k - (m + n)) = k := by omega
    rw [List.getElem?_append_right hge, htake, List.getElem?_drop, hidx]
    exact List.getElem?_eq_getElem hk

theorem AddEntries_second_call (c c1 : MimicRaftKernelCollector) (entries : List Entry)
    (logTerm logIndex : Nat) (ok : Bool)
    (hlen : c.content.length < 9223372036854775808)
    (hcl : c.logIndex < 18446744073709551616) (hl : logIndex < 18446744073709551616)
    (hcont : Consecutive c.logIndex c.content)
    (hfrag : Consecutive logIndex entries)
    (hfragU : ∀ e ∈ entries, e.index < 18446744073709551616)
    (h1 : c.AddEntries entries logTerm logIndex = some (c1, ok)) :
    c1.AddEntries entries logTerm logIndex = some (c1, ok) := by
  cases hinit : c.initialized with
  | false =>
    simp only [AddEntries, IsRefreshed, hinit, Bool.not_false, if_true, Option.some.injEq,
      Prod.mk.injEq] at h1
    obtain ⟨hc1, hok⟩ := h1
    subst hc1 hok
    have hloc : (c.init entries logTerm logIndex).MatchIndex logIndex logTerm
        = some Location.PREV := by
      simp [MatchIndex, IsRefreshed, init]
    have hm : ((c.init entries logTerm logIndex).locateEntryWithIndex (addU64 logIndex 1)).2
        = ((0 : Nat) : Int) := by
      rw [locate_snd]
      have : (c.init entries logTerm logIndex).logIndex = logIndex := rfl
      rw [this, subU64_succ_sub_one logIndex logIndex hl hl (le_refl _), toInt_of_lt _ (by omega)]
      simp
    have hloop := loop_runs_through entries entries 0 (by
      intro k hk
      refine ⟨entries[k], entries[k], ?_, List.getElem?_eq_getElem hk, rfl⟩
      rw [Nat.zero_add]
      exact List.getElem?_eq_getElem hk)
    have hmim := mimic_unchanged (c.init entries logTerm logIndex) entries logTerm logIndex
      Location.PREV 0 hloc (Or.inl rfl) hm hloop
    have hi : (c.init entries logTerm logIndex).IsRefreshed = false := rfl
    simp only [AddEntries, hi, Bool.false_eq_true, if_false, hmim, Option.map_some']
  | true =>
    have hi : c.IsRefreshed = false := by simp [IsRefreshed, hinit]
    simp only [AddEntries, hi, Bool.false_eq_true, if_false] at h1
    cases hmim : c.mimic entries logTerm logIndex with
    | none => rw [hmim] at h1; exact absurd h1 (by simp)
    | some r =>
      obtain ⟨c1x, okx, loc⟩ := r
      rw [hmim] at h1
      simp only [Option.map_some', Option.some.injEq, Prod.mk.injEq] at h1
      obtain ⟨hc1, hok⟩ := h1
      subst hc1 hok
      have hsame : c1x = c → c1x.AddEntries entries logTerm logIndex = some (c1x, okx) := by
        intro he
        rw [he] at hmim ⊢
        simp only [AddEntries, hi, Bool.false_eq_true, if_false, hmim, Option.map_some']
      cases okx with
      | false =>
        exact hsame (mimic_false c c1x entries logTerm logIndex loc hmim).2.2
      | true =>
        obtain ⟨hloc, hanch⟩ := mimic_anchor c c1x entries logTerm logIndex true loc hmim
        have hpw : loc = Location.PREV ∨ loc = Location.WITHIN := by
          by_contra hn
          have hcond : loc ≠ Location.PREV ∧ loc ≠ Location.WITHIN :=
            ⟨fun h => hn (Or.inl h), fun h => hn (Or.inr h)⟩
          simp only [mimic, hloc] at hmim
          rw [if_pos hcond] at hmim
          exact absurd (Prod.mk.inj (Prod.mk.inj (Option.some.inj hmim)).2).1 (by decide)
        obtain ⟨_, m, hcm, hmle, hm⟩ := locate_after_match c logTerm logIndex hlen hcl hl
          (by rcases hpw with h | h <;> rw [h] at hloc <;> simp [hloc])
        obtain ⟨n, hloop, hnle, hmn0, hpfx, _⟩ := mimicLoop_spec c.content entries m 0
        have hmn : m + n ≤ c.content.length := by
          rw [max_eq_right hmle] at hmn0
          exact hmn0
        by_cases hnl : n = entries.length
        · have hu := mimic_unchanged c entries logTerm logIndex loc m hloc hpw hm
            (by rw [hloop, hnl])
          rw [hu] at hmim
          exact hsame (Prod.mk.inj (Option.some.inj hmim)).1.symm
        · have hlt : n < entries.length := by omega
          have hne := mimic_returns_nonempty c c1x entries logTerm logIndex true loc m n hmim
            hpw hm hloop hlt
          obtain ⟨c2, hc2, hcontent⟩ := (mimic_result c entries logTerm logIndex loc m n hloc
            hpw hm hcm hloop hmn hlen hcl hcont hfrag hfragU hne).2 hlt
          rw [hmim] at hc2
          have hcc : c2 = c1x := (Prod.mk.inj (Option.some.inj hc2)).1.symm
          subst hcc
          have hanchor : c2.logIndex = c.logIndex ∧ c2.logTerm = c.logTerm ∧
              c2.initialized = true := by
            rcases hanch with h | ⟨h1, h2, h3, e, h4⟩
            · exact ⟨h.1, h.2.1, h.2.2.trans hinit⟩
            · rw [hm, hloop] at h4
              have h5 := (Prod.mk.inj (Option.some.inj h4)).1
              have hm0 : m = 0 := by omega
              have heq : c.logIndex = logIndex := by omega
              exact ⟨h1.trans heq.symm,
                h2.trans (MatchIndex_accept_anchor c logTerm logIndex loc hloc hpw heq).symm, h3⟩
          have hlen2 : c2.content.length = m + entries.length := by
            rw [hcontent, List.length_append, List.length_take, List.length_drop]
            omega
          have htake : (List.take (m + n) c.content).length = m + n := by
            rw [List.length_take]; omega
          have hpre : ∀ k, k < m + n → c2.content[k]? = c.content[k]? := by
            intro k hk
            have hk2 : k < (List.take (m + n) c.content).length := by omega
            rw [hcontent, List.getElem?_append_left hk2, List.getElem?_take_of_lt hk]
          have hloc2 := MatchIndex_second c c2 logTerm logIndex loc m hloc hcm hmle hlen hcl hl
            hanchor.2.2 hanchor.1 hanchor.2.1 (by omega) (fun k hk => hpre k (by omega))
          have hm2 : (c2.locateEntryWithIndex (addU64 logIndex 1)).2 = (m : Int) := by
            have e1 := locate_snd c2 (addU64 logIndex 1)
            have e2 := locate_snd c (addU64 logIndex 1)
            rw [e1, hanchor.1, ← e2, hm]
          have hloop2 : mimicLoop c2.content entries (m : Int) 0
              = some ((m : Int) + entries.length, 0 + (entries.length : Int)) := by
            rw [hcontent]
            exact loop_after_overwrite c.content entries m n hmn hpfx
          have hu := mimic_unchanged c2 entries logTerm logIndex loc m hloc2 hpw hm2 hloop2
          have hi2 : c2.IsRefreshed = false := by simp [IsRefreshed, hanchor.2.2]
          simp only [AddEntries, hi2, Bool.false_eq_true, if_false, hu, Option.map_some']

theorem AddEntries_returns (c : MimicRaftKernelCollector) (entries : List Entry)
    (logTerm logIndex : Nat)
    (hlen : c.content.length < 9223372036854775808)
    (hcl : c.logIndex < 18446744073709551616) (hl : logIndex < 18446744073709551616)
    (hcont : Consecutive c.logIndex c.content)
    (hfrag : Consecutive logIndex entries)
    (hfragU : ∀ e ∈ entries, e.index < 18446744073709551616)
    (h : c.initialized = false ∨ c.content ≠ [] ∨ entries = []) :
    ∃ c1 ok, c.AddEntries entries logTerm logIndex = some (c1, ok) := by
  cases hinit : c.initialized with
  | false =>
    exact ⟨c.init entries logTerm logIndex, true, by simp [AddEntries, IsRefreshed, hinit]⟩
  | true =>
    have hi : c.IsRefreshed = false := by simp [IsRefreshed, hinit]
    obtain ⟨loc, hloc⟩ := MatchIndex_total c logIndex logTerm hinit
    by_cases hcond : loc ≠ Location.PREV ∧ loc ≠ Location.WITHIN
    · refine ⟨c, false, ?_⟩
      simp only [AddEntries, hi, Bool.false_eq_true, if_false, mimic, hloc]
      rw [if_pos hcond]
      rfl
    · have hpw : loc = Location.PREV ∨ loc = Location.WITHIN := by
        by_contra hn
        exact hcond ⟨fun h => hn (Or.inl h), fun h => hn (Or.inr h)⟩
      have hloc2 : c.MatchIndex logIndex logTerm = some Location.PREV ∨
          c.MatchIndex logIndex logTerm = some Location.WITHIN := by
        rcases hpw with h | h <;> rw [h] at hloc <;> simp [hloc]
      by_cases hne : c.content = []
      · have he : entries = [] := by
          rcases h with h | h | h
          · rw [hinit] at h; exact absurd h (by decide)
          · exact absurd hne h
          · exact h
        obtain ⟨_, m, _, _, hm⟩ := locate_after_match c logTerm logIndex hlen hcl hl hloc2
        have hu := mimic_unchanged c entries logTerm logIndex loc m hloc hpw hm
          (by rw [he]; simp [mimicLoop])
        exact ⟨c, true, by
          simp only [AddEntries, hi, Bool.false_eq_true, if_false, hu, Option.map_some']⟩
      · obtain ⟨c2, hc2, _⟩ := AddEntries_canonical_append c entries logTerm logIndex hlen hcl hl
          hcont hfrag hfragU hne hloc2
        exact ⟨c2, true, hc2⟩

/-- C19: `AddEntries` is idempotent.  For every collector, refreshed or initialised, whose
array is contiguous after `c.logIndex` (with lengths and indices in the `uint64` / `int`
range) and every well-formed fragment, calling `AddEntries(entries, logTerm, logIndex)` a
second time on the collector the first call left returns the same result and leaves that
collector (stored entries, logTerm, logIndex and all other fields) as it is; the first
call returns whenever the collector is refreshed, or holds at least one entry, or the
fragment is empty. -/
theorem C19_AddEntries_idempotent (c : MimicRaftKernelCollector) (entries : List Entry)
    (logTerm logIndex : Nat)
    (hlen : c.content.length < 9223372036854775808)
    (hcl : c.logIndex < 18446744073709551616) (hl : logIndex < 18446744073709551616)
    (hcont : Consecutive c.logIndex c.content)
    (hfrag : Consecutive logIndex entries)
    (hfragU : ∀ e ∈ entries, e.index < 18446744073709551616) :
    (c.AddEntries entries logTerm logIndex).bind
        (fun r => r.1.AddEntries entries logTerm logIndex)
      = c.AddEntries entries logTerm logIndex ∧
    (c.initialized = false ∨ c.content ≠ [] ∨ entries = [] →
      ∃ c1 ok, c.AddEntries entries logTerm logIndex = some (c1, ok)) := by
  refine ⟨?_, AddEntries_returns c entries logTerm logIndex hlen hcl hl hcont hfrag hfragU⟩
  cases h1 : c.AddEntries entries logTerm logIndex with
  | none => rfl
  | some r =>
    obtain ⟨c1, ok⟩ := r
    exact AddEntries_second_call c c1 entries logTerm logIndex ok hlen hcl hl hcont hfrag
      hfragU h1

/-- Witness for C19: a fragment that overwrites the last stored entry and appends one. -/
theorem C19_AddEntries_idempotent_witness :
    ((new.init [⟨1, 6, 0⟩, ⟨1, 7, 0⟩, ⟨2, 8, 0⟩] 1 5).AddEntries
        [⟨1, 7, 1⟩, ⟨3, 8, 1⟩, ⟨3, 9, 1⟩] 1 6).bind
        (fun r => r.1.AddEntries [⟨1, 7, 1⟩, ⟨3, 8, 1⟩, ⟨3, 9, 1⟩] 1 6)
      = (new.init [⟨1, 6, 0⟩, ⟨1, 7, 0⟩, ⟨2, 8, 0⟩] 1 5).AddEntries
        [⟨1, 7, 1⟩, ⟨3, 8, 1⟩, ⟨3, 9, 1⟩] 1 6 ∧
    (new.init [⟨1, 6, 0⟩, ⟨1, 7, 0⟩, ⟨2, 8, 0⟩] 1 5).AddEntries
        [⟨1, 7, 1⟩, ⟨3, 8, 1⟩, ⟨3, 9, 1⟩] 1 6
      = some ({ logTerm := 1, logIndex := 5, nextIndex := 9, copied := true,
                content := [⟨1, 6, 0⟩, ⟨1, 7, 0⟩, ⟨3, 8, 1⟩, ⟨3, 9, 1⟩], cachedTable := [],
                initialized := true }, true) :=
  ⟨(C19_AddEntries_idempotent
      (new.init [⟨1, 6, 0⟩, ⟨1, 7, 0⟩, ⟨2, 8, 0⟩] 1 5) [⟨1, 7, 1⟩, ⟨3, 8, 1⟩, ⟨3, 9, 1⟩] 1 6
      (by decide) (by decide) (by decide) (by unfold Consecutive; decide)
      (by unfold Consecutive; decide) (by decide)).1, by decide⟩

end MimicRaftKernelCollector
end Etcd

namespace Etcd
namespace MimicRaftKernelCollector

/-- C23: `FetchEntriesWithStartIndex` misses the last stored entry after an append.  The
collector reached by `AddEntries([(term 1, index 1)], 0, 0)` and then
`AddEntries([(term 1, index 2)], 1, 1)` (both fragments well formed, both calls return
true) stores the entries 1 and 2, but `directAddEntries` has set `nextIndex` to 2, and
`FetchEntriesWithStartIndex(2)` returns false although the entry with index 2 is stored.
On the collector that received the same two entries in one fragment (`init` sets
`nextIndex` to 3) the call returns true with the entry 2 and the anchor (1, 1). -/
theorem C23_FetchEntriesWithStartIndex_misses_appended_entry :
    new.AddEntries [⟨1, 1, 0⟩] 0 0 = some (new.init [⟨1, 1, 0⟩] 0 0, true) ∧
    Consecutive 0 [⟨1, 1, 0⟩] ∧ Consecutive 1 [⟨1, 2, 0⟩] ∧
    (new.init [⟨1, 1, 0⟩] 0 0).AddEntries [⟨1, 2, 0⟩] 1 1
      = some ({ logTerm := 0, logIndex := 0, nextIndex := 2, copied := true,
                content := [⟨1, 1, 0⟩, ⟨1, 2, 0⟩], cachedTable := [], initialized := true },
              true) ∧
    FetchEntriesWithStartIndex
        { logTerm := 0, logIndex := 0, nextIndex := 2, copied := true,
          content := [⟨1, 1, 0⟩, ⟨1, 2, 0⟩], cachedTable := [], initialized := true } 2
      = some (false, [], 0, 0) ∧
    (new.init [⟨1, 1, 0⟩, ⟨1, 2, 0⟩] 0 0).FetchEntriesWithStartIndex 2
      = some (true, [⟨1, 2, 0⟩], 1, 1) := by
  refine ⟨by decide, ?_, ?_, by decide, by decide, by decide⟩
  · unfold Consecutive; decide
  · unfold Consecutive; decide

end MimicRaftKernelCollector

namespace SaucrRaftNode

/-- C30: on a node freshly built by `NewSaucrRaftNode`, which never received a message,
`GetExactlyAndDropMsgSaucr(0)` returns `(Message{}, true)`: the constructor leaves
`msgSaucrEmpty` at its zero value false.  For every other term the fresh node returns
false.  For every node and term the call returns true exactly when the slot is not empty
and holds the term, it leaves the slot empty, and a second call right after it returns
false. -/
theorem C30_fresh_node_returns_a_message_for_term_zero :
    NewSaucrRaftNode.GetExactlyAndDropMsgSaucr 0
      = ({ msgSaucrEmpty := true, msgSaucrTerm := 0, msgSaucrMessage := Message.zero },
         Message.zero, true) ∧
    (∀ term, term ≠ 0 → (NewSaucrRaftNode.GetExactlyAndDropMsgSaucr term).2.2 = false) ∧
    (∀ (srn : SaucrRaftNode) (term : Nat),
      ((srn.GetExactlyAndDropMsgSaucr term).2.2 = true ↔
        (srn.msgSaucrEmpty = false ∧ srn.msgSaucrTerm = term)) ∧
      (srn.GetExactlyAndDropMsgSaucr term).1.msgSaucrEmpty = true ∧
      ((srn.GetExactlyAndDropMsgSaucr term).1.GetExactlyAndDropMsgSaucr term).2.2 = false) := by
  refine ⟨by decide, ?_, ?_⟩
  · intro term ht
    have h : ¬ (0 = term) := fun h => ht h.symm
    simp [GetExactlyAndDropMsgSaucr, NewSaucrRaftNode, h]
  · intro srn term
    have hfst : ∀ (s : SaucrRaftNode) (t : Nat), (s.GetExactlyAndDropMsgSaucr t).1
        = { s with msgSaucrTerm := t, msgSaucrEmpty := true } := by
      intro s t
      unfold GetExactlyAndDropMsgSaucr
      split_ifs <;> rfl
    refine ⟨?_, by rw [hfst], ?_⟩
    · unfold GetExactlyAndDropMsgSaucr
      cases srn.msgSaucrEmpty <;> by_cases ht : srn.msgSaucrTerm = term <;> simp [ht]
    · rw [hfst]
      simp [GetExactlyAndDropMsgSaucr]

end SaucrRaftNode

/-- C29 (counterexample): a vote request with `Term = 3` against the analyzer term 3 and a
locator whose last entry is (term 1, index 2): the request's log (term 2, index 5) is more
up to date, so `isUpdateTo` is true, but `handleRequestVote` answers with `Reject = true`
because `vote.Term <= term`. -/
theorem C29_counterexample_stale_term_rejected :
    isUpdateTo { Message.zero with Type_ := MessageType.MsgVote, From := 1, To := 2, Term := 3,
                                   LogTerm := 2, Index := 5 }
      (Locator.consecutive (MimicRaftKernelCollector.new.init [⟨1, 1, 0⟩, ⟨1, 2, 0⟩] 0 0))
      = some true ∧
    (handleRequestVote { Message.zero with Type_ := MessageType.MsgVote, From := 1, To := 2,
                                           Term := 3, LogTerm := 2, Index := 5 } 3
      (Locator.consecutive (MimicRaftKernelCollector.new.init [⟨1, 1, 0⟩, ⟨1, 2, 0⟩] 0 0))).map
        (fun r => r.Reject) = some true := by
  decide

/-- C29 (amended): for every vote or pre-vote request `m`, analyzer term and locator whose
`LastIndex()` is `L` and whose `LocateIndex(L)` gives the term `T`, `handleRequestVote`
returns a response (of type `MsgPreVoteResp` for a pre-vote, `MsgVoteResp` otherwise, sent
from `m.To` to `m.From` with the analyzer term) whose `Reject` is true exactly when
`m.Term <= term` or `isUpdateTo` fails, where `isUpdateTo` holds iff `m.LogTerm > T` or
(`m.LogTerm = T` and `m.Index >= L`). -/
theorem C29_vote_response_reject (m : Message) (term : Nat) (locator : Locator) (L T : Nat)
    (loc : Location) (hL : locator.LastIndex = some L)
    (hT : locator.LocateIndex L = some (loc, T)) :
    isUpdateTo m locator
      = some (decide (m.LogTerm > T) || (decide (m.LogTerm = T) && decide (m.Index ≥ L))) ∧
    ∃ resp, handleRequestVote m term locator = some resp ∧
      resp.Reject = (decide (m.Term ≤ term) ||
        !(decide (m.LogTerm > T) || (decide (m.LogTerm = T) && decide (m.Index ≥ L)))) ∧
      resp.Type_ = (if m.Type_ = MessageType.MsgPreVote then MessageType.MsgPreVoteResp
                    else MessageType.MsgVoteResp) ∧
      resp.To = m.From ∧ resp.From = m.To ∧ resp.Term = term := by
  have hu : isUpdateTo m locator
      = some (decide (m.LogTerm > T) || (decide (m.LogTerm = T) && decide (m.Index ≥ L))) := by
    simp only [isUpdateTo, hL, hT]
  refine ⟨hu, ?_⟩
  by_cases h1 : m.Term ≤ term
  · refine ⟨_, by simp only [handleRequestVote, if_pos h1]; rfl, ?_⟩
    simp [newVoteRespReject, Message.zero, h1]
  · simp only [handleRequestVote, if_neg h1, hu]
    cases hb : (decide (m.LogTerm > T) || (decide (m.LogTerm = T) && decide (m.Index ≥ L)))
    · refine ⟨_, rfl, ?_⟩
      simp [newVoteRespReject, Message.zero, h1]
    · refine ⟨_, rfl, ?_⟩
      simp [newVoteRespAccept, Message.zero, h1]

/-- Witness for C29 (amended): a pre-vote with a newer term and a more recent log. -/
theorem C29_vote_response_reject_witness :
    ∃ resp, handleRequestVote
        { Message.zero with Type_ := MessageType.MsgPreVote, From := 1, To := 2, Term := 4,
                            LogTerm := 2, Index := 5 } 3
        (Locator.consecutive (MimicRaftKernelCollector.new.init [⟨1, 1, 0⟩, ⟨1, 2, 0⟩] 0 0))
        = some resp ∧ resp.Reject = false :=
  match (C29_vote_response_reject
    { Message.zero with Type_ := MessageType.MsgPreVote, From := 1, To := 2, Term := 4,
                        LogTerm := 2, Index := 5 } 3
    (Locator.consecutive (MimicRaftKernelCollector.new.init [⟨1, 1, 0⟩, ⟨1, 2, 0⟩] 0 0))
    2 1 Location.WITHIN (by decide) (by decide)).2 with
  | ⟨resp, h1, h2, _⟩ => ⟨resp, h1, h2.trans (by decide)⟩

end Etcd

namespace Etcd
namespace MimicRaftKernelAnalyzer

/-- C25 (counterexample): an analyzer that has committed index 2 (after analysing the
offer of the entries 1..2 with `committed = 2`) drops the local offer of the entries 2..3,
although its last index 3 is greater than `commit`: nothing is appended to
`beforeAnalysis`. -/
theorem C25_counterexample_fragment_across_commit_dropped :
    ((AnalyzeAndRemoveOffers
        (OfferLocalEntries ⟨[], []⟩ (NewMimicRaftKernelAnalyzer 8) 1 7 2 0
          [⟨1, 1, 0⟩, ⟨1, 2, 0⟩]).1
        (OfferLocalEntries ⟨[], []⟩ (NewMimicRaftKernelAnalyzer 8) 1 7 2 0
          [⟨1, 1, 0⟩, ⟨1, 2, 0⟩]).2
        AnalysisPolicy.MatchFirstFragment).map
      (fun r => (r.2.commit,
        (OfferLocalEntries r.1 r.2 1 7 2 1 [⟨1, 2, 0⟩, ⟨1, 3, 0⟩]).2.beforeAnalysis,
        (OfferLocalEntries r.1 r.2 1 7 2 1 [⟨1, 2, 0⟩, ⟨1, 3, 0⟩]).2.beforeFingerprint)))
      = some (2, [], []) := by
  decide

/-- C25 (amended): for every analyzer and every local offer with `oTerm >= an.term` and a
non-empty entry array, `OfferLocalEntries` drops the fragment exactly when the index of its
FIRST entry is at or below `an.commit` (memory, `beforeAnalysis` and the fingerprint map
stay as they are); otherwise it appends a pointer to the new fragment (anchor
`prevLogTerm`, first index minus one, the entries, `CTerm = oTerm`) to `beforeAnalysis`
and records the submitter under that pointer. -/
theorem C25_OfferLocalEntries_drops_by_first_index (m : Memory) (an : MimicRaftKernelAnalyzer)
    (oTerm oId committed prevLogTerm : Nat) (e0 : Entry) (rest : List Entry)
    (hterm : an.term ≤ oTerm) :
    (e0.index ≤ an.commit →
      (OfferLocalEntries m an oTerm oId committed prevLogTerm (e0 :: rest)).1 = m ∧
      (OfferLocalEntries m an oTerm oId committed prevLogTerm (e0 :: rest)).2.beforeAnalysis
        = an.beforeAnalysis ∧
      (OfferLocalEntries m an oTerm oId committed prevLogTerm (e0 :: rest)).2.beforeFingerprint
        = an.beforeFingerprint) ∧
    (an.commit < e0.index →
      (OfferLocalEntries m an oTerm oId committed prevLogTerm (e0 :: rest)).2.beforeAnalysis
        = an.beforeAnalysis ++ [m.frags.length] ∧
      (OfferLocalEntries m an oTerm oId committed prevLogTerm (e0 :: rest)).1.frags[m.frags.length]?
        = some { LogTerm := prevLogTerm, LogIndex := subU64 e0.index 1, Fragment := e0 :: rest,
                 CTerm := oTerm } ∧
      (OfferLocalEntries m an oTerm oId committed prevLogTerm (e0 :: rest)).2.fingerprint
        m.frags.length = oId ∧
      (OfferLocalEntries m an oTerm oId committed prevLogTerm (e0 :: rest)).2.analyzed
        = false) := by
  have h1 : ¬ oTerm < an.term := by omega
  constructor
  · intro h
    refine ⟨?_, ?_, ?_⟩ <;> simp [OfferLocalEntries, h1, h]
  · intro h
    have h2 : ¬ e0.index ≤ an.commit := by omega
    refine ⟨?_, ?_, ?_, ?_⟩ <;> simp [OfferLocalEntries, h1, h2, fingerprint]

/-- Witness for C25 (amended): a fresh analyzer and the offer of the entries 1..2. -/
theorem C25_OfferLocalEntries_drops_by_first_index_witness :
    (OfferLocalEntries ⟨[], []⟩ (NewMimicRaftKernelAnalyzer 8) 1 7 0 0
        [⟨1, 1, 0⟩, ⟨1, 2, 0⟩]).2.beforeAnalysis = [] ++ [0] :=
  ((C25_OfferLocalEntries_drops_by_first_index ⟨[], []⟩ (NewMimicRaftKernelAnalyzer 8) 1 7 0 0
    ⟨1, 1, 0⟩ [⟨1, 2, 0⟩] (by decide)).2 (by decide)).1

/-- C27: `CompactBefore` moves an entry to the wrong side.  A fresh analyzer receives the
local offers `[(term 1, index 1)]` (anchor (0, 0)) and `[(term 1, index 2)]` (anchor
(1, 1)) and analyses them under `MatchFirstFragment`: `beforeCompact` then holds the
entries 1..2 anchored at the end of the empty `compacted`, with `nextIndex = 2`.
`CompactBefore(2)` returns `WITHIN`, but afterwards `beforeCompact` is empty (the entry 2
is gone from it) and `compacted` has absorbed both entries (its segment is 1..2).  When
the same two entries arrive in one offer (`nextIndex = 3`), `CompactBefore(2)` leaves the
entry 2 with anchor (1, 1) in `beforeCompact` and the segment 1..1 in `compacted`. -/
theorem C27_CompactBefore_loses_last_entry :
    AnalyzeAndRemoveOffers
        (OfferLocalEntries
          (OfferLocalEntries ⟨[], []⟩ (NewMimicRaftKernelAnalyzer 8) 1 7 0 0 [⟨1, 1, 0⟩]).1
          (OfferLocalEntries ⟨[], []⟩ (NewMimicRaftKernelAnalyzer 8) 1 7 0 0 [⟨1, 1, 0⟩]).2
          1 7 0 1 [⟨1, 2, 0⟩]).1
        (OfferLocalEntries
          (OfferLocalEntries ⟨[], []⟩ (NewMimicRaftKernelAnalyzer 8) 1 7 0 0 [⟨1, 1, 0⟩]).1
          (OfferLocalEntries ⟨[], []⟩ (NewMimicRaftKernelAnalyzer 8) 1 7 0 0 [⟨1, 1, 0⟩]).2
          1 7 0 1 [⟨1, 2, 0⟩]).2
        AnalysisPolicy.MatchFirstFragment
      = some (⟨[], [⟨0, 0, [⟨1, 1, 0⟩], 1⟩, ⟨1, 1, [⟨1, 2, 0⟩], 1⟩]⟩,
          { NewMimicRaftKernelAnalyzer 8 with
            term := 1, bcCTerm := 1, bcCTHolder := 7, analyzed := true, beforeTerm := 1,
            beforeCompact :=
              { logTerm := 0, logIndex := 0, nextIndex := 2, copied := true,
                content := [⟨1, 1, 0⟩, ⟨1, 2, 0⟩], cachedTable := [], initialized := true } }) ∧
    (CompactBefore ⟨[], [⟨0, 0, [⟨1, 1, 0⟩], 1⟩, ⟨1, 1, [⟨1, 2, 0⟩], 1⟩]⟩
        { NewMimicRaftKernelAnalyzer 8 with
          term := 1, bcCTerm := 1, bcCTHolder := 7, analyzed := true, beforeTerm := 1,
          beforeCompact :=
            { logTerm := 0, logIndex := 0, nextIndex := 2, copied := true,
              content := [⟨1, 1, 0⟩, ⟨1, 2, 0⟩], cachedTable := [], initialized := true } }
        2).map
      (fun x => (x.2.2, x.2.1.beforeCompact.content, x.2.1.compacted.Briefing x.1.segs))
      = some (Location.WITHIN, [],
          [some { Term := 1, PrevLogTerm := 0, FirstIndex := 1, LastIndex := 2 }]) ∧
    AnalyzeAndRemoveOffers
        (OfferLocalEntries ⟨[], []⟩ (NewMimicRaftKernelAnalyzer 8) 1 7 0 0
          [⟨1, 1, 0⟩, ⟨1, 2, 0⟩]).1
        (OfferLocalEntries ⟨[], []⟩ (NewMimicRaftKernelAnalyzer 8) 1 7 0 0
          [⟨1, 1, 0⟩, ⟨1, 2, 0⟩]).2
        AnalysisPolicy.MatchFirstFragment
      = some (⟨[], [⟨0, 0, [⟨1, 1, 0⟩, ⟨1, 2, 0⟩], 1⟩]⟩,
          { NewMimicRaftKernelAnalyzer 8 with
            term := 1, bcCTerm := 1, bcCTHolder := 7, analyzed := true, beforeTerm := 1,
            beforeCompact :=
              { logTerm := 0, logIndex := 0, nextIndex := 3, copied := false,
                content := [⟨1, 1, 0⟩, ⟨1, 2, 0⟩], cachedTable := [], initialized := true } }) ∧
    (CompactBefore ⟨[], [⟨0, 0, [⟨1, 1, 0⟩, ⟨1, 2, 0⟩], 1⟩]⟩
        { NewMimicRaftKernelAnalyzer 8 with
          term := 1, bcCTerm := 1, bcCTHolder := 7, analyzed := true, beforeTerm := 1,
          beforeCompact :=
            { logTerm := 0, logIndex := 0, nextIndex := 3, copied := false,
              content := [⟨1, 1, 0⟩, ⟨1, 2, 0⟩], cachedTable := [], initialized := true } }
        2).map
      (fun x => (x.2.2, (x.2.1.beforeCompact.content, x.2.1.beforeCompact.logTerm,
          x.2.1.beforeCompact.logIndex), x.2.1.compacted.Briefing x.1.segs))
      = some (Location.WITHIN, ([⟨1, 2, 0⟩], 1, 1),
          [some { Term := 1, PrevLogTerm := 0, FirstIndex := 1, LastIndex := 1 }]) := by
  refine ⟨by decide, by decide, by decide, by decide⟩

end MimicRaftKernelAnalyzer

namespace SbxMimicRaftKernelAnalyzer

/-- C28: an operation on the sandbox changes the base.  The base analyzer has compacted the
entries 1..3 of term 1 (its `compacted` holds the one segment 1..3) and `PrepareSandbox`
clones it; the clone of `compacted` holds the same segment pointer.  On the sandbox, the
offer of `[(term 1, index 4)]`, `AnalyzeAndRemoveOffers(MatchFirstFragment)` and
`Compact()` extend that shared segment: without any `CommitSandbox`, the `compacted` brief
of the untouched base analyzer now reads 1..4. -/
theorem C28_sandbox_Compact_changes_base_segment :
    (MimicRaftKernelAnalyzer.AnalyzeAndRemoveOffers
        (MimicRaftKernelAnalyzer.OfferLocalEntries ⟨[], []⟩
          (MimicRaftKernelAnalyzer.NewMimicRaftKernelAnalyzer 8) 1 7 0 0
          [⟨1, 1, 0⟩, ⟨1, 2, 0⟩, ⟨1, 3, 0⟩]).1
        (MimicRaftKernelAnalyzer.OfferLocalEntries ⟨[], []⟩
          (MimicRaftKernelAnalyzer.NewMimicRaftKernelAnalyzer 8) 1 7 0 0
          [⟨1, 1, 0⟩, ⟨1, 2, 0⟩, ⟨1, 3, 0⟩]).2
        AnalysisPolicy.MatchFirstFragment).bind
        (fun r => MimicRaftKernelAnalyzer.Compact r.1 r.2)
      = some (⟨[⟨1, 0, 1, 3⟩], [⟨0, 0, [⟨1, 1, 0⟩, ⟨1, 2, 0⟩, ⟨1, 3, 0⟩], 1⟩]⟩,
          { MimicRaftKernelAnalyzer.NewMimicRaftKernelAnalyzer 8 with
            term := 1, bcCTerm := 1, bcCTHolder := 7, analyzed := true, beforeTerm := 1,
            compacted := { b := [0], next := some 0, logTerm := 0, logIndex := 0,
                           initialized := true },
            beforeCompact :=
              { logTerm := 0, logIndex := 0, nextIndex := 4, copied := false, content := [],
                cachedTable := [], initialized := false } }) ∧
    (PrepareSandbox (NewSandboxForMimicRaftKernelAnalyzer
        { MimicRaftKernelAnalyzer.NewMimicRaftKernelAnalyzer 8 with
          term := 1, bcCTerm := 1, bcCTHolder := 7, analyzed := true, beforeTerm := 1,
          compacted := { b := [0], next := some 0, logTerm := 0, logIndex := 0,
                         initialized := true },
          beforeCompact :=
            { logTerm := 0, logIndex := 0, nextIndex := 4, copied := false, content := [],
              cachedTable := [], initialized := false } })).bind (fun sbx => sbx.sandbox)
      = some { MimicRaftKernelAnalyzer.NewMimicRaftKernelAnalyzer 8 with
          term := 1, bcCTerm := 1, bcCTHolder := 7, analyzed := true, beforeTerm := 1,
          compacted := { b := [0], next := some 0, logTerm := 0, logIndex := 0,
                         initialized := true } } ∧
    ((MimicRaftKernelAnalyzer.AnalyzeAndRemoveOffers
        (MimicRaftKernelAnalyzer.OfferLocalEntries
          ⟨[⟨1, 0, 1, 3⟩], [⟨0, 0, [⟨1, 1, 0⟩, ⟨1, 2, 0⟩, ⟨1, 3, 0⟩], 1⟩]⟩
          { MimicRaftKernelAnalyzer.NewMimicRaftKernelAnalyzer 8 with
            term := 1, bcCTerm := 1, bcCTHolder := 7, analyzed := true, beforeTerm := 1,
            compacted := { b := [0], next := some 0, logTerm := 0, logIndex := 0,
                           initialized := true } } 1 9 0 1 [⟨1, 4, 0⟩]).1
        (MimicRaftKernelAnalyzer.OfferLocalEntries
          ⟨[⟨1, 0, 1, 3⟩], [⟨0, 0, [⟨1, 1, 0⟩, ⟨1, 2, 0⟩, ⟨1, 3, 0⟩], 1⟩]⟩
          { MimicRaftKernelAnalyzer.NewMimicRaftKernelAnalyzer 8 with
            term := 1, bcCTerm := 1, bcCTHolder := 7, analyzed := true, beforeTerm := 1,
            compacted := { b := [0], next := some 0, logTerm := 0, logIndex := 0,
                           initialized := true } } 1 9 0 1 [⟨1, 4, 0⟩]).2
        AnalysisPolicy.MatchFirstFragment).bind
        (fun r => MimicRaftKernelAnalyzer.Compact r.1 r.2)).map (fun r => r.1.segs)
      = some [⟨1, 0, 1, 4⟩, ⟨1, 1, 4, 4⟩] ∧
    MimicRaftKernelBriefCollector.Briefing [⟨1, 0, 1, 3⟩]
        { b := [0], next := some 0, logTerm := 0, logIndex := 0, initialized := true }
      = [some ⟨1, 0, 1, 3⟩] ∧
    MimicRaftKernelBriefCollector.Briefing [⟨1, 0, 1, 4⟩, ⟨1, 1, 4, 4⟩]
        { b := [0], next := some 0, logTerm := 0, logIndex := 0, initialized := true }
      = [some ⟨1, 0, 1, 4⟩] := by
  refine ⟨by decide, by decide, by decide, by decide, by decide⟩

end SbxMimicRaftKernelAnalyzer
end Etcd

namespace Etcd
namespace MimicRaftKernelBriefCollector

theorem Holds_length (h : SegmentHeap) (c : MimicRaftKernelBriefCollector)
    (segs : List BriefSegment) (hview : c.Briefing h = segs.map some) :
    c.b.length = segs.length := by
  have := congrArg List.length hview
  simpa [Briefing] using this

theorem ptr_of_Briefing (h : SegmentHeap) (c : MimicRaftKernelBriefCollector)
    (segs : List BriefSegment) (hview : c.Briefing h = segs.map some) (k : Nat)
    (s : BriefSegment) (hs : segs[k]? = some s) :
    ∃ p, c.b[k]? = some p ∧ h[p]? = some s := by
  have h1 := congrArg (fun l => l[k]?) hview
  simp only [Briefing, List.getElem?_map, hs, Option.map_some'] at h1
  cases hb : c.b[k]? with
  | none => rw [hb] at h1; exact absurd h1 (by simp)
  | some p =>
    rw [hb] at h1
    simp only [Option.map_some', Option.some.injEq] at h1
    exact ⟨p, rfl, h1⟩

theorem seg_of_Briefing (h : SegmentHeap) (c : MimicRaftKernelBriefCollector)
    (segs : List BriefSegment) (hview : c.Briefing h = segs.map some) (k : Nat) :
    c.seg h (k : Int) = segs[k]? := by
  unfold seg
  rw [MimicRaftKernelCollector.getInt_natCast]
  cases hs : segs[k]? with
  | some s =>
    obtain ⟨p, hp, hh⟩ := ptr_of_Briefing h c segs hview k s hs
    rw [hp]
    exact hh
  | none =>
    have hlen := Holds_length h c segs hview
    have h1 : segs.length ≤ k := List.getElem?_eq_none_iff.mp hs
    have h2 : c.b[k]? = none := List.getElem?_eq_none_iff.mpr (by omega)
    rw [h2]
    rfl

theorem contiguous_after (s : BriefSegment) (rest : List BriefSegment)
    (hch : List.Chain (fun s t => t.FirstIndex = s.LastIndex + 1) s rest)
    (hle : ∀ x ∈ rest, x.FirstIndex ≤ x.LastIndex) :
    ∀ x ∈ rest, s.LastIndex < x.FirstIndex := by
  induction rest generalizing s with
  | nil => intro x hx; exact absurd hx (List.not_mem_nil x)
  | cons t r ih =>
    rw [List.chain_cons] at hch
    intro x hx
    rcases List.mem_cons.mp hx with hxt | hxr
    · rw [hxt]; omega
    · have h1 := ih t hch.2 (fun y hy => hle y (List.mem_cons_of_mem _ hy)) x hxr
      have h2 := hle t (List.mem_cons_self _ _)
      omega

theorem contiguous_pairwise (segs : List BriefSegment) (hc : ContiguousSegments segs) :
    List.Pairwise (fun s t => s.LastIndex < t.FirstIndex) segs := by
  induction segs with
  | nil => exact List.Pairwise.nil
  | cons s rest ih =>
    obtain ⟨hch, hle⟩ := hc
    rw [List.pairwise_cons]
    constructor
    · exact contiguous_after s rest hch (fun x hx => hle x (List.mem_cons_of_mem _ hx))
    · exact ih ⟨List.Chain'.tail hch, fun x hx => hle x (List.mem_cons_of_mem _ hx)⟩

theorem contiguous_order (segs : List BriefSegment) (hc : ContiguousSegments segs)
    (a b : Nat) (sa sb : BriefSegment) (hab : a < b) (ha : segs[a]? = some sa)
    (hb : segs[b]? = some sb) : sa.LastIndex < sb.FirstIndex := by
  have hp := contiguous_pairwise segs hc
  obtain ⟨hla, hea⟩ := List.getElem?_eq_some.mp ha
  obtain ⟨hlb, heb⟩ := List.getElem?_eq_some.mp hb
  have := List.pairwise_iff_getElem.mp hp a b hla hlb hab
  rw [hea, heb] at this
  exact this

theorem contiguous_covers (segs : List BriefSegment) (hc : ContiguousSegments segs)
    (sf sl : BriefSegment) (hf : segs.head? = some sf) (hl : segs.getLast? = some sl)
    (index : Nat) (h1 : sf.FirstIndex ≤ index) (h2 : index ≤ sl.LastIndex) :
    ∃ (k : Nat) (s : BriefSegment), segs[k]? = some s ∧ s.FirstIndex ≤ index ∧
      index ≤ s.LastIndex := by
  induction segs generalizing sf with
  | nil => exact absurd hf (by simp)
  | cons s rest ih =>
    simp only [List.head?_cons, Option.some.injEq] at hf
    subst hf
    by_cases hin : index ≤ s.LastIndex
    · exact ⟨0, s, List.getElem?_cons_zero, h1, hin⟩
    · cases rest with
      | nil =>
        simp only [List.getLast?_singleton, Option.some.injEq] at hl
        subst hl
        exact absurd h2 hin
      | cons t r =>
        obtain ⟨hch, hle⟩ := hc
        have hst : t.FirstIndex = s.LastIndex + 1 := (List.chain'_cons.mp hch).1
        have hl2 : (t :: r).getLast? = some sl := by
          rw [List.getLast?_cons_cons] at hl
          exact hl
        obtain ⟨k, x, hk, hx1, hx2⟩ := ih
          ⟨(List.chain'_cons.mp hch).2, fun y hy => hle y (List.mem_cons_of_mem _ hy)⟩
          t rfl hl2 (by omega)
        exact ⟨k + 1, x, by rw [List.getElem?_cons_succ]; exact hk, hx1, hx2⟩

theorem locateIndexLoop_finds (h : SegmentHeap) (c : MimicRaftKernelBriefCollector)
    (segs : List BriefSegment) (hview : c.Briefing h = segs.map some)
    (hc : ContiguousSegments segs) (index k : Nat) (s : BriefSegment)
    (hk : segs[k]? = some s) (h1 : s.FirstIndex ≤ index) (h2 : index ≤ s.LastIndex) :
    ∀ (fuel start e : Nat), start ≤ k → k < e → e ≤ segs.length → e - start ≤ fuel →
      c.locateIndexLoop h index fuel (start : Int) (e : Int) = some (k : Int) := by
  intro fuel
  induction fuel with
  | zero => intro start e hs he _ hf; omega
  | succ fuel ih =>
    intro start e hs he hel hf
    have hlt : (start : Int) < (e : Int) := by omega
    have hmid : ((start : Int) + (e : Int)) / 2 = (((start + e) / 2 : Nat) : Int) := by omega
    have hmlt : (start + e) / 2 < segs.length := by omega
    obtain ⟨sm, hsm⟩ : ∃ sm, segs[(start + e) / 2]? = some sm :=
      ⟨segs[(start + e) / 2], List.getElem?_eq_getElem hmlt⟩
    have hsmle : sm.FirstIndex ≤ sm.LastIndex :=
      hc.2 sm (List.getElem?_mem hsm)
    have hseg := seg_of_Briefing h c segs hview ((start + e) / 2)
    rw [hsm] at hseg
    simp only [locateIndexLoop, if_pos hlt, hmid, hseg]
    by_cases hA : sm.LastIndex < index
    · rw [if_pos hA]
      have hmk : (start + e) / 2 < k := by
        by_contra hn
        rcases Nat.lt_or_ge k ((start + e) / 2) with hlt2 | hge
        · have := contiguous_order segs hc k ((start + e) / 2) s sm hlt2 hk hsm
          omega
        · have heq : (start + e) / 2 = k := by omega
          rw [heq, hk] at hsm
          rw [← Option.some.inj hsm] at hA
          omega
      have hcast : (((start + e) / 2 : Nat) : Int) + 1 = (((start + e) / 2 + 1 : Nat) : Int) := by
        push_cast; rfl
      rw [hcast]
      exact ih ((start + e) / 2 + 1) e (by omega) he hel (by omega)
    · rw [if_neg hA]
      by_cases hB : index < sm.FirstIndex
      · rw [if_pos hB]
        have hmk : k < (start + e) / 2 := by
          by_contra hn
          rcases Nat.lt_or_ge ((start + e) / 2) k with hlt2 | hge
          · have := contiguous_order segs hc ((start + e) / 2) k sm s hlt2 hsm hk
            omega
          · have heq : (start + e) / 2 = k := by omega
            rw [heq, hk] at hsm
            rw [← Option.some.inj hsm] at hB
            omega
        exact ih start ((start + e) / 2) hs hmk (by omega) (by omega)
      · rw [if_neg hB]
        have heq : (start + e) / 2 = k := by
          rcases Nat.lt_trichotomy ((start + e) / 2) k with hlt2 | heq | hgt
          · have := contiguous_order segs hc ((start + e) / 2) k sm s hlt2 hsm hk
            omega
          · exact heq
          · have := contiguous_order segs hc k ((start + e) / 2) s sm hgt hk hsm
            omega
        rw [heq]

theorem Holds_after_truncate (h : SegmentHeap) (c : MimicRaftKernelBriefCollector)
    (segs : List BriefSegment) (hH : Holds h c segs) (k p : Nat) (s s1 : BriefSegment)
    (hk : segs[k]? = some s) (hp : c.b[k]? = some p) :
    Holds (h.set p s1) { c with b := c.b.take (k + 1), next := some p }
      (segs.take k ++ [s1]) := by
  obtain ⟨hinit, hview, hnodup, _⟩ := hH
  have hklen : k < segs.length := (List.getElem?_eq_some.mp hk).1
  have hlen := Holds_length h c segs hview
  obtain ⟨p2, hp2, hhp⟩ := ptr_of_Briefing h c segs hview k s hk
  have hpp : p2 = p := by rw [hp] at hp2; exact (Option.some.inj hp2).symm
  subst hpp
  have hplt : p2 < h.length := (List.getElem?_eq_some.mp hhp).1
  have htk : (List.take k segs).length = k := by rw [List.length_take]; omega
  refine ⟨hinit, ?_, (List.take_sublist _ _).nodup hnodup, ?_⟩
  · apply List.ext_getElem?
    intro j
    simp only [Briefing, List.getElem?_map]
    rcases Nat.lt_trichotomy j k with hjk | hjk | hjk
    · obtain ⟨sj, hsj⟩ : ∃ sj, segs[j]? = some sj :=
        ⟨segs[j], List.getElem?_eq_getElem (by omega)⟩
      obtain ⟨q, hq, hhq⟩ := ptr_of_Briefing h c segs hview j sj hsj
      have hne : p2 ≠ q := by
        intro he
        have hjk2 : j = k :=
          List.getElem?_inj (by omega : j < c.b.length) hnodup (by rw [hq, hp, he])
        omega
      rw [List.getElem?_take_of_lt (by omega), hq, List.getElem?_append_left (by omega),
        List.getElem?_take_of_lt hjk, hsj]
      simp only [Option.map_some', List.getElem?_set, if_neg hne, hhq]
    · subst hjk
      rw [List.getElem?_take_of_lt (by omega), hp,
        List.getElem?_append_right (by omega), htk]
      simp [List.getElem?_set, hplt]
    · have h1 : (List.take (k + 1) c.b)[j]? = none :=
        List.getElem?_eq_none_iff.mpr (by rw [List.length_take]; omega)
      have h2 : (List.take k segs ++ [s1])[j]? = none :=
        List.getElem?_eq_none_iff.mpr (by rw [List.length_append, htk]; simp; omega)
      rw [h1, h2]
      rfl
  · simp only [List.getLast?_take, Nat.add_sub_cancel, hp]
    simp

theorem sliceInt_take {α : Type} (xs : List α) (k : Nat) (hk : k ≤ xs.length) :
    sliceInt xs 0 (k : Int) = some (xs.take k) := by
  have h1 : (0 : Int) ≤ 0 ∧ (0 : Int) ≤ (k : Int) ∧ (k : Int) ≤ (xs.length : Int) :=
    ⟨le_refl _, by omega, by omega⟩
  simp only [sliceInt, if_pos h1]
  simp

theorem subU64_one (x : Nat) (h1 : 1 ≤ x) (h2 : x < 18446744073709551616) :
    subU64 x 1 = x - 1 := by
  unfold subU64; omega

theorem not_empty_of_Holds (h : SegmentHeap) (c : MimicRaftKernelBriefCollector)
    (segs : List BriefSegment) (hH : Holds h c segs) (hne : segs ≠ []) :
    c.IsRefreshed = false ∧ c.IsEmpty = false := by
  obtain ⟨hinit, hview, _, hnext⟩ := hH
  have hlen := Holds_length h c segs hview
  have hpos : 0 < segs.length := List.length_pos.mpr hne
  have hb : c.b ≠ [] := by
    intro hb
    rw [hb] at hlen
    simp at hlen
    omega
  constructor
  · simp [IsRefreshed, hinit]
  · have hz : ¬ c.b.length = 0 := by omega
    obtain ⟨x, hx⟩ : ∃ x, c.b.getLast? = some x := by
      cases hl : c.b.getLast? with
      | none => exact absurd (List.getLast?_eq_none_iff.mp hl) hb
      | some x => exact ⟨x, rfl⟩
    simp [IsEmpty, hnext, hx, hz]

theorem seg_first (h : SegmentHeap) (c : MimicRaftKernelBriefCollector)
    (segs : List BriefSegment) (hview : c.Briefing h = segs.map some) (sf : BriefSegment)
    (hf : segs.head? = some sf) : c.seg h 0 = some sf := by
  have h0 := seg_of_Briefing h c segs hview 0
  rw [Nat.cast_zero] at h0
  rw [h0, ← List.head?_eq_getElem?]
  exact hf

theorem seg_last (h : SegmentHeap) (c : MimicRaftKernelBriefCollector)
    (segs : List BriefSegment) (hview : c.Briefing h = segs.map some) (sl : BriefSegment)
    (hl : segs.getLast? = some sl) : c.seg h ((c.b.length : Int) - 1) = some sl := by
  have hlen := Holds_length h c segs hview
  have hpos : 0 < segs.length := by
    cases segs with
    | nil => simp at hl
    | cons a r => simp
  have e : ((c.b.length : Int) - 1) = ((segs.length - 1 : Nat) : Int) := by omega
  rw [e, seg_of_Briefing h c segs hview, ← List.getLast?_eq_getElem?]
  exact hl

theorem locateIndex_finds (h : SegmentHeap) (c : MimicRaftKernelBriefCollector)
    (segs : List BriefSegment) (hview : c.Briefing h = segs.map some)
    (hc : ContiguousSegments segs) (index k : Nat) (s : BriefSegment)
    (hk : segs[k]? = some s) (h1 : s.FirstIndex ≤ index) (h2 : index ≤ s.LastIndex) :
    c.locateIndex h index 0 c.b.length = some (k : Int) := by
  have hlen := Holds_length h c segs hview
  have hklen : k < segs.length := (List.getElem?_eq_some.mp hk).1
  have := locateIndexLoop_finds h c segs hview hc index k s hk h1 h2 segs.length 0
    segs.length (Nat.zero_le _) hklen (le_refl _) (by omega)
  rw [Nat.cast_zero] at this
  unfold locateIndex
  rw [hlen, Int.sub_zero, Int.toNat_ofNat]
  exact this

theorem within_bounds (segs : List BriefSegment) (hc : ContiguousSegments segs)
    (sf sl : BriefSegment) (hf : segs.head? = some sf) (hl : segs.getLast? = some sl)
    (index k : Nat) (s : BriefSegment) (hk : segs[k]? = some s)
    (h1 : s.FirstIndex ≤ index) (h2 : index ≤ s.LastIndex) :
    sf.FirstIndex ≤ index ∧ index ≤ sl.LastIndex := by
  have hklen : k < segs.length := (List.getElem?_eq_some.mp hk).1
  rw [List.head?_eq_getElem?] at hf
  rw [List.getLast?_eq_getElem?] at hl
  constructor
  · rcases Nat.eq_zero_or_pos k with h0 | h0
    · subst h0
      rw [hf] at hk
      cases hk
      exact h1
    · have := contiguous_order segs hc 0 k sf s h0 hf hk
      have := hc.2 sf (List.getElem?_mem hf)
      omega
  · rcases Nat.lt_or_ge k (segs.length - 1) with h0 | h0
    · have := contiguous_order segs hc k (segs.length - 1) s sl h0 hk hl
      have := hc.2 sl (List.getElem?_mem hl)
      omega
    · have e : k = segs.length - 1 := by omega
      subst e
      rw [hl] at hk
      cases hk
      exact h2

theorem Resize_within (h : SegmentHeap) (c : MimicRaftKernelBriefCollector)
    (segs : List BriefSegment) (hH : Holds h c segs) (hc : ContiguousSegments segs)
    (sf sl : BriefSegment) (hf : segs.head? = some sf) (hl : segs.getLast? = some sl)
    (hf1 : 1 ≤ sf.FirstIndex) (hf2 : sf.FirstIndex < 18446744073709551616)
    (index k : Nat) (s : BriefSegment) (hk : segs[k]? = some s)
    (h1 : s.FirstIndex ≤ index) (h2 : index ≤ s.LastIndex) :
    ∃ p, c.b[k]? = some p ∧ h[p]? = some s ∧
      c.ResizeBriefToIndex h index =
        some (h.set p { s with LastIndex := index },
              { c with b := c.b.take (k + 1), next := some p }, true, Location.WITHIN) := by
  have hview := hH.2.1
  have hne : segs ≠ [] := by
    intro he
    rw [he] at hk
    simp at hk
  obtain ⟨hr, hemp⟩ := not_empty_of_Holds h c segs hH hne
  obtain ⟨p, hp, hhp⟩ := ptr_of_Briefing h c segs hview k s hk
  obtain ⟨hb1, hb2⟩ := within_bounds segs hc sf sl hf hl index k s hk h1 h2
  have hlen := Holds_length h c segs hview
  have hklen : k < segs.length := (List.getElem?_eq_some.mp hk).1
  have hsub := subU64_one sf.FirstIndex hf1 hf2
  have hs1 : sliceInt c.b 0 ((k : Int) + 1) = some (c.b.take (k + 1)) := by
    have := sliceInt_take c.b (k + 1) (by omega)
    rw [Nat.cast_add, Nat.cast_one] at this
    exact this
  have hg : getInt (c.b.take (k + 1)) (k : Int) = some p := by
    rw [MimicRaftKernelCollector.getInt_natCast, List.getElem?_take_of_lt (by omega)]
    exact hp
  have hset : setLastIndex h (some p) index = some (h.set p { s with LastIndex := index }) := by
    simp only [setLastIndex, hhp]
  refine ⟨p, hp, hhp, ?_⟩
  unfold ResizeBriefToIndex
  rw [hr, hemp, seg_first h c segs hview sf hf, seg_last h c segs hview sl hl]
  simp only [Bool.false_eq_true, if_false, hsub]
  rw [if_neg (by omega), if_neg (by omega), if_neg (by omega),
    locateIndex_finds h c segs hview hc index k s hk h1 h2]
  simp only [hs1, hg, hset, Option.map_some']

theorem Resize_prev (h : SegmentHeap) (c : MimicRaftKernelBriefCollector)
    (segs : List BriefSegment) (hH : Holds h c segs)
    (sf sl : BriefSegment) (hf : segs.head? = some sf) (hl : segs.getLast? = some sl)
    (hf1 : 1 ≤ sf.FirstIndex) (hf2 : sf.FirstIndex < 18446744073709551616)
    (index : Nat) (hi : index + 1 = sf.FirstIndex) :
    c.ResizeBriefToIndex h index =
      some (h, { c with b := [], next := none }, true, Location.PREV) := by
  have hview := hH.2.1
  have hne : segs ≠ [] := by
    intro he
    rw [he] at hf
    simp at hf
  obtain ⟨hr, hemp⟩ := not_empty_of_Holds h c segs hH hne
  have hsub := subU64_one sf.FirstIndex hf1 hf2
  unfold ResizeBriefToIndex
  rw [hr, hemp, seg_first h c segs hview sf hf, seg_last h c segs hview sl hl]
  simp only [Bool.false_eq_true, if_false, hsub]
  rw [if_neg (by omega), if_pos (by omega)]

theorem Resize_underflow (h : SegmentHeap) (c : MimicRaftKernelBriefCollector)
    (segs : List BriefSegment) (hH : Holds h c segs)
    (sf sl : BriefSegment) (hf : segs.head? = some sf) (hl : segs.getLast? = some sl)
    (hf1 : 1 ≤ sf.FirstIndex) (hf2 : sf.FirstIndex < 18446744073709551616)
    (index : Nat) (hi : index + 1 < sf.FirstIndex) :
    c.ResizeBriefToIndex h index = some (h, c, false, Location.UNDERFLOW) := by
  have hview := hH.2.1
  have hne : segs ≠ [] := by
    intro he
    rw [he] at hf
    simp at hf
  obtain ⟨hr, hemp⟩ := not_empty_of_Holds h c segs hH hne
  have hsub := subU64_one sf.FirstIndex hf1 hf2
  unfold ResizeBriefToIndex
  rw [hr, hemp, seg_first h c segs hview sf hf, seg_last h c segs hview sl hl]
  simp only [Bool.false_eq_true, if_false, hsub]
  rw [if_pos (by omega)]

theorem Resize_overflow (h : SegmentHeap) (c : MimicRaftKernelBriefCollector)
    (segs : List BriefSegment) (hH : Holds h c segs) (hc : ContiguousSegments segs)
    (sf sl : BriefSegment) (hf : segs.head? = some sf) (hl : segs.getLast? = some sl)
    (hf1 : 1 ≤ sf.FirstIndex) (hf2 : sf.FirstIndex < 18446744073709551616)
    (index : Nat) (hi : sl.LastIndex < index) :
    c.ResizeBriefToIndex h index = some (h, c, false, Location.OVERFLOW) := by
  have hview := hH.2.1
  have hne : segs ≠ [] := by
    intro he
    rw [he] at hf
    simp at hf
  obtain ⟨hr, hemp⟩ := not_empty_of_Holds h c segs hH hne
  have hsub := subU64_one sf.FirstIndex hf1 hf2
  have hfl : sf.FirstIndex ≤ sl.LastIndex :=
    (within_bounds segs hc sf sl hf hl sf.FirstIndex 0 sf
      (by rw [← List.head?_eq_getElem?]; exact hf) (le_refl _)
      (hc.2 sf (List.mem_of_mem_head? hf))).2
  unfold ResizeBriefToIndex
  rw [hr, hemp, seg_first h c segs hview sf hf, seg_last h c segs hview sl hl]
  simp only [Bool.false_eq_true, if_false, hsub]
  rw [if_neg (by omega), if_neg (by omega), if_pos (by omega)]

theorem LastIndex_of_Holds (h : SegmentHeap) (c : MimicRaftKernelBriefCollector)
    (segs : List BriefSegment) (hH : Holds h c segs) (sl : BriefSegment)
    (hl : segs.getLast? = some sl) : c.LastIndex h = some sl.LastIndex := by
  have hview := hH.2.1
  have hne : segs ≠ [] := by
    intro he
    rw [he] at hl
    simp at hl
  obtain ⟨hr, hemp⟩ := not_empty_of_Holds h c segs hH hne
  have hlen := Holds_length h c segs hview
  rw [List.getLast?_eq_getElem?] at hl
  obtain ⟨p, hp, hhp⟩ := ptr_of_Briefing h c segs hview (segs.length - 1) sl hl
  have hnext : c.next = some p := by
    rw [hH.2.2.2, List.getLast?_eq_getElem?, hlen]
    exact hp
  simp [LastIndex, hr, hemp, hnext, hhp]

end MimicRaftKernelBriefCollector
end Etcd

namespace Etcd
namespace MimicRaftKernelBriefCollector

/-- C21: `ResizeBriefToIndex` on a non-empty brief collector whose segments `segs` are
contiguous, with first index `f = sf.FirstIndex` (a raft index, so `1 ≤ f`, and a uint64)
and last index `l = sl.LastIndex`.  For `f ≤ index ≤ l` the call returns `(true, WITHIN)`;
with `k` the position of the segment `s` that contains `index`, the collector afterwards
shows the segments before `k` unchanged followed by `s` ending at `index`, its
`LastIndex()` is `index`, every segment before `k` ends before `index` and every
segment after `k` (all of them removed) starts after `index`.  For `index = f - 1` it
returns `(true, PREV)` and the collector is emptied.  For `index > l` it returns
`(false, OVERFLOW)` and for `index < f - 1` it returns `(false, UNDERFLOW)`, in both cases
with heap and collector unchanged. -/
theorem C21_ResizeBriefToIndex_cases (h : SegmentHeap) (c : MimicRaftKernelBriefCollector)
    (segs : List BriefSegment) (sf sl : BriefSegment) (index : Nat)
    (hH : Holds h c segs) (hc : ContiguousSegments segs)
    (hf : segs.head? = some sf) (hl : segs.getLast? = some sl)
    (hf1 : 1 ≤ sf.FirstIndex) (hf2 : sf.FirstIndex < 18446744073709551616) :
    (sf.FirstIndex ≤ index ∧ index ≤ sl.LastIndex →
      ∃ (h1 : SegmentHeap) (c1 : MimicRaftKernelBriefCollector) (k : Nat) (s : BriefSegment),
        c.ResizeBriefToIndex h index = some (h1, c1, true, Location.WITHIN) ∧
        segs[k]? = some s ∧ s.FirstIndex ≤ index ∧ index ≤ s.LastIndex ∧
        c1.Briefing h1 = (segs.take k ++ [{ s with LastIndex := index }]).map some ∧
        c1.LastIndex h1 = some index ∧
        (∀ (j : Nat) (t : BriefSegment), segs[j]? = some t →
          (j < k → t.LastIndex < index) ∧ (k < j → index < t.FirstIndex))) ∧
    (index + 1 = sf.FirstIndex →
      c.ResizeBriefToIndex h index =
        some (h, { c with b := [], next := none }, true, Location.PREV) ∧
      ({ c with b := [], next := none } : MimicRaftKernelBriefCollector).IsEmpty = true ∧
      ({ c with b := [], next := none } : MimicRaftKernelBriefCollector).Briefing h = []) ∧
    (sl.LastIndex < index →
      c.ResizeBriefToIndex h index = some (h, c, false, Location.OVERFLOW)) ∧
    (index + 1 < sf.FirstIndex →
      c.ResizeBriefToIndex h index = some (h, c, false, Location.UNDERFLOW)) := by
  refine ⟨?_, ?_, ?_, ?_⟩
  · rintro ⟨hlo, hhi⟩
    obtain ⟨k, s, hk, h1, h2⟩ := contiguous_covers segs hc sf sl hf hl index hlo hhi
    obtain ⟨p, hp, hhp, hres⟩ :=
      Resize_within h c segs hH hc sf sl hf hl hf1 hf2 index k s hk h1 h2
    have hH2 := Holds_after_truncate h c segs hH k p s { s with LastIndex := index } hk hp
    refine ⟨_, _, k, s, hres, hk, h1, h2, hH2.2.1, ?_, ?_⟩
    · exact LastIndex_of_Holds _ _ _ hH2 { s with LastIndex := index } (by simp)
    · intro j t ht
      constructor
      · intro hjk
        have := contiguous_order segs hc j k t s hjk ht hk
        omega
      · intro hkj
        have := contiguous_order segs hc k j s t hkj hk ht
        omega
  · intro hi
    exact ⟨Resize_prev h c segs hH sf sl hf hl hf1 hf2 index hi, by simp [IsEmpty],
      by simp [Briefing]⟩
  · intro hi
    exact Resize_overflow h c segs hH hc sf sl hf hl hf1 hf2 index hi
  · intro hi
    exact Resize_underflow h c segs hH sf sl hf hl hf1 hf2 index hi

/-- Witness for C21: the collector holding `[(term 1, [1..3]), (term 2, [4..7])]`, built
by `init` from seven entries, resized to 5, and what the code returns for 5, 3, 0 and 8. -/
theorem C21_ResizeBriefToIndex_cases_witness :
    ((NewMimicRaftKernelBriefCollector.init []
        [⟨1, 1, 0⟩, ⟨1, 2, 0⟩, ⟨1, 3, 0⟩, ⟨2, 4, 0⟩, ⟨2, 5, 0⟩, ⟨2, 6, 0⟩, ⟨2, 7, 0⟩] 0 0)
      = ([⟨1, 0, 1, 3⟩, ⟨2, 1, 4, 7⟩],
         { b := [0, 1], next := some 1, logTerm := 0, logIndex := 0, initialized := true })) ∧
    (∃ (h1 : SegmentHeap) (c1 : MimicRaftKernelBriefCollector) (k : Nat) (s : BriefSegment),
      ({ b := [0, 1], next := some 1, logTerm := 0, logIndex := 0, initialized := true } :
          MimicRaftKernelBriefCollector).ResizeBriefToIndex
          [⟨1, 0, 1, 3⟩, ⟨2, 1, 4, 7⟩] 5 = some (h1, c1, true, Location.WITHIN) ∧
      ([⟨1, 0, 1, 3⟩, ⟨2, 1, 4, 7⟩] : List BriefSegment)[k]? = some s ∧
      s.FirstIndex ≤ 5 ∧ 5 ≤ s.LastIndex ∧
      c1.Briefing h1 =
        (([⟨1, 0, 1, 3⟩, ⟨2, 1, 4, 7⟩] : List BriefSegment).take k ++
          [{ s with LastIndex := 5 }]).map some ∧
      c1.LastIndex h1 = some 5 ∧
      (∀ (j : Nat) (t : BriefSegment),
        ([⟨1, 0, 1, 3⟩, ⟨2, 1, 4, 7⟩] : List BriefSegment)[j]? = some t →
          (j < k → t.LastIndex < 5) ∧ (k < j → 5 < t.FirstIndex))) ∧
    (({ b := [0, 1], next := some 1, logTerm := 0, logIndex := 0, initialized := true } :
        MimicRaftKernelBriefCollector).ResizeBriefToIndex [⟨1, 0, 1, 3⟩, ⟨2, 1, 4, 7⟩] 5).map
        (fun r => (r.2.1.Briefing r.1, r.2.2))
      = some ([some ⟨1, 0, 1, 3⟩, some ⟨2, 1, 4, 5⟩], true, Location.WITHIN) ∧
    (({ b := [0, 1], next := some 1, logTerm := 0, logIndex := 0, initialized := true } :
        MimicRaftKernelBriefCollector).ResizeBriefToIndex [⟨1, 0, 1, 3⟩, ⟨2, 1, 4, 7⟩] 3).map
        (fun r => (r.2.1.Briefing r.1, r.2.2))
      = some ([some ⟨1, 0, 1, 3⟩], true, Location.WITHIN) ∧
    (({ b := [0, 1], next := some 1, logTerm := 0, logIndex := 0, initialized := true } :
        MimicRaftKernelBriefCollector).ResizeBriefToIndex [⟨1, 0, 1, 3⟩, ⟨2, 1, 4, 7⟩] 0).map
        (fun r => (r.2.1.Briefing r.1, r.2.2))
      = some ([], true, Location.PREV) ∧
    (({ b := [0, 1], next := some 1, logTerm := 0, logIndex := 0, initialized := true } :
        MimicRaftKernelBriefCollector).ResizeBriefToIndex [⟨1, 0, 1, 3⟩, ⟨2, 1, 4, 7⟩] 8).map
        (fun r => (r.2.1.Briefing r.1, r.2.2))
      = some ([some ⟨1, 0, 1, 3⟩, some ⟨2, 1, 4, 7⟩], false, Location.OVERFLOW) :=
  ⟨by decide,
   (C21_ResizeBriefToIndex_cases [⟨1, 0, 1, 3⟩, ⟨2, 1, 4, 7⟩]
      { b := [0, 1], next := some 1, logTerm := 0, logIndex := 0, initialized := true }
      [⟨1, 0, 1, 3⟩, ⟨2, 1, 4, 7⟩] ⟨1, 0, 1, 3⟩ ⟨2, 1, 4, 7⟩ 5
      (by unfold Holds; decide) (by simp [ContiguousSegments]) rfl rfl
      (by decide) (by decide)).1 ⟨by decide, by decide⟩,
   by decide, by decide, by decide, by decide⟩

end MimicRaftKernelBriefCollector
end Etcd

namespace Etcd
namespace MimicRaftKernelBriefCollector

theorem term_order (segs : List BriefSegment) (ht : IncreasingTerms segs)
    (a b : Nat) (sa sb : BriefSegment) (hab : a < b) (ha : segs[a]? = some sa)
    (hb : segs[b]? = some sb) : sa.Term < sb.Term := by
  obtain ⟨hla, hea⟩ := List.getElem?_eq_some.mp ha
  obtain ⟨hlb, heb⟩ := List.getElem?_eq_some.mp hb
  have := List.pairwise_iff_getElem.mp ht a b hla hlb hab
  rw [hea, heb] at this
  exact this

theorem locateTermLoop_finds (h : SegmentHeap) (c : MimicRaftKernelBriefCollector)
    (segs : List BriefSegment) (hview : c.Briefing h = segs.map some)
    (ht : IncreasingTerms segs) (k : Nat) (s : BriefSegment)
    (hk : segs[k]? = some s) :
    ∀ (fuel start e : Nat), start ≤ k → k < e → e ≤ segs.length → e - start ≤ fuel →
      c.locateTermLoop h s.Term fuel (start : Int) (e : Int) = some (k : Int) := by
  intro fuel
  induction fuel with
  | zero => intro start e hs he _ hf; omega
  | succ fuel ih =>
    intro start e hs he hel hf
    have hlt : (start : Int) < (e : Int) := by omega
    have hmid : ((start : Int) + (e : Int)) / 2 = (((start + e) / 2 : Nat) : Int) := by omega
    have hmlt : (start + e) / 2 < segs.length := by omega
    obtain ⟨sm, hsm⟩ : ∃ sm, segs[(start + e) / 2]? = some sm :=
      ⟨segs[(start + e) / 2], List.getElem?_eq_getElem hmlt⟩
    have hseg := seg_of_Briefing h c segs hview ((start + e) / 2)
    rw [hsm] at hseg
    simp only [locateTermLoop, if_pos hlt, hmid, hseg]
    by_cases hA : sm.Term < s.Term
    · rw [if_pos hA]
      have hmk : (start + e) / 2 < k := by
        by_contra hn
        rcases Nat.lt_or_ge k ((start + e) / 2) with hlt2 | hge
        · have := term_order segs ht k ((start + e) / 2) s sm hlt2 hk hsm
          omega
        · have heq : (start + e) / 2 = k := by omega
          rw [heq, hk] at hsm
          rw [← Option.some.inj hsm] at hA
          omega
      have hcast : (((start + e) / 2 : Nat) : Int) + 1 = (((start + e) / 2 + 1 : Nat) : Int) := by
        push_cast; rfl
      rw [hcast]
      exact ih ((start + e) / 2 + 1) e (by omega) he hel (by omega)
    · rw [if_neg hA]
      by_cases hB : s.Term < sm.Term
      · rw [if_pos hB]
        have hmk : k < (start + e) / 2 := by
          by_contra hn
          rcases Nat.lt_or_ge ((start + e) / 2) k with hlt2 | hge
          · have := term_order segs ht ((start + e) / 2) k sm s hlt2 hsm hk
            omega
          · have heq : (start + e) / 2 = k := by omega
            rw [heq, hk] at hsm
            rw [← Option.some.inj hsm] at hB
            omega
        exact ih start ((start + e) / 2) hs hmk (by omega) (by omega)
      · rw [if_neg hB]
        have heq : (start + e) / 2 = k := by
          rcases Nat.lt_trichotomy ((start + e) / 2) k with hlt2 | heq | hgt
          · have := term_order segs ht ((start + e) / 2) k sm s hlt2 hsm hk
            omega
          · exact heq
          · have := term_order segs ht k ((start + e) / 2) s sm hgt hk hsm
            omega
        rw [heq]

theorem locateTermLoop_total (h : SegmentHeap) (c : MimicRaftKernelBriefCollector)
    (segs : List BriefSegment) (hview : c.Briefing h = segs.map some) (term : Nat) :
    ∀ (fuel start e : Nat), e ≤ segs.length → e - start ≤ fuel →
      ∃ r : Int, c.locateTermLoop h term fuel (start : Int) (e : Int) = some r := by
  intro fuel
  induction fuel with
  | zero =>
    intro start e _ hf
    have hn : ¬ (start : Int) < (e : Int) := by omega
    exact ⟨start, by simp only [locateTermLoop, if_neg hn]⟩
  | succ fuel ih =>
    intro start e hel hf
    by_cases hlt : (start : Int) < (e : Int)
    · have hmid : ((start : Int) + (e : Int)) / 2 = (((start + e) / 2 : Nat) : Int) := by omega
      have hmlt : (start + e) / 2 < segs.length := by omega
      obtain ⟨sm, hsm⟩ : ∃ sm, segs[(start + e) / 2]? = some sm :=
        ⟨segs[(start + e) / 2], List.getElem?_eq_getElem hmlt⟩
      have hseg := seg_of_Briefing h c segs hview ((start + e) / 2)
      rw [hsm] at hseg
      simp only [locateTermLoop, if_pos hlt, hmid, hseg]
      by_cases hA : sm.Term < term
      · rw [if_pos hA]
        have hcast : (((start + e) / 2 : Nat) : Int) + 1 =
            (((start + e) / 2 + 1 : Nat) : Int) := by
          push_cast; rfl
        rw [hcast]
        exact ih ((start + e) / 2 + 1) e hel (by omega)
      · rw [if_neg hA]
        by_cases hB : term < sm.Term
        · rw [if_pos hB]
          exact ih start ((start + e) / 2) (by omega) (by omega)
        · rw [if_neg hB]
          exact ⟨_, rfl⟩
    · exact ⟨start, by simp only [locateTermLoop, if_neg hlt]⟩

theorem locateTerm_finds (h : SegmentHeap) (c : MimicRaftKernelBriefCollector)
    (segs : List BriefSegment) (hview : c.Briefing h = segs.map some)
    (ht : IncreasingTerms segs) (k : Nat) (s : BriefSegment) (hk : segs[k]? = some s) :
    c.locateTerm h s.Term 0 c.b.length = some (k : Int) := by
  have hlen := Holds_length h c segs hview
  have hklen : k < segs.length := (List.getElem?_eq_some.mp hk).1
  have := locateTermLoop_finds h c segs hview ht k s hk segs.length 0
    segs.length (Nat.zero_le _) hklen (le_refl _) (by omega)
  rw [Nat.cast_zero] at this
  unfold locateTerm
  rw [hlen, Int.sub_zero, Int.toNat_ofNat]
  exact this

theorem locateTerm_total (h : SegmentHeap) (c : MimicRaftKernelBriefCollector)
    (segs : List BriefSegment) (hview : c.Briefing h = segs.map some) (term : Nat) :
    ∃ r : Int, c.locateTerm h term 0 c.b.length = some r := by
  have hlen := Holds_length h c segs hview
  have := locateTermLoop_total h c segs hview term segs.length 0
    segs.length (le_refl _) (by omega)
  rw [Nat.cast_zero] at this
  unfold locateTerm
  rw [hlen, Int.sub_zero, Int.toNat_ofNat]
  exact this

theorem MatchIndex_within (h : SegmentHeap) (c : MimicRaftKernelBriefCollector)
    (segs : List BriefSegment) (hH : Holds h c segs) (ht : IncreasingTerms segs)
    (sf sl : BriefSegment) (hf : segs.head? = some sf) (hl : segs.getLast? = some sl)
    (hf1 : 1 ≤ sf.FirstIndex) (hf2 : sf.FirstIndex < 18446744073709551616)
    (index k : Nat) (s : BriefSegment) (hk : segs[k]? = some s)
    (h1 : s.FirstIndex ≤ index) (h2 : index ≤ s.LastIndex)
    (hb1 : sf.FirstIndex ≤ index) (hb2 : index ≤ sl.LastIndex) :
    c.MatchIndex h index s.Term = some Location.WITHIN := by
  have hview := hH.2.1
  have hne : segs ≠ [] := by
    intro he
    rw [he] at hk
    simp at hk
  obtain ⟨hr, hemp⟩ := not_empty_of_Holds h c segs hH hne
  have hlen := Holds_length h c segs hview
  have hklen : k < segs.length := (List.getElem?_eq_some.mp hk).1
  have hsub := subU64_one sf.FirstIndex hf1 hf2
  have hsk := seg_of_Briefing h c segs hview k
  rw [hk] at hsk
  have hrange : (0 : Int) ≤ (k : Int) ∧ (k : Int) < (c.b.length : Int) := by omega
  have hhit : s.Hit s.Term index = true := by
    simp [BriefSegment.Hit, h1, h2]
  unfold MatchIndex matchIndex
  rw [hr, hemp, seg_first h c segs hview sf hf, seg_last h c segs hview sl hl]
  simp only [Bool.false_eq_true, if_false, hsub]
  rw [if_neg (by omega), if_neg (by omega), if_neg (by omega),
    locateTerm_finds h c segs hview ht k s hk]
  simp only [if_pos hrange, hsk, hhit, if_true, Option.map_some']

theorem MatchIndex_cases (h : SegmentHeap) (c : MimicRaftKernelBriefCollector)
    (segs : List BriefSegment) (hH : Holds h c segs)
    (sf sl : BriefSegment) (hf : segs.head? = some sf) (hl : segs.getLast? = some sl)
    (hf1 : 1 ≤ sf.FirstIndex) (hf2 : sf.FirstIndex < 18446744073709551616)
    (index term : Nat) (loc : Location) (hm : c.MatchIndex h index term = some loc)
    (hloc : loc = Location.PREV ∨ loc = Location.WITHIN) :
    (loc = Location.PREV ∧ index + 1 = sf.FirstIndex) ∨
    (loc = Location.WITHIN ∧ ∃ (k : Nat) (s : BriefSegment), segs[k]? = some s ∧
      s.Term = term ∧ s.FirstIndex ≤ index ∧ index ≤ s.LastIndex) := by
  have hview := hH.2.1
  have hne : segs ≠ [] := by
    intro he
    rw [he] at hf
    simp at hf
  obtain ⟨hr, hemp⟩ := not_empty_of_Holds h c segs hH hne
  have hlen := Holds_length h c segs hview
  have hsub := subU64_one sf.FirstIndex hf1 hf2
  obtain ⟨r, hlt⟩ := locateTerm_total h c segs hview term
  unfold MatchIndex matchIndex at hm
  rw [hr, hemp, seg_first h c segs hview sf hf, seg_last h c segs hview sl hl] at hm
  simp only [Bool.false_eq_true, if_false, hsub, hlt] at hm
  by_cases hA : index < sf.FirstIndex - 1
  · rw [if_pos hA] at hm
    simp only [Option.map_some', Option.some.injEq] at hm
    rcases hloc with hp | hp <;> rw [hp] at hm <;> cases hm
  · rw [if_neg hA] at hm
    by_cases hB : index = sf.FirstIndex - 1
    · rw [if_pos hB] at hm
      left
      by_cases hhp : sf.HitPrev term index = true
      · rw [if_pos hhp] at hm
        simp only [Option.map_some', Option.some.injEq] at hm
        exact ⟨hm.symm, by omega⟩
      · rw [if_neg hhp] at hm
        simp only [Option.map_some', Option.some.injEq] at hm
        rcases hloc with hp | hp <;> rw [hp] at hm <;> cases hm
    · rw [if_neg hB] at hm
      by_cases hC : index > sl.LastIndex
      · rw [if_pos hC] at hm
        simp only [Option.map_some', Option.some.injEq] at hm
        rcases hloc with hp | hp <;> rw [hp] at hm <;> cases hm
      · rw [if_neg hC] at hm
        by_cases hD : 0 ≤ r ∧ r < (c.b.length : Int)
        · rw [if_pos hD] at hm
          have e : r = ((r.toNat : Nat) : Int) := by omega
          have hsk := seg_of_Briefing h c segs hview r.toNat
          rw [← e] at hsk
          have hrl : r.toNat < segs.length := by omega
          have hget : segs[r.toNat]? = some segs[r.toNat] := List.getElem?_eq_getElem hrl
          rw [hsk, hget] at hm
          simp only [] at hm
          by_cases hhit : (segs[r.toNat]).Hit term index = true
          · rw [if_pos hhit] at hm
            simp only [Option.map_some', Option.some.injEq] at hm
            right
            simp only [BriefSegment.Hit, Bool.and_eq_true, decide_eq_true_eq] at hhit
            exact ⟨hm.symm, r.toNat, segs[r.toNat], hget, hhit.1.1.symm, hhit.1.2, hhit.2⟩
          · rw [if_neg hhit] at hm
            simp only [Option.map_some', Option.some.injEq] at hm
            rcases hloc with hp | hp <;> rw [hp] at hm <;> cases hm
        · rw [if_neg hD] at hm
          simp only [Option.map_some', Option.some.injEq] at hm
          rcases hloc with hp | hp <;> rw [hp] at hm <;> cases hm

end MimicRaftKernelBriefCollector
end Etcd

namespace Etcd
namespace MimicRaftKernelCollector

end MimicRaftKernelCollector
end Etcd

namespace Etcd
namespace MimicRaftKernelAnalyzer

theorem subU64_addU64_one (li : Nat) (hli : li < 18446744073709551616) :
    subU64 (addU64 li 1) 1 = li := by
  unfold subU64 addU64; omega

theorem updateCommit_fields (an : MimicRaftKernelAnalyzer) (committed : Nat) :
    (an.updateCommit committed).beforeCompact = an.beforeCompact ∧
    (an.updateCommit committed).compacted = an.compacted ∧
    (an.updateCommit committed).bcCTerm = an.bcCTerm ∧
    (an.updateCommit committed).bcCTHolder = an.bcCTHolder := by
  unfold updateCommit
  split_ifs <;> exact ⟨rfl, rfl, rfl, rfl⟩

end MimicRaftKernelAnalyzer
end Etcd

namespace Etcd
namespace MimicRaftKernelAnalyzer

end MimicRaftKernelAnalyzer
end Etcd

namespace Etcd
namespace MimicRaftKernelCollector

theorem sorted_split (l : List Entry) (hs : NonDecreasingTerms l) (t : Nat) :
    l = l.filter (fun e => decide (e.term < t)) ++ l.filter (fun e => decide (e.term = t)) ++
      l.filter (fun e => decide (t < e.term)) := by
  induction l with
  | nil => rfl
  | cons x r ih =>
    unfold NonDecreasingTerms at hs
    rw [List.pairwise_cons] at hs
    have ih2 := ih hs.2
    rcases Nat.lt_trichotomy x.term t with hlt | heq | hgt
    · have h2 : ¬ x.term = t := by omega
      have h3 : ¬ t < x.term := by omega
      simp only [List.filter_cons, hlt, h2, h3, decide_True, decide_False, if_true,
        Bool.false_eq_true, if_false, List.cons_append]
      rw [← ih2]
    · subst heq
      have h1 : ¬ x.term < x.term := lt_irrefl _
      have hnil : r.filter (fun e => decide (e.term < x.term)) = [] := by
        rw [List.filter_eq_nil_iff]
        intro e he
        have := hs.1 e he
        simp only [decide_eq_true_eq]
        omega
      simp only [List.filter_cons, h1, decide_True, decide_False, if_true,
        Bool.false_eq_true, if_false, hnil, List.nil_append, List.cons_append]
      rw [hnil, List.nil_append] at ih2
      rw [← ih2]
    · have h1 : ¬ x.term < t := by omega
      have h2 : ¬ x.term = t := by omega
      have hnil : r.filter (fun e => decide (e.term < t)) = [] := by
        rw [List.filter_eq_nil_iff]
        intro e he
        have := hs.1 e he
        simp only [decide_eq_true_eq]
        omega
      have hnil2 : r.filter (fun e => decide (e.term = t)) = [] := by
        rw [List.filter_eq_nil_iff]
        intro e he
        have := hs.1 e he
        simp only [decide_eq_true_eq]
        omega
      simp only [List.filter_cons, h1, h2, hgt, decide_True, decide_False, if_true,
        Bool.false_eq_true, if_false, hnil, hnil2, List.nil_append]
      rw [hnil, hnil2, List.nil_append, List.nil_append] at ih2
      rw [← ih2]

theorem blocks_index (A Rn B : List Entry) (t : Nat) (hA : ∀ e ∈ A, e.term < t)
    (hR : ∀ e ∈ Rn, e.term = t) (hB : ∀ e ∈ B, t < e.term) :
    ∀ (i : Nat) (e : Entry), (A ++ Rn ++ B)[i]? = some e →
      (i < A.length → e.term < t) ∧
      (A.length ≤ i → i < A.length + Rn.length → e.term = t) ∧
      (A.length + Rn.length ≤ i → t < e.term) := by
  intro i e he
  rw [List.append_assoc] at he
  refine ⟨?_, ?_, ?_⟩
  · intro h
    rw [List.getElem?_append_left h] at he
    exact hA e (List.getElem?_mem he)
  · intro h1 h2
    rw [List.getElem?_append_right h1, List.getElem?_append_left (by omega)] at he
    exact hR e (List.getElem?_mem he)
  · intro h
    rw [List.getElem?_append_right (by omega), List.getElem?_append_right (by omega)] at he
    exact hB e (List.getElem?_mem he)

theorem locateEntryLoop_absent (content : List Entry) (t : Nat)
    (habs : ∀ e ∈ content, e.term ≠ t) :
    ∀ (fuel start e : Nat), e ≤ content.length → e - start ≤ fuel →
      ∃ r, locateEntryLoop content t fuel (start : Int) (e : Int) = some (false, r) := by
  intro fuel
  induction fuel with
  | zero =>
    intro start e _ hf
    have hn : ¬ (start : Int) < (e : Int) := by omega
    exact ⟨start, by simp only [locateEntryLoop, if_neg hn]⟩
  | succ fuel ih =>
    intro start e hel hf
    by_cases hlt : (start : Int) < (e : Int)
    · have hmid : ((start : Int) + (e : Int)) / 2 = (((start + e) / 2 : Nat) : Int) := by omega
      have hmlt : (start + e) / 2 < content.length := by omega
      have hget : content[(start + e) / 2]? = some content[(start + e) / 2] :=
        List.getElem?_eq_getElem hmlt
      have hne := habs _ (List.getElem?_mem hget)
      simp only [locateEntryLoop, if_pos hlt, hmid, getInt_natCast, hget, if_neg hne]
      by_cases hA : (content[(start + e) / 2]).term < t
      · rw [if_pos hA]
        have hcast : (((start + e) / 2 : Nat) : Int) + 1 =
            (((start + e) / 2 + 1 : Nat) : Int) := by
          push_cast; rfl
        rw [hcast]
        exact ih ((start + e) / 2 + 1) e hel (by omega)
      · rw [if_neg hA]
        exact ih start ((start + e) / 2) (by omega) (by omega)
    · exact ⟨start, by simp only [locateEntryLoop, if_neg hlt]⟩

theorem locateEntryLoop_present (content : List Entry) (t L R : Nat)
    (hrun : ∀ (i : Nat) (e : Entry), content[i]? = some e →
      (i < L → e.term < t) ∧ (L ≤ i → i < R → e.term = t) ∧ (R ≤ i → t < e.term)) :
    ∀ (fuel start e : Nat), start ≤ L → L < R → R ≤ e → e ≤ content.length →
      e - start ≤ fuel →
      ∃ idx : Nat, L ≤ idx ∧ idx < R ∧
        locateEntryLoop content t fuel (start : Int) (e : Int) = some (true, (idx : Int)) := by
  intro fuel
  induction fuel with
  | zero => intro start e hs hLR hRe hel hf; omega
  | succ fuel ih =>
    intro start e hs hLR hRe hel hf
    have hlt : (start : Int) < (e : Int) := by omega
    have hmid : ((start : Int) + (e : Int)) / 2 = (((start + e) / 2 : Nat) : Int) := by omega
    have hmlt : (start + e) / 2 < content.length := by omega
    have hget : content[(start + e) / 2]? = some content[(start + e) / 2] :=
      List.getElem?_eq_getElem hmlt
    obtain ⟨r1, r2, r3⟩ := hrun _ _ hget
    simp only [locateEntryLoop, if_pos hlt, hmid, getInt_natCast, hget]
    by_cases hE : (content[(start + e) / 2]).term = t
    · rw [if_pos hE]
      refine ⟨(start + e) / 2, ?_, ?_, rfl⟩
      · by_contra hn
        have := r1 (by omega)
        omega
      · by_contra hn
        have := r3 (by omega)
        omega
    · rw [if_neg hE]
      by_cases hA : (content[(start + e) / 2]).term < t
      · rw [if_pos hA]
        have hcast : (((start + e) / 2 : Nat) : Int) + 1 =
            (((start + e) / 2 + 1 : Nat) : Int) := by
          push_cast; rfl
        rw [hcast]
        have hmL : (start + e) / 2 < L := by
          by_contra hn
          rcases Nat.lt_or_ge ((start + e) / 2) R with h1 | h1
          · exact hE (r2 (by omega) h1)
          · have := r3 h1
            omega
        exact ih ((start + e) / 2 + 1) e (by omega) hLR hRe hel (by omega)
      · rw [if_neg hA]
        have hmR : R ≤ (start + e) / 2 := by
          by_contra hn
          rcases Nat.lt_or_ge ((start + e) / 2) L with h1 | h1
          · exact hA (r1 h1)
          · exact hE (r2 h1 (by omega))
        exact ih start ((start + e) / 2) hs hLR hmR (by omega) (by omega)

theorem locateFirstLoop_finds (content : List Entry) (t L R : Nat)
    (hrun : ∀ (i : Nat) (e : Entry), content[i]? = some e →
      (i < L → e.term < t) ∧ (L ≤ i → i < R → e.term = t) ∧ (R ≤ i → t < e.term)) :
    ∀ (fuel start e : Nat), start ≤ L → L < e → e ≤ R → e ≤ content.length →
      e - start ≤ fuel →
      locateFirstLoop content t 0 fuel (start : Int) (e : Int) = some (true, (L : Int)) := by
  intro fuel
  induction fuel with
  | zero => intro start e hs hLe heR hel hf; omega
  | succ fuel ih =>
    intro start e hs hLe heR hel hf
    have hlt : (start : Int) < (e : Int) := by omega
    have hmid : ((start : Int) + (e : Int)) / 2 = (((start + e) / 2 : Nat) : Int) := by omega
    have hmlt : (start + e) / 2 < content.length := by omega
    have hget : content[(start + e) / 2]? = some content[(start + e) / 2] :=
      List.getElem?_eq_getElem hmlt
    obtain ⟨r1, r2, r3⟩ := hrun _ _ hget
    simp only [locateFirstLoop, if_pos hlt, hmid, getInt_natCast, hget]
    by_cases hE : (content[(start + e) / 2]).term = t
    · rw [if_pos hE]
      have hmL : L ≤ (start + e) / 2 := by
        by_contra hn
        have := r1 (by omega)
        omega
      by_cases hz : (((start + e) / 2 : Nat) : Int) = 0
      · rw [if_pos hz]
        have : (start + e) / 2 = L := by omega
        rw [this]
      · rw [if_neg hz]
        have hprev : (((start + e) / 2 : Nat) : Int) - 1 = (((start + e) / 2 - 1 : Nat) : Int) := by
          omega
        have hplt : (start + e) / 2 - 1 < content.length := by omega
        have hgetp : content[(start + e) / 2 - 1]? = some content[(start + e) / 2 - 1] :=
          List.getElem?_eq_getElem hplt
        obtain ⟨p1, p2, p3⟩ := hrun _ _ hgetp
        simp only [hprev, getInt_natCast, hgetp]
        by_cases hP : (content[(start + e) / 2 - 1]).term ≠ t
        · rw [if_pos hP]
          have : (start + e) / 2 = L := by
            by_contra hn
            exact hP (p2 (by omega) (by omega))
          rw [this]
        · rw [if_neg hP]
          have hPe : (content[(start + e) / 2 - 1]).term = t := by
            by_contra hn
            exact hP hn
          have : L ≤ (start + e) / 2 - 1 := by
            by_contra hn
            have := p1 (by omega)
            omega
          exact ih start ((start + e) / 2) hs (by omega) (by omega) (by omega) (by omega)
    · rw [if_neg hE]
      have hmL : (start + e) / 2 < L := by
        by_contra hn
        exact hE (r2 (by omega) (by omega))
      have hA : (content[(start + e) / 2]).term < t := r1 hmL
      rw [if_pos hA]
      have hcast : (((start + e) / 2 : Nat) : Int) + 1 =
          (((start + e) / 2 + 1 : Nat) : Int) := by
        push_cast; rfl
      rw [hcast]
      exact ih ((start + e) / 2 + 1) e (by omega) hLe heR hel (by omega)

theorem locateLastLoop_finds (content : List Entry) (t L R : Nat)
    (hrun : ∀ (i : Nat) (e : Entry), content[i]? = some e →
      (i < L → e.term < t) ∧ (L ≤ i → i < R → e.term = t) ∧ (R ≤ i → t < e.term))
    (hR : R ≤ content.length) :
    ∀ (fuel start e : Nat), L ≤ start → start < R → R ≤ e → e ≤ content.length →
      e - start ≤ fuel →
      locateLastLoop content t (content.length : Int) fuel (start : Int) (e : Int)
        = some (true, ((R - 1 : Nat) : Int)) := by
  intro fuel
  induction fuel with
  | zero => intro start e hs hsR hRe hel hf; omega
  | succ fuel ih =>
    intro start e hs hsR hRe hel hf
    have hlt : (start : Int) < (e : Int) := by omega
    have hmid : ((start : Int) + (e : Int)) / 2 = (((start + e) / 2 : Nat) : Int) := by omega
    have hmlt : (start + e) / 2 < content.length := by omega
    have hget : content[(start + e) / 2]? = some content[(start + e) / 2] :=
      List.getElem?_eq_getElem hmlt
    obtain ⟨r1, r2, r3⟩ := hrun _ _ hget
    simp only [locateLastLoop, if_pos hlt, hmid, getInt_natCast, hget]
    by_cases hE : (content[(start + e) / 2]).term = t
    · rw [if_pos hE]
      have hmR : (start + e) / 2 < R := by
        by_contra hn
        have := r3 (by omega)
        omega
      by_cases hz : (((start + e) / 2 : Nat) : Int) = (content.length : Int) - 1
      · rw [if_pos hz]
        have : (start + e) / 2 = R - 1 := by omega
        rw [this]
      · rw [if_neg hz]
        have hnext : (((start + e) / 2 : Nat) : Int) + 1 = (((start + e) / 2 + 1 : Nat) : Int) := by
          push_cast; rfl
        have hnlt : (start + e) / 2 + 1 < content.length := by omega
        have hgetn : content[(start + e) / 2 + 1]? = some content[(start + e) / 2 + 1] :=
          List.getElem?_eq_getElem hnlt
        obtain ⟨n1, n2, n3⟩ := hrun _ _ hgetn
        simp only [hnext, getInt_natCast, hgetn]
        by_cases hP : (content[(start + e) / 2 + 1]).term ≠ t
        · rw [if_pos hP]
          have : (start + e) / 2 = R - 1 := by
            by_contra hn
            exact hP (n2 (by omega) (by omega))
          rw [this]
        · rw [if_neg hP]
          have : (start + e) / 2 + 1 < R := by
            by_contra hn
            have := n3 (by omega)
            have hPe : (content[(start + e) / 2 + 1]).term = t := by
              by_contra hn2
              exact hP hn2
            omega
          exact ih ((start + e) / 2 + 1) e (by omega) this hRe hel (by omega)
    · rw [if_neg hE]
      have hmR : R ≤ (start + e) / 2 := by
        by_contra hn
        exact hE (r2 (by omega) (by omega))
      have hA : ¬ (content[(start + e) / 2]).term < t := by
        have := r3 hmR
        omega
      rw [if_neg hA]
      exact ih start ((start + e) / 2) hs hsR hmR (by omega) (by omega)

theorem locateCachedTableLoop_spec (table : List CachedRow) (t : Nat) (from_ to_ : Int) :
    ∀ (fuel start e : Nat), e ≤ table.length → e - start ≤ fuel →
      locateCachedTableLoop table t from_ to_ fuel (start : Int) (e : Int) = some (false, 0, 0) ∨
      ∃ row ∈ table, row.term = t ∧ ¬ (row.first ≥ to_ ∨ row.last < from_) ∧
        locateCachedTableLoop table t from_ to_ fuel (start : Int) (e : Int) =
          some (true, if row.first < from_ then from_ else row.first,
            if row.last > to_ - 1 then to_ - 1 else row.last) := by
  intro fuel
  induction fuel with
  | zero =>
    intro start e _ hf
    have hn : ¬ (start : Int) < (e : Int) := by omega
    exact Or.inl (by simp only [locateCachedTableLoop, if_neg hn])
  | succ fuel ih =>
    intro start e hel hf
    by_cases hlt : (start : Int) < (e : Int)
    · have hmid : ((start : Int) + (e : Int)) / 2 = (((start + e) / 2 : Nat) : Int) := by omega
      have hmlt : (start + e) / 2 < table.length := by omega
      have hget : table[(start + e) / 2]? = some table[(start + e) / 2] :=
        List.getElem?_eq_getElem hmlt
      simp only [locateCachedTableLoop, if_pos hlt, hmid, getInt_natCast, hget]
      by_cases hE : (table[(start + e) / 2]).term = t
      · rw [if_pos hE]
        by_cases hX : (table[(start + e) / 2]).first ≥ to_ ∨ (table[(start + e) / 2]).last < from_
        · rw [if_pos hX]
          exact Or.inl rfl
        · rw [if_neg hX]
          exact Or.inr ⟨_, List.getElem?_mem hget, hE, hX, rfl⟩
      · rw [if_neg hE]
        by_cases hA : (table[(start + e) / 2]).term < t
        · rw [if_pos hA]
          have hcast : (((start + e) / 2 : Nat) : Int) + 1 =
              (((start + e) / 2 + 1 : Nat) : Int) := by
            push_cast; rfl
          rw [hcast]
          exact ih ((start + e) / 2 + 1) e hel (by omega)
        · rw [if_neg hA]
          exact ih start ((start + e) / 2) (by omega) (by omega)
    · exact Or.inl (by simp only [locateCachedTableLoop, if_neg hlt])

theorem locateCachedTableWithTerm_spec (c : MimicRaftKernelCollector) (t : Nat)
    (from_ to_ : Int) :
    c.locateCachedTableWithTerm t from_ to_ = some (false, 0, 0) ∨
    ∃ row ∈ c.cachedTable, row.term = t ∧ ¬ (row.first ≥ to_ ∨ row.last < from_) ∧
      c.locateCachedTableWithTerm t from_ to_ =
        some (true, if row.first < from_ then from_ else row.first,
          if row.last > to_ - 1 then to_ - 1 else row.last) := by
  unfold locateCachedTableWithTerm
  by_cases hz : c.cachedTable.length = 0
  · rw [if_pos hz]
    exact Or.inl rfl
  · rw [if_neg hz]
    have := locateCachedTableLoop_spec c.cachedTable t from_ to_ c.cachedTable.length 0
      c.cachedTable.length (le_refl _) (by omega)
    rw [Nat.cast_zero] at this
    exact this

theorem row_bounds (content : List Entry) (t L R : Nat)
    (hrun : ∀ (i : Nat) (e : Entry), content[i]? = some e →
      (i < L → e.term < t) ∧ (L ≤ i → i < R → e.term = t) ∧ (R ≤ i → t < e.term))
    (hLR : L < R) (hR : R ≤ content.length)
    (row : CachedRow) (hacc : RowAccurate content row) (hrt : row.term = t) :
    row.first = (L : Int) ∧ row.last = ((R - 1 : Nat) : Int) := by
  obtain ⟨h0, hfl, hll, hiff⟩ := hacc
  have key : ∀ i : Nat, i < content.length →
      ((L ≤ i ∧ i < R) ↔ (row.first ≤ (i : Int) ∧ (i : Int) ≤ row.last)) := by
    intro i hi
    have hget : content[i]? = some content[i] := List.getElem?_eq_getElem hi
    obtain ⟨r1, r2, r3⟩ := hrun _ _ hget
    rw [← hiff i hi, hrt]
    constructor
    · intro h
      exact r2 h.1 h.2
    · intro h
      constructor
      · by_contra hn
        have := r1 (by omega)
        omega
      · by_contra hn
        have := r3 (by omega)
        omega
  have kL := key L (by omega)
  have kR := key (R - 1) (by omega)
  have kf := key row.first.toNat (by omega)
  have kl := key row.last.toNat (by omega)
  have e1 : ((row.first.toNat : Nat) : Int) = row.first := by omega
  have e2 : ((row.last.toNat : Nat) : Int) = row.last := by omega
  rw [e1] at kf
  rw [e2] at kl
  have kL2 := kL.mp ⟨le_refl _, hLR⟩
  have kR2 := kR.mp ⟨by omega, by omega⟩
  have kf2 := kf.mpr ⟨le_refl _, hfl⟩
  have kl2 := kl.mpr ⟨hfl, le_refl _⟩
  constructor <;> omega

theorem row_present (content : List Entry) (row : CachedRow)
    (hacc : RowAccurate content row) : ∃ e ∈ content, e.term = row.term := by
  obtain ⟨h0, hfl, hll, hiff⟩ := hacc
  have hi : row.first.toNat < content.length := by omega
  refine ⟨content[row.first.toNat], List.getElem_mem _, ?_⟩
  rw [hiff _ hi]
  omega

theorem locateEntryWithTerm_present (c : MimicRaftKernelCollector) (t L R : Nat)
    (hrun : ∀ (i : Nat) (e : Entry), c.content[i]? = some e →
      (i < L → e.term < t) ∧ (L ≤ i → i < R → e.term = t) ∧ (R ≤ i → t < e.term))
    (hLR : L < R) (hR : R ≤ c.content.length)
    (hacc : ∀ row ∈ c.cachedTable, RowAccurate c.content row) :
    ∃ idx : Nat, L ≤ idx ∧ idx < R ∧
      c.locateEntryWithTerm t 0 c.content.length = some (true, (idx : Int)) := by
  unfold locateEntryWithTerm
  rcases locateCachedTableWithTerm_spec c t 0 c.content.length with
    hf | ⟨row, hmem, hrt, hX, heq⟩
  · rw [hf]
    simp only [Int.sub_zero, Int.toNat_ofNat]
    have := locateEntryLoop_present c.content t L R hrun c.content.length 0 c.content.length
      (Nat.zero_le _) hLR hR (le_refl _) (by omega)
    rw [Nat.cast_zero] at this
    exact this
  · obtain ⟨b1, b2⟩ := row_bounds c.content t L R hrun hLR hR row (hacc row hmem) hrt
    rw [heq]
    refine ⟨L, le_refl _, hLR, ?_⟩
    have hn : ¬ row.first < 0 := by omega
    simp only [if_neg hn]
    rw [b1]

theorem locateFirstEntryWithTerm_present (c : MimicRaftKernelCollector) (t L R : Nat)
    (hrun : ∀ (i : Nat) (e : Entry), c.content[i]? = some e →
      (i < L → e.term < t) ∧ (L ≤ i → i < R → e.term = t) ∧ (R ≤ i → t < e.term))
    (hLR : L < R) (hR : R ≤ c.content.length)
    (hacc : ∀ row ∈ c.cachedTable, RowAccurate c.content row)
    (idx : Nat) (h1 : L ≤ idx) (h2 : idx < R) :
    ∃ b, c.locateFirstEntryWithTerm t 0 ((idx : Int) + 1) = some (b, (L : Int)) := by
  unfold locateFirstEntryWithTerm
  rcases locateCachedTableWithTerm_spec c t 0 ((idx : Int) + 1) with
    hf | ⟨row, hmem, hrt, hX, heq⟩
  · rw [hf]
    have hfuel : ((idx : Int) + 1 - 0).toNat = idx + 1 := by omega
    have hcast : (idx : Int) + 1 = ((idx + 1 : Nat) : Int) := by push_cast; rfl
    simp only [hfuel]
    rw [hcast]
    have := locateFirstLoop_finds c.content t L R hrun (idx + 1) 0 (idx + 1)
      (Nat.zero_le _) (by omega) (by omega) (by omega) (by omega)
    rw [Nat.cast_zero] at this
    exact ⟨true, this⟩
  · obtain ⟨b1, b2⟩ := row_bounds c.content t L R hrun hLR hR row (hacc row hmem) hrt
    rw [heq]
    have hn : ¬ row.first < 0 := by omega
    exact ⟨true, by simp only [if_neg hn]; rw [b1]⟩

theorem locateLastEntryWithTerm_present (c : MimicRaftKernelCollector) (t L R : Nat)
    (hrun : ∀ (i : Nat) (e : Entry), c.content[i]? = some e →
      (i < L → e.term < t) ∧ (L ≤ i → i < R → e.term = t) ∧ (R ≤ i → t < e.term))
    (hLR : L < R) (hR : R ≤ c.content.length)
    (hacc : ∀ row ∈ c.cachedTable, RowAccurate c.content row)
    (idx : Nat) (h1 : L ≤ idx) (h2 : idx < R) :
    ∃ b, c.locateLastEntryWithTerm t (idx : Int) c.content.length
      = some (b, ((R - 1 : Nat) : Int)) := by
  unfold locateLastEntryWithTerm
  rcases locateCachedTableWithTerm_spec c t (idx : Int) c.content.length with
    hf | ⟨row, hmem, hrt, hX, heq⟩
  · rw [hf]
    have hfuel : ((c.content.length : Int) - (idx : Int)).toNat = c.content.length - idx := by
      omega
    simp only [hfuel]
    exact ⟨true, locateLastLoop_finds c.content t L R hrun hR (c.content.length - idx) idx
      c.content.length h1 h2 hR (le_refl _) (le_refl _)⟩
  · obtain ⟨b1, b2⟩ := row_bounds c.content t L R hrun hLR hR row (hacc row hmem) hrt
    rw [heq]
    have hn : ¬ row.last > (c.content.length : Int) - 1 := by omega
    exact ⟨true, by simp only [if_neg hn]; rw [b2]⟩

theorem locateEntryWithTerm_absent (c : MimicRaftKernelCollector) (t : Nat)
    (habs : ∀ e ∈ c.content, e.term ≠ t)
    (hacc : ∀ row ∈ c.cachedTable, RowAccurate c.content row) :
    ∃ r, c.locateEntryWithTerm t 0 c.content.length = some (false, r) := by
  unfold locateEntryWithTerm
  rcases locateCachedTableWithTerm_spec c t 0 c.content.length with
    hf | ⟨row, hmem, hrt, hX, heq⟩
  · rw [hf]
    simp only [Int.sub_zero, Int.toNat_ofNat]
    have := locateEntryLoop_absent c.content t habs c.content.length 0 c.content.length
      (le_refl _) (by omega)
    rw [Nat.cast_zero] at this
    exact this
  · obtain ⟨e, he, het⟩ := row_present c.content row (hacc row hmem)
    exact absurd (het.trans hrt) (habs e he)

theorem sliceInt_nat {α : Type} (xs : List α) (lo hi : Nat) (h1 : lo ≤ hi)
    (h2 : hi ≤ xs.length) :
    sliceInt xs (lo : Int) (hi : Int) = some ((xs.take hi).drop lo) := by
  have hc : (0 : Int) ≤ (lo : Int) ∧ (lo : Int) ≤ (hi : Int) ∧ (hi : Int) ≤ (xs.length : Int) :=
    ⟨by omega, by omega, by omega⟩
  simp only [sliceInt, if_pos hc, Int.toNat_ofNat]

theorem FetchEntries_present (c : MimicRaftKernelCollector) (t L R : Nat)
    (hinit : c.initialized = true)
    (hrun : ∀ (i : Nat) (e : Entry), c.content[i]? = some e →
      (i < L → e.term < t) ∧ (L ≤ i → i < R → e.term = t) ∧ (R ≤ i → t < e.term))
    (hLR : L < R) (hR : R ≤ c.content.length)
    (hacc : ∀ row ∈ c.cachedTable, RowAccurate c.content row) :
    c.FetchEntries t = some (true, (c.content.take R).drop L,
      match (c.content.take L).getLast? with
      | none => (c.logTerm, c.logIndex)
      | some p => (p.term, p.index)) := by
  have hr : c.IsRefreshed = false := by simp [IsRefreshed, hinit]
  obtain ⟨idx, i1, i2, hloc⟩ := locateEntryWithTerm_present c t L R hrun hLR hR hacc
  obtain ⟨bf, hfirst⟩ := locateFirstEntryWithTerm_present c t L R hrun hLR hR hacc idx i1 i2
  obtain ⟨bl, hlast⟩ := locateLastEntryWithTerm_present c t L R hrun hLR hR hacc idx i1 i2
  have hRc : ((R - 1 : Nat) : Int) + 1 = (R : Int) := by omega
  unfold FetchEntries
  rw [hr]
  simp only [Bool.false_eq_true, if_false, hloc, hfirst, hlast, hRc]
  by_cases hz : L = 0
  · subst hz
    have := sliceInt_nat c.content 0 R (Nat.zero_le _) hR
    rw [Nat.cast_zero] at this
    simp only [Nat.cast_zero, if_true, this, Option.map_some', List.take_zero,
      List.getLast?_nil, List.drop_zero]
  · have hz2 : ¬ (L : Int) = 0 := by omega
    have hp : (L : Int) - 1 = ((L - 1 : Nat) : Int) := by omega
    have hpl : L - 1 < c.content.length := by omega
    have hget : c.content[L - 1]? = some c.content[L - 1] := List.getElem?_eq_getElem hpl
    have hlastA : (c.content.take L).getLast? = some c.content[L - 1] := by
      rw [List.getLast?_take, if_neg hz, hget]
      rfl
    simp only [if_neg hz2, hp, getInt_natCast, hget, sliceInt_nat c.content L R (by omega) hR,
      hlastA]

theorem FetchEntries_absent (c : MimicRaftKernelCollector) (t : Nat)
    (hinit : c.initialized = true) (habs : ∀ e ∈ c.content, e.term ≠ t)
    (hacc : ∀ row ∈ c.cachedTable, RowAccurate c.content row) :
    c.FetchEntries t = some (false, [], 0, 0) := by
  have hr : c.IsRefreshed = false := by simp [IsRefreshed, hinit]
  obtain ⟨r, hloc⟩ := locateEntryWithTerm_absent c t habs hacc
  unfold FetchEntries
  rw [hr]
  simp only [Bool.false_eq_true, if_false, hloc]

end MimicRaftKernelCollector
end Etcd

namespace Etcd
namespace MimicRaftKernelCollector

theorem briefingLoop_rows (content : List Entry) (hs : NonDecreasingTerms content) :
    ∀ (fuel left logTerm : Nat), left ≤ content.length → content.length - left ≤ fuel →
      (∀ (i : Nat) (e e1 : Entry), content[i]? = some e → content[left]? = some e1 →
        i < left → e.term < e1.term) →
      ∃ segs rows, briefingLoop content fuel (left : Int) logTerm = some (segs, rows) ∧
        ∀ row ∈ rows, RowAccurate content row := by
  intro fuel
  induction fuel with
  | zero =>
    intro left logTerm hl hf _
    have hn : ¬ (left : Int) < (content.length : Int) := by omega
    exact ⟨[], [], by simp only [briefingLoop, if_neg hn], by simp⟩
  | succ fuel ih =>
    intro left logTerm hl hf hinv
    by_cases hlt : (left : Int) < (content.length : Int)
    · have hll : left < content.length := by omega
      have hget : content[left]? = some content[left] := List.getElem?_eq_getElem hll
      have hsplit := sorted_split content hs (content[left]).term
      have hrunA := blocks_index
        (content.filter (fun e => decide (e.term < (content[left]).term)))
        (content.filter (fun e => decide (e.term = (content[left]).term)))
        (content.filter (fun e => decide ((content[left]).term < e.term)))
        (content[left]).term
        (fun e he => by simpa using (List.mem_filter.mp he).2)
        (fun e he => by simpa using (List.mem_filter.mp he).2)
        (fun e he => by simpa using (List.mem_filter.mp he).2)
      rw [← hsplit] at hrunA
      generalize hL : (content.filter (fun e => decide (e.term < (content[left]).term))).length
        = L at hrunA
      generalize hN : (content.filter (fun e => decide (e.term = (content[left]).term))).length
        = N at hrunA
      have hlen : L + N ≤ content.length := by
        have := congrArg List.length hsplit
        simp only [List.length_append, hL, hN] at this
        omega
      obtain ⟨r1, r2, r3⟩ := hrunA left _ hget
      have hLl : L ≤ left := by
        by_contra hn
        have := r1 (by omega)
        omega
      have hlR : left < L + N := by
        by_contra hn
        have := r3 (by omega)
        omega
      have hLeq : L = left := by
        by_contra hn
        have hLlt : L < content.length := by omega
        have hgetL : content[L]? = some content[L] := List.getElem?_eq_getElem hLlt
        have h1 := (hrunA L _ hgetL).2.1 (le_refl _) (by omega)
        have h2 := hinv L _ _ hgetL hget (by omega)
        omega
      subst hLeq
      have hfuel : ((content.length : Int) - (L : Int)).toNat = content.length - L := by omega
      have hlast := locateLastLoop_finds content (content[L]).term L (L + N) hrunA hlen
        (content.length - L) L content.length (le_refl _) hlR hlen (le_refl _) (le_refl _)
      have hrl : L + N - 1 < content.length := by omega
      have hgetr : content[L + N - 1]? = some content[L + N - 1] :=
        List.getElem?_eq_getElem hrl
      have hnext : ((L + N - 1 : Nat) : Int) + 1 = ((L + N : Nat) : Int) := by omega
      obtain ⟨segs, rows, hrec, hrows⟩ := ih (L + N) (content[L]).term hlen (by omega)
        (by
          intro i e e1 hi he1 hiR
          have a := hrunA i e hi
          have b := (hrunA (L + N) e1 he1).2.2 (le_refl _)
          rcases Nat.lt_or_ge i L with h | h
          · have := a.1 h
            omega
          · have := a.2.1 h hiR
            omega)
      refine ⟨(⟨(content[L]).term, logTerm, (content[L]).index,
          (content[L + N - 1]).index⟩ : BriefSegment) :: segs,
        (⟨(content[L]).term, (L : Int), ((L + N - 1 : Nat) : Int)⟩ : CachedRow) :: rows, ?_, ?_⟩
      · simp only [briefingLoop, if_pos hlt, getInt_natCast, hget, hfuel, hlast, hgetr, hnext,
          hrec]
      · intro row hrow
        rw [List.mem_cons] at hrow
        rcases hrow with hrow | hrow
        · subst hrow
          refine ⟨by simp, by simp only; omega, by simp only; omega, ?_⟩
          intro i hi
          have hgi : content[i]? = some content[i] := List.getElem?_eq_getElem hi
          obtain ⟨a1, a2, a3⟩ := hrunA i _ hgi
          simp only
          constructor
          · intro h
            constructor
            · by_contra hn
              have := a1 (by omega)
              omega
            · by_contra hn
              have := a3 (by omega)
              omega
          · intro h
            exact a2 (by omega) (by omega)
        · exact hrows row hrow
    · exact ⟨[], [], by simp only [briefingLoop, if_neg hlt], by simp⟩

theorem Briefing_valid (c : MimicRaftKernelCollector) (hinit : c.initialized = true)
    (hs : NonDecreasingTerms c.content) (hv : CacheValid c) :
    ∃ c1 segs, c.Briefing = some (c1, segs) ∧ c1.content = c.content ∧
      c1.logTerm = c.logTerm ∧ c1.logIndex = c.logIndex ∧ c1.initialized = true ∧
      CacheValid c1 := by
  have hr : c.IsRefreshed = false := by simp [IsRefreshed, hinit]
  unfold Briefing
  cases hemp : c.IsEmpty
  · obtain ⟨segs, rows, hloop, hrows⟩ := briefingLoop_rows c.content hs c.content.length 0
      c.logTerm (Nat.zero_le _) (by omega) (by intro i e e1 _ _ hi; omega)
    rw [Nat.cast_zero] at hloop
    simp only [hr, Bool.or_self, Bool.false_eq_true, if_false, hloop, Option.map_some']
    refine ⟨_, _, rfl, rfl, rfl, rfl, hinit, ?_, hrows⟩
    intro hf
    rw [hinit] at hf
    cases hf
  · simp only [hr, Bool.false_or, if_true]
    exact ⟨c, [], rfl, rfl, rfl, rfl, hinit, hv⟩

theorem directAddEntries_table (c c2 : MimicRaftKernelCollector) (entries : List Entry)
    (h : c.directAddEntries entries = some c2) : c2.cachedTable = c.cachedTable := by
  unfold directAddEntries at h
  by_cases hz : entries.length = 0
  · rw [if_pos hz] at h
    cases h
    rfl
  · rw [if_neg hz] at h
    cases hg : getInt entries ((entries.length : Int) - 1) with
    | none => rw [hg] at h; cases h
    | some l =>
      rw [hg] at h
      simp only [Option.some.injEq] at h
      rw [← h]
      cases c.copied <;> rfl

theorem resize_table (c c2 : MimicRaftKernelCollector) (length r : Int) (lt li : Nat)
    (h : c.resize length lt li = some (c2, r)) : c2.cachedTable = c.cachedTable := by
  unfold resize at h
  by_cases h1 : length ≥ (c.content.length : Int)
  · rw [if_pos h1] at h
    cases h
    rfl
  · rw [if_neg h1] at h
    by_cases h2 : length = 0
    · rw [if_pos h2] at h
      cases h
      rfl
    · rw [if_neg h2] at h
      by_cases h3 : length < 0
      · rw [if_pos h3] at h
        cases h
      · rw [if_neg h3] at h
        simp only [Option.some.injEq, Prod.mk.injEq] at h
        rw [← h.1]
        cases c.copied <;> rfl

theorem mimic_table (c c2 : MimicRaftKernelCollector) (entries : List Entry) (lt li : Nat)
    (ok : Bool) (loc : Location) (h : c.mimic entries lt li = some (c2, ok, loc)) :
    c2 = c ∨ c2.cachedTable = [] := by
  unfold mimic at h
  cases hm : c.MatchIndex li lt with
  | none => rw [hm] at h; cases h
  | some l =>
    rw [hm] at h
    simp only [] at h
    by_cases hc : l ≠ Location.PREV ∧ l ≠ Location.WITHIN
    · rw [if_pos hc] at h
      simp only [Option.some.injEq, Prod.mk.injEq] at h
      exact Or.inl h.1.symm
    · rw [if_neg hc] at h
      cases hl : mimicLoop c.content entries (c.locateEntryWithIndex (addU64 li 1)).2 0 with
      | none => rw [hl] at h; cases h
      | some r =>
        obtain ⟨cIdx, eIdx⟩ := r
        rw [hl] at h
        simp only [] at h
        by_cases he : eIdx ≠ (entries.length : Int)
        · rw [if_pos he] at h
          right
          cases hf : getInt (List.drop eIdx.toNat entries) 0 with
          | none => rw [hf] at h; cases h
          | some first =>
            cases hla : getInt c.destroyCachedTable.content ((c.content.length : Int) - 1) with
            | none => rw [hf, hla] at h; cases h
            | some last =>
              rw [hf, hla] at h
              simp only [] at h
              by_cases hadd : addU64 last.index 1 = first.index
              · rw [if_pos hadd] at h
                cases hd : c.destroyCachedTable.directAddEntries (List.drop eIdx.toNat entries) with
                | none => rw [hd] at h; cases h
                | some c3 =>
                  rw [hd] at h
                  simp only [Option.map_some', Option.some.injEq, Prod.mk.injEq] at h
                  rw [← h.1, directAddEntries_table _ _ _ hd]
                  rfl
              · rw [if_neg hadd] at h
                cases hrs : c.destroyCachedTable.resize cIdx lt li with
                | none => rw [hrs] at h; cases h
                | some rr =>
                  obtain ⟨c3, r3⟩ := rr
                  rw [hrs] at h
                  simp only [] at h
                  cases hd : c3.directAddEntries (List.drop eIdx.toNat entries) with
                  | none => rw [hd] at h; cases h
                  | some c4 =>
                    rw [hd] at h
                    simp only [Option.map_some', Option.some.injEq, Prod.mk.injEq] at h
                    rw [← h.1, directAddEntries_table _ _ _ hd, resize_table _ _ _ _ _ _ hrs]
                    rfl
        · rw [if_neg he] at h
          simp only [Option.some.injEq, Prod.mk.injEq] at h
          exact Or.inl h.1.symm

theorem CacheValid_of_table_nil (c : MimicRaftKernelCollector) (h : c.cachedTable = []) :
    CacheValid c := by
  refine ⟨fun _ => h, ?_⟩
  intro row hrow
  rw [h] at hrow
  cases hrow

theorem CacheValid_new : CacheValid new := CacheValid_of_table_nil new rfl

theorem TryAddEntries_valid (c c2 : MimicRaftKernelCollector) (hv : CacheValid c)
    (entries : List Entry) (lt li : Nat) (ok : Bool) (loc : Location)
    (h : c.TryAddEntries entries lt li = some (c2, ok, loc)) : CacheValid c2 := by
  unfold TryAddEntries at h
  cases hi : c.initialized
  · have hr : c.IsRefreshed = true := by simp [IsRefreshed, hi]
    rw [hr] at h
    simp only [if_true, Option.some.injEq, Prod.mk.injEq] at h
    rw [← h.1]
    exact CacheValid_of_table_nil _ (hv.1 hi)
  · have hr : c.IsRefreshed = false := by simp [IsRefreshed, hi]
    rw [hr] at h
    simp only [Bool.false_eq_true, if_false] at h
    rcases mimic_table c c2 entries lt li ok loc h with h1 | h1
    · rw [h1]; exact hv
    · exact CacheValid_of_table_nil _ h1

theorem AddEntries_valid (c c2 : MimicRaftKernelCollector) (hv : CacheValid c)
    (entries : List Entry) (lt li : Nat) (ok : Bool)
    (h : c.AddEntries entries lt li = some (c2, ok)) : CacheValid c2 := by
  unfold AddEntries at h
  cases hi : c.initialized
  · have hr : c.IsRefreshed = true := by simp [IsRefreshed, hi]
    rw [hr] at h
    simp only [if_true, Option.some.injEq, Prod.mk.injEq] at h
    rw [← h.1]
    exact CacheValid_of_table_nil _ (hv.1 hi)
  · have hr : c.IsRefreshed = false := by simp [IsRefreshed, hi]
    rw [hr] at h
    simp only [Bool.false_eq_true, if_false] at h
    cases hm : c.mimic entries lt li with
    | none => rw [hm] at h; cases h
    | some r =>
      obtain ⟨c3, ok3, loc3⟩ := r
      rw [hm] at h
      simp only [Option.map_some', Option.some.injEq, Prod.mk.injEq] at h
      rw [← h.1]
      rcases mimic_table c c3 entries lt li ok3 loc3 hm with h1 | h1
      · rw [h1]; exact hv
      · exact CacheValid_of_table_nil _ h1

theorem Refresh_valid (c : MimicRaftKernelCollector) (hv : CacheValid c) :
    CacheValid c.Refresh := by
  unfold Refresh
  cases hi : c.initialized
  · have hr : c.IsRefreshed = true := by simp [IsRefreshed, hi]
    rw [hr]
    exact hv
  · have hr : c.IsRefreshed = false := by simp [IsRefreshed, hi]
    rw [hr]
    exact CacheValid_of_table_nil _ rfl

theorem FetchEntries_blocks (c : MimicRaftKernelCollector) (t : Nat) (A Rn B : List Entry)
    (hinit : c.initialized = true)
    (hacc : ∀ row ∈ c.cachedTable, RowAccurate c.content row)
    (hsplit : c.content = A ++ Rn ++ B) (hA : ∀ e ∈ A, e.term < t)
    (hR : ∀ e ∈ Rn, e.term = t) (hB : ∀ e ∈ B, t < e.term) :
    c.FetchEntries t = some (if Rn.length = 0 then (false, [], 0, 0) else
      (true, Rn, match A.getLast? with
        | none => (c.logTerm, c.logIndex)
        | some p => (p.term, p.index))) := by
  by_cases hz : Rn.length = 0
  · rw [if_pos hz]
    have hnil : Rn = [] := List.length_eq_zero.mp hz
    apply FetchEntries_absent c t hinit _ hacc
    intro e he
    rw [hsplit, hnil, List.append_nil, List.mem_append] at he
    rcases he with he | he
    · have := hA e he
      omega
    · have := hB e he
      omega
  · rw [if_neg hz]
    have hrun := blocks_index A Rn B t hA hR hB
    rw [← hsplit] at hrun
    have hlen : A.length + Rn.length ≤ c.content.length := by
      rw [hsplit]
      simp only [List.length_append]
      omega
    rw [FetchEntries_present c t A.length (A.length + Rn.length) hinit hrun (by omega) hlen hacc]
    have e1 : (c.content.take (A.length + Rn.length)).drop A.length = Rn := by
      rw [hsplit, ← List.length_append, List.take_left' rfl]
      simp
    have e2 : c.content.take A.length = A := by
      rw [hsplit, List.append_assoc]
      simp
    rw [e1, e2]

theorem FetchEntries_filter (c : MimicRaftKernelCollector) (t : Nat)
    (hinit : c.initialized = true) (hs : NonDecreasingTerms c.content)
    (hacc : ∀ row ∈ c.cachedTable, RowAccurate c.content row) :
    c.FetchEntries t = some
      (if (c.content.filter (fun e => decide (e.term = t))).length = 0 then (false, [], 0, 0)
       else (true, c.content.filter (fun e => decide (e.term = t)),
        match (c.content.filter (fun e => decide (e.term < t))).getLast? with
        | none => (c.logTerm, c.logIndex)
        | some p => (p.term, p.index))) :=
  FetchEntries_blocks c t _ _ _ hinit hacc (sorted_split c.content hs t)
    (fun e he => by simpa using (List.mem_filter.mp he).2)
    (fun e he => by simpa using (List.mem_filter.mp he).2)
    (fun e he => by simpa using (List.mem_filter.mp he).2)

end MimicRaftKernelCollector
end Etcd

namespace Etcd
namespace MimicRaftKernelCollector

/-- C22: `FetchEntries(term)` on an initialized collector whose terms never decrease and
whose `cachedTable` is in a state the methods keep (`CacheValid`: no rows, or rows that
describe the array).  The array splits as `A ++ Rn ++ B` with every term in `A` below
`term`, every term in `Rn` equal to `term` and every term in `B` above it, so that `Rn` is
the maximal run of entries of that term; the call returns `(false, nil, 0, 0)` when `Rn` is
empty and otherwise `true`, `Rn`, and the term and index of the last entry of `A`, or
`(logTerm, logIndex)` when `A` is empty.  `Briefing()` returns, leaves the array as it is,
fills the table with rows that keep `CacheValid`, and the result of `FetchEntries(term)`
after it is the same as before it; `AddEntries`, `TryAddEntries` and `Refresh` keep
`CacheValid` as well, so the result does not depend on the table after any of them. -/
theorem C22_FetchEntries_returns_run_of_term (c : MimicRaftKernelCollector) (term : Nat)
    (hinit : c.initialized = true) (hs : NonDecreasingTerms c.content)
    (hv : CacheValid c) :
    (∃ A Rn B, c.content = A ++ Rn ++ B ∧ (∀ e ∈ A, e.term < term) ∧
      (∀ e ∈ Rn, e.term = term) ∧ (∀ e ∈ B, term < e.term) ∧
      c.FetchEntries term = some (if Rn.length = 0 then (false, [], 0, 0) else
        (true, Rn, match A.getLast? with
          | none => (c.logTerm, c.logIndex)
          | some p => (p.term, p.index)))) ∧
    (∃ c1 segs, c.Briefing = some (c1, segs) ∧ c1.content = c.content ∧ CacheValid c1 ∧
      c1.FetchEntries term = c.FetchEntries term) ∧
    (∀ entries lt li c2 ok, c.AddEntries entries lt li = some (c2, ok) → CacheValid c2) ∧
    (∀ entries lt li c2 ok loc, c.TryAddEntries entries lt li = some (c2, ok, loc) →
      CacheValid c2) ∧
    CacheValid c.Refresh := by
  refine ⟨?_, ?_, ?_, ?_, Refresh_valid c hv⟩
  · exact ⟨_, _, _, sorted_split c.content hs term,
      fun e he => by simpa using (List.mem_filter.mp he).2,
      fun e he => by simpa using (List.mem_filter.mp he).2,
      fun e he => by simpa using (List.mem_filter.mp he).2,
      FetchEntries_filter c term hinit hs hv.2⟩
  · obtain ⟨c1, segs, hb, hc, hlt, hli, hi1, hv1⟩ := Briefing_valid c hinit hs hv
    refine ⟨c1, segs, hb, hc, hv1, ?_⟩
    rw [FetchEntries_filter c term hinit hs hv.2,
      FetchEntries_filter c1 term hi1 (by rw [hc]; exact hs) hv1.2, hc, hlt, hli]
  · intro entries lt li c2 ok h
    exact AddEntries_valid c c2 hv entries lt li ok h
  · intro entries lt li c2 ok loc h
    exact TryAddEntries_valid c c2 hv entries lt li ok loc h

/-- Witness for C22: the collector after `AddEntries` of the entries with terms 1, 1, 2, 2,
2, 3 behind the anchor `(0, 0)`, before and after `Briefing()`, asked for the terms 2, 1
and 4. -/
theorem C22_FetchEntries_returns_run_of_term_witness :
    ((new.init [⟨1, 1, 0⟩, ⟨1, 2, 0⟩, ⟨2, 3, 0⟩, ⟨2, 4, 0⟩, ⟨2, 5, 0⟩, ⟨3, 6, 0⟩] 0 0).FetchEntries 2
      = some (true, [⟨2, 3, 0⟩, ⟨2, 4, 0⟩, ⟨2, 5, 0⟩], 1, 2)) ∧
    ((new.init [⟨1, 1, 0⟩, ⟨1, 2, 0⟩, ⟨2, 3, 0⟩, ⟨2, 4, 0⟩, ⟨2, 5, 0⟩, ⟨3, 6, 0⟩] 0 0).FetchEntries 1
      = some (true, [⟨1, 1, 0⟩, ⟨1, 2, 0⟩], 0, 0)) ∧
    ((new.init [⟨1, 1, 0⟩, ⟨1, 2, 0⟩, ⟨2, 3, 0⟩, ⟨2, 4, 0⟩, ⟨2, 5, 0⟩, ⟨3, 6, 0⟩] 0 0).FetchEntries 4
      = some (false, [], 0, 0)) ∧
    (((new.init [⟨1, 1, 0⟩, ⟨1, 2, 0⟩, ⟨2, 3, 0⟩, ⟨2, 4, 0⟩, ⟨2, 5, 0⟩, ⟨3, 6, 0⟩] 0 0).Briefing).map
        (fun r => r.1.cachedTable)
      = some [⟨1, 0, 1⟩, ⟨2, 2, 4⟩, ⟨3, 5, 5⟩]) ∧
    (((new.init [⟨1, 1, 0⟩, ⟨1, 2, 0⟩, ⟨2, 3, 0⟩, ⟨2, 4, 0⟩, ⟨2, 5, 0⟩, ⟨3, 6, 0⟩] 0 0).Briefing).bind
        (fun r => r.1.FetchEntries 2)
      = some (true, [⟨2, 3, 0⟩, ⟨2, 4, 0⟩, ⟨2, 5, 0⟩], 1, 2)) ∧
    (∃ c1 segs,
      (new.init [⟨1, 1, 0⟩, ⟨1, 2, 0⟩, ⟨2, 3, 0⟩, ⟨2, 4, 0⟩, ⟨2, 5, 0⟩, ⟨3, 6, 0⟩] 0 0).Briefing
        = some (c1, segs) ∧
      c1.content
        = (new.init [⟨1, 1, 0⟩, ⟨1, 2, 0⟩, ⟨2, 3, 0⟩, ⟨2, 4, 0⟩, ⟨2, 5, 0⟩, ⟨3, 6, 0⟩] 0 0).content ∧
      CacheValid c1 ∧
      c1.FetchEntries 2
        = (new.init [⟨1, 1, 0⟩, ⟨1, 2, 0⟩, ⟨2, 3, 0⟩, ⟨2, 4, 0⟩, ⟨2, 5, 0⟩, ⟨3, 6, 0⟩] 0
            0).FetchEntries 2) :=
  ⟨by decide, by decide, by decide, by decide, by decide,
   (C22_FetchEntries_returns_run_of_term
      (new.init [⟨1, 1, 0⟩, ⟨1, 2, 0⟩, ⟨2, 3, 0⟩, ⟨2, 4, 0⟩, ⟨2, 5, 0⟩, ⟨3, 6, 0⟩] 0 0) 2 rfl
      (by simp [NonDecreasingTerms, init])
      ⟨by simp [init], by simp [init, new]⟩).2.1⟩

end MimicRaftKernelCollector
end Etcd

namespace Etcd
namespace SaucrModeDamper

theorem flips_length (last : SaucrMode) (ms : List SaucrMode) :
    (flips last ms).length = ms.length := by
  induction ms generalizing last with
  | nil => rfl
  | cons m r ih => simp [flips, ih]

theorem rot_step (w : List Bool) (q : Nat) (f : Bool) (hq : q < w.length) :
    (w.set q f).drop ((q + 1) % w.length) ++ (w.set q f).take ((q + 1) % w.length)
      = (w.drop q ++ w.take q).tail ++ [f] := by
  obtain ⟨A, x, B, hw, hA⟩ : ∃ A x B, w = A ++ x :: B ∧ A.length = q :=
    ⟨w.take q, w[q], w.drop (q + 1), by
      rw [← List.drop_eq_getElem_cons hq, List.take_append_drop], by
      rw [List.length_take]; omega⟩
  subst hw
  subst hA
  have hset : (A ++ x :: B).set A.length f = A ++ f :: B := by
    simp
  rw [hset]
  have hd : (A ++ x :: B).drop A.length = x :: B := by simp
  have ht : (A ++ x :: B).take A.length = A := by simp
  rw [hd, ht]
  simp only [List.length_append, List.length_cons, List.cons_append, List.tail_cons]
  by_cases hB : B = []
  · subst hB
    simp
  · have hpos : 0 < B.length := List.length_pos.mpr hB
    have hmod : (A.length + 1) % (A.length + (B.length + 1)) = A.length + 1 :=
      Nat.mod_eq_of_lt (by omega)
    rw [hmod]
    have hd2 : (A ++ f :: B).drop (A.length + 1) = B := by
      rw [show A ++ f :: B = (A ++ [f]) ++ B by simp]
      rw [show A.length + 1 = (A ++ [f]).length by simp]
      exact List.drop_left _ _
    have ht2 : (A ++ f :: B).take (A.length + 1) = A ++ [f] := by
      rw [show A ++ f :: B = (A ++ [f]) ++ B by simp]
      rw [show A.length + 1 = (A ++ [f]).length by simp]
      exact List.take_left _ _
    rw [hd2, ht2, List.append_assoc]

theorem lastW_step (H : List Bool) (W : Nat) (f : Bool) (h1 : 1 ≤ W) (h2 : W ≤ H.length) :
    (H ++ [f]).drop ((H ++ [f]).length - W) = (H.drop (H.length - W)).tail ++ [f] := by
  have e : (H ++ [f]).length - W = (H.length - W) + 1 := by
    simp only [List.length_append, List.length_singleton]
    omega
  rw [e, List.drop_append_of_le_length (by omega), List.tail_drop]

theorem foldl_count (w : List Bool) (k : Int) :
    w.foldl (fun (count : Int) changed => if changed then count + 1 else count) k
      = k + (w.count true : Int) := by
  induction w generalizing k with
  | nil => simp
  | cons b r ih =>
    cases b
    · simp [ih]
    · rw [List.foldl_cons, if_pos rfl, ih, List.count_cons_self]
      push_cast
      ring

theorem Current_tracks (W : Nat) (F : Int) (d : SaucrModeDamper) (H : List Bool)
    (mode : SaucrMode) (hW : 1 ≤ W) (hT : Tracks W F d H) :
    ∃ d1, d.Current mode = some d1 ∧ d1.lastMode = mode ∧
      Tracks W F d1 (H ++ [decide (mode ≠ d.lastMode)]) := by
  obtain ⟨hws, hfl, hlen, hH, p, hp, hpW, hrot⟩ := hT
  have hWpos : (0 : Int) < (W : Int) := by omega
  have hq : (p + 1) % W < W := Nat.mod_lt _ (by omega)
  have htm : Int.tmod (d.ptr + 1) d.winSize = (((p + 1) % W : Nat) : Int) := by
    rw [hp, hws, Int.tmod_eq_emod (by omega) (by omega)]
    push_cast
    rfl
  have hne : ¬ d.winSize = 0 := by omega
  have hrange : (0 : Int) ≤ (((p + 1) % W : Nat) : Int) ∧
      (((p + 1) % W : Nat) : Int) < (d.window.length : Int) := by
    constructor
    · omega
    · rw [hlen]; exact_mod_cast hq
  refine ⟨{ d with
      ptr := (((p + 1) % W : Nat) : Int)
      window := d.window.set ((p + 1) % W) (decide (mode ≠ d.lastMode))
      lastMode := mode }, ?_, rfl, ?_⟩
  · simp only [Current, if_neg hne, htm, if_pos hrange, Int.toNat_ofNat]
  · refine ⟨hws, hfl, by simp [hlen], by simp; omega, (p + 1) % W, rfl, hq, ?_⟩
    have := rot_step d.window ((p + 1) % W) (decide (mode ≠ d.lastMode)) (by omega)
    rw [hlen] at this
    rw [this, hrot, lastW_step H W _ hW hH]

theorem observe_tracks (W : Nat) (F : Int) (hW : 1 ≤ W) :
    ∀ (ms : List SaucrMode) (d : SaucrModeDamper) (H : List Bool), Tracks W F d H →
      ∃ d1, d.observe ms = some d1 ∧ Tracks W F d1 (H ++ flips d.lastMode ms) := by
  intro ms
  induction ms with
  | nil =>
    intro d H hT
    exact ⟨d, rfl, by simpa [flips] using hT⟩
  | cons m r ih =>
    intro d H hT
    obtain ⟨d1, hc, hl, hT1⟩ := Current_tracks W F d H m hW hT
    obtain ⟨d2, ho, hT2⟩ := ih d1 _ hT1
    refine ⟨d2, ?_, ?_⟩
    · simp only [observe, hc, Option.some_bind, ho]
    · rw [hl, List.append_assoc] at hT2
      exact hT2

theorem New_tracks (W : Nat) (F : Int) (hW : 1 ≤ W) (hF : F ≤ (W : Int)) :
    ∃ d0, NewSaucrModeDamper (W : Int) F = some (some d0) ∧ d0.lastMode = 0 ∧
      Tracks W F d0 (List.replicate (W - 1) false ++ [true]) := by
  have h1 : ¬ (W : Int) < F := by omega
  have h2 : ¬ (W : Int) < 0 := by omega
  have h3 : ¬ ((W : Int).toNat = 0) := by simp; omega
  refine ⟨(⟨true :: List.replicate ((W : Int).toNat - 1) false, (W : Int), 0, F, 0⟩ :
      SaucrModeDamper),
    by simp only [NewSaucrModeDamper, if_neg h1, if_neg h2, if_neg h3], rfl, ?_⟩
  refine ⟨rfl, rfl, by simp; omega, by simp; omega, 0, rfl, by omega, ?_⟩
  simp only [Int.toNat_ofNat, List.length_append, List.length_replicate, List.length_singleton]
  have e : W - 1 + 1 - W = 0 := by omega
  rw [e, List.drop_zero]
  by_cases h : W = 1
  · subst h
    simp
  · have hm : (0 + 1) % W = 1 := Nat.mod_eq_of_lt (by omega)
    rw [hm]
    simp

theorem IsFluctuate_tracks (W : Nat) (F : Int) (d : SaucrModeDamper) (H : List Bool)
    (hT : Tracks W F d H) :
    d.IsFluctuate = decide (((H.drop (H.length - W)).count true : Int) ≥ F) := by
  obtain ⟨_, hfl, _, _, p, _, _, hrot⟩ := hT
  have hc : (H.drop (H.length - W)).count true = d.window.count true := by
    rw [← hrot, List.count_append, Nat.add_comm, ← List.count_append, List.take_append_drop]
  simp only [IsFluctuate, foldl_count, hfl, hc, Int.zero_add]

end SaucrModeDamper
end Etcd

namespace Etcd
namespace SaucrModeDamper

/-- C31, counterexample to "more than F": the damper with window size 3 and threshold 2
after the observations SHELTERING, NORMAL, NORMAL.  Exactly 2 of the last 3 observations
are flips, which is not more than 2, and `IsFluctuate()` returns true. -/
theorem C31_counterexample_exactly_threshold_flips :
    NewSaucrModeDamper 3 2
      = some (some { window := [true, false, false], winSize := 3, ptr := 0, fluctuate := 2,
                     lastMode := 0 }) ∧
    (observe { window := [true, false, false], winSize := 3, ptr := 0, fluctuate := 2,
               lastMode := 0 } [1, 0, 0]).map IsFluctuate = some true ∧
    flips 0 [1, 0, 0] = [true, true, false] ∧
    ¬ (2 < ((flips 0 [1, 0, 0]).drop (3 - 3)).count true) := by
  decide

/-- C31, amended: a damper built by `NewSaucrModeDamper` with window size `W ≥ 1` and
threshold `F ≤ W`, after the calls `Current(mode)` for the modes `ms`, at least `W` of
them (none of the calls panics).  `IsFluctuate()` returns true if and only if at least `F`
of the last `W` observations were flips, the mode before the first observation being
`NORMAL`, the zero value of `lastMode`. -/
theorem C31_IsFluctuate_iff_at_least_threshold (W : Nat) (F : Int) (ms : List SaucrMode)
    (hW : 1 ≤ W) (hF : F ≤ (W : Int)) (hlen : W ≤ ms.length) :
    ∃ d0 d, NewSaucrModeDamper (W : Int) F = some (some d0) ∧ d0.observe ms = some d ∧
      (d.IsFluctuate = true ↔
        F ≤ (((flips 0 ms).drop (ms.length - W)).count true : Int)) := by
  obtain ⟨d0, hnew, hl0, hT0⟩ := New_tracks W F hW hF
  obtain ⟨d, hobs, hT⟩ := observe_tracks W F hW ms d0 _ hT0
  refine ⟨d0, d, hnew, hobs, ?_⟩
  rw [IsFluctuate_tracks W F d _ hT, hl0]
  have hfl := flips_length 0 ms
  have e : (List.replicate (W - 1) false ++ [true] ++ flips 0 ms).length - W = ms.length := by
    simp only [List.length_append, List.length_replicate, List.length_singleton, hfl]
    omega
  have e2 : (List.replicate (W - 1) false ++ [true] ++ flips 0 ms).drop ms.length
      = (flips 0 ms).drop (ms.length - W) := by
    have hl : (List.replicate (W - 1) false ++ [true]).length = W := by
      simp only [List.length_append, List.length_replicate, List.length_singleton]
      omega
    rw [List.drop_append_eq_append_drop, hl, List.drop_eq_nil_of_le (by omega),
      List.nil_append]
  rw [e, e2]
  simp only [ge_iff_le, decide_eq_true_eq]

/-- Witness for C31: window size 3, threshold 2, four observations. -/
theorem C31_IsFluctuate_iff_at_least_threshold_witness :
    (∃ d0 d, NewSaucrModeDamper ((3 : Nat) : Int) 2 = some (some d0) ∧
      d0.observe [1, 1, 0, 1] = some d ∧
      (d.IsFluctuate = true ↔
        (2 : Int) ≤ (((flips 0 [1, 1, 0, 1]).drop ([1, 1, 0, 1].length - 3)).count true : Int))) ∧
    (observe { window := [true, false, false], winSize := 3, ptr := 0, fluctuate := 2,
               lastMode := 0 } [1, 1, 0, 1])
      = some { window := [true, true, false], winSize := 3, ptr := 1, fluctuate := 2,
               lastMode := 1 } :=
  ⟨C31_IsFluctuate_iff_at_least_threshold 3 2 [1, 1, 0, 1] (by decide) (by decide) (by decide),
   by decide⟩

end SaucrModeDamper
end Etcd

namespace Etcd
namespace MimicRaftKernelCollector

theorem mimicLoop_empty_content (entries : List Entry) (k eIdx : Int) (hne : entries ≠ []) :
    mimicLoop [] entries k eIdx = if k < 0 then none else some (k, eIdx) := by
  cases entries with
  | nil => exact absurd rfl hne
  | cons e r =>
    by_cases hk : k < 0
    · have h1 : k < (([] : List Entry).length : Int) := by simpa using hk
      simp only [mimicLoop, if_pos h1, getInt, if_pos hk]
    · have h1 : ¬ k < (([] : List Entry).length : Int) := by simpa using hk
      simp only [mimicLoop, if_neg h1, if_neg hk]

theorem mimic_empty_content (c : MimicRaftKernelCollector) (entries : List Entry)
    (hinit : c.initialized = true) (hc : c.content = []) (hne : entries ≠ []) :
    c.mimic entries c.logTerm c.logIndex = none := by
  have hr : c.IsRefreshed = false := by simp [IsRefreshed, hinit]
  have hM : c.MatchIndex c.logIndex c.logTerm = some Location.PREV := by
    simp [MatchIndex, hr]
  have hcase : ¬ (Location.PREV ≠ Location.PREV ∧ Location.PREV ≠ Location.WITHIN) := by
    simp
  have hpos : 0 < entries.length := List.length_pos.mpr hne
  have hlenne : (0 : Int) ≠ (entries.length : Int) := by omega
  have hlast : getInt c.destroyCachedTable.content ((c.content.length : Int) - 1) = none := by
    simp [getInt, hc, destroyCachedTable]
  have hloop := mimicLoop_empty_content entries (c.locateEntryWithIndex (addU64 c.logIndex 1)).2
    0 hne
  rw [← hc] at hloop
  by_cases hk : (c.locateEntryWithIndex (addU64 c.logIndex 1)).2 < 0
  · rw [if_pos hk] at hloop
    simp only [mimic, hM, hcase, if_false, hloop]
  · rw [if_neg hk] at hloop
    simp only [mimic, hM, hcase, if_false, hloop, hlenne, ne_eq, not_false_eq_true, if_true,
      hlast]
    cases getInt (List.drop (0 : Int).toNat entries) 0 <;> rfl

/-- C37 (defect of the code): on every initialized collector whose entry array is empty,
`AddEntries` and `TryAddEntries` with any non-empty fragment behind the anchor of the
collector do not return: `mimic` accepts the anchor (`PREV`), skips the comparison loop and
reads `c.content[cLen-1]` with `cLen = 0`, an index out of range. -/
theorem C37_AddEntries_on_empty_array_panics (c : MimicRaftKernelCollector)
    (entries : List Entry) (hinit : c.initialized = true) (hc : c.content = [])
    (hne : entries ≠ []) :
    c.MatchIndex c.logIndex c.logTerm = some Location.PREV ∧
    c.AddEntries entries c.logTerm c.logIndex = none ∧
    c.TryAddEntries entries c.logTerm c.logIndex = none := by
  have hr : c.IsRefreshed = false := by simp [IsRefreshed, hinit]
  have hm := mimic_empty_content c entries hinit hc hne
  refine ⟨by simp [MatchIndex, hr], ?_, ?_⟩
  · simp only [AddEntries, hr, Bool.false_eq_true, if_false, hm, Option.map_none']
  · simp only [TryAddEntries, hr, Bool.false_eq_true, if_false, hm]

/-- Witness for C37: the collector reached by `AddEntries(nil, 2, 7)` on a new collector
(the call returns true and leaves an initialized collector with no entries), then the
well-formed fragment `[(term 2, index 8), (term 3, index 9)]` behind `(2, 7)`. -/
theorem C37_AddEntries_on_empty_array_panics_witness :
    new.AddEntries [] 2 7 = some (new.init [] 2 7, true) ∧
    new.TryAddEntries [] 2 7 = some (new.init [] 2 7, true, Location.PREV) ∧
    Consecutive 7 [⟨2, 8, 0⟩, ⟨3, 9, 0⟩] ∧
    (new.init [] 2 7).MatchIndex (new.init [] 2 7).logIndex (new.init [] 2 7).logTerm
      = some Location.PREV ∧
    (new.init [] 2 7).AddEntries [⟨2, 8, 0⟩, ⟨3, 9, 0⟩] (new.init [] 2 7).logTerm
      (new.init [] 2 7).logIndex = none ∧
    (new.init [] 2 7).TryAddEntries [⟨2, 8, 0⟩, ⟨3, 9, 0⟩] (new.init [] 2 7).logTerm
      (new.init [] 2 7).logIndex = none :=
  ⟨by decide, by decide, by unfold Consecutive; decide,
   C37_AddEntries_on_empty_array_panics (new.init [] 2 7) [⟨2, 8, 0⟩, ⟨3, 9, 0⟩] rfl rfl
     (by simp)⟩

end MimicRaftKernelCollector
end Etcd

namespace Etcd
namespace MimicRaftKernelCollector

theorem mimic_shape (c c2 : MimicRaftKernelCollector) (entries : List Entry)
    (logTerm logIndex : Nat) (ok : Bool) (loc : Location)
    (hinit : c.initialized = true)
    (hlen : c.content.length < 9223372036854775808)
    (hcl : c.logIndex < 18446744073709551616) (hl : logIndex < 18446744073709551616)
    (hcont : Consecutive c.logIndex c.content)
    (hfrag : Consecutive logIndex entries)
    (hfragU : ∀ e ∈ entries, e.index < 18446744073709551616)
    (hmim : c.mimic entries logTerm logIndex = some (c2, ok, loc)) :
    c2 = c ∨
    ∃ m n, c.logIndex + m = logIndex ∧ m + n ≤ c.content.length ∧ n < entries.length ∧
      c2.content = c.content.take (m + n) ++ entries.drop n ∧
      c2.logIndex = c.logIndex ∧ c2.logTerm = c.logTerm ∧ c2.initialized = true := by
  cases ok with
  | false => exact Or.inl (mimic_false c c2 entries logTerm logIndex loc hmim).2.2
  | true =>
    obtain ⟨hloc, hanch⟩ := mimic_anchor c c2 entries logTerm logIndex true loc hmim
    have hpw : loc = Location.PREV ∨ loc = Location.WITHIN := by
      by_contra hn
      have hcond : loc ≠ Location.PREV ∧ loc ≠ Location.WITHIN :=
        ⟨fun h => hn (Or.inl h), fun h => hn (Or.inr h)⟩
      simp only [mimic, hloc] at hmim
      rw [if_pos hcond] at hmim
      exact absurd (Prod.mk.inj (Prod.mk.inj (Option.some.inj hmim)).2).1 (by decide)
    obtain ⟨_, m, hcm, hmle, hm⟩ := locate_after_match c logTerm logIndex hlen hcl hl
      (by rcases hpw with h | h <;> rw [h] at hloc <;> simp [hloc])
    obtain ⟨n, hloop, hnle, hmn0, hpfx, _⟩ := mimicLoop_spec c.content entries m 0
    have hmn : m + n ≤ c.content.length := by
      rw [max_eq_right hmle] at hmn0
      exact hmn0
    by_cases hnl : n = entries.length
    · have hu := mimic_unchanged c entries logTerm logIndex loc m hloc hpw hm
        (by rw [hloop, hnl])
      rw [hu] at hmim
      exact Or.inl (Prod.mk.inj (Option.some.inj hmim)).1.symm
    · have hlt : n < entries.length := by omega
      have hne := mimic_returns_nonempty c c2 entries logTerm logIndex true loc m n hmim
        hpw hm hloop hlt
      obtain ⟨c3, hc3, hcontent⟩ := (mimic_result c entries logTerm logIndex loc m n hloc
        hpw hm hcm hloop hmn hlen hcl hcont hfrag hfragU hne).2 hlt
      rw [hmim] at hc3
      have hcc : c3 = c2 := (Prod.mk.inj (Option.some.inj hc3)).1.symm
      subst hcc
      right
      refine ⟨m, n, hcm, hmn, hlt, hcontent, ?_⟩
      rcases hanch with h | ⟨h1, h2, h3, e, h4⟩
      · exact ⟨h.1, h.2.1, h.2.2.trans hinit⟩
      · rw [hm, hloop] at h4
        have h5 := (Prod.mk.inj (Option.some.inj h4)).1
        have hm0 : m = 0 := by omega
        have heq : c.logIndex = logIndex := by omega
        exact ⟨h1.trans heq.symm,
          h2.trans (MatchIndex_accept_anchor c logTerm logIndex loc hloc hpw heq).symm, h3⟩

theorem Consecutive_take_append_drop (content entries : List Entry) (base li m n : Nat)
    (hcm : base + m = li) (hmn : m + n ≤ content.length)
    (hcont : Consecutive base content) (hfrag : Consecutive li entries) :
    Consecutive base (content.take (m + n) ++ entries.drop n) := by
  intro j hj
  have htl : (content.take (m + n)).length = m + n := by
    rw [List.length_take]; omega
  by_cases hjl : j < m + n
  · rw [List.getElem_append_left (by omega)]
    rw [List.getElem_take]
    exact hcont j (by omega)
  · rw [List.getElem_append_right (by omega)]
    simp only [htl, List.getElem_drop]
    have hlen : (content.take (m + n) ++ entries.drop n).length
        = m + n + (entries.length - n) := by
      rw [List.length_append, htl, List.length_drop]
    have := hfrag (n + (j - (m + n))) (by omega)
    rw [this]
    omega

theorem mimic_invariant (c c2 : MimicRaftKernelCollector) (entries : List Entry)
    (logTerm logIndex : Nat) (ok : Bool) (loc : Location)
    (hinit : c.initialized = true) (hinv : Invariant c)
    (hlen : c.content.length < 9223372036854775808)
    (hl : logIndex < 18446744073709551616)
    (hfrag : Consecutive logIndex entries)
    (hfragU : ∀ e ∈ entries, e.index < 18446744073709551616)
    (hmim : c.mimic entries logTerm logIndex = some (c2, ok, loc)) :
    Invariant c2 ∧ c2.initialized = true ∧
    c2.content.length ≤ c.content.length + entries.length ∧
    (c.content ≠ [] → c2.content ≠ []) := by
  obtain ⟨hcont, hcl, hidx, _⟩ := hinv
  rcases mimic_shape c c2 entries logTerm logIndex ok loc hinit hlen hcl hl hcont hfrag hfragU
    hmim with h | ⟨m, n, hcm, hmn, hlt, hcontent, h1, _, h3⟩
  · subst h
    exact ⟨⟨hcont, hcl, hidx, fun hf => by rw [hinit] at hf; cases hf⟩, hinit, by omega,
      fun h => h⟩
  · refine ⟨⟨?_, by rw [h1]; exact hcl, ?_, fun hf => by rw [h3] at hf; cases hf⟩, h3, ?_, ?_⟩
    · rw [h1, hcontent]
      exact Consecutive_take_append_drop c.content entries c.logIndex logIndex m n hcm hmn
        hcont hfrag
    · intro e he
      rw [hcontent, List.mem_append] at he
      rcases he with he | he
      · exact hidx e (List.mem_of_mem_take he)
      · exact hfragU e (List.mem_of_mem_drop he)
    · rw [hcontent, List.length_append, List.length_take, List.length_drop]
      omega
    · intro _ hnil
      have := congrArg List.length hnil
      rw [hcontent, List.length_append, List.length_drop] at this
      simp only [List.length_nil] at this
      omega

theorem call_invariant (c c1 : MimicRaftKernelCollector) (x : CollectorCall)
    (hinv : Invariant c) (hwf : x.WellFormed)
    (hlen : c.content.length < 9223372036854775808)
    (h : c.call x = some c1) :
    Invariant c1 ∧ c1.content.length ≤ c.content.length + x.size := by
  cases x with
  | refresh =>
    simp only [call, Option.some.injEq] at h
    subst h
    cases hi : c.initialized
    · have hr : c.IsRefreshed = true := by simp [IsRefreshed, hi]
      simp only [Refresh, hr, if_true]
      exact ⟨hinv, by omega⟩
    · have hr : c.IsRefreshed = false := by simp [IsRefreshed, hi]
      simp only [Refresh, hr, Bool.false_eq_true, if_false, destroyCachedTable]
      refine ⟨⟨?_, hinv.2.1, ?_, fun _ => rfl⟩, by simp⟩
      · intro j hj
        simp at hj
      · intro e he
        simp at he
  | addEntries entries logTerm logIndex =>
    obtain ⟨hfrag, hl, hfragU⟩ := hwf
    simp only [call, AddEntries] at h
    cases hi : c.initialized
    · have hr : c.IsRefreshed = true := by simp [IsRefreshed, hi]
      simp only [hr, if_true, Option.map_some', Option.some.injEq] at h
      subst h
      exact ⟨⟨hfrag, hl, hfragU, fun hf => by simp [init] at hf⟩, by
        simp [init, CollectorCall.size]⟩
    · have hr : c.IsRefreshed = false := by simp [IsRefreshed, hi]
      simp only [hr, Bool.false_eq_true, if_false] at h
      cases hm : c.mimic entries logTerm logIndex with
      | none => rw [hm] at h; cases h
      | some r =>
        obtain ⟨c2, ok, loc⟩ := r
        rw [hm] at h
        simp only [Option.map_some', Option.some.injEq] at h
        subst h
        have := mimic_invariant c c2 entries logTerm logIndex ok loc hi hinv hlen hl hfrag
          hfragU hm
        exact ⟨this.1, this.2.2.1⟩
  | tryAddEntries entries logTerm logIndex =>
    obtain ⟨hfrag, hl, hfragU⟩ := hwf
    simp only [call, TryAddEntries] at h
    cases hi : c.initialized
    · have hr : c.IsRefreshed = true := by simp [IsRefreshed, hi]
      simp only [hr, if_true, Option.map_some', Option.some.injEq] at h
      subst h
      exact ⟨⟨hfrag, hl, hfragU, fun hf => by simp [init] at hf⟩, by
        simp [init, CollectorCall.size]⟩
    · have hr : c.IsRefreshed = false := by simp [IsRefreshed, hi]
      simp only [hr, Bool.false_eq_true, if_false] at h
      cases hm : c.mimic entries logTerm logIndex with
      | none => rw [hm] at h; cases h
      | some r =>
        obtain ⟨c2, ok, loc⟩ := r
        rw [hm] at h
        simp only [Option.map_some', Option.some.injEq] at h
        subst h
        have := mimic_invariant c c2 entries logTerm logIndex ok loc hi hinv hlen hl hfrag
          hfragU hm
        exact ⟨this.1, this.2.2.1⟩

theorem calls_invariant (xs : List CollectorCall) :
    ∀ (c c1 : MimicRaftKernelCollector), Invariant c → (∀ x ∈ xs, x.WellFormed) →
      c.content.length + (xs.map CollectorCall.size).sum < 9223372036854775808 →
      c.calls xs = some c1 →
      Invariant c1 ∧ c1.content.length ≤ c.content.length + (xs.map CollectorCall.size).sum := by
  induction xs with
  | nil =>
    intro c c1 hinv _ _ h
    simp only [calls, Option.some.injEq] at h
    subst h
    exact ⟨hinv, by simp⟩
  | cons x rest ih =>
    intro c c1 hinv hwf hfit h
    simp only [List.map_cons, List.sum_cons] at hfit ⊢
    simp only [calls] at h
    cases hc : c.call x with
    | none => rw [hc] at h; cases h
    | some c2 =>
      rw [hc, Option.some_bind] at h
      obtain ⟨hinv2, hlen2⟩ := call_invariant c c2 x hinv (hwf x (List.mem_cons_self _ _))
        (by omega) hc
      obtain ⟨hinv1, hlen1⟩ := ih c2 c1 hinv2
        (fun y hy => hwf y (List.mem_cons_of_mem _ hy)) (by omega) h
      exact ⟨hinv1, by omega⟩

theorem bounds_of_invariant (c : MimicRaftKernelCollector) (hinv : Invariant c)
    (hlen : c.content.length < 9223372036854775808) :
    c.FirstIndex = c.content.head?.map (fun e => e.index) ∧
    c.LastIndex = c.content.getLast?.map (fun e => e.index) := by
  obtain ⟨hcont, hcl, hidx, hnil⟩ := hinv
  cases hi : c.initialized
  · have hr : c.IsRefreshed = true := by simp [IsRefreshed, hi]
    simp [FirstIndex, LastIndex, hr, hnil hi]
  · have hr : c.IsRefreshed = false := by simp [IsRefreshed, hi]
    cases hc : c.content with
    | nil =>
      have hemp : c.IsEmpty = true := by simp [IsEmpty, EntrySize, hr, hc]
      simp [FirstIndex, LastIndex, hr, hemp]
    | cons a r =>
      have hne : c.content ≠ [] := by rw [hc]; simp
      have hpos : 0 < c.content.length := List.length_pos.mpr hne
      have hemp : c.IsEmpty = false := by
        simp [IsEmpty, EntrySize, hr, hc]
        omega
      have h0 := hcont 0 hpos
      have hl := hcont (c.content.length - 1) (by omega)
      have hu0 := hidx _ (List.getElem_mem hpos)
      have hul := hidx _ (List.getElem_mem (by omega : c.content.length - 1 < c.content.length))
      have hhead : c.content.head? = some c.content[0] := by
        rw [List.head?_eq_getElem?]
        exact List.getElem?_eq_getElem hpos
      have hlast : c.content.getLast? = some c.content[c.content.length - 1] := by
        rw [List.getLast?_eq_getElem?]
        exact List.getElem?_eq_getElem (by omega)
      have hof : ofInt (c.content.length : Int) = c.content.length := by
        unfold ofInt
        omega
      rw [← hc, hhead, hlast]
      simp only [FirstIndex, LastIndex, hr, hemp, Bool.or_self, Bool.false_eq_true, if_false,
        Option.map_some', hof, h0, hl]
      constructor
      · congr 1
        unfold addU64
        omega
      · congr 1
        unfold addU64
        omega

theorem mimic_returns (c : MimicRaftKernelCollector) (entries : List Entry)
    (logTerm logIndex : Nat) (hinit : c.initialized = true) (hinv : Invariant c)
    (hlen : c.content.length < 9223372036854775808)
    (hl : logIndex < 18446744073709551616)
    (hfrag : Consecutive logIndex entries)
    (hfragU : ∀ e ∈ entries, e.index < 18446744073709551616)
    (hne : c.content ≠ []) :
    ∃ c2 ok loc, c.mimic entries logTerm logIndex = some (c2, ok, loc) ∧ c2.content ≠ [] := by
  obtain ⟨c1, ok, h⟩ := AddEntries_returns c entries logTerm logIndex hlen hinv.2.1 hl hinv.1
    hfrag hfragU (Or.inr (Or.inl hne))
  have hr : c.IsRefreshed = false := by simp [IsRefreshed, hinit]
  simp only [AddEntries, hr, Bool.false_eq_true, if_false] at h
  cases hm : c.mimic entries logTerm logIndex with
  | none => rw [hm] at h; cases h
  | some r =>
    obtain ⟨c2, ok2, loc⟩ := r
    exact ⟨c2, ok2, loc, rfl,
      (mimic_invariant c c2 entries logTerm logIndex ok2 loc hinit hinv hlen hl hfrag hfragU
        hm).2.2.2 hne⟩

theorem call_returns (c : MimicRaftKernelCollector) (x : CollectorCall)
    (hinv : Invariant c) (hwf : x.WellFormed)
    (hlen : c.content.length < 9223372036854775808)
    (hstate : c.initialized = false ∨ c.content ≠ [])
    (hx : x.size ≠ 0 ∨ x = CollectorCall.refresh) :
    ∃ c1, c.call x = some c1 ∧ (c1.initialized = false ∨ c1.content ≠ []) := by
  cases x with
  | refresh =>
    refine ⟨c.Refresh, rfl, Or.inl ?_⟩
    cases hi : c.initialized
    · have hr : c.IsRefreshed = true := by simp [IsRefreshed, hi]
      simp only [Refresh, hr, if_true, hi]
    · have hr : c.IsRefreshed = false := by simp [IsRefreshed, hi]
      simp only [Refresh, hr, Bool.false_eq_true, if_false, destroyCachedTable]
  | addEntries entries logTerm logIndex =>
    obtain ⟨hfrag, hl, hfragU⟩ := hwf
    have hne : entries ≠ [] := by
      rcases hx with h | h
      · intro he
        rw [he] at h
        exact h rfl
      · cases h
    cases hi : c.initialized
    · have hr : c.IsRefreshed = true := by simp [IsRefreshed, hi]
      exact ⟨c.init entries logTerm logIndex, by simp [call, AddEntries, hr],
        Or.inr (by simpa [init] using hne)⟩
    · have hr : c.IsRefreshed = false := by simp [IsRefreshed, hi]
      have hcne : c.content ≠ [] := by
        rcases hstate with h | h
        · rw [hi] at h; cases h
        · exact h
      obtain ⟨c2, ok, loc, hm, hc2⟩ := mimic_returns c entries logTerm logIndex hi hinv hlen hl
        hfrag hfragU hcne
      exact ⟨c2, by simp [call, AddEntries, hr, hm], Or.inr hc2⟩
  | tryAddEntries entries logTerm logIndex =>
    obtain ⟨hfrag, hl, hfragU⟩ := hwf
    have hne : entries ≠ [] := by
      rcases hx with h | h
      · intro he
        rw [he] at h
        exact h rfl
      · cases h
    cases hi : c.initialized
    · have hr : c.IsRefreshed = true := by simp [IsRefreshed, hi]
      exact ⟨c.init entries logTerm logIndex, by simp [call, TryAddEntries, hr],
        Or.inr (by simpa [init] using hne)⟩
    · have hr : c.IsRefreshed = false := by simp [IsRefreshed, hi]
      have hcne : c.content ≠ [] := by
        rcases hstate with h | h
        · rw [hi] at h; cases h
        · exact h
      obtain ⟨c2, ok, loc, hm, hc2⟩ := mimic_returns c entries logTerm logIndex hi hinv hlen hl
        hfrag hfragU hcne
      exact ⟨c2, by simp [call, TryAddEntries, hr, hm], Or.inr hc2⟩

theorem calls_return (xs : List CollectorCall) :
    ∀ (c : MimicRaftKernelCollector), Invariant c → (∀ x ∈ xs, x.WellFormed) →
      c.content.length + (xs.map CollectorCall.size).sum < 9223372036854775808 →
      (c.initialized = false ∨ c.content ≠ []) →
      (∀ x ∈ xs, x.size ≠ 0 ∨ x = CollectorCall.refresh) →
      ∃ c1, c.calls xs = some c1 := by
  induction xs with
  | nil =>
    intro c _ _ _ _ _
    exact ⟨c, rfl⟩
  | cons x rest ih =>
    intro c hinv hwf hfit hstate hx
    simp only [List.map_cons, List.sum_cons] at hfit
    obtain ⟨c2, hc, hstate2⟩ := call_returns c x hinv (hwf x (List.mem_cons_self _ _))
      (by omega) hstate (hx x (List.mem_cons_self _ _))
    obtain ⟨hinv2, hlen2⟩ := call_invariant c c2 x hinv (hwf x (List.mem_cons_self _ _))
      (by omega) hc
    obtain ⟨c1, h1⟩ := ih c2 hinv2 (fun y hy => hwf y (List.mem_cons_of_mem _ hy)) (by omega)
      hstate2 (fun y hy => hx y (List.mem_cons_of_mem _ hy))
    exact ⟨c1, by simp only [calls, hc, Option.some_bind, h1]⟩

end MimicRaftKernelCollector
end Etcd

namespace Etcd
namespace MimicRaftKernelCollector

/-- C35: consecutiveness is kept by the calls.  From a collector in the state `Invariant`
(`content[k].Index = c.logIndex + 1 + k`, all indices `uint64` values, nothing stored when
refreshed; the new collector is in it), after any sequence of `AddEntries`,
`TryAddEntries` and `Refresh` calls with well-formed fragments that together with the
stored array hold fewer than 2^63 entries: whenever the calls return, the collector is in
the state `Invariant` again, `FirstIndex()` is the index of the first stored entry and
`LastIndex()` the index of the last one (both panic exactly when nothing is stored).
The calls do return when no fragment is empty and the collector at the start is refreshed
or stores an entry. -/
theorem C35_consecutive_array_is_kept (c : MimicRaftKernelCollector)
    (xs : List CollectorCall) (hinv : Invariant c) (hwf : ∀ x ∈ xs, x.WellFormed)
    (hfit : c.content.length + (xs.map CollectorCall.size).sum < 9223372036854775808) :
    (∀ c1, c.calls xs = some c1 →
      Invariant c1 ∧ (∀ k (hk : k < c1.content.length),
        (c1.content[k]).index = c1.logIndex + 1 + k) ∧
      c1.FirstIndex = c1.content.head?.map (fun e => e.index) ∧
      c1.LastIndex = c1.content.getLast?.map (fun e => e.index)) ∧
    ((c.initialized = false ∨ c.content ≠ []) →
      (∀ x ∈ xs, x.size ≠ 0 ∨ x = CollectorCall.refresh) →
      ∃ c1, c.calls xs = some c1) := by
  constructor
  · intro c1 h
    obtain ⟨hinv1, hlen1⟩ := calls_invariant xs c c1 hinv hwf hfit h
    obtain ⟨hf, hl⟩ := bounds_of_invariant c1 hinv1 (by omega)
    exact ⟨hinv1, hinv1.1, hf, hl⟩
  · intro hstate hx
    exact calls_return xs c hinv hwf hfit hstate hx

/-- Witness for C35: a new collector, an append of three entries behind `(1, 5)`, a
fragment that overwrites from index 7, a refresh and an append behind `(4, 20)`. -/
theorem C35_consecutive_array_is_kept_witness :
    (new.calls [CollectorCall.addEntries [⟨1, 6, 0⟩, ⟨1, 7, 0⟩, ⟨2, 8, 0⟩] 1 5,
        CollectorCall.tryAddEntries [⟨3, 7, 1⟩, ⟨3, 8, 1⟩, ⟨3, 9, 1⟩] 1 6]).map
        (fun c => (c.content, c.logIndex, c.FirstIndex, c.LastIndex))
      = some ([⟨1, 6, 0⟩, ⟨3, 7, 1⟩, ⟨3, 8, 1⟩, ⟨3, 9, 1⟩], 5, some 6, some 9) ∧
    ((∀ c1, new.calls [CollectorCall.addEntries [⟨1, 6, 0⟩, ⟨1, 7, 0⟩, ⟨2, 8, 0⟩] 1 5,
        CollectorCall.tryAddEntries [⟨3, 7, 1⟩, ⟨3, 8, 1⟩, ⟨3, 9, 1⟩] 1 6,
        CollectorCall.refresh,
        CollectorCall.addEntries [⟨4, 21, 0⟩] 4 20] = some c1 →
      Invariant c1 ∧ (∀ k (hk : k < c1.content.length),
        (c1.content[k]).index = c1.logIndex + 1 + k) ∧
      c1.FirstIndex = c1.content.head?.map (fun e => e.index) ∧
      c1.LastIndex = c1.content.getLast?.map (fun e => e.index)) ∧
    ((new.initialized = false ∨ new.content ≠ []) →
      (∀ x ∈ [CollectorCall.addEntries [⟨1, 6, 0⟩, ⟨1, 7, 0⟩, ⟨2, 8, 0⟩] 1 5,
        CollectorCall.tryAddEntries [⟨3, 7, 1⟩, ⟨3, 8, 1⟩, ⟨3, 9, 1⟩] 1 6,
        CollectorCall.refresh,
        CollectorCall.addEntries [⟨4, 21, 0⟩] 4 20], x.size ≠ 0 ∨ x = CollectorCall.refresh) →
      ∃ c1, new.calls [CollectorCall.addEntries [⟨1, 6, 0⟩, ⟨1, 7, 0⟩, ⟨2, 8, 0⟩] 1 5,
        CollectorCall.tryAddEntries [⟨3, 7, 1⟩, ⟨3, 8, 1⟩, ⟨3, 9, 1⟩] 1 6,
        CollectorCall.refresh,
        CollectorCall.addEntries [⟨4, 21, 0⟩] 4 20] = some c1)) :=
  ⟨by decide,
   C35_consecutive_array_is_kept new
     [CollectorCall.addEntries [⟨1, 6, 0⟩, ⟨1, 7, 0⟩, ⟨2, 8, 0⟩] 1 5,
      CollectorCall.tryAddEntries [⟨3, 7, 1⟩, ⟨3, 8, 1⟩, ⟨3, 9, 1⟩] 1 6,
      CollectorCall.refresh,
      CollectorCall.addEntries [⟨4, 21, 0⟩] 4 20]
     (by unfold Invariant Consecutive; decide)
     (by simp [CollectorCall.WellFormed, Consecutive]; decide)
     (by decide)⟩

end MimicRaftKernelCollector
end Etcd

namespace Etcd
namespace MimicRaftKernelBriefCollector

/-- C38 (failing input): the collector loaded with the entries `(1,1), (1,2), (1,3)` after
`(0,0)` holds the single segment of term 1 over the indices 1..3, and `(0,0)` is located as
`PREV`.  The fragment `(1,1), (1,2), (2,3)` anchored at `(0,0)` agrees with the first two
stored entries and differs at index 3: `mimic` leaves its loop with `eIdx = 2`, cuts
`entries` to `entries[2:]` (one entry) and then reads `entries[eIdx-1]`, an index out of
range, so `AddEntriesToBrief` panics.  The entry collector of `consecutive.go` given the
same array and the same fragment returns true. -/
theorem C38_AddEntriesToBrief_panics_after_matching_prefix :
    (NewMimicRaftKernelBriefCollector.init [] [⟨1, 1, 0⟩, ⟨1, 2, 0⟩, ⟨1, 3, 0⟩] 0 0)
      = ([⟨1, 0, 1, 3⟩], ⟨[0], some 0, 0, 0, true⟩) ∧
    Holds [⟨1, 0, 1, 3⟩] ⟨[0], some 0, 0, 0, true⟩ [⟨1, 0, 1, 3⟩] ∧
    ContiguousSegments [⟨1, 0, 1, 3⟩] ∧
    MatchIndex [⟨1, 0, 1, 3⟩] ⟨[0], some 0, 0, 0, true⟩ 0 0 = some Location.PREV ∧
    AddEntriesToBrief [⟨1, 0, 1, 3⟩] ⟨[0], some 0, 0, 0, true⟩
      [⟨1, 1, 0⟩, ⟨1, 2, 0⟩, ⟨2, 3, 0⟩] 0 0 = none ∧
    ((MimicRaftKernelCollector.new.init [⟨1, 1, 0⟩, ⟨1, 2, 0⟩, ⟨1, 3, 0⟩] 0 0).AddEntries
      [⟨1, 1, 0⟩, ⟨1, 2, 0⟩, ⟨2, 3, 0⟩] 0 0).map (fun r => r.2) = some true := by
  refine ⟨by decide, ?_, by simp [ContiguousSegments], by decide, by decide, by decide⟩
  unfold Holds
  decide

end MimicRaftKernelBriefCollector
end Etcd

namespace Etcd
namespace MimicRaftKernelBriefCollector

/-- C33 (failing input): the entry collector holds `(1,1), (1,2), (1,3)` after `(0,0)` and the
brief collector holds the brief of these entries, the single segment of term 1 over 1..3.
The fragment `(2,2), (2,3)` anchored at `(1,1)` conflicts with the stored entry at index 2.
`AddEntries` on the entry collector returns true and leaves `(1,1), (2,2), (2,3)`, whose
brief is the segment of term 1 over 1..1 followed by the segment of term 2 over 2..3.
`AddEntriesToBrief` returns true as well, but `mimic` only acts when the first entry of the
fragment is located `WITHIN`, so the brief collector still holds the segment of term 1
over 1..3. -/
theorem C33_brief_collector_ignores_conflict_at_first_entry :
    (NewMimicRaftKernelBriefCollector.init [] [⟨1, 1, 0⟩, ⟨1, 2, 0⟩, ⟨1, 3, 0⟩] 0 0)
      = (ExtractBriefFromEntries 0 [⟨1, 1, 0⟩, ⟨1, 2, 0⟩, ⟨1, 3, 0⟩],
          ⟨[0], some 0, 0, 0, true⟩) ∧
    ((MimicRaftKernelCollector.new.init [⟨1, 1, 0⟩, ⟨1, 2, 0⟩, ⟨1, 3, 0⟩] 0 0).AddEntries
      [⟨2, 2, 0⟩, ⟨2, 3, 0⟩] 1 1).map (fun r => (r.1.content, r.2))
      = some ([⟨1, 1, 0⟩, ⟨2, 2, 0⟩, ⟨2, 3, 0⟩], true) ∧
    ExtractBriefFromEntries 0 [⟨1, 1, 0⟩, ⟨2, 2, 0⟩, ⟨2, 3, 0⟩]
      = [⟨1, 0, 1, 1⟩, ⟨2, 1, 2, 3⟩] ∧
    (AddEntriesToBrief [⟨1, 0, 1, 3⟩] ⟨[0], some 0, 0, 0, true⟩
      [⟨2, 2, 0⟩, ⟨2, 3, 0⟩] 1 1).map (fun r => (r.2.1.Briefing r.1, r.2.2))
      = some ([some ⟨1, 0, 1, 3⟩], true) := by
  refine ⟨by decide, by decide, by decide, by decide⟩

end MimicRaftKernelBriefCollector
end Etcd

namespace Etcd
namespace SaucrMonitor

theorem countLoop_zip (peers : List Nat) (self : Nat) :
    ∀ (un : List Bool) (i : Nat) (c : Int), i + un.length ≤ peers.length →
      countLoop peers self un i c
        = some (c + (((un.zip (peers.drop i)).countP
            (fun x => x.1 && decide (x.2 ≠ self)) : Nat) : Int)) := by
  intro un
  induction un with
  | nil => intro i c _; simp [countLoop]
  | cons u rest ih =>
    intro i c hlen
    simp only [List.length_cons] at hlen
    have hi : i < peers.length := by omega
    have hd : peers.drop i = peers[i] :: peers.drop (i + 1) := List.drop_eq_getElem_cons hi
    have hget : peers[i]? = some peers[i] := List.getElem?_eq_getElem hi
    rw [hd]
    simp only [countLoop, hget, List.zip_cons_cons, List.countP_cons]
    cases u with
    | false =>
      simp only [Bool.false_eq_true, if_false, Bool.false_and]
      rw [ih (i + 1) c (by omega)]
      simp
    | true =>
      simp only [if_true, Bool.true_and]
      rw [ih (i + 1) _ (by omega)]
      by_cases hp : peers[i] = self
      · simp [hp]
      · simp only [ne_eq, hp, not_false_eq_true, if_true, decide_True]
        congr 1
        push_cast
        ring

theorem countP_zip_le (q : Nat → Bool) :
    ∀ (l : List Nat) (un : List Bool),
      (un.zip l).countP (fun x => x.1 && q x.2) ≤ l.countP q := by
  intro l
  induction l with
  | nil => intro un; simp
  | cons p l ih =>
    intro un
    cases un with
    | nil => simp
    | cons u un =>
      simp only [List.zip_cons_cons, List.countP_cons]
      have := ih un
      cases u <;> cases hq : q p <;> simp <;> omega

theorem countP_zip_replicate (q : Nat → Bool) (v : Bool) :
    ∀ (l : List Nat),
      ((List.replicate l.length v).zip l).countP (fun x => x.1 && q x.2)
        = if v then l.countP q else 0 := by
  intro l
  induction l with
  | nil => cases v <;> simp
  | cons p l ih =>
    simp only [List.length_cons, List.replicate_succ, List.zip_cons_cons, List.countP_cons, ih]
    cases v <;> simp

end SaucrMonitor
end Etcd

namespace Etcd
namespace SaucrMonitor

theorem count_settled (sm : SaucrMonitor) (hcoh : Coherent sm) :
    sm.countUnconnectedExceptSelf
      = some (((sm.unconnected.zip sm.peers).countP
          (fun x => x.1 && decide (x.2 ≠ sm.self)) : Nat) : Int) := by
  unfold countUnconnectedExceptSelf
  have := countLoop_zip sm.peers sm.self sm.unconnected 0 0 (by rw [hcoh.1]; omega)
  simpa using this

/-- What `SetConfig(GetConfig())` does on a settled monitor. -/
theorem SetConfig_GetConfig (sm : SaucrMonitor) (hs : Settled sm) :
    ∃ v, sm.evaluate = some v ∧
      sm.SetConfig { State := sm.state, Leader := sm.leader, Self := sm.self, Critical := v,
                     Peers := sm.peers }
        = some ({ sm with
                  mustCritical := if sm.state = StateType.StateLeader then false else v
                  unconnected := List.replicate sm.peers.length v
                  hbCounter := sm.hbCounter.map (fun h => h.Init (!v)) }, none) ∧
      ({ sm with
          mustCritical := if sm.state = StateType.StateLeader then false else v
          unconnected := List.replicate sm.peers.length v
          hbCounter := sm.hbCounter.map (fun h => h.Init (!v)) } : SaucrMonitor).evaluate
        = some v := by
  obtain ⟨hcoh, h3, hth, hld⟩ := hs
  have hset : ∀ v : Bool,
      (sm.state = StateType.StateLeader ∨ sm.state = StateType.StateFollower ∨ v = true) →
      sm.SetConfig { State := sm.state, Leader := sm.leader, Self := sm.self, Critical := v,
                     Peers := sm.peers }
        = some ({ sm with
                  mustCritical := if sm.state = StateType.StateLeader then false else v
                  unconnected := List.replicate sm.peers.length v
                  hbCounter := sm.hbCounter.map (fun h => h.Init (!v)) }, none) := by
    intro v hv
    rw [SetConfig_eq sm _ hcoh]
    have c1 : ¬ (sm.state = StateType.StateLeader ∧ sm.leader ≠ sm.self) :=
      fun h => h.2 (hld h.1).1
    have c2 : ¬ (sm.state ≠ StateType.StateLeader ∧ sm.state ≠ StateType.StateFollower
        ∧ v = false) := by
      rintro ⟨a, b, c⟩
      rcases hv with h | h | h
      · exact a h
      · exact b h
      · rw [h] at c; exact Bool.noConfusion c
    have c3 : ¬ (sm.peers.length = 0) := by omega
    have c4 : ¬ (sm.peers.length < 3) := by omega
    simp only [c1, c2, c3, c4, if_false, ne_eq, not_true_eq_false, ← hth]
  by_cases hm : sm.mustCritical = true
  · have hnl : sm.state ≠ StateType.StateLeader := by
      intro h
      have := (hld h).2
      rw [hm] at this
      exact Bool.noConfusion this
    refine ⟨true, ?_, ?_, ?_⟩
    · unfold evaluate; rw [if_pos hm]
    · apply hset
      exact Or.inr (Or.inr rfl)
    · unfold evaluate
      simp [hnl]
  · by_cases hl : sm.state = StateType.StateLeader
    · have hev : sm.evaluate = some (decide
          ((((sm.unconnected.zip sm.peers).countP
            (fun x => x.1 && decide (x.2 ≠ sm.self)) : Nat) : Int) ≥ sm.threshold)) := by
        unfold evaluate
        rw [if_neg hm, if_pos hl, count_settled sm hcoh]
        rfl
      refine ⟨_, hev, hset _ (Or.inl hl), ?_⟩
      unfold evaluate
      simp only [hl, if_true, Bool.false_eq_true, if_false]
      rw [count_settled _ (by simp [Coherent, hcoh.2])]
      simp only [Option.map_some', Option.some.injEq]
      rw [countP_zip_replicate (fun p => decide (p ≠ sm.self))]
      have hle := countP_zip_le (fun p => decide (p ≠ sm.self)) sm.peers sm.unconnected
      have hth1 : 1 ≤ sm.threshold := by rw [hth]; omega
      by_cases hv : (((sm.unconnected.zip sm.peers).countP
            (fun x => x.1 && decide (x.2 ≠ sm.self)) : Nat) : Int) ≥ sm.threshold
      · simp only [hv, decide_True, if_true, ge_iff_le, decide_eq_true_eq]
        simp only [ge_iff_le] at hv
        omega
      · simp only [hv, decide_False, Bool.false_eq_true, if_false, ge_iff_le,
          decide_eq_false_iff_not]
        push_cast
        omega
    · by_cases hf : sm.state = StateType.StateFollower ∧ sm.leader ≠ None
          ∧ sm.findIndex sm.leader ≠ -1
      · have hmem : sm.leader ∈ sm.peers := by
          by_contra hn
          exact hf.2.2 (findIndex_not_mem sm _ hn)
        obtain ⟨j, hj, hpj⟩ := findIndex_mem sm _ hmem
        have hjlt : j < sm.peers.length := by
          by_contra hn
          rw [List.getElem?_eq_none (by omega)] at hpj
          exact Option.noConfusion hpj
        have hjlt2 : j < sm.unconnected.length := by rw [hcoh.1]; exact hjlt
        have hev : sm.evaluate = some sm.unconnected[j] := by
          unfold evaluate
          rw [if_neg hm, if_neg hl, if_pos hf, hj]
          simp [getInt, List.getElem?_eq_getElem hjlt2]
        refine ⟨_, hev, hset _ (Or.inr (Or.inl hf.1)), ?_⟩
        unfold evaluate
        have hj2 : findIndexFrom sm.leader sm.peers 0 = (j : Int) := hj
        simp only [hl, if_false]
        cases hu : sm.unconnected[j] with
        | true => simp
        | false =>
          simp only [Bool.false_eq_true, if_false, findIndex, hj2]
          rw [if_pos]
          · simp [getInt, hjlt]
          · refine ⟨hf.1, hf.2.1, ?_⟩
            omega
      · have hev : sm.evaluate = some true := by
          unfold evaluate
          rw [if_neg hm, if_neg hl, if_neg hf]
        refine ⟨true, hev, hset _ (Or.inr (Or.inr rfl)), ?_⟩
        unfold evaluate
        simp [hl]

end SaucrMonitor
end Etcd

namespace Etcd
namespace SaucrMonitor

theorem SetConfig_settled (sm : SaucrMonitor) (c : PerceptibleConfig) (hs : Settled sm) :
    ∃ r, sm.SetConfig c = some r ∧ Settled r.1 := by
  obtain ⟨hcoh, h3, hth, hld⟩ := hs
  rw [SetConfig_eq sm c hcoh]
  by_cases c1 : c.State = StateType.StateLeader ∧ c.Leader ≠ c.Self
  · rw [if_pos c1]
    exact ⟨_, rfl, hcoh, h3, hth, hld⟩
  · rw [if_neg c1]
    have hl2 : c.State = StateType.StateLeader → c.Leader = c.Self ∧
        (if c.State = StateType.StateLeader then false else c.Critical) = false := by
      intro h
      refine ⟨?_, by rw [if_pos h]⟩
      by_contra hne
      exact c1 ⟨h, hne⟩
    by_cases c2 : c.State ≠ StateType.StateLeader ∧ c.State ≠ StateType.StateFollower
        ∧ c.Critical = false
    · rw [if_pos c2]
      exact ⟨_, rfl, hcoh, h3, hth, hl2⟩
    · rw [if_neg c2]
      by_cases c3 : c.Peers.length = 0
      · rw [if_pos c3]
        exact ⟨_, rfl, hcoh, h3, hth, hl2⟩
      · rw [if_neg c3]
        by_cases c4 : c.Peers.length < 3
        · rw [if_pos c4]
          exact ⟨_, rfl, hcoh, h3, hth, hl2⟩
        · rw [if_neg c4]
          refine ⟨_, rfl, ?_, by simp only []; omega, rfl, hl2⟩
          constructor
          · simp
          · by_cases hp : sm.peers.length ≠ c.Peers.length
            · simp [hp]
            · have hp2 : sm.peers.length = c.Peers.length := by
                by_contra hc; exact hp hc
              simp [hp2, hcoh.2]

theorem Perceive_settled (sm : SaucrMonitor) (id : Nat) (isConnected : Bool)
    (hs : Settled sm) : ∃ sm1, sm.Perceive id isConnected = some sm1 ∧ Settled sm1 := by
  obtain ⟨hcoh, h3, hth, hld⟩ := hs
  unfold Perceive
  by_cases h1 : id = sm.self
  · rw [if_pos h1]
    exact ⟨_, rfl, hcoh, h3, hth, hld⟩
  · rw [if_neg h1]
    by_cases h2 : sm.state ≠ StateType.StateLeader
    · rw [if_pos h2]
      exact ⟨_, rfl, hcoh, h3, hth, hld⟩
    · rw [if_neg h2]
      simp only []
      by_cases hmem : id ∈ sm.peers
      · obtain ⟨j, hj, hpj⟩ := findIndex_mem sm id hmem
        have hjlt : j < sm.peers.length := by
          by_contra hn
          rw [List.getElem?_eq_none (by omega)] at hpj
          exact Option.noConfusion hpj
        have hjh : j < sm.hbCounter.length := by rw [hcoh.2]; exact hjlt
        have hju : j < sm.unconnected.length := by rw [hcoh.1]; exact hjlt
        have hne : (j : Int) ≠ -1 := by omega
        have hg : getInt sm.hbCounter (j : Int) = some sm.hbCounter[j] := by
          simp [getInt, List.getElem?_eq_getElem hjh]
        rw [hj, if_pos hne, hg]
        simp only [Int.toNat_ofNat, hju, if_true]
        refine ⟨_, rfl, ?_, h3, hth, hld⟩
        constructor
        · simp only [List.length_set]; exact hcoh.1
        · simp only [List.length_set]; exact hcoh.2
      · rw [findIndex_not_mem sm id hmem]
        simp only [ne_eq, not_true_eq_false, if_false]
        exact ⟨_, rfl, hcoh, h3, hth, hld⟩

theorem applyCalls_settled (xs : List MonitorCall) :
    ∀ sm : SaucrMonitor, Settled sm → ∃ sm1, sm.applyCalls xs = some sm1 ∧ Settled sm1 := by
  induction xs with
  | nil => intro sm hs; exact ⟨sm, rfl, hs⟩
  | cons x rest ih =>
    intro sm hs
    have hstep : ∃ sm1, sm.applyCall x = some sm1 ∧ Settled sm1 := by
      cases x with
      | setConfig config =>
        obtain ⟨r, hr, hs1⟩ := SetConfig_settled sm config hs
        exact ⟨r.1, by simp [applyCall, hr], hs1⟩
      | perceive id isConnected => exact Perceive_settled sm id isConnected hs
    obtain ⟨sm1, h1, hs1⟩ := hstep
    obtain ⟨sm2, h2, hs2⟩ := ih sm1 hs1
    refine ⟨sm2, ?_, hs2⟩
    simp only [applyCalls, h1]
    exact h2

theorem New_settled (f : HeartbeatCounter) (c0 : PerceptibleConfig) (sm0 : SaucrMonitor)
    (hnew : NewSaucrMonitor f c0 = some (some sm0, none)) : Settled sm0 := by
  unfold NewSaucrMonitor at hnew
  simp only [] at hnew
  have hcoh0 : Coherent
      ({ leader := 0, self := 0, state := StateType.StateFollower, peers := [],
         unconnected := [], hbCounter := [], hbCounterFactory := f,
         threshold := 0, mustCritical := false } : SaucrMonitor) := by
    simp [Coherent]
  generalize hr : SetConfig
      ({ leader := 0, self := 0, state := StateType.StateFollower, peers := [],
         unconnected := [], hbCounter := [], hbCounterFactory := f,
         threshold := 0, mustCritical := false } : SaucrMonitor) c0 = r at hnew
  match r, hr, hnew with
  | some (sm, none), hr, hnew =>
    simp only [Option.some.injEq, Prod.mk.injEq, and_true] at hnew
    subst hnew
    obtain ⟨h3, hl, _, heq⟩ := SetConfig_accepted _ _ c0 hcoh0 hr
    rw [heq]
    have hne : ¬ (0 = c0.Peers.length) := by omega
    refine ⟨by simp [Coherent, hne], h3, rfl, ?_⟩
    intro h
    have h' : c0.State = StateType.StateLeader := h
    exact ⟨hl h', by simp [h']⟩

end SaucrMonitor
end Etcd

namespace Etcd
namespace SaucrMonitor

/-- C40: let a monitor be built by `NewSaucrMonitor` and then receive any sequence of
`SetConfig` and `Perceive` calls, rejected `SetConfig` calls included.  None of the calls
panics, and in the state `sm` reached `GetConfig()` returns a config `cfg` whose `Critical`
is the verdict `IsCritical()`; `SetConfig(cfg)` returns no error and leaves `IsCritical()`
as it was, while every heartbeat counter is initialised anew and every `unconnected` flag
is set to the verdict.  The helpers `SetPerceptibleState` and `SetPerceptibleLeader` call
`SetConfig` with the state, respectively the leader, replaced in `cfg`, so the verdict is
the initial-critical flag of the config they pass. -/
theorem C40_SetConfig_of_GetConfig_keeps_verdict (f : HeartbeatCounter)
    (c0 : PerceptibleConfig) (sm0 : SaucrMonitor) (xs : List MonitorCall)
    (hnew : NewSaucrMonitor f c0 = some (some sm0, none)) :
    ∃ sm v sm1,
      sm0.applyCalls xs = some sm ∧
      sm.IsCritical = some v ∧
      sm.GetConfig = some { State := sm.state, Leader := sm.leader, Self := sm.self,
                            Critical := v, Peers := sm.peers } ∧
      sm.SetConfig { State := sm.state, Leader := sm.leader, Self := sm.self,
                     Critical := v, Peers := sm.peers } = some (sm1, none) ∧
      sm1.IsCritical = some v ∧
      sm1.hbCounter = sm.hbCounter.map (fun h => h.Init (!v)) ∧
      sm1.unconnected = List.replicate sm.peers.length v ∧
      (∀ state, SetPerceptibleState sm state
        = sm.SetConfig { State := state, Leader := sm.leader, Self := sm.self,
                         Critical := v, Peers := sm.peers }) ∧
      (∀ leader, SetPerceptibleLeader sm leader
        = sm.SetConfig { State := sm.state, Leader := leader, Self := sm.self,
                         Critical := v, Peers := sm.peers }) := by
  obtain ⟨sm, hrun, hs⟩ := applyCalls_settled xs sm0 (New_settled f c0 sm0 hnew)
  obtain ⟨v, hev, hset, hev1⟩ := SetConfig_GetConfig sm hs
  have hget : sm.GetConfig
      = some (⟨sm.state, sm.leader, sm.self, v, sm.peers⟩ : PerceptibleConfig) := by
    unfold GetConfig
    rw [hev]
    rfl
  refine ⟨sm, v, _, hrun, hev, hget, hset, hev1, rfl, rfl, ?_, ?_⟩
  · intro state
    unfold SetPerceptibleState
    rw [hget]
  · intro leader
    unfold SetPerceptibleLeader
    rw [hget]

end SaucrMonitor
end Etcd

namespace Etcd
namespace SaucrMonitor

/-- Witness for C40: a leader `1` of the peers `1, 2, 3` perceives `2` and `3` as
unreachable, then receives two configs that `SetConfig` rejects, the second one after it
has changed leader, self and state. -/
theorem C40_SetConfig_of_GetConfig_keeps_verdict_witness :
    NewSaucrMonitor (NewSimpleBucketCounterFactory 2)
        ⟨StateType.StateLeader, 1, 1, false, [1, 2, 3]⟩
      = some (some ⟨1, 1, StateType.StateLeader, [1, 2, 3], [false, false, false],
          [NewSimpleBucketCounterFactory 2, NewSimpleBucketCounterFactory 2,
            NewSimpleBucketCounterFactory 2], NewSimpleBucketCounterFactory 2, 1, false⟩,
          none) ∧
    ∃ sm v sm1,
      (⟨1, 1, StateType.StateLeader, [1, 2, 3], [false, false, false],
          [NewSimpleBucketCounterFactory 2, NewSimpleBucketCounterFactory 2,
            NewSimpleBucketCounterFactory 2], NewSimpleBucketCounterFactory 2, 1, false⟩ :
        SaucrMonitor).applyCalls
          [MonitorCall.perceive 2 false, MonitorCall.perceive 3 false,
           MonitorCall.setConfig ⟨StateType.StateLeader, 2, 1, false, [1, 2, 3]⟩,
           MonitorCall.setConfig ⟨StateType.StateFollower, 2, 4, false, []⟩] = some sm ∧
      sm.IsCritical = some v ∧
      sm.GetConfig = some { State := sm.state, Leader := sm.leader, Self := sm.self,
                            Critical := v, Peers := sm.peers } ∧
      sm.SetConfig { State := sm.state, Leader := sm.leader, Self := sm.self,
                     Critical := v, Peers := sm.peers } = some (sm1, none) ∧
      sm1.IsCritical = some v ∧
      sm1.hbCounter = sm.hbCounter.map (fun h => h.Init (!v)) ∧
      sm1.unconnected = List.replicate sm.peers.length v ∧
      (∀ state, SetPerceptibleState sm state
        = sm.SetConfig { State := state, Leader := sm.leader, Self := sm.self,
                         Critical := v, Peers := sm.peers }) ∧
      (∀ leader, SetPerceptibleLeader sm leader
        = sm.SetConfig { State := sm.state, Leader := leader, Self := sm.self,
                         Critical := v, Peers := sm.peers }) :=
  ⟨by decide, C40_SetConfig_of_GetConfig_keeps_verdict (NewSimpleBucketCounterFactory 2)
    ⟨StateType.StateLeader, 1, 1, false, [1, 2, 3]⟩ _ _ (by decide)⟩

end SaucrMonitor
end Etcd

namespace Etcd
namespace MimicRaftKernelAnalyzer

theorem Frame_refl (a : MimicRaftKernelAnalyzer) : Frame a a := ⟨rfl, rfl, rfl, rfl⟩

theorem Frame_trans (a b c : MimicRaftKernelAnalyzer) (h1 : Frame a b) (h2 : Frame b c) :
    Frame a c :=
  ⟨h2.1.trans h1.1, h2.2.1.trans h1.2.1, h2.2.2.1.trans h1.2.2.1, h2.2.2.2.trans h1.2.2.2⟩

theorem Frame_set (an : MimicRaftKernelAnalyzer) (bc : MimicRaftKernelCollector) :
    Frame an { an with beforeCompact := bc } := ⟨rfl, rfl, rfl, rfl⟩

theorem Frame_hold (an : MimicRaftKernelAnalyzer) (bc : MimicRaftKernelCollector) (p : Nat)
    (f : EntryFragment) : Frame an ({ an with beforeCompact := bc }.holdBy p f) :=
  ⟨rfl, rfl, rfl, rfl⟩

theorem TryAddEntries_anchored (P : Nat → Prop) (bc bc1 : MimicRaftKernelCollector)
    (es : List Entry) (lt li : Nat) (ok : Bool) (loc : Location)
    (ha : Anchored P bc) (hp : P li)
    (h : bc.TryAddEntries es lt li = some (bc1, ok, loc)) : Anchored P bc1 := by
  unfold MimicRaftKernelCollector.TryAddEntries at h
  by_cases hr : bc.IsRefreshed = true
  · rw [if_pos hr] at h
    simp only [Option.some.injEq, Prod.mk.injEq] at h
    intro _
    rw [← h.1]
    exact hp
  · rw [if_neg hr] at h
    rcases (MimicRaftKernelCollector.mimic_anchor bc bc1 es lt li ok loc h).2 with
      ⟨h1, _, h3⟩ | ⟨h1, _, _, _⟩
    · intro hi
      rw [h1]
      exact ha (by rw [← h3]; exact hi)
    · intro _
      rw [h1]
      exact hp

theorem AddEntries_anchored (P : Nat → Prop) (bc bc1 : MimicRaftKernelCollector)
    (es : List Entry) (lt li : Nat) (ok : Bool)
    (ha : Anchored P bc) (hp : P li)
    (h : bc.AddEntries es lt li = some (bc1, ok)) : Anchored P bc1 := by
  unfold MimicRaftKernelCollector.AddEntries at h
  by_cases hr : bc.IsRefreshed = true
  · rw [if_pos hr] at h
    simp only [Option.some.injEq, Prod.mk.injEq] at h
    intro _
    rw [← h.1]
    exact hp
  · rw [if_neg hr] at h
    cases hm : bc.mimic es lt li with
    | none => rw [hm] at h; cases h
    | some r =>
      obtain ⟨c2, b, loc⟩ := r
      rw [hm] at h
      simp only [Option.map_some', Option.some.injEq, Prod.mk.injEq] at h
      obtain ⟨e1, e2⟩ := h
      subst e1
      exact TryAddEntries_anchored P bc c2 es lt li b loc ha hp
        (by unfold MimicRaftKernelCollector.TryAddEntries; rw [if_neg hr]; exact hm)

theorem Refresh_anchored (P : Nat → Prop) (bc : MimicRaftKernelCollector) :
    Anchored P bc.Refresh := by
  intro hi
  exfalso
  unfold MimicRaftKernelCollector.Refresh at hi
  by_cases hr : bc.IsRefreshed = true
  · rw [if_pos hr] at hi
    simp [MimicRaftKernelCollector.IsRefreshed] at hr
    rw [hr] at hi
    cases hi
  · rw [if_neg hr] at hi
    simp [MimicRaftKernelCollector.destroyCachedTable] at hi

theorem mergeForwardLoop_frame (m : Memory) (P : Nat → Prop) :
    ∀ (ptrs : List Nat) (an an1 : MimicRaftKernelAnalyzer),
      (∀ p ∈ ptrs, ∀ f, m.frags[p]? = some f → P f.LogIndex) →
      Anchored P an.beforeCompact →
      mergeForwardLoop m ptrs an = some an1 →
      Frame an an1 ∧ Anchored P an1.beforeCompact := by
  intro ptrs
  induction ptrs with
  | nil =>
    intro an an1 _ ha h
    simp only [mergeForwardLoop, Option.some.injEq] at h
    subst h
    exact ⟨Frame_refl _, ha⟩
  | cons p rest ih =>
    intro an an1 hP ha h
    have hP' : ∀ q ∈ rest, ∀ f, m.frags[q]? = some f → P f.LogIndex :=
      fun q hq => hP q (List.mem_cons_of_mem _ hq)
    unfold mergeForwardLoop at h
    cases hf : m.frags[p]? with
    | none => rw [hf] at h; cases h
    | some f =>
      have hpf := hP p (List.mem_cons_self _ _) f hf
      rw [hf] at h
      simp only [] at h
      cases ht : an.beforeCompact.TryAddEntries f.Fragment f.LogTerm f.LogIndex with
      | none => rw [ht] at h; cases h
      | some r =>
        obtain ⟨bc1, ok, loc⟩ := r
        have ha1 := TryAddEntries_anchored P _ _ _ _ _ _ _ ha hpf ht
        rw [ht] at h
        cases ok with
        | true =>
          simp only [] at h
          obtain ⟨h1, h2⟩ := ih _ an1 hP' (by exact ha1) h
          exact ⟨Frame_trans _ _ _ (Frame_hold an bc1 p f) h1, h2⟩
        | false =>
          simp only [] at h
          by_cases hl : loc = Location.UNDERFLOW
          · rw [if_pos hl] at h
            cases hm : an.compacted.MatchIndex m.segs f.LogIndex f.LogTerm with
            | none => rw [hm] at h; cases h
            | some l =>
              rw [hm] at h
              have hadd : ∀ an2, (match bc1.Refresh.AddEntries f.Fragment f.LogTerm f.LogIndex with
                  | none => none
                  | some (bc2, _) =>
                    mergeForwardLoop m rest ({ an with beforeCompact := bc2 }.holdBy p f))
                  = some an2 → Frame an an2 ∧ Anchored P an2.beforeCompact := by
                intro an2 h2
                cases hr : bc1.Refresh.AddEntries f.Fragment f.LogTerm f.LogIndex with
                | none => rw [hr] at h2; cases h2
                | some r2 =>
                  obtain ⟨bc2, ok2⟩ := r2
                  rw [hr] at h2
                  simp only [] at h2
                  have ha2 := AddEntries_anchored P _ _ _ _ _ _ (Refresh_anchored P bc1) hpf hr
                  obtain ⟨k1, k2⟩ := ih _ an2 hP' (by exact ha2) h2
                  exact ⟨Frame_trans _ _ _ (Frame_hold an bc2 p f) k1, k2⟩
              have hskip : ∀ an2, mergeForwardLoop m rest { an with beforeCompact := bc1 }
                  = some an2 → Frame an an2 ∧ Anchored P an2.beforeCompact := by
                intro an2 h2
                obtain ⟨k1, k2⟩ := ih _ an2 hP' (by exact ha1) h2
                exact ⟨Frame_trans _ _ _ (Frame_set an bc1) k1, k2⟩
              cases l with
              | UNDERFLOW => cases h
              | PREV => exact hadd an1 h
              | WITHIN => exact hadd an1 h
              | OVERFLOW => exact hskip an1 h
              | CONFLICT => exact hskip an1 h
          · rw [if_neg hl] at h
            obtain ⟨k1, k2⟩ := ih _ an1 hP' (by exact ha1) h
            exact ⟨Frame_trans _ _ _ (Frame_set an bc1) k1, k2⟩

end MimicRaftKernelAnalyzer
end Etcd

namespace Etcd
namespace MimicRaftKernelAnalyzer

theorem strictScan_frame (m : Memory) (P : Nat → Prop) (picked : EntryFragment) :
    ∀ (ptrs : List Nat) (an an1 : MimicRaftKernelAnalyzer) (res : Option (Nat × List Nat)),
      (∀ p ∈ ptrs, ∀ f, m.frags[p]? = some f → P f.LogIndex) →
      Anchored P an.beforeCompact →
      strictScan m picked ptrs an = some (res, an1) →
      Frame an an1 ∧ Anchored P an1.beforeCompact ∧
      (∀ p rest1, res = some (p, rest1) → rest1.length < ptrs.length ∧
        ∀ q ∈ rest1, q ∈ ptrs) := by
  intro ptrs
  induction ptrs with
  | nil =>
    intro an an1 res _ ha h
    simp only [strictScan, Option.some.injEq, Prod.mk.injEq] at h
    obtain ⟨h1, h2⟩ := h
    subst h1 h2
    exact ⟨Frame_refl _, ha, fun p rest1 hc => by cases hc⟩
  | cons p rest ih =>
    intro an an1 res hP ha h
    have hP' : ∀ q ∈ rest, ∀ f, m.frags[q]? = some f → P f.LogIndex :=
      fun q hq => hP q (List.mem_cons_of_mem _ hq)
    have hlift : ∀ an0, Frame an an0 →
        (Frame an0 an1 ∧ Anchored P an1.beforeCompact ∧
          (∀ p1 rest1, res = some (p1, rest1) → rest1.length < rest.length ∧
            ∀ q ∈ rest1, q ∈ rest)) →
        Frame an an1 ∧ Anchored P an1.beforeCompact ∧
          (∀ p1 rest1, res = some (p1, rest1) → rest1.length < (p :: rest).length ∧
            ∀ q ∈ rest1, q ∈ p :: rest) := by
      intro an0 hf0 ⟨k1, k2, k3⟩
      refine ⟨Frame_trans _ _ _ hf0 k1, k2, ?_⟩
      intro p1 rest1 hres
      obtain ⟨l1, l2⟩ := k3 p1 rest1 hres
      refine ⟨by simp only [List.length_cons]; omega, fun q hq => List.mem_cons_of_mem _ (l2 q hq)⟩
    unfold strictScan at h
    cases hf : m.frags[p]? with
    | none => rw [hf] at h; cases h
    | some f =>
      have hpf := hP p (List.mem_cons_self _ _) f hf
      rw [hf] at h
      simp only [] at h
      by_cases hgt : f.LogIndex > picked.LogIndex
      · rw [if_pos hgt] at h
        cases hadd : an.beforeCompact.AddEntries f.Fragment f.LogTerm f.LogIndex with
        | none => rw [hadd] at h; cases h
        | some r =>
          obtain ⟨bc1, ok⟩ := r
          have ha1 := AddEntries_anchored P _ _ _ _ _ _ ha hpf hadd
          rw [hadd] at h
          cases ok with
          | true =>
            simp only [Option.some.injEq, Prod.mk.injEq] at h
            obtain ⟨h1, h2⟩ := h
            subst h1 h2
            refine ⟨Frame_hold an bc1 p f, ha1, ?_⟩
            intro p1 rest1 hres
            simp only [Option.some.injEq, Prod.mk.injEq] at hres
            obtain ⟨_, e2⟩ := hres
            subst e2
            exact ⟨by simp, fun q hq => List.mem_cons_of_mem _ hq⟩
          | false =>
            simp only [] at h
            exact hlift _ (Frame_set an bc1) (ih _ an1 res hP' (by exact ha1) h)
      · rw [if_neg hgt] at h
        exact hlift _ (Frame_refl an) (ih _ an1 res hP' ha h)

theorem strictLoop_frame (m : Memory) (P : Nat → Prop) :
    ∀ (fuel picked : Nat) (rest : List Nat) (an an1 : MimicRaftKernelAnalyzer),
      (∀ p ∈ rest, ∀ f, m.frags[p]? = some f → P f.LogIndex) →
      Anchored P an.beforeCompact →
      strictLoop m fuel picked rest an = some an1 →
      Frame an an1 ∧ Anchored P an1.beforeCompact := by
  intro fuel
  induction fuel with
  | zero => intro picked rest an an1 _ _ h; simp [strictLoop] at h
  | succ fuel ih =>
    intro picked rest an an1 hP ha h
    unfold strictLoop at h
    cases hf : m.frags[picked]? with
    | none => rw [hf] at h; cases h
    | some fp =>
      rw [hf] at h
      simp only [] at h
      cases hs : strictScan m fp rest an with
      | none => rw [hs] at h; cases h
      | some r =>
        obtain ⟨res, an0⟩ := r
        obtain ⟨k1, k2, k3⟩ := strictScan_frame m P fp rest an an0 res hP ha hs
        rw [hs] at h
        cases res with
        | none =>
          simp only [Option.some.injEq] at h
          subst h
          exact ⟨k1, k2⟩
        | some pr =>
          obtain ⟨p, rest1⟩ := pr
          simp only [] at h
          obtain ⟨_, l2⟩ := k3 p rest1 rfl
          obtain ⟨j1, j2⟩ := ih p rest1 an0 an1 (fun q hq => hP q (l2 q hq)) k2 h
          exact ⟨Frame_trans _ _ _ k1 j1, j2⟩

theorem mergeBeforeAnalysisForward_frame (m : Memory) (P : Nat → Prop)
    (an an1 : MimicRaftKernelAnalyzer) (picked : Nat) (rest : List Nat) (strict : Bool)
    (hP : ∀ p ∈ rest, ∀ f, m.frags[p]? = some f → P f.LogIndex)
    (ha : Anchored P an.beforeCompact)
    (h : mergeBeforeAnalysisForward m an picked rest strict = some an1) :
    Frame an an1 ∧ Anchored P an1.beforeCompact := by
  unfold mergeBeforeAnalysisForward at h
  cases strict with
  | true => exact strictLoop_frame m P _ picked rest an an1 hP ha h
  | false => exact mergeForwardLoop_frame m P rest an an1 hP ha h

theorem backwardScan_frame (m : Memory) (P : Nat → Prop) :
    ∀ (window behind : List Nat) (an an1 : MimicRaftKernelAnalyzer) (res : Option (List Nat)),
      (∀ p ∈ window, ∀ f, m.frags[p]? = some f → P f.LogIndex) →
      Anchored P an.beforeCompact →
      backwardScan m window behind an = some (res, an1) →
      Frame an an1 ∧ Anchored P an1.beforeCompact ∧
      (∀ l, res = some l → l.length < window.length + behind.length ∧
        ∀ q ∈ l, q ∈ window ∨ q ∈ behind) := by
  intro window
  induction window with
  | nil =>
    intro behind an an1 res _ ha h
    simp only [backwardScan, Option.some.injEq, Prod.mk.injEq] at h
    obtain ⟨h1, h2⟩ := h
    subst h1 h2
    exact ⟨Frame_refl _, ha, fun l hc => by cases hc⟩
  | cons p before ih =>
    intro behind an an1 res hP ha h
    have hP' : ∀ q ∈ before, ∀ f, m.frags[q]? = some f → P f.LogIndex :=
      fun q hq => hP q (List.mem_cons_of_mem _ hq)
    unfold backwardScan at h
    cases hf : m.frags[p]? with
    | none => rw [hf] at h; cases h
    | some f =>
      have hpf := hP p (List.mem_cons_self _ _) f hf
      rw [hf] at h
      simp only [] at h
      cases hadd : an.beforeCompact.AddEntries f.Fragment f.LogTerm f.LogIndex with
      | none => rw [hadd] at h; cases h
      | some r =>
        obtain ⟨bc1, ok⟩ := r
        have ha1 := AddEntries_anchored P _ _ _ _ _ _ ha hpf hadd
        rw [hadd] at h
        cases ok with
        | true =>
          simp only [Option.some.injEq, Prod.mk.injEq] at h
          obtain ⟨h1, h2⟩ := h
          subst h1 h2
          refine ⟨Frame_hold an bc1 p f, ha1, ?_⟩
          intro l hres
          simp only [Option.some.injEq] at hres
          subst hres
          exact ⟨by simp only [List.length_cons]; omega, fun q hq => Or.inr hq⟩
        | false =>
          simp only [] at h
          obtain ⟨k1, k2, k3⟩ := ih (p :: behind) _ an1 res hP' (by exact ha1) h
          refine ⟨Frame_trans _ _ _ (Frame_set an bc1) k1, k2, ?_⟩
          intro l hres
          obtain ⟨l1, l2⟩ := k3 l hres
          refine ⟨by simp only [List.length_cons] at l1 ⊢; omega, ?_⟩
          intro q hq
          rcases l2 q hq with hq1 | hq1
          · exact Or.inl (List.mem_cons_of_mem _ hq1)
          · rcases List.mem_cons.mp hq1 with hq2 | hq2
            · exact Or.inl (by rw [hq2]; exact List.mem_cons_self _ _)
            · exact Or.inr hq2

theorem mergeBeforeAnalysisBackward_frame (m : Memory) (P : Nat → Prop) :
    ∀ (fuel : Nat) (window : List Nat) (an an1 : MimicRaftKernelAnalyzer),
      (∀ p ∈ window, ∀ f, m.frags[p]? = some f → P f.LogIndex) →
      Anchored P an.beforeCompact →
      mergeBeforeAnalysisBackward m fuel window an = some an1 →
      Frame an an1 ∧ Anchored P an1.beforeCompact := by
  intro fuel
  induction fuel with
  | zero =>
    intro window an an1 _ ha h
    unfold mergeBeforeAnalysisBackward at h
    split_ifs at h
    simp only [Option.some.injEq] at h
    subst h
    exact ⟨Frame_refl _, ha⟩
  | succ fuel ih =>
    intro window an an1 hP ha h
    unfold mergeBeforeAnalysisBackward at h
    by_cases hw : window.length = 0
    · rw [if_pos hw] at h
      simp only [Option.some.injEq] at h
      subst h
      exact ⟨Frame_refl _, ha⟩
    · rw [if_neg hw] at h
      cases hs : backwardScan m window.reverse [] an with
      | none => rw [hs] at h; cases h
      | some r =>
        obtain ⟨res, an0⟩ := r
        obtain ⟨k1, k2, k3⟩ := backwardScan_frame m P window.reverse [] an an0 res
          (fun p hp => hP p (List.mem_reverse.mp hp)) ha hs
        rw [hs] at h
        cases res with
        | none =>
          simp only [Option.some.injEq] at h
          subst h
          exact ⟨k1, k2⟩
        | some behind =>
          simp only [] at h
          have hP2 : ∀ q ∈ behind, ∀ f, m.frags[q]? = some f → P f.LogIndex := by
            intro q hq
            rcases (k3 behind rfl).2 q hq with h1 | h1
            · exact hP q (List.mem_reverse.mp h1)
            · cases h1
          obtain ⟨j1, j2⟩ := ih behind an0 an1 hP2 k2 h
          exact ⟨Frame_trans _ _ _ k1 j1, j2⟩

end MimicRaftKernelAnalyzer
end Etcd

namespace Etcd
namespace MimicRaftKernelAnalyzer

theorem Keeps_refl (a : MimicRaftKernelAnalyzer) : Keeps a a := ⟨rfl, le_refl _⟩

theorem Keeps_trans (a b c : MimicRaftKernelAnalyzer) (h1 : Keeps a b) (h2 : Keeps b c) :
    Keeps a c := ⟨h2.1.trans h1.1, le_trans h1.2 h2.2⟩

theorem Keeps_of_Frame (a b : MimicRaftKernelAnalyzer) (h : Frame a b) : Keeps a b :=
  ⟨h.1, le_of_eq h.2.1.symm⟩

theorem updateCommit_keeps (an : MimicRaftKernelAnalyzer) (committed : Nat) :
    Keeps an (an.updateCommit committed) := by
  unfold updateCommit
  split_ifs with h
  · exact ⟨rfl, by simp only []; omega⟩
  · exact Keeps_refl an

theorem alignBeforeCommitted_keeps (an an1 : MimicRaftKernelAnalyzer)
    (h : an.alignBeforeCommitted = some an1) :
    Keeps an an1 ∧ an1.compacted = an.compacted := by
  unfold alignBeforeCommitted at h
  split_ifs at h with h1
  · simp only [Option.some.injEq] at h
    subst h
    exact ⟨updateCommit_keeps _ _, (updateCommit_fields _ _).2.1⟩
  · cases hl : an.beforeCompact.LastIndex with
    | none => rw [hl] at h; cases h
    | some lastIndex =>
      rw [hl] at h
      simp only [Option.some.injEq] at h
      subst h
      split_ifs
      · exact ⟨updateCommit_keeps _ _, (updateCommit_fields _ _).2.1⟩
      · exact ⟨updateCommit_keeps _ _, (updateCommit_fields _ _).2.1⟩

/-- What `truncateCompacted` does when it returns: nothing, or it resizes `compacted` to
the anchor of `beforeCompact`, which `compacted` locates as `PREV` or `WITHIN`. -/
theorem truncateCompacted_cases (m m1 : Memory) (an an1 : MimicRaftKernelAnalyzer)
    (h : truncateCompacted m an = some (m1, an1)) :
    Keeps an an1 ∧
    ((m1 = m ∧ an1.compacted = an.compacted) ∨
     (an.beforeCompact.initialized = true ∧
      ∃ loc h1 c1 b l2, (loc = Location.PREV ∨ loc = Location.WITHIN) ∧
        an.compacted.MatchIndex m.segs (subU64 (addU64 an.beforeCompact.logIndex 1) 1)
          an.beforeCompact.logTerm = some loc ∧
        an.compacted.ResizeBriefToIndex m.segs (subU64 (addU64 an.beforeCompact.logIndex 1) 1)
          = some (h1, c1, b, l2) ∧
        m1 = { m with segs := h1 } ∧ an1.compacted = c1)) := by
  unfold truncateCompacted at h
  by_cases he : (!an.beforeCompact.IsEmpty) = true
  · rw [if_pos he] at h
    have hemp : an.beforeCompact.IsEmpty = false := by simpa using he
    have hinit : an.beforeCompact.initialized = true := by
      cases hi : an.beforeCompact.initialized with
      | true => rfl
      | false =>
        simp [MimicRaftKernelCollector.IsEmpty, MimicRaftKernelCollector.EntrySize,
          MimicRaftKernelCollector.IsRefreshed, hi] at hemp
    have hr : an.beforeCompact.IsRefreshed = false := by
      simp [MimicRaftKernelCollector.IsRefreshed, hinit]
    have hp : an.beforeCompact.PrevLogTerm = some an.beforeCompact.logTerm := by
      simp [MimicRaftKernelCollector.PrevLogTerm, hr]
    have hfi : an.beforeCompact.FirstIndex = some (addU64 an.beforeCompact.logIndex 1) := by
      simp [MimicRaftKernelCollector.FirstIndex, hr, hemp]
    rw [hp, hfi] at h
    simp only [] at h
    cases hm : an.compacted.MatchIndex m.segs (subU64 (addU64 an.beforeCompact.logIndex 1) 1)
        an.beforeCompact.logTerm with
    | none => rw [hm] at h; cases h
    | some loc =>
      rw [hm] at h
      have hres : ∀ (hloc : loc = Location.PREV ∨ loc = Location.WITHIN),
          (match an.compacted.ResizeBriefToIndex m.segs
                (subU64 (addU64 an.beforeCompact.logIndex 1) 1),
              an.beforeCompact.LastIndex with
            | some (h1, compacted1, _, _), some lastIndex =>
              some (({ m with segs := h1 } : Memory),
                ({ (if ({ an with compacted := compacted1 } :
                        MimicRaftKernelAnalyzer).beforeCommitted < lastIndex
                      then ({ an with compacted := compacted1 } :
                        MimicRaftKernelAnalyzer).updateCommit
                          ({ an with compacted := compacted1 } :
                            MimicRaftKernelAnalyzer).beforeCommitted
                      else ({ an with compacted := compacted1 } :
                        MimicRaftKernelAnalyzer).updateCommit lastIndex) with
                    beforeCommitted :=
                      (if ({ an with compacted := compacted1 } :
                        MimicRaftKernelAnalyzer).beforeCommitted < lastIndex
                      then ({ an with compacted := compacted1 } :
                        MimicRaftKernelAnalyzer).updateCommit
                          ({ an with compacted := compacted1 } :
                            MimicRaftKernelAnalyzer).beforeCommitted
                      else ({ an with compacted := compacted1 } :
                        MimicRaftKernelAnalyzer).updateCommit lastIndex).commit } :
                  MimicRaftKernelAnalyzer))
            | _, _ => none) = some (m1, an1) →
          Keeps an an1 ∧
          ((m1 = m ∧ an1.compacted = an.compacted) ∨
           (an.beforeCompact.initialized = true ∧
            ∃ loc h1 c1 b l2, (loc = Location.PREV ∨ loc = Location.WITHIN) ∧
              an.compacted.MatchIndex m.segs (subU64 (addU64 an.beforeCompact.logIndex 1) 1)
                an.beforeCompact.logTerm = some loc ∧
              an.compacted.ResizeBriefToIndex m.segs
                (subU64 (addU64 an.beforeCompact.logIndex 1) 1) = some (h1, c1, b, l2) ∧
              m1 = { m with segs := h1 } ∧ an1.compacted = c1)) := by
        intro hloc h2
        cases hrz : an.compacted.ResizeBriefToIndex m.segs
            (subU64 (addU64 an.beforeCompact.logIndex 1) 1) with
        | none => rw [hrz] at h2; cases h2
        | some r =>
          obtain ⟨h1, c1, b, l2⟩ := r
          rw [hrz] at h2
          cases hla : an.beforeCompact.LastIndex with
          | none => rw [hla] at h2; cases h2
          | some lastIndex =>
            rw [hla] at h2
            simp only [Option.some.injEq, Prod.mk.injEq] at h2
            obtain ⟨e1, e2⟩ := h2
            subst e1 e2
            constructor
            · split_ifs
              · exact updateCommit_keeps { an with compacted := c1 } _
              · exact updateCommit_keeps { an with compacted := c1 } _
            · right
              refine ⟨hinit, loc, h1, c1, b, l2, hloc, hm, rfl, rfl, ?_⟩
              split_ifs
              · exact (updateCommit_fields _ _).2.1
              · exact (updateCommit_fields _ _).2.1
      cases loc with
      | UNDERFLOW => cases h
      | CONFLICT => cases h
      | OVERFLOW =>
        simp only [Option.some.injEq, Prod.mk.injEq] at h
        obtain ⟨e1, e2⟩ := h
        subst e1 e2
        exact ⟨Keeps_refl _, Or.inl ⟨rfl, rfl⟩⟩
      | PREV =>
        have hfin := hres (Or.inl rfl) h
        rw [hm] at hfin
        exact hfin
      | WITHIN =>
        have hfin := hres (Or.inr rfl) h
        rw [hm] at hfin
        exact hfin
  · rw [if_neg he] at h
    simp only [Option.some.injEq, Prod.mk.injEq] at h
    obtain ⟨e1, e2⟩ := h
    subst e1 e2
    exact ⟨Keeps_refl _, Or.inl ⟨rfl, rfl⟩⟩

end MimicRaftKernelAnalyzer
end Etcd

namespace Etcd
namespace MimicRaftKernelAnalyzer

theorem firstMatchLoop_cases (m : Memory) (P : Nat → Prop) (check strict : Bool) :
    ∀ (ptrs : List Nat) (an an1 : MimicRaftKernelAnalyzer) (m1 : Memory),
      (∀ p ∈ ptrs, ∀ f, m.frags[p]? = some f → P f.LogIndex) →
      Anchored P an.beforeCompact →
      firstMatchLoop m check strict ptrs an = some (m1, an1) →
      (m1 = m ∧ Frame an an1 ∧ Anchored P an1.beforeCompact) ∨
      (∃ an0, Frame an an0 ∧ Anchored P an0.beforeCompact ∧
        truncateCompacted m an0 = some (m1, an1)) := by
  intro ptrs
  induction ptrs with
  | nil =>
    intro an an1 m1 _ ha h
    simp only [firstMatchLoop, Option.some.injEq, Prod.mk.injEq] at h
    obtain ⟨h1, h2⟩ := h
    subst h1 h2
    exact Or.inl ⟨rfl, Frame_refl _, ha⟩
  | cons p rest ih =>
    intro an an1 m1 hP ha h
    have hP' : ∀ q ∈ rest, ∀ f, m.frags[q]? = some f → P f.LogIndex :=
      fun q hq => hP q (List.mem_cons_of_mem _ hq)
    have hlift : ∀ an0, Frame an an0 →
        ((m1 = m ∧ Frame an0 an1 ∧ Anchored P an1.beforeCompact) ∨
          (∃ an2, Frame an0 an2 ∧ Anchored P an2.beforeCompact ∧
            truncateCompacted m an2 = some (m1, an1))) →
        ((m1 = m ∧ Frame an an1 ∧ Anchored P an1.beforeCompact) ∨
          (∃ an2, Frame an an2 ∧ Anchored P an2.beforeCompact ∧
            truncateCompacted m an2 = some (m1, an1))) := by
      intro an0 hf0 hc
      rcases hc with ⟨k1, k2, k3⟩ | ⟨an2, k1, k2, k3⟩
      · exact Or.inl ⟨k1, Frame_trans _ _ _ hf0 k2, k3⟩
      · exact Or.inr ⟨an2, Frame_trans _ _ _ hf0 k1, k2, k3⟩
    unfold firstMatchLoop at h
    cases hf : m.frags[p]? with
    | none => rw [hf] at h; cases h
    | some f =>
      have hpf := hP p (List.mem_cons_self _ _) f hf
      rw [hf] at h
      simp only [] at h
      cases hm : an.compacted.MatchIndex m.segs f.LogIndex f.LogTerm with
      | none => rw [hm] at h; cases h
      | some l =>
        rw [hm] at h
        have hmerge : ∀ bc1, Anchored P bc1 →
            (match mergeBeforeAnalysisForward m ({ an with beforeCompact := bc1 }.holdBy p f) p
                rest strict with
              | none => none
              | some an1 => truncateCompacted m an1) = some (m1, an1) →
            ∃ an0, Frame an an0 ∧ Anchored P an0.beforeCompact ∧
              truncateCompacted m an0 = some (m1, an1) := by
          intro bc1 ha1 h2
          cases hg : mergeBeforeAnalysisForward m ({ an with beforeCompact := bc1 }.holdBy p f) p
              rest strict with
          | none => rw [hg] at h2; cases h2
          | some an0 =>
            rw [hg] at h2
            obtain ⟨k1, k2⟩ := mergeBeforeAnalysisForward_frame m P _ an0 p rest strict hP'
              (by exact ha1) hg
            exact ⟨an0, Frame_trans _ _ _ (Frame_hold an bc1 p f) k1, k2, h2⟩
        have hadd : (match an.beforeCompact.Refresh.AddEntries f.Fragment f.LogTerm f.LogIndex with
            | none => none
            | some (bc1, _) =>
              match mergeBeforeAnalysisForward m ({ an with beforeCompact := bc1 }.holdBy p f) p
                  rest strict with
              | none => none
              | some an1 => truncateCompacted m an1) = some (m1, an1) →
            ∃ an0, Frame an an0 ∧ Anchored P an0.beforeCompact ∧
              truncateCompacted m an0 = some (m1, an1) := by
          intro h2
          cases hr : an.beforeCompact.Refresh.AddEntries f.Fragment f.LogTerm f.LogIndex with
          | none => rw [hr] at h2; cases h2
          | some r2 =>
            obtain ⟨bc1, ok2⟩ := r2
            rw [hr] at h2
            exact hmerge bc1
              (AddEntries_anchored P _ _ _ _ _ _ (Refresh_anchored P an.beforeCompact) hpf hr) h2
        cases l with
        | UNDERFLOW => cases h
        | PREV => exact Or.inr (hadd h)
        | WITHIN => exact Or.inr (hadd h)
        | CONFLICT => exact hlift an (Frame_refl an) (ih an an1 m1 hP' ha h)
        | OVERFLOW =>
          simp only [] at h
          cases check with
          | false =>
            simp only [Bool.false_eq_true, if_false] at h
            exact hlift an (Frame_refl an) (ih an an1 m1 hP' ha h)
          | true =>
            simp only [if_true] at h
            cases hr : an.beforeCompact.AddEntries f.Fragment f.LogTerm f.LogIndex with
            | none => rw [hr] at h; cases h
            | some r2 =>
              obtain ⟨bc1, ok2⟩ := r2
              have ha1 := AddEntries_anchored P _ _ _ _ _ _ ha hpf hr
              rw [hr] at h
              cases ok2 with
              | true => exact Or.inr (hmerge bc1 ha1 h)
              | false =>
                simp only [] at h
                exact hlift _ (Frame_set an bc1) (ih _ an1 m1 hP' (by exact ha1) h)

theorem lastMatchLoop_cases (m : Memory) (P : Nat → Prop) (check : Bool) :
    ∀ (before behind : List Nat) (an an1 : MimicRaftKernelAnalyzer) (m1 : Memory),
      (∀ p ∈ before, ∀ f, m.frags[p]? = some f → P f.LogIndex) →
      (∀ p ∈ behind, ∀ f, m.frags[p]? = some f → P f.LogIndex) →
      Anchored P an.beforeCompact →
      lastMatchLoop m check before behind an = some (m1, an1) →
      (m1 = m ∧ Frame an an1 ∧ Anchored P an1.beforeCompact) ∨
      (∃ an0, Frame an an0 ∧ Anchored P an0.beforeCompact ∧
        truncateCompacted m an0 = some (m1, an1)) := by
  intro before
  induction before with
  | nil =>
    intro behind an an1 m1 _ _ ha h
    simp only [lastMatchLoop, Option.some.injEq, Prod.mk.injEq] at h
    obtain ⟨h1, h2⟩ := h
    subst h1 h2
    exact Or.inl ⟨rfl, Frame_refl _, ha⟩
  | cons p rest ih =>
    intro behind an an1 m1 hP hB ha h
    have hP' : ∀ q ∈ rest, ∀ f, m.frags[q]? = some f → P f.LogIndex :=
      fun q hq => hP q (List.mem_cons_of_mem _ hq)
    have hB' : ∀ q ∈ p :: behind, ∀ f, m.frags[q]? = some f → P f.LogIndex := by
      intro q hq
      rcases List.mem_cons.mp hq with h1 | h1
      · rw [h1]; exact hP p (List.mem_cons_self _ _)
      · exact hB q h1
    have hlift : ∀ an0, Frame an an0 →
        ((m1 = m ∧ Frame an0 an1 ∧ Anchored P an1.beforeCompact) ∨
          (∃ an2, Frame an0 an2 ∧ Anchored P an2.beforeCompact ∧
            truncateCompacted m an2 = some (m1, an1))) →
        ((m1 = m ∧ Frame an an1 ∧ Anchored P an1.beforeCompact) ∨
          (∃ an2, Frame an an2 ∧ Anchored P an2.beforeCompact ∧
            truncateCompacted m an2 = some (m1, an1))) := by
      intro an0 hf0 hc
      rcases hc with ⟨k1, k2, k3⟩ | ⟨an2, k1, k2, k3⟩
      · exact Or.inl ⟨k1, Frame_trans _ _ _ hf0 k2, k3⟩
      · exact Or.inr ⟨an2, Frame_trans _ _ _ hf0 k1, k2, k3⟩
    unfold lastMatchLoop at h
    cases hf : m.frags[p]? with
    | none => rw [hf] at h; cases h
    | some f =>
      have hpf := hP p (List.mem_cons_self _ _) f hf
      rw [hf] at h
      simp only [] at h
      cases hm : an.compacted.MatchIndex m.segs f.LogIndex f.LogTerm with
      | none => rw [hm] at h; cases h
      | some l =>
        rw [hm] at h
        have hmerge : ∀ bc1, Anchored P bc1 →
            (match mergeBeforeAnalysisBackward m (behind.length + 1) behind
                ({ an with beforeCompact := bc1 }.holdBy p f) with
              | none => none
              | some an1 => truncateCompacted m an1) = some (m1, an1) →
            ∃ an0, Frame an an0 ∧ Anchored P an0.beforeCompact ∧
              truncateCompacted m an0 = some (m1, an1) := by
          intro bc1 ha1 h2
          cases hg : mergeBeforeAnalysisBackward m (behind.length + 1) behind
              ({ an with beforeCompact := bc1 }.holdBy p f) with
          | none => rw [hg] at h2; cases h2
          | some an0 =>
            rw [hg] at h2
            obtain ⟨k1, k2⟩ := mergeBeforeAnalysisBackward_frame m P _ behind _ an0 hB
              (by exact ha1) hg
            exact ⟨an0, Frame_trans _ _ _ (Frame_hold an bc1 p f) k1, k2, h2⟩
        have hadd : (match an.beforeCompact.Refresh.AddEntries f.Fragment f.LogTerm f.LogIndex with
            | none => none
            | some (bc1, _) =>
              match mergeBeforeAnalysisBackward m (behind.length + 1) behind
                  ({ an with beforeCompact := bc1 }.holdBy p f) with
              | none => none
              | some an1 => truncateCompacted m an1) = some (m1, an1) →
            ∃ an0, Frame an an0 ∧ Anchored P an0.beforeCompact ∧
              truncateCompacted m an0 = some (m1, an1) := by
          intro h2
          cases hr : an.beforeCompact.Refresh.AddEntries f.Fragment f.LogTerm f.LogIndex with
          | none => rw [hr] at h2; cases h2
          | some r2 =>
            obtain ⟨bc1, ok2⟩ := r2
            rw [hr] at h2
            exact hmerge bc1
              (AddEntries_anchored P _ _ _ _ _ _ (Refresh_anchored P an.beforeCompact) hpf hr) h2
        cases l with
        | UNDERFLOW => cases h
        | PREV => exact Or.inr (hadd h)
        | WITHIN => exact Or.inr (hadd h)
        | CONFLICT => exact hlift an (Frame_refl an) (ih _ an an1 m1 hP' hB' ha h)
        | OVERFLOW =>
          simp only [] at h
          cases check with
          | false =>
            simp only [Bool.false_eq_true, if_false] at h
            exact hlift an (Frame_refl an) (ih _ an an1 m1 hP' hB' ha h)
          | true =>
            simp only [if_true] at h
            cases hr : an.beforeCompact.AddEntries f.Fragment f.LogTerm f.LogIndex with
            | none => rw [hr] at h; cases h
            | some r2 =>
              obtain ⟨bc1, ok2⟩ := r2
              have ha1 := AddEntries_anchored P _ _ _ _ _ _ ha hpf hr
              rw [hr] at h
              cases ok2 with
              | true => exact Or.inr (hmerge bc1 ha1 h)
              | false =>
                simp only [] at h
                exact hlift _ (Frame_set an bc1) (ih _ _ an1 m1 hP' hB' (by exact ha1) h)

end MimicRaftKernelAnalyzer
end Etcd

namespace Etcd
namespace MimicRaftKernelAnalyzer

theorem insertLeft_mem (frags : List EntryFragment) (x : Nat) :
    ∀ (sorted r : List Nat), insertLeft frags x sorted = some r →
      ∀ q ∈ r, q = x ∨ q ∈ sorted := by
  intro sorted
  induction sorted with
  | nil =>
    intro r h q hq
    simp only [insertLeft, Option.some.injEq] at h
    subst h
    left
    simpa using hq
  | cons y rest ih =>
    intro r h q hq
    unfold insertLeft at h
    cases hx : frags[x]? with
    | none => rw [hx] at h; cases h
    | some fx =>
      cases hy : frags[y]? with
      | none => rw [hx, hy] at h; cases h
      | some fy =>
        rw [hx, hy] at h
        simp only [] at h
        cases hl : fragmentLess fx fy with
        | none => rw [hl] at h; cases h
        | some b =>
          rw [hl] at h
          cases b with
          | true =>
            simp only [] at h
            cases hi : insertLeft frags x rest with
            | none => rw [hi] at h; cases h
            | some r1 =>
              rw [hi] at h
              simp only [Option.map_some', Option.some.injEq] at h
              subst h
              rcases List.mem_cons.mp hq with h1 | h1
              · right; rw [h1]; exact List.mem_cons_self _ _
              · rcases ih r1 hi q h1 with h2 | h2
                · exact Or.inl h2
                · exact Or.inr (List.mem_cons_of_mem _ h2)
          | false =>
            simp only [Option.some.injEq] at h
            subst h
            rcases List.mem_cons.mp hq with h1 | h1
            · exact Or.inl h1
            · exact Or.inr h1

theorem insertionSort_mem (frags : List EntryFragment) :
    ∀ (todo sorted r : List Nat), insertionSort frags todo sorted = some r →
      ∀ q ∈ r, q ∈ todo ∨ q ∈ sorted := by
  intro todo
  induction todo with
  | nil =>
    intro sorted r h q hq
    simp only [insertionSort, Option.some.injEq] at h
    subst h
    exact Or.inr (List.mem_reverse.mp hq)
  | cons x todo ih =>
    intro sorted r h q hq
    unfold insertionSort at h
    cases hi : insertLeft frags x sorted with
    | none => rw [hi] at h; cases h
    | some s1 =>
      rw [hi] at h
      simp only [] at h
      rcases ih s1 r h q hq with h1 | h1
      · exact Or.inl (List.mem_cons_of_mem _ h1)
      · rcases insertLeft_mem frags x sorted s1 hi q h1 with h2 | h2
        · left; rw [h2]; exact List.mem_cons_self _ _
        · exact Or.inr h2

theorem sortBeforeAnalysis_spec (m : Memory) (an a : MimicRaftKernelAnalyzer)
    (h : sortBeforeAnalysis m an = some a) :
    Frame an a ∧ a.beforeCompact = an.beforeCompact ∧
    ∀ q ∈ a.beforeAnalysis, q ∈ an.beforeAnalysis := by
  unfold sortBeforeAnalysis at h
  cases hs : insertionSort m.frags an.beforeAnalysis [] with
  | none => rw [hs] at h; cases h
  | some l =>
    rw [hs] at h
    simp only [Option.map_some', Option.some.injEq] at h
    subst h
    refine ⟨⟨rfl, rfl, rfl, rfl⟩, rfl, ?_⟩
    intro q hq
    rcases insertionSort_mem m.frags _ _ l hs q hq with h1 | h1
    · exact h1
    · cases h1

theorem Keeps_step (a b c : MimicRaftKernelAnalyzer) (h : Keeps b c)
    (e1 : b.term = a.term) (e2 : b.commit = a.commit) : Keeps a c :=
  ⟨h.1.trans e1, by rw [← e2]; exact h.2⟩

theorem withoutCompactedLoop_keeps (m : Memory) :
    ∀ (ptrs : List Nat) (an an1 : MimicRaftKernelAnalyzer),
      withoutCompactedLoop m ptrs an = some an1 → Keeps an an1 := by
  intro ptrs
  induction ptrs with
  | nil =>
    intro an an1 h
    simp only [withoutCompactedLoop, Option.some.injEq] at h
    subst h
    exact Keeps_refl _
  | cons p rest ih =>
    intro an an1 h
    unfold withoutCompactedLoop at h
    cases hf : m.frags[p]? with
    | none => rw [hf] at h; cases h
    | some f =>
      rw [hf] at h
      simp only [] at h
      cases ht : an.beforeCompact.TryAddEntries f.Fragment f.LogTerm f.LogIndex with
      | none => rw [ht] at h; cases h
      | some r =>
        obtain ⟨bc1, ok, loc⟩ := r
        rw [ht] at h
        cases ok with
        | true => exact Keeps_step _ _ _ (ih _ an1 h) rfl rfl
        | false =>
          simp only [] at h
          by_cases hl : loc = Location.UNDERFLOW
          · rw [if_pos hl] at h
            cases hr : bc1.Refresh.AddEntries f.Fragment f.LogTerm f.LogIndex with
            | none => rw [hr] at h; cases h
            | some r2 =>
              obtain ⟨bc2, ok2⟩ := r2
              rw [hr] at h
              cases ok2 with
              | true => exact Keeps_step _ _ _ (ih _ an1 h) rfl rfl
              | false => exact Keeps_step _ _ _ (ih _ an1 h) rfl rfl
          · rw [if_neg hl] at h
            exact Keeps_step _ _ _ (ih _ an1 h) rfl rfl

theorem withCompactedLoop_keeps :
    ∀ (ptrs : List Nat) (m m1 : Memory) (an an1 : MimicRaftKernelAnalyzer),
      withCompactedLoop m ptrs an = some (m1, an1) → Keeps an an1 := by
  intro ptrs
  induction ptrs with
  | nil =>
    intro m m1 an an1 h
    simp only [withCompactedLoop, Option.some.injEq, Prod.mk.injEq] at h
    obtain ⟨_, h2⟩ := h
    subst h2
    exact Keeps_refl _
  | cons p rest ih =>
    intro m m1 an an1 h
    unfold withCompactedLoop at h
    cases hf : m.frags[p]? with
    | none => rw [hf] at h; cases h
    | some f =>
      rw [hf] at h
      simp only [] at h
      cases hm : an.compacted.MatchIndex m.segs f.LogIndex f.LogTerm with
      | none => rw [hm] at h; cases h
      | some l =>
        rw [hm] at h
        have hadd : (match an.beforeCompact.Refresh.AddEntries f.Fragment f.LogTerm f.LogIndex with
            | none => none
            | some (bc1, _) =>
              match truncateCompacted m ({ an with beforeCompact := bc1 }.holdBy p f) with
              | none => none
              | some (m1, an1) => withCompactedLoop m1 rest an1) = some (m1, an1) →
            Keeps an an1 := by
          intro h2
          cases hr : an.beforeCompact.Refresh.AddEntries f.Fragment f.LogTerm f.LogIndex with
          | none => rw [hr] at h2; cases h2
          | some r2 =>
            obtain ⟨bc1, ok2⟩ := r2
            rw [hr] at h2
            simp only [] at h2
            cases htr : truncateCompacted m ({ an with beforeCompact := bc1 }.holdBy p f) with
            | none => rw [htr] at h2; cases h2
            | some r3 =>
              obtain ⟨m2, an2⟩ := r3
              rw [htr] at h2
              simp only [] at h2
              have k1 := (truncateCompacted_cases m m2 _ an2 htr).1
              exact Keeps_trans _ _ _ (Keeps_trans an _ _ ⟨rfl, le_refl _⟩ k1) (ih m2 m1 an2 an1 h2)
        cases l with
        | UNDERFLOW => cases h
        | PREV => exact hadd h
        | WITHIN => exact hadd h
        | CONFLICT => exact ih m m1 an an1 h
        | OVERFLOW =>
          simp only [] at h
          cases hr : an.beforeCompact.AddEntries f.Fragment f.LogTerm f.LogIndex with
          | none => rw [hr] at h; cases h
          | some r2 =>
            obtain ⟨bc1, ok2⟩ := r2
            rw [hr] at h
            cases ok2 with
            | true => exact Keeps_step _ _ _ (ih m m1 _ an1 h) rfl rfl
            | false => exact Keeps_step _ _ _ (ih m m1 _ an1 h) rfl rfl

end MimicRaftKernelAnalyzer
end Etcd

namespace Etcd
namespace MimicRaftKernelAnalyzer

theorem analyzePolicyFirstMatch_cases (m m1 : Memory) (P : Nat → Prop)
    (an an1 : MimicRaftKernelAnalyzer) (strict : Bool)
    (hP : ∀ p ∈ an.beforeAnalysis, ∀ f, m.frags[p]? = some f → P f.LogIndex)
    (ha : Anchored P an.beforeCompact)
    (h : analyzePolicyFirstMatch m an strict = some (m1, an1)) :
    Keeps an an1 ∧
    ((m1 = m ∧ an1.compacted = an.compacted) ∨
      ∃ an0 an2, Frame an an0 ∧ Anchored P an0.beforeCompact ∧
        truncateCompacted m an0 = some (m1, an2) ∧ an1.compacted = an2.compacted) := by
  unfold analyzePolicyFirstMatch at h
  cases hc : checkBeforeCompact m an with
  | none => rw [hc] at h; cases h
  | some check =>
    rw [hc] at h
    simp only [] at h
    cases hl : firstMatchLoop m check strict an.beforeAnalysis an with
    | none => rw [hl] at h; cases h
    | some r =>
      obtain ⟨m2, an2⟩ := r
      rw [hl] at h
      simp only [] at h
      cases hal : an2.alignBeforeCommitted with
      | none => rw [hal] at h; cases h
      | some an3 =>
        rw [hal] at h
        simp only [Option.map_some', Option.some.injEq, Prod.mk.injEq] at h
        obtain ⟨e1, e2⟩ := h
        subst e1 e2
        obtain ⟨k1, k2⟩ := alignBeforeCommitted_keeps an2 an3 hal
        rcases firstMatchLoop_cases m P check strict _ an an2 m2 hP ha hl with
          ⟨j1, j2, _⟩ | ⟨an0, j1, j2, j3⟩
        · exact ⟨Keeps_trans _ _ _ (Keeps_of_Frame _ _ j2) k1,
            Or.inl ⟨j1, by rw [k2]; exact j2.2.2.1⟩⟩
        · exact ⟨Keeps_trans _ _ _ (Keeps_trans _ _ _ (Keeps_of_Frame _ _ j1)
            (truncateCompacted_cases m m2 an0 an2 j3).1) k1,
            Or.inr ⟨an0, an2, j1, j2, j3, k2⟩⟩

theorem analyzePolicyLastMatch_cases (m m1 : Memory) (P : Nat → Prop)
    (an an1 : MimicRaftKernelAnalyzer)
    (hP : ∀ p ∈ an.beforeAnalysis, ∀ f, m.frags[p]? = some f → P f.LogIndex)
    (ha : Anchored P an.beforeCompact)
    (h : analyzePolicyLastMatch m an = some (m1, an1)) :
    Keeps an an1 ∧
    ((m1 = m ∧ an1.compacted = an.compacted) ∨
      ∃ an0 an2, Frame an an0 ∧ Anchored P an0.beforeCompact ∧
        truncateCompacted m an0 = some (m1, an2) ∧ an1.compacted = an2.compacted) := by
  unfold analyzePolicyLastMatch at h
  cases hc : checkBeforeCompact m an with
  | none => rw [hc] at h; cases h
  | some check =>
    rw [hc] at h
    simp only [] at h
    cases hl : lastMatchLoop m check an.beforeAnalysis.reverse [] an with
    | none => rw [hl] at h; cases h
    | some r =>
      obtain ⟨m2, an2⟩ := r
      rw [hl] at h
      simp only [] at h
      cases hal : an2.alignBeforeCommitted with
      | none => rw [hal] at h; cases h
      | some an3 =>
        rw [hal] at h
        simp only [Option.map_some', Option.some.injEq, Prod.mk.injEq] at h
        obtain ⟨e1, e2⟩ := h
        subst e1 e2
        obtain ⟨k1, k2⟩ := alignBeforeCommitted_keeps an2 an3 hal
        rcases lastMatchLoop_cases m P check _ [] an an2 m2
          (fun p hp => hP p (List.mem_reverse.mp hp)) (fun p hp => by cases hp) ha hl with
          ⟨j1, j2, _⟩ | ⟨an0, j1, j2, j3⟩
        · exact ⟨Keeps_trans _ _ _ (Keeps_of_Frame _ _ j2) k1,
            Or.inl ⟨j1, by rw [k2]; exact j2.2.2.1⟩⟩
        · exact ⟨Keeps_trans _ _ _ (Keeps_trans _ _ _ (Keeps_of_Frame _ _ j1)
            (truncateCompacted_cases m m2 an0 an2 j3).1) k1,
            Or.inr ⟨an0, an2, j1, j2, j3, k2⟩⟩

/-- The three fragment-matching policies: what the analysis does to `compacted`. -/
theorem analyze_cases (m m1 : Memory) (P : Nat → Prop)
    (an an1 : MimicRaftKernelAnalyzer) (policy : AnalysisPolicy)
    (hpol : policy = AnalysisPolicy.MatchFirstFragment ∨
      policy = AnalysisPolicy.MatchLastFragment ∨ policy = AnalysisPolicy.StrictlyMatchFirst)
    (hP : ∀ p ∈ an.beforeAnalysis, ∀ f, m.frags[p]? = some f → P f.LogIndex)
    (ha : Anchored P an.beforeCompact)
    (h : AnalyzeAndRemoveOffers m an policy = some (m1, an1)) :
    (m1 = m ∧ an1.compacted = an.compacted) ∨
      ∃ an0 an2, an0.compacted = an.compacted ∧ an0.commit = an.commit ∧
        Anchored P an0.beforeCompact ∧
        truncateCompacted m an0 = some (m1, an2) ∧ an1.compacted = an2.compacted := by
  unfold AnalyzeAndRemoveOffers at h
  simp only [] at h
  generalize han0 : (if an.beforeTerm > an.term then { an with term := an.beforeTerm } else an)
    = an0 at h
  have hf0 : an0.compacted = an.compacted ∧ an0.commit = an.commit ∧
      an0.beforeCompact = an.beforeCompact ∧ an0.beforeAnalysis = an.beforeAnalysis := by
    rw [← han0]
    split_ifs <;> exact ⟨rfl, rfl, rfl, rfl⟩
  by_cases hz : an0.analyzed = true
  · rw [if_pos hz] at h
    simp only [Option.some.injEq, Prod.mk.injEq] at h
    obtain ⟨e1, e2⟩ := h
    subst e1 e2
    exact Or.inl ⟨rfl, hf0.1⟩
  · rw [if_neg hz] at h
    have hmain : ∀ (r : MimicRaftKernelAnalyzer → Option (Memory × MimicRaftKernelAnalyzer)),
        (∀ a x, Frame an0 a → a.beforeCompact = an0.beforeCompact →
          (∀ q ∈ a.beforeAnalysis, q ∈ an0.beforeAnalysis) → r a = some x →
          ((x.1 = m ∧ x.2.compacted = a.compacted) ∨
            ∃ b an2, Frame a b ∧ Anchored P b.beforeCompact ∧
              truncateCompacted m b = some (x.1, an2) ∧ x.2.compacted = an2.compacted)) →
        ((sortBeforeAnalysis m an0).bind r).map
          (fun x => (x.1, { x.2 with analyzed := true }.removeOffers)) = some (m1, an1) →
        ((m1 = m ∧ an1.compacted = an.compacted) ∨
          ∃ b an2, b.compacted = an.compacted ∧ b.commit = an.commit ∧
            Anchored P b.beforeCompact ∧
            truncateCompacted m b = some (m1, an2) ∧ an1.compacted = an2.compacted) := by
      intro r hr h2
      cases hs : sortBeforeAnalysis m an0 with
      | none => rw [hs] at h2; cases h2
      | some a =>
        rw [hs] at h2
        simp only [Option.some_bind] at h2
        cases hra : r a with
        | none => rw [hra] at h2; cases h2
        | some x =>
          rw [hra] at h2
          simp only [Option.map_some', Option.some.injEq, Prod.mk.injEq] at h2
          obtain ⟨e1, e2⟩ := h2
          subst e1 e2
          obtain ⟨s1, s2, s3⟩ := sortBeforeAnalysis_spec m an0 a hs
          rcases hr a x s1 s2 s3 hra with ⟨j1, j2⟩ | ⟨b, an2, j1, j2, j3, j4⟩
          · left
            refine ⟨j1, ?_⟩
            show x.2.compacted = an.compacted
            rw [j2, s1.2.2.1, hf0.1]
          · right
            refine ⟨b, an2, ?_, ?_, j2, j3, j4⟩
            · rw [j1.2.2.1, s1.2.2.1, hf0.1]
            · rw [j1.2.1, s1.2.1, hf0.2.1]
    have hPa : ∀ a : MimicRaftKernelAnalyzer, (∀ q ∈ a.beforeAnalysis, q ∈ an0.beforeAnalysis) →
        ∀ p ∈ a.beforeAnalysis, ∀ f, m.frags[p]? = some f → P f.LogIndex := by
      intro a hsub p hp
      have := hsub p hp
      rw [hf0.2.2.2] at this
      exact hP p this
    have haa : ∀ a : MimicRaftKernelAnalyzer, a.beforeCompact = an0.beforeCompact →
        Anchored P a.beforeCompact := by
      intro a hbc
      rw [hbc, hf0.2.2.1]
      exact ha
    rcases hpol with hp | hp | hp
    · subst hp
      simp only [] at h
      exact hmain _ (fun a x _ hbc hsub hra =>
        (analyzePolicyFirstMatch_cases m x.1 P a x.2 false (hPa a hsub) (haa a hbc) hra).2) h
    · subst hp
      simp only [] at h
      exact hmain _ (fun a x _ hbc hsub hra =>
        (analyzePolicyLastMatch_cases m x.1 P a x.2 (hPa a hsub) (haa a hbc) hra).2) h
    · subst hp
      simp only [] at h
      exact hmain _ (fun a x _ hbc hsub hra =>
        (analyzePolicyFirstMatch_cases m x.1 P a x.2 true (hPa a hsub) (haa a hbc) hra).2) h

end MimicRaftKernelAnalyzer
end Etcd

namespace Etcd
namespace MimicRaftKernelAnalyzer

theorem analyze_keeps (m m1 : Memory) (an an1 : MimicRaftKernelAnalyzer)
    (policy : AnalysisPolicy) (h : AnalyzeAndRemoveOffers m an policy = some (m1, an1)) :
    an.term ≤ an1.term ∧ an.beforeTerm ≤ an1.term ∧ an.commit ≤ an1.commit := by
  unfold AnalyzeAndRemoveOffers at h
  simp only [] at h
  generalize han0 : (if an.beforeTerm > an.term then { an with term := an.beforeTerm } else an)
    = an0 at h
  have hf0 : an.term ≤ an0.term ∧ an.beforeTerm ≤ an0.term ∧ an0.commit = an.commit := by
    rw [← han0]
    split_ifs with hgt
    · exact ⟨by simp only []; omega, le_refl _, rfl⟩
    · exact ⟨le_refl _, by omega, rfl⟩
  have hfin : Keeps an0 an1 →
      an.term ≤ an1.term ∧ an.beforeTerm ≤ an1.term ∧ an.commit ≤ an1.commit := by
    intro hk
    refine ⟨?_, ?_, ?_⟩
    · rw [hk.1]; exact hf0.1
    · rw [hk.1]; exact hf0.2.1
    · rw [← hf0.2.2]; exact hk.2
  by_cases hz : an0.analyzed = true
  · rw [if_pos hz] at h
    simp only [Option.some.injEq, Prod.mk.injEq] at h
    obtain ⟨_, e2⟩ := h
    subst e2
    exact hfin (Keeps_refl _)
  · rw [if_neg hz] at h
    have hmain : ∀ (r : MimicRaftKernelAnalyzer → Option (Memory × MimicRaftKernelAnalyzer)),
        (∀ a x, r a = some x → Keeps a x.2) →
        ((sortBeforeAnalysis m an0).bind r).map
          (fun x => (x.1, { x.2 with analyzed := true }.removeOffers)) = some (m1, an1) →
        Keeps an0 an1 := by
      intro r hr h2
      cases hs : sortBeforeAnalysis m an0 with
      | none => rw [hs] at h2; cases h2
      | some a =>
        rw [hs] at h2
        simp only [Option.some_bind] at h2
        cases hra : r a with
        | none => rw [hra] at h2; cases h2
        | some x =>
          rw [hra] at h2
          simp only [Option.map_some', Option.some.injEq, Prod.mk.injEq] at h2
          obtain ⟨_, e2⟩ := h2
          subst e2
          have k1 := Keeps_of_Frame _ _ (sortBeforeAnalysis_spec m an0 a hs).1
          have k2 := hr a x hra
          exact Keeps_trans _ _ _ k1 ⟨k2.1, k2.2⟩
    apply hfin
    cases policy with
    | UpdateCommittedOnly =>
      simp only [] at h
      cases hal : an0.alignBeforeCommitted with
      | none => rw [hal] at h; cases h
      | some a =>
        rw [hal] at h
        simp only [Option.map_some', Option.some.injEq, Prod.mk.injEq] at h
        obtain ⟨_, e2⟩ := h
        subst e2
        have k := (alignBeforeCommitted_keeps an0 a hal).1
        exact ⟨k.1, k.2⟩
    | MatchFirstFragment =>
      simp only [] at h
      exact hmain _ (fun a x hra =>
        (analyzePolicyFirstMatch_cases m x.1 (fun _ => True) a x.2 false
          (fun _ _ _ _ => trivial) (fun _ => trivial) hra).1) h
    | MatchLastFragment =>
      simp only [] at h
      exact hmain _ (fun a x hra =>
        (analyzePolicyLastMatch_cases m x.1 (fun _ => True) a x.2
          (fun _ _ _ _ => trivial) (fun _ => trivial) hra).1) h
    | StrictlyMatchFirst =>
      simp only [] at h
      exact hmain _ (fun a x hra =>
        (analyzePolicyFirstMatch_cases m x.1 (fun _ => True) a x.2 true
          (fun _ _ _ _ => trivial) (fun _ => trivial) hra).1) h
    | AccordingToCompacted =>
      simp only [] at h
      refine hmain _ ?_ h
      intro a x hra
      cases hw : withCompactedLoop m a.beforeAnalysis a with
      | none => rw [hw] at hra; cases hra
      | some y =>
        rw [hw] at hra
        simp only [Option.some_bind] at hra
        cases ht : truncateCompacted y.1 y.2 with
        | none => rw [ht] at hra; cases hra
        | some z =>
          rw [ht] at hra
          simp only [Option.some_bind] at hra
          cases hal : z.2.alignBeforeCommitted with
          | none => rw [hal] at hra; cases hra
          | some w =>
            rw [hal] at hra
            simp only [Option.map_some', Option.some.injEq] at hra
            subst hra
            exact Keeps_trans _ _ _ (Keeps_trans _ _ _
              (withCompactedLoop_keeps _ m y.1 a y.2 hw)
              (truncateCompacted_cases y.1 z.1 y.2 z.2 ht).1)
              (alignBeforeCommitted_keeps z.2 w hal).1
    | IgnoreCompacted =>
      simp only [] at h
      refine hmain _ ?_ h
      intro a x hra
      cases hw : withoutCompactedLoop m a.beforeAnalysis a with
      | none => rw [hw] at hra; cases hra
      | some y =>
        rw [hw] at hra
        simp only [Option.some_bind] at hra
        cases hal : y.alignBeforeCommitted with
        | none => rw [hal] at hra; cases hra
        | some w =>
          rw [hal] at hra
          simp only [Option.map_some', Option.some.injEq] at hra
          subst hra
          exact Keeps_trans _ _ _ (withoutCompactedLoop_keeps m _ a y hw)
            (alignBeforeCommitted_keeps y w hal).1

end MimicRaftKernelAnalyzer
end Etcd

namespace Etcd
namespace MimicRaftKernelAnalyzer

theorem OfferLocalEntries_keeps (m : Memory) (an : MimicRaftKernelAnalyzer)
    (oTerm oId committed prevLogTerm : Nat) (ent : List Entry) :
    (OfferLocalEntries m an oTerm oId committed prevLogTerm ent).2.term = an.term ∧
    (OfferLocalEntries m an oTerm oId committed prevLogTerm ent).2.commit = an.commit ∧
    (OfferLocalEntries m an oTerm oId committed prevLogTerm ent).2.compacted = an.compacted ∧
    (OfferLocalEntries m an oTerm oId committed prevLogTerm ent).2.beforeCompact
      = an.beforeCompact ∧
    (OfferLocalEntries m an oTerm oId committed prevLogTerm ent).1.segs = m.segs := by
  unfold OfferLocalEntries
  by_cases h0 : oTerm < an.term
  · rw [if_pos h0]
    exact ⟨rfl, rfl, rfl, rfl, rfl⟩
  · rw [if_neg h0]
    cases ent with
    | nil => exact ⟨rfl, rfl, rfl, rfl, rfl⟩
    | cons e0 rest =>
      simp only []
      by_cases h1 : e0.index ≤ an.commit
      · rw [if_pos h1]
        exact ⟨rfl, rfl, rfl, rfl, rfl⟩
      · rw [if_neg h1]
        exact ⟨rfl, rfl, rfl, rfl, rfl⟩

theorem OfferRemoteEntries_keeps (m : Memory) (an : MimicRaftKernelAnalyzer)
    (oTerm oId committed : Nat) (efc : EntryFragmentCollector)
    (r : Memory × MimicRaftKernelAnalyzer)
    (h : OfferRemoteEntries m an oTerm oId committed efc = some r) :
    r.2.term = an.term ∧ r.2.commit = an.commit ∧ r.2.compacted = an.compacted ∧
    r.2.beforeCompact = an.beforeCompact ∧ r.1.segs = m.segs := by
  unfold OfferRemoteEntries at h
  by_cases h0 : oTerm < an.term
  · rw [if_pos h0] at h
    simp only [Option.some.injEq] at h
    subst h
    exact ⟨rfl, rfl, rfl, rfl, rfl⟩
  · rw [if_neg h0] at h
    simp only [] at h
    cases hf : efc.FetchFragmentsWithStartIndex (addU64 an.commit 1) with
    | none => rw [hf] at h; cases h
    | some x =>
      obtain ⟨ok, fs⟩ := x
      rw [hf] at h
      simp only [] at h
      by_cases h1 : (!efc.IsRefreshed) = true ∧ ok = true
      · rw [if_pos h1] at h
        simp only [Option.some.injEq] at h
        subst h
        exact ⟨rfl, rfl, rfl, rfl, rfl⟩
      · rw [if_neg h1] at h
        simp only [Option.some.injEq] at h
        subst h
        exact ⟨rfl, rfl, rfl, rfl, rfl⟩

theorem Compact_keeps (m : Memory) (an : MimicRaftKernelAnalyzer)
    (r : Memory × MimicRaftKernelAnalyzer) (h : Compact m an = some r) :
    r.2.term = an.term ∧ r.2.commit = an.commit := by
  unfold Compact at h
  split_ifs at h
  · simp only [Option.some.injEq] at h
    subst h
    exact ⟨rfl, rfl⟩
  · simp only [] at h
    cases hx : an.compacted.AddEntriesToBrief m.segs an.beforeCompact.FetchAllEntries.2.1
        an.beforeCompact.FetchAllEntries.2.2.1 an.beforeCompact.FetchAllEntries.2.2.2 with
    | none => rw [hx] at h; cases h
    | some x =>
      rw [hx] at h
      simp only [Option.map_some', Option.some.injEq] at h
      subst h
      exact ⟨rfl, rfl⟩

theorem CompactBefore_keeps (m : Memory) (an : MimicRaftKernelAnalyzer) (index : Nat)
    (r : Memory × MimicRaftKernelAnalyzer × Location) (h : CompactBefore m an index = some r) :
    r.2.1.term = an.term ∧ r.2.1.commit = an.commit := by
  unfold CompactBefore at h
  split_ifs at h
  · simp only [Option.some.injEq] at h
    subst h
    exact ⟨rfl, rfl⟩
  · cases hl : an.beforeCompact.LocateIndex index with
    | none => rw [hl] at h; cases h
    | some x =>
      obtain ⟨loc, t⟩ := x
      rw [hl] at h
      cases loc with
      | CONFLICT => cases h
      | UNDERFLOW =>
        simp only [Option.some.injEq] at h
        subst h
        exact ⟨rfl, rfl⟩
      | PREV =>
        simp only [Option.some.injEq] at h
        subst h
        exact ⟨rfl, rfl⟩
      | OVERFLOW =>
        simp only [] at h
        cases hx : an.compacted.AddEntriesToBrief m.segs an.beforeCompact.FetchAllEntries.2.1
            an.beforeCompact.FetchAllEntries.2.2.1 an.beforeCompact.FetchAllEntries.2.2.2 with
        | none => rw [hx] at h; cases h
        | some x =>
          rw [hx] at h
          simp only [Option.map_some', Option.some.injEq] at h
          subst h
          exact ⟨rfl, rfl⟩
      | WITHIN =>
        simp only [] at h
        cases hfe : an.beforeCompact.FetchEntriesWithStartIndex index with
        | none => rw [hfe] at h; cases h
        | some y =>
          obtain ⟨b, nEnt, nLogTerm, nLogIndex⟩ := y
          rw [hfe] at h
          simp only [] at h
          cases hsl : sliceInt an.beforeCompact.FetchAllEntries.2.1 0
              ((an.beforeCompact.FetchAllEntries.2.1.length : Int) - nEnt.length) with
          | none => rw [hsl] at h; cases h
          | some aEnt =>
            rw [hsl] at h
            simp only [] at h
            cases hx : an.compacted.AddEntriesToBrief m.segs aEnt
                an.beforeCompact.FetchAllEntries.2.2.1 an.beforeCompact.FetchAllEntries.2.2.2 with
            | none => rw [hx] at h; cases h
            | some x =>
              cases hy : an.beforeCompact.Refresh.AddEntries nEnt nLogTerm nLogIndex with
              | none => rw [hx, hy] at h; cases h
              | some z =>
                obtain ⟨bc1, ok⟩ := z
                rw [hx, hy] at h
                simp only [Option.some.injEq] at h
                subst h
                exact ⟨rfl, rfl⟩

end MimicRaftKernelAnalyzer
end Etcd

namespace Etcd

theorem sliceCap_nil {α : Type} (xs : List α) (lo hi : Int) :
    sliceCap xs [] lo hi = sliceInt xs lo hi := by
  unfold sliceCap sliceInt
  simp only [List.length_nil, Nat.cast_zero, add_zero, List.append_nil]

namespace MimicRaftKernelBriefCollector

theorem mimicCap_nil (h : SegmentHeap) (c : MimicRaftKernelBriefCollector)
    (entries : List Entry) (logTerm logIndex : Nat) :
    c.mimicCap h entries logTerm logIndex [] = c.mimic h entries logTerm logIndex := by
  unfold mimicCap mimic
  simp only [sliceCap_nil]

theorem AddEntriesToBriefCap_nil (h : SegmentHeap) (c : MimicRaftKernelBriefCollector)
    (entries : List Entry) (logTerm logIndex : Nat) :
    c.AddEntriesToBriefCap h entries logTerm logIndex []
      = c.AddEntriesToBrief h entries logTerm logIndex := by
  unfold AddEntriesToBriefCap AddEntriesToBrief
  simp only [mimicCap_nil]
  try rfl

end MimicRaftKernelBriefCollector

namespace MimicRaftKernelAnalyzer

theorem CompactCap_nil (m : Memory) (an : MimicRaftKernelAnalyzer) :
    CompactCap m an [] = Compact m an := by
  unfold CompactCap Compact
  simp only [MimicRaftKernelBriefCollector.AddEntriesToBriefCap_nil]
  try rfl

theorem CompactBeforeCap_nil (m : Memory) (an : MimicRaftKernelAnalyzer) (index : Nat) :
    CompactBeforeCap m an index [] = CompactBefore m an index := by
  unfold CompactBeforeCap CompactBefore
  simp only [MimicRaftKernelBriefCollector.AddEntriesToBriefCap_nil]
  try rfl

theorem AnalyzeAndRemoveOffers_sorted (m : Memory) (an : MimicRaftKernelAnalyzer)
    (policy : AnalysisPolicy) (l : List Nat)
    (h : insertionSort m.frags an.beforeAnalysis [] = some l) :
    AnalyzeAndRemoveOffers m an policy = AnalyzeAndRemoveOffersSorted m an policy l := by
  unfold AnalyzeAndRemoveOffers AnalyzeAndRemoveOffersSorted
  simp only []
  have hs : sortBeforeAnalysis m
      (if an.beforeTerm > an.term then { an with term := an.beforeTerm } else an)
      = some { (if an.beforeTerm > an.term then { an with term := an.beforeTerm } else an)
          with beforeAnalysis := l } := by
    unfold sortBeforeAnalysis
    have e : (if an.beforeTerm > an.term then { an with term := an.beforeTerm }
        else an).beforeAnalysis = an.beforeAnalysis := by
      split_ifs <;> rfl
    rw [e, h]
    rfl
  rw [hs]
  cases policy <;> simp only [Option.some_bind]

end MimicRaftKernelAnalyzer
end Etcd

namespace Etcd
namespace MimicRaftKernelAnalyzer

theorem analyzeSorted_keeps (m m1 : Memory) (an an1 : MimicRaftKernelAnalyzer)
    (policy : AnalysisPolicy) (sorted : List Nat)
    (h : AnalyzeAndRemoveOffersSorted m an policy sorted = some (m1, an1)) :
    an.term ≤ an1.term ∧ an.beforeTerm ≤ an1.term ∧ an.commit ≤ an1.commit := by
  unfold AnalyzeAndRemoveOffersSorted at h
  simp only [] at h
  generalize han0 : (if an.beforeTerm > an.term then { an with term := an.beforeTerm } else an)
    = an0 at h
  have hf0 : an.term ≤ an0.term ∧ an.beforeTerm ≤ an0.term ∧ an0.commit = an.commit := by
    rw [← han0]
    split_ifs with hgt
    · exact ⟨by simp only []; omega, le_refl _, rfl⟩
    · exact ⟨le_refl _, by omega, rfl⟩
  have hfin : Keeps an0 an1 →
      an.term ≤ an1.term ∧ an.beforeTerm ≤ an1.term ∧ an.commit ≤ an1.commit := by
    intro hk
    refine ⟨?_, ?_, ?_⟩
    · rw [hk.1]; exact hf0.1
    · rw [hk.1]; exact hf0.2.1
    · rw [← hf0.2.2]; exact hk.2
  by_cases hz : an0.analyzed = true
  · rw [if_pos hz] at h
    simp only [Option.some.injEq, Prod.mk.injEq] at h
    obtain ⟨_, e2⟩ := h
    subst e2
    exact hfin (Keeps_refl _)
  · rw [if_neg hz] at h
    have hmain : ∀ (r : Option (Memory × MimicRaftKernelAnalyzer)),
        (∀ x, r = some x → Keeps { an0 with beforeAnalysis := sorted } x.2) →
        r.map (fun x => (x.1, { x.2 with analyzed := true }.removeOffers)) = some (m1, an1) →
        Keeps an0 an1 := by
      intro r hr h2
      cases hra : r with
      | none => rw [hra] at h2; cases h2
      | some x =>
        rw [hra] at h2
        simp only [Option.map_some', Option.some.injEq, Prod.mk.injEq] at h2
        obtain ⟨_, e2⟩ := h2
        subst e2
        have k2 := hr x hra
        exact ⟨k2.1, k2.2⟩
    apply hfin
    cases policy with
    | UpdateCommittedOnly =>
      simp only [] at h
      cases hal : an0.alignBeforeCommitted with
      | none => rw [hal] at h; cases h
      | some a =>
        rw [hal] at h
        simp only [Option.map_some', Option.some.injEq, Prod.mk.injEq] at h
        obtain ⟨_, e2⟩ := h
        subst e2
        have k := (alignBeforeCommitted_keeps an0 a hal).1
        exact ⟨k.1, k.2⟩
    | MatchFirstFragment =>
      simp only [] at h
      exact hmain _ (fun x hra =>
        (analyzePolicyFirstMatch_cases m x.1 (fun _ => True) _ x.2 false
          (fun _ _ _ _ => trivial) (fun _ => trivial) hra).1) h
    | MatchLastFragment =>
      simp only [] at h
      exact hmain _ (fun x hra =>
        (analyzePolicyLastMatch_cases m x.1 (fun _ => True) _ x.2
          (fun _ _ _ _ => trivial) (fun _ => trivial) hra).1) h
    | StrictlyMatchFirst =>
      simp only [] at h
      exact hmain _ (fun x hra =>
        (analyzePolicyFirstMatch_cases m x.1 (fun _ => True) _ x.2 true
          (fun _ _ _ _ => trivial) (fun _ => trivial) hra).1) h
    | AccordingToCompacted =>
      simp only [] at h
      refine hmain _ ?_ h
      intro x hra
      cases hw : withCompactedLoop m sorted { an0 with beforeAnalysis := sorted } with
      | none => rw [hw] at hra; cases hra
      | some y =>
        rw [hw] at hra
        simp only [Option.some_bind] at hra
        cases ht : truncateCompacted y.1 y.2 with
        | none => rw [ht] at hra; cases hra
        | some z =>
          rw [ht] at hra
          simp only [Option.some_bind] at hra
          cases hal : z.2.alignBeforeCommitted with
          | none => rw [hal] at hra; cases hra
          | some w =>
            rw [hal] at hra
            simp only [Option.map_some', Option.some.injEq] at hra
            subst hra
            exact Keeps_trans _ _ _ (Keeps_trans _ _ _
              (withCompactedLoop_keeps _ m y.1 _ y.2 hw)
              (truncateCompacted_cases y.1 z.1 y.2 z.2 ht).1)
              (alignBeforeCommitted_keeps z.2 w hal).1
    | IgnoreCompacted =>
      simp only [] at h
      refine hmain _ ?_ h
      intro x hra
      cases hw : withoutCompactedLoop m sorted { an0 with beforeAnalysis := sorted } with
      | none => rw [hw] at hra; cases hra
      | some y =>
        rw [hw] at hra
        simp only [Option.some_bind] at hra
        cases hal : y.alignBeforeCommitted with
        | none => rw [hal] at hra; cases hra
        | some w =>
          rw [hal] at hra
          simp only [Option.map_some', Option.some.injEq] at hra
          subst hra
          exact Keeps_trans _ _ _ (withoutCompactedLoop_keeps m _ _ y hw)
            (alignBeforeCommitted_keeps y w hal).1

theorem CompactCap_keeps (m : Memory) (an : MimicRaftKernelAnalyzer) (spare : List Nat)
    (r : Memory × MimicRaftKernelAnalyzer) (h : CompactCap m an spare = some r) :
    r.2.term = an.term ∧ r.2.commit = an.commit := by
  unfold CompactCap at h
  split_ifs at h
  · simp only [Option.some.injEq] at h
    subst h
    exact ⟨rfl, rfl⟩
  · simp only [] at h
    cases hx : an.compacted.AddEntriesToBriefCap m.segs an.beforeCompact.FetchAllEntries.2.1
        an.beforeCompact.FetchAllEntries.2.2.1 an.beforeCompact.FetchAllEntries.2.2.2 spare with
    | none => rw [hx] at h; cases h
    | some x =>
      rw [hx] at h
      simp only [Option.map_some', Option.some.injEq] at h
      subst h
      exact ⟨rfl, rfl⟩

theorem CompactBeforeCap_keeps (m : Memory) (an : MimicRaftKernelAnalyzer) (index : Nat)
    (spare : List Nat) (r : Memory × MimicRaftKernelAnalyzer × Location)
    (h : CompactBeforeCap m an index spare = some r) :
    r.2.1.term = an.term ∧ r.2.1.commit = an.commit := by
  unfold CompactBeforeCap at h
  split_ifs at h
  · simp only [Option.some.injEq] at h
    subst h
    exact ⟨rfl, rfl⟩
  · cases hl : an.beforeCompact.LocateIndex index with
    | none => rw [hl] at h; cases h
    | some x =>
      obtain ⟨loc, t⟩ := x
      rw [hl] at h
      cases loc with
      | CONFLICT => cases h
      | UNDERFLOW =>
        simp only [Option.some.injEq] at h
        subst h
        exact ⟨rfl, rfl⟩
      | PREV =>
        simp only [Option.some.injEq] at h
        subst h
        exact ⟨rfl, rfl⟩
      | OVERFLOW =>
        simp only [] at h
        cases hx : an.compacted.AddEntriesToBriefCap m.segs an.beforeCompact.FetchAllEntries.2.1
            an.beforeCompact.FetchAllEntries.2.2.1 an.beforeCompact.FetchAllEntries.2.2.2
            spare with
        | none => rw [hx] at h; cases h
        | some x =>
          rw [hx] at h
          simp only [Option.map_some', Option.some.injEq] at h
          subst h
          exact ⟨rfl, rfl⟩
      | WITHIN =>
        simp only [] at h
        cases hfe : an.beforeCompact.FetchEntriesWithStartIndex index with
        | none => rw [hfe] at h; cases h
        | some y =>
          obtain ⟨b, nEnt, nLogTerm, nLogIndex⟩ := y
          rw [hfe] at h
          simp only [] at h
          cases hsl : sliceInt an.beforeCompact.FetchAllEntries.2.1 0
              ((an.beforeCompact.FetchAllEntries.2.1.length : Int) - nEnt.length) with
          | none => rw [hsl] at h; cases h
          | some aEnt =>
            rw [hsl] at h
            simp only [] at h
            cases hx : an.compacted.AddEntriesToBriefCap m.segs aEnt
                an.beforeCompact.FetchAllEntries.2.2.1 an.beforeCompact.FetchAllEntries.2.2.2
                spare with
            | none => rw [hx] at h; cases h
            | some x =>
              cases hy : an.beforeCompact.Refresh.AddEntries nEnt nLogTerm nLogIndex with
              | none => rw [hx, hy] at h; cases h
              | some z =>
                obtain ⟨bc1, ok⟩ := z
                rw [hx, hy] at h
                simp only [Option.some.injEq] at h
                subst h
                exact ⟨rfl, rfl⟩

/-- C36: the analyzer's term and commit never decrease.  For every memory and analyzer state,
each of `OfferLocalEntries`, `OfferRemoteEntries` (whatever the remote collector replies),
`AnalyzeAndRemoveOffers` (any of the six policies, whatever order `sort.Slice` leaves the
offers in), `TrySetTerm`, `Compact`, `CompactBefore` (whatever spare capacity the slice of
`compacted` has), `DropOffers` and `PrepareRollback` that returns leaves a term and a
commit at least as large as before; and `AnalyzeAndRemoveOffers` leaves the term at least
`beforeTerm`, also when the analyzer was analyzed already. -/
theorem C36_term_and_commit_never_decrease (m : Memory) (an : MimicRaftKernelAnalyzer) :
    (∀ oTerm oId committed prevLogTerm ent,
      an.term ≤ (OfferLocalEntries m an oTerm oId committed prevLogTerm ent).2.term ∧
      an.commit ≤ (OfferLocalEntries m an oTerm oId committed prevLogTerm ent).2.commit) ∧
    (∀ oTerm oId committed efc r, OfferRemoteEntries m an oTerm oId committed efc = some r →
      an.term ≤ r.2.term ∧ an.commit ≤ r.2.commit) ∧
    (∀ policy sorted r, AnalyzeAndRemoveOffersSorted m an policy sorted = some r →
      an.term ≤ r.2.term ∧ an.commit ≤ r.2.commit ∧ an.beforeTerm ≤ r.2.term) ∧
    (∀ term, an.term ≤ (an.TrySetTerm term).1.term ∧
      an.commit ≤ (an.TrySetTerm term).1.commit) ∧
    (∀ spare r, CompactCap m an spare = some r →
      an.term ≤ r.2.term ∧ an.commit ≤ r.2.commit) ∧
    (∀ index spare r, CompactBeforeCap m an index spare = some r →
      an.term ≤ r.2.1.term ∧ an.commit ≤ r.2.1.commit) ∧
    (an.term ≤ an.DropOffers.1.term ∧ an.commit ≤ an.DropOffers.1.commit) ∧
    (∀ rbFragments r, an.PrepareRollback rbFragments = some r →
      an.term ≤ r.1.term ∧ an.commit ≤ r.1.commit) := by
  refine ⟨?_, ?_, ?_, ?_, ?_, ?_, ?_, ?_⟩
  · intro oTerm oId committed prevLogTerm ent
    obtain ⟨h1, h2, _⟩ := OfferLocalEntries_keeps m an oTerm oId committed prevLogTerm ent
    exact ⟨le_of_eq h1.symm, le_of_eq h2.symm⟩
  · intro oTerm oId committed efc r h
    obtain ⟨h1, h2, _⟩ := OfferRemoteEntries_keeps m an oTerm oId committed efc r h
    exact ⟨le_of_eq h1.symm, le_of_eq h2.symm⟩
  · intro policy sorted r h
    obtain ⟨h1, h2, h3⟩ := analyzeSorted_keeps m r.1 an r.2 policy sorted h
    exact ⟨h1, h3, h2⟩
  · intro term
    unfold TrySetTerm
    split_ifs with hgt
    · exact ⟨le_refl _, le_refl _⟩
    · exact ⟨by simp only []; omega, le_refl _⟩
  · intro spare r h
    obtain ⟨h1, h2⟩ := CompactCap_keeps m an spare r h
    exact ⟨le_of_eq h1.symm, le_of_eq h2.symm⟩
  · intro index spare r h
    obtain ⟨h1, h2⟩ := CompactBeforeCap_keeps m an index spare r h
    exact ⟨le_of_eq h1.symm, le_of_eq h2.symm⟩
  · unfold DropOffers
    split_ifs
    · exact ⟨le_refl _, le_refl _⟩
    · exact ⟨le_refl _, le_refl _⟩
  · intro rbFragments r h
    unfold PrepareRollback at h
    split_ifs at h
    · simp only [Option.some.injEq] at h
      subst h
      exact ⟨le_refl _, le_refl _⟩
    · cases rbFragments with
      | some x => cases h
      | none =>
        simp only [Option.some.injEq] at h
        subst h
        exact ⟨le_refl _, le_refl _⟩

/-- Witness for C36.  A fresh analyzer holding the offers `[(term 1, index 1)]` of term 1
and `[(term 2, index 1)]` of term 2, with `beforeTerm = 2` and `beforeCommitted = 1`: the
analysis under `MatchFirstFragment` returns and raises the term from 0 to 2 and the commit
from 0 to 1.  An analyzer whose `compacted` holds the term 1 over 1..5 in a slice with one
spare element, and whose `beforeCompact` holds `(term 1, index 3)`, `(term 2, index 4)`
behind `(term 1, index 2)`: `Compact` re-slices into the spare element and returns, with
term and commit as before, where it panics without spare capacity. -/
theorem C36_term_and_commit_never_decrease_witness :
    (∃ r, AnalyzeAndRemoveOffersSorted
        ⟨[], [⟨0, 0, [⟨1, 1, 0⟩], 1⟩, ⟨0, 0, [⟨2, 1, 0⟩], 2⟩]⟩
        { NewMimicRaftKernelAnalyzer 8 with
          beforeAnalysis := [0, 1], beforeFingerprint := [(1, 3), (0, 2)], beforeTerm := 2,
          beforeCommitted := 1 }
        AnalysisPolicy.MatchFirstFragment [0, 1] = some r ∧
      (0 ≤ r.2.term ∧ 0 ≤ r.2.commit ∧ 2 ≤ r.2.term) ∧ r.2.term = 2 ∧ r.2.commit = 1) ∧
    (∃ r, CompactCap ⟨[⟨1, 0, 1, 5⟩], []⟩
        { NewMimicRaftKernelAnalyzer 8 with
          compacted := ⟨[0], some 0, 0, 0, true⟩, commit := 2, term := 2, analyzed := true,
          beforeCompact := ⟨1, 2, 5, false, [⟨1, 3, 0⟩, ⟨2, 4, 0⟩], [], true⟩ } [7] = some r ∧
      (2 ≤ r.2.term ∧ 2 ≤ r.2.commit) ∧ r.2.compacted.b = [0, 7]) ∧
    CompactCap ⟨[⟨1, 0, 1, 5⟩], []⟩
        { NewMimicRaftKernelAnalyzer 8 with
          compacted := ⟨[0], some 0, 0, 0, true⟩, commit := 2, term := 2, analyzed := true,
          beforeCompact := ⟨1, 2, 5, false, [⟨1, 3, 0⟩, ⟨2, 4, 0⟩], [], true⟩ } [] = none := by
  obtain ⟨r, hr⟩ := Option.isSome_iff_exists.mp
    (by decide : (AnalyzeAndRemoveOffersSorted
        ⟨[], [⟨0, 0, [⟨1, 1, 0⟩], 1⟩, ⟨0, 0, [⟨2, 1, 0⟩], 2⟩]⟩
        { NewMimicRaftKernelAnalyzer 8 with
          beforeAnalysis := [0, 1], beforeFingerprint := [(1, 3), (0, 2)], beforeTerm := 2,
          beforeCommitted := 1 }
        AnalysisPolicy.MatchFirstFragment [0, 1]).isSome = true)
  have hv : (AnalyzeAndRemoveOffersSorted
        ⟨[], [⟨0, 0, [⟨1, 1, 0⟩], 1⟩, ⟨0, 0, [⟨2, 1, 0⟩], 2⟩]⟩
        { NewMimicRaftKernelAnalyzer 8 with
          beforeAnalysis := [0, 1], beforeFingerprint := [(1, 3), (0, 2)], beforeTerm := 2,
          beforeCommitted := 1 }
        AnalysisPolicy.MatchFirstFragment [0, 1]).map (fun r => (r.2.term, r.2.commit))
      = some (2, 1) := by decide
  rw [hr] at hv
  simp only [Option.map_some', Option.some.injEq, Prod.mk.injEq] at hv
  obtain ⟨q, hq⟩ := Option.isSome_iff_exists.mp
    (by decide : (CompactCap ⟨[⟨1, 0, 1, 5⟩], []⟩
        { NewMimicRaftKernelAnalyzer 8 with
          compacted := ⟨[0], some 0, 0, 0, true⟩, commit := 2, term := 2, analyzed := true,
          beforeCompact := ⟨1, 2, 5, false, [⟨1, 3, 0⟩, ⟨2, 4, 0⟩], [], true⟩ } [7]).isSome
        = true)
  have hw : (CompactCap ⟨[⟨1, 0, 1, 5⟩], []⟩
        { NewMimicRaftKernelAnalyzer 8 with
          compacted := ⟨[0], some 0, 0, 0, true⟩, commit := 2, term := 2, analyzed := true,
          beforeCompact := ⟨1, 2, 5, false, [⟨1, 3, 0⟩, ⟨2, 4, 0⟩], [], true⟩ } [7]).map
        (fun r => r.2.compacted.b) = some [0, 7] := by decide
  rw [hq] at hw
  simp only [Option.map_some', Option.some.injEq] at hw
  exact ⟨⟨r, hr, (C36_term_and_commit_never_decrease _ _).2.2.1 _ _ r hr, hv.1, hv.2⟩,
    ⟨q, hq, (C36_term_and_commit_never_decrease _ _).2.2.2.2.1 _ q hq, hw⟩, by decide⟩

end MimicRaftKernelAnalyzer
end Etcd

namespace Etcd
namespace MimicRaftKernelBriefCollector

theorem contiguous_truncate (segs : List BriefSegment) (hc : ContiguousSegments segs)
    (k : Nat) (s : BriefSegment) (hk : segs[k]? = some s) (A : Nat) (h1 : s.FirstIndex ≤ A) :
    ContiguousSegments (segs.take k ++ [{ s with LastIndex := A }]) := by
  obtain ⟨hklen, hke⟩ := List.getElem?_eq_some.mp hk
  have hsplit : segs = segs.take k ++ s :: segs.drop (k + 1) := by
    rw [← hke, ← List.drop_eq_getElem_cons hklen, List.take_append_drop]
  obtain ⟨hch, hle⟩ := hc
  rw [hsplit, List.chain'_append] at hch
  obtain ⟨c1, _, c3⟩ := hch
  constructor
  · rw [List.chain'_append]
    refine ⟨c1, List.chain'_singleton _, ?_⟩
    intro x hx y hy
    simp only [List.head?_cons, Option.mem_def, Option.some.injEq] at hy
    subst hy
    exact c3 x hx s (by simp)
  · intro x hx
    rcases List.mem_append.mp hx with h | h
    · exact hle x (List.mem_of_mem_take h)
    · rw [List.mem_singleton] at h
      subst h
      exact h1

/-- What `LocateIndex` returns on a collector that holds the contiguous segments `segs`
with first segment `sf` and last segment `sl`. -/
theorem LocateIndex_eval (h : SegmentHeap) (c : MimicRaftKernelBriefCollector)
    (segs : List BriefSegment) (hH : Holds h c segs) (hc : ContiguousSegments segs)
    (sf sl : BriefSegment) (hf : segs.head? = some sf) (hl : segs.getLast? = some sl)
    (hf1 : 1 ≤ sf.FirstIndex) (hf2 : sf.FirstIndex < 18446744073709551616) (index : Nat) :
    (index + 1 < sf.FirstIndex → c.LocateIndex h index = some (Location.UNDERFLOW, 0)) ∧
    (index + 1 = sf.FirstIndex →
      c.LocateIndex h index = some (Location.PREV, sf.PrevLogTerm)) ∧
    (sl.LastIndex < index → c.LocateIndex h index = some (Location.OVERFLOW, 0)) ∧
    (∀ (k : Nat) (s : BriefSegment), segs[k]? = some s → s.FirstIndex ≤ index →
      index ≤ s.LastIndex → c.LocateIndex h index = some (Location.WITHIN, s.Term)) := by
  have hview := hH.2.1
  have hne : segs ≠ [] := by
    intro he
    rw [he] at hf
    simp at hf
  obtain ⟨hr, hemp⟩ := not_empty_of_Holds h c segs hH hne
  have hsub := subU64_one sf.FirstIndex hf1 hf2
  have hfl : sf.FirstIndex ≤ sl.LastIndex :=
    (within_bounds segs hc sf sl hf hl sf.FirstIndex 0 sf
      (by rw [← List.head?_eq_getElem?]; exact hf) (le_refl _)
      (hc.2 sf (List.mem_of_mem_head? hf))).2
  have hunf : c.LocateIndex h index =
      if index < sf.FirstIndex - 1 then some (Location.UNDERFLOW, 0)
      else if index = sf.FirstIndex - 1 then some (Location.PREV, sf.PrevLogTerm)
      else if index > sl.LastIndex then some (Location.OVERFLOW, 0)
      else
        match c.locateIndex h index 0 c.b.length with
        | none => none
        | some idx => (c.seg h idx).map (fun s => (Location.WITHIN, s.Term)) := by
    unfold LocateIndex
    rw [hr, hemp, seg_first h c segs hview sf hf, seg_last h c segs hview sl hl]
    simp only [Bool.false_eq_true, if_false, hsub]
    try rfl
  refine ⟨?_, ?_, ?_, ?_⟩
  · intro hi
    rw [hunf, if_pos (by omega)]
  · intro hi
    rw [hunf, if_neg (by omega), if_pos (by omega)]
  · intro hi
    rw [hunf, if_neg (by omega), if_neg (by omega), if_pos (by omega)]
  · intro k s hk h1 h2
    obtain ⟨hb1, hb2⟩ := within_bounds segs hc sf sl hf hl index k s hk h1 h2
    rw [hunf, if_neg (by omega), if_neg (by omega), if_neg (by omega),
      locateIndex_finds h c segs hview hc index k s hk h1 h2]
    simp only []
    rw [seg_of_Briefing h c segs hview k, hk]
    rfl

/-- The indices that a collector holding contiguous segments locates as `PREV` or
`WITHIN`. -/
theorem LocateIndex_cases (h : SegmentHeap) (c : MimicRaftKernelBriefCollector)
    (segs : List BriefSegment) (hH : Holds h c segs) (hc : ContiguousSegments segs)
    (sf sl : BriefSegment) (hf : segs.head? = some sf) (hl : segs.getLast? = some sl)
    (hf1 : 1 ≤ sf.FirstIndex) (hf2 : sf.FirstIndex < 18446744073709551616)
    (index t : Nat) (kind : Location)
    (hloc : c.LocateIndex h index = some (kind, t))
    (hk : kind = Location.PREV ∨ kind = Location.WITHIN) :
    (kind = Location.PREV ∧ index + 1 = sf.FirstIndex ∧ t = sf.PrevLogTerm) ∨
    (kind = Location.WITHIN ∧ ∃ (k : Nat) (s : BriefSegment), segs[k]? = some s ∧
      s.Term = t ∧ s.FirstIndex ≤ index ∧ index ≤ s.LastIndex) := by
  obtain ⟨e1, e2, e3, e4⟩ := LocateIndex_eval h c segs hH hc sf sl hf hl hf1 hf2 index
  by_cases hA : index + 1 < sf.FirstIndex
  · rw [e1 hA] at hloc
    simp only [Option.some.injEq, Prod.mk.injEq] at hloc
    rcases hk with hk | hk <;> rw [hk] at hloc <;> cases hloc.1
  · by_cases hB : index + 1 = sf.FirstIndex
    · rw [e2 hB] at hloc
      simp only [Option.some.injEq, Prod.mk.injEq] at hloc
      exact Or.inl ⟨hloc.1.symm, hB, hloc.2.symm⟩
    · by_cases hC : sl.LastIndex < index
      · rw [e3 hC] at hloc
        simp only [Option.some.injEq, Prod.mk.injEq] at hloc
        rcases hk with hk | hk <;> rw [hk] at hloc <;> cases hloc.1
      · obtain ⟨k, s, hks, h1, h2⟩ := contiguous_covers segs hc sf sl hf hl index
          (by omega) (by omega)
        rw [e4 k s hks h1 h2] at hloc
        simp only [Option.some.injEq, Prod.mk.injEq] at hloc
        exact Or.inr ⟨hloc.1.symm, k, s, hks, hloc.2, h1, h2⟩

end MimicRaftKernelBriefCollector
end Etcd

namespace Etcd
namespace MimicRaftKernelBriefCollector

/-- Resizing to an index that the collector matches as `PREV` or `WITHIN` keeps the
location and the term of every index up to it. -/
theorem LocateIndex_after_resize (h : SegmentHeap) (c : MimicRaftKernelBriefCollector)
    (segs : List BriefSegment) (hH : Holds h c segs) (hc : ContiguousSegments segs)
    (hhead : ∀ sf, segs.head? = some sf →
      1 ≤ sf.FirstIndex ∧ sf.FirstIndex < 18446744073709551616 ∧
      c.logIndex + 1 = sf.FirstIndex ∧ c.logTerm = sf.PrevLogTerm)
    (A lt : Nat) (loc : Location) (hloc : loc = Location.PREV ∨ loc = Location.WITHIN)
    (hm : c.MatchIndex h A lt = some loc)
    (h1 : SegmentHeap) (c1 : MimicRaftKernelBriefCollector) (b : Bool) (l2 : Location)
    (hres : c.ResizeBriefToIndex h A = some (h1, c1, b, l2))
    (j t : Nat) (kind : Location) (hj : j ≤ A)
    (hk : kind = Location.PREV ∨ kind = Location.WITHIN)
    (hl : c.LocateIndex h j = some (kind, t)) :
    c1.LocateIndex h1 j = some (kind, t) := by
  have hview := hH.2.1
  have hr : c.IsRefreshed = false := by simp [IsRefreshed, hH.1]
  by_cases hne : segs = []
  · have hemp : c.IsEmpty = true := by
      have hb : c.b = [] := by
        have := Holds_length h c segs hview
        rw [hne] at this
        exact List.length_eq_zero.mp this
      simp [IsEmpty, hb]
    have hsame : h1 = h ∧ c1 = c := by
      unfold ResizeBriefToIndex at hres
      rw [hr, hemp] at hres
      simp only [Bool.false_eq_true, if_false, if_true] at hres
      split_ifs at hres <;>
        (simp only [Option.some.injEq, Prod.mk.injEq] at hres; exact ⟨hres.1.symm, hres.2.1.symm⟩)
    rw [hsame.1, hsame.2]
    exact hl
  · obtain ⟨sf, hf⟩ : ∃ sf, segs.head? = some sf := by
      cases segs with
      | nil => exact absurd rfl hne
      | cons a r => exact ⟨a, rfl⟩
    obtain ⟨sl, hlast⟩ : ∃ sl, segs.getLast? = some sl := by
      cases hx : segs.getLast? with
      | none => exact absurd (List.getLast?_eq_none_iff.mp hx) hne
      | some x => exact ⟨x, rfl⟩
    obtain ⟨hf1, hf2, hli, hlt⟩ := hhead sf hf
    rcases MatchIndex_cases h c segs hH sf sl hf hlast hf1 hf2 A lt loc hm hloc with
      ⟨_, hi⟩ | ⟨_, k, s, hks, _, hs1, hs2⟩
    · -- the collector is emptied
      rw [Resize_prev h c segs hH sf sl hf hlast hf1 hf2 A hi] at hres
      simp only [Option.some.injEq, Prod.mk.injEq] at hres
      obtain ⟨e1, e2, _, _⟩ := hres
      subst e1 e2
      rcases LocateIndex_cases h c segs hH hc sf sl hf hlast hf1 hf2 j t kind hl hk with
        ⟨k1, k2, k3⟩ | ⟨_, k', s', hk', _, k3, _⟩
      · subst k1
        unfold LocateIndex
        have hjl : j = c.logIndex := by omega
        simp only [IsRefreshed, hH.1, IsEmpty, Bool.not_true, Bool.false_eq_true, if_false,
          Option.isNone_none, List.length_nil, decide_True, Bool.or_self, if_true]
        rw [if_neg (by omega), if_pos hjl, k3, hlt]
      · exfalso
        have := (within_bounds segs hc sf sl hf hlast j k' s' hk' k3 (by assumption)).1
        omega
    · obtain ⟨p, hp, hhp, hrw⟩ :=
        Resize_within h c segs hH hc sf sl hf hlast hf1 hf2 A k s hks hs1 hs2
      rw [hrw] at hres
      simp only [Option.some.injEq, Prod.mk.injEq] at hres
      obtain ⟨e1, e2, _, _⟩ := hres
      subst e1 e2
      have hH2 := Holds_after_truncate h c segs hH k p s { s with LastIndex := A } hks hp
      have hc2 := contiguous_truncate segs hc k s hks A hs1
      have hklen : k < segs.length := (List.getElem?_eq_some.mp hks).1
      have htk : (segs.take k).length = k := by rw [List.length_take]; omega
      have hlast2 : (segs.take k ++ [{ s with LastIndex := A }]).getLast?
          = some { s with LastIndex := A } := by simp
      have hk2 : (segs.take k ++ [{ s with LastIndex := A }])[k]? =
          some { s with LastIndex := A } := by
        rw [List.getElem?_append_right (by omega)]
        simp [htk]
      obtain ⟨sf1, hsf1, hsf1a, hsf1b⟩ : ∃ sf1,
          (segs.take k ++ [{ s with LastIndex := A }]).head? = some sf1 ∧
          sf1.FirstIndex = sf.FirstIndex ∧ sf1.PrevLogTerm = sf.PrevLogTerm := by
        cases segs with
        | nil => exact absurd rfl hne
        | cons a r =>
          simp only [List.head?_cons, Option.some.injEq] at hf
          cases k with
          | zero =>
            simp only [List.getElem?_cons_zero, Option.some.injEq] at hks
            refine ⟨{ s with LastIndex := A }, by simp, ?_, ?_⟩
            · show s.FirstIndex = sf.FirstIndex
              rw [← hks, hf]
            · show s.PrevLogTerm = sf.PrevLogTerm
              rw [← hks, hf]
          | succ n => exact ⟨a, by simp, by rw [hf], by rw [hf]⟩
      obtain ⟨e1, e2, e3, e4⟩ := LocateIndex_eval _ _ _ hH2 hc2 sf1 { s with LastIndex := A }
        hsf1 hlast2 (by omega) (by omega) j
      rcases LocateIndex_cases h c segs hH hc sf sl hf hlast hf1 hf2 j t kind hl hk with
        ⟨k1, k2, k3⟩ | ⟨k1, k', s', hk', kt, k3, k4⟩
      · subst k1
        rw [e2 (by omega), hsf1b, k3]
      · subst k1
        rcases Nat.lt_trichotomy k' k with hlt2 | heq | hgt
        · have hk3 : (segs.take k ++ [{ s with LastIndex := A }])[k']? = some s' := by
            rw [List.getElem?_append_left (by omega), List.getElem?_take_of_lt hlt2]
            exact hk'
          rw [e4 k' s' hk3 k3 k4, kt]
        · subst heq
          rw [hks] at hk'
          simp only [Option.some.injEq] at hk'
          subst hk'
          rw [e4 k' { s with LastIndex := A } hk2 k3 hj, ← kt]
        · exfalso
          have := contiguous_order segs hc k k' s s' hgt hks hk'
          omega

end MimicRaftKernelBriefCollector
end Etcd

namespace Etcd
namespace MimicRaftKernelAnalyzer

theorem offer_fresh (m m1 : Memory) (an an1 : MimicRaftKernelAnalyzer) (o : Offer)
    (hw : o.WellFormed) (hcommit : an.commit + 1 < 18446744073709551616)
    (hfresh : FreshOffers m an) (h : offer m an o = some (m1, an1)) :
    FreshOffers m1 an1 ∧ an1.commit = an.commit ∧ an1.compacted = an.compacted ∧
    an1.beforeCompact = an.beforeCompact ∧ m1.segs = m.segs := by
  cases o with
  | localEntries oTerm oId committed prevLogTerm ent =>
    simp only [offer, Option.some.injEq] at h
    obtain ⟨_, k2, k3, k4, k5⟩ := OfferLocalEntries_keeps m an oTerm oId committed prevLogTerm ent
    rw [h] at k2 k3 k4 k5
    refine ⟨?_, k2, k3, k4, k5⟩
    unfold OfferLocalEntries at h
    by_cases h0 : oTerm < an.term
    · rw [if_pos h0] at h
      simp only [Prod.mk.injEq] at h
      rw [← h.1, ← h.2]
      exact hfresh
    · rw [if_neg h0] at h
      cases ent with
      | nil =>
        simp only [Prod.mk.injEq] at h
        rw [← h.1, ← h.2]
        exact hfresh
      | cons e0 rest =>
        simp only [] at h
        by_cases h1 : e0.index ≤ an.commit
        · rw [if_pos h1] at h
          simp only [Prod.mk.injEq] at h
          rw [← h.1, ← h.2]
          exact hfresh
        · rw [if_neg h1] at h
          simp only [Prod.mk.injEq] at h
          rw [← h.1, ← h.2]
          have he0 : e0.index < 18446744073709551616 := hw e0 rfl
          have hsub : subU64 e0.index 1 = e0.index - 1 := by unfold subU64; omega
          intro p hp f hf
          simp only [] at hp hf ⊢
          by_cases hlt : p < m.frags.length
          · rw [List.getElem?_append_left hlt] at hf
            rcases List.mem_append.mp hp with hp1 | hp1
            · exact hfresh p hp1 f hf
            · rw [List.mem_singleton] at hp1
              omega
          · rw [List.getElem?_append_right (by omega)] at hf
            have hz : p - m.frags.length = 0 := by
              by_contra hn
              rw [List.getElem?_eq_none (by simp; omega)] at hf
              cases hf
            rw [hz] at hf
            simp only [List.getElem?_cons_zero, Option.some.injEq] at hf
            rw [← hf]
            simp only [hsub]
            constructor <;> omega
  | remoteEntries oTerm oId committed efc =>
    simp only [offer] at h
    obtain ⟨_, k2, k3, k4, k5⟩ := OfferRemoteEntries_keeps m an oTerm oId committed efc _ h
    refine ⟨?_, k2, k3, k4, k5⟩
    unfold OfferRemoteEntries at h
    by_cases h0 : oTerm < an.term
    · rw [if_pos h0] at h
      simp only [Option.some.injEq, Prod.mk.injEq] at h
      rw [← h.1, ← h.2]
      exact hfresh
    · rw [if_neg h0] at h
      simp only [] at h
      cases hf : efc.FetchFragmentsWithStartIndex (addU64 an.commit 1) with
      | none => rw [hf] at h; cases h
      | some x =>
        obtain ⟨ok, fs⟩ := x
        rw [hf] at h
        simp only [] at h
        have hfs := hw _ ok fs hf
        have hadd : addU64 an.commit 1 = an.commit + 1 := by unfold addU64; omega
        by_cases h1 : (!efc.IsRefreshed) = true ∧ ok = true
        · rw [if_pos h1] at h
          simp only [Option.some.injEq, Prod.mk.injEq] at h
          rw [← h.1, ← h.2]
          intro p hp f hpf
          simp only [] at hp hpf ⊢
          by_cases hlt : p < m.frags.length
          · rw [List.getElem?_append_left hlt] at hpf
            rcases List.mem_append.mp hp with hp1 | hp1
            · exact hfresh p hp1 f hpf
            · rw [List.mem_range'_1] at hp1
              omega
          · rw [List.getElem?_append_right (by omega)] at hpf
            have hmem : f ∈ fs := List.getElem?_mem hpf
            obtain ⟨g1, g2⟩ := hfs f hmem
            rw [hadd] at g1
            constructor <;> omega
        · rw [if_neg h1] at h
          simp only [Option.some.injEq, Prod.mk.injEq] at h
          rw [← h.1, ← h.2]
          exact hfresh

theorem offers_fresh (os : List Offer) :
    ∀ (m m1 : Memory) (an an1 : MimicRaftKernelAnalyzer),
      (∀ o ∈ os, o.WellFormed) → an.commit + 1 < 18446744073709551616 →
      FreshOffers m an → offers m an os = some (m1, an1) →
      FreshOffers m1 an1 ∧ an1.commit = an.commit ∧ an1.compacted = an.compacted ∧
      an1.beforeCompact = an.beforeCompact ∧ m1.segs = m.segs := by
  induction os with
  | nil =>
    intro m m1 an an1 _ _ hfresh h
    simp only [offers, Option.some.injEq, Prod.mk.injEq] at h
    rw [← h.1, ← h.2]
    exact ⟨hfresh, rfl, rfl, rfl, rfl⟩
  | cons o rest ih =>
    intro m m1 an an1 hw hcommit hfresh h
    unfold offers at h
    cases ho : offer m an o with
    | none => rw [ho] at h; cases h
    | some x =>
      obtain ⟨m2, an2⟩ := x
      rw [ho] at h
      simp only [] at h
      obtain ⟨k1, k2, k3, k4, k5⟩ := offer_fresh m m2 an an2 o (hw o (List.mem_cons_self _ _))
        hcommit hfresh ho
      obtain ⟨j1, j2, j3, j4, j5⟩ := ih m2 m1 an2 an1
        (fun o' ho' => hw o' (List.mem_cons_of_mem _ ho')) (by rw [k2]; exact hcommit) k1 h
      exact ⟨j1, j2.trans k2, j3.trans k3, j4.trans k4, j5.trans k5⟩

end MimicRaftKernelAnalyzer
end Etcd

namespace Etcd
namespace MimicRaftKernelAnalyzer

/-- The three fragment-matching policies, whatever order the offers are sorted in: what
the analysis does to `compacted`. -/
theorem analyzeSorted_cases (m m1 : Memory) (P : Nat → Prop)
    (an an1 : MimicRaftKernelAnalyzer) (policy : AnalysisPolicy) (sorted : List Nat)
    (hpol : policy = AnalysisPolicy.MatchFirstFragment ∨
      policy = AnalysisPolicy.MatchLastFragment ∨ policy = AnalysisPolicy.StrictlyMatchFirst)
    (hP : ∀ p ∈ sorted, ∀ f, m.frags[p]? = some f → P f.LogIndex)
    (ha : Anchored P an.beforeCompact)
    (h : AnalyzeAndRemoveOffersSorted m an policy sorted = some (m1, an1)) :
    (m1 = m ∧ an1.compacted = an.compacted) ∨
      ∃ an0 an2, an0.compacted = an.compacted ∧ an0.commit = an.commit ∧
        Anchored P an0.beforeCompact ∧
        truncateCompacted m an0 = some (m1, an2) ∧ an1.compacted = an2.compacted := by
  unfold AnalyzeAndRemoveOffersSorted at h
  simp only [] at h
  generalize han0 : (if an.beforeTerm > an.term then { an with term := an.beforeTerm } else an)
    = an0 at h
  have hf0 : an0.compacted = an.compacted ∧ an0.commit = an.commit ∧
      an0.beforeCompact = an.beforeCompact := by
    rw [← han0]
    split_ifs <;> exact ⟨rfl, rfl, rfl⟩
  by_cases hz : an0.analyzed = true
  · rw [if_pos hz] at h
    simp only [Option.some.injEq, Prod.mk.injEq] at h
    obtain ⟨e1, e2⟩ := h
    subst e1 e2
    exact Or.inl ⟨rfl, hf0.1⟩
  · rw [if_neg hz] at h
    have hmain : ∀ (r : Option (Memory × MimicRaftKernelAnalyzer)),
        (∀ x, r = some x →
          ((x.1 = m ∧ x.2.compacted = an0.compacted) ∨
            ∃ b an2, Frame { an0 with beforeAnalysis := sorted } b ∧
              Anchored P b.beforeCompact ∧
              truncateCompacted m b = some (x.1, an2) ∧ x.2.compacted = an2.compacted)) →
        r.map (fun x => (x.1, { x.2 with analyzed := true }.removeOffers)) = some (m1, an1) →
        ((m1 = m ∧ an1.compacted = an.compacted) ∨
          ∃ b an2, b.compacted = an.compacted ∧ b.commit = an.commit ∧
            Anchored P b.beforeCompact ∧
            truncateCompacted m b = some (m1, an2) ∧ an1.compacted = an2.compacted) := by
      intro r hr h2
      cases hra : r with
      | none => rw [hra] at h2; cases h2
      | some x =>
        rw [hra] at h2
        simp only [Option.map_some', Option.some.injEq, Prod.mk.injEq] at h2
        obtain ⟨e1, e2⟩ := h2
        subst e1 e2
        rcases hr x hra with ⟨j1, j2⟩ | ⟨b, an2, j1, j2, j3, j4⟩
        · left
          refine ⟨j1, ?_⟩
          show x.2.compacted = an.compacted
          rw [j2, hf0.1]
        · right
          refine ⟨b, an2, ?_, ?_, j2, j3, j4⟩
          · rw [j1.2.2.1]
            exact hf0.1
          · rw [j1.2.1]
            exact hf0.2.1
    have haa : Anchored P ({ an0 with beforeAnalysis := sorted }).beforeCompact := by
      show Anchored P an0.beforeCompact
      rw [hf0.2.2]
      exact ha
    rcases hpol with hp | hp | hp
    · subst hp
      simp only [] at h
      exact hmain _ (fun x hra =>
        (analyzePolicyFirstMatch_cases m x.1 P _ x.2 false hP haa hra).2) h
    · subst hp
      simp only [] at h
      exact hmain _ (fun x hra =>
        (analyzePolicyLastMatch_cases m x.1 P _ x.2 hP haa hra).2) h
    · subst hp
      simp only [] at h
      exact hmain _ (fun x hra =>
        (analyzePolicyFirstMatch_cases m x.1 P _ x.2 true hP haa hra).2) h

set_option maxRecDepth 100000 in
/-- C39 (counterexample): a run from `NewMimicRaftKernelAnalyzer` on an empty memory.  The
entries 1..7 of term 1 are offered with committed index 4, analysed under
`MatchFirstFragment` and compacted; the entries 6..8 are offered with committed index 7 and
analysed under `IgnoreCompacted`; the entry 9 is offered with committed index 7.  The commit
is then 7 and `compacted` locates the indices 6 and 7 `WITHIN` term 1, while `beforeCompact`
is anchored at index 5.  The analysis under `MatchFirstFragment` that follows cuts
`compacted` at index 5: the committed indices 6 and 7 are located `OVERFLOW`. -/
theorem C39_counterexample_committed_index_cut :
    ((((((some (OfferLocalEntries ⟨[], []⟩ (NewMimicRaftKernelAnalyzer 8) 1 1 4 0
        [⟨1, 1, 0⟩, ⟨1, 2, 0⟩, ⟨1, 3, 0⟩, ⟨1, 4, 0⟩, ⟨1, 5, 0⟩, ⟨1, 6, 0⟩, ⟨1, 7, 0⟩])).bind
      (fun x => AnalyzeAndRemoveOffers x.1 x.2 AnalysisPolicy.MatchFirstFragment)).bind
      (fun x => Compact x.1 x.2)).map
      (fun x => OfferLocalEntries x.1 x.2 1 1 7 1 [⟨1, 6, 0⟩, ⟨1, 7, 0⟩, ⟨1, 8, 0⟩])).bind
      (fun x => AnalyzeAndRemoveOffers x.1 x.2 AnalysisPolicy.IgnoreCompacted)).bind
      (fun x => offers x.1 x.2 [Offer.localEntries 1 1 7 1 [⟨1, 9, 0⟩]])).bind
      (fun x => (AnalyzeAndRemoveOffers x.1 x.2 AnalysisPolicy.MatchFirstFragment).map
        (fun y => (x.2.commit, x.2.beforeCompact.logIndex,
          x.2.compacted.LocateIndex x.1.segs 6, x.2.compacted.LocateIndex x.1.segs 7,
          y.2.compacted.LocateIndex y.1.segs 6, y.2.compacted.LocateIndex y.1.segs 7)))
      = some (7, 5, some (Location.WITHIN, 1), some (Location.WITHIN, 1),
          some (Location.OVERFLOW, 0), some (Location.OVERFLOW, 0)) := by
  rfl

end MimicRaftKernelAnalyzer
end Etcd

namespace Etcd
namespace MimicRaftKernelAnalyzer

/-- C39 (amended): committed history is not truncated by an analysis when no committed index
that `compacted` locates lies beyond the anchor of `beforeCompact`.  Let the analyzer hold
in `compacted` contiguous segments `segs` that start right after its anchor, let no
buffered fragment be anchored before the commit, and let no committed index that
`compacted` locates as `PREV` or `WITHIN` lie beyond the anchor of an initialised
`beforeCompact` (hypothesis `hbc`; an analysis under `IgnoreCompacted` does not keep it).
After any sequence of `OfferLocalEntries` and `OfferRemoteEntries` calls with `uint64`
indices, the remote collectors returning fragments anchored at the index before the
requested start or later, the commit is unchanged; and when `AnalyzeAndRemoveOffers` under
`MatchFirstFragment`, `MatchLastFragment` or `StrictlyMatchFirst` returns, in whatever order
`sorted` the sort leaves the buffered offers, every index `j` up to that commit that
`compacted` located as `PREV` or `WITHIN` with term `t` is located with the same kind and
the same term `t` afterwards. -/
theorem C39_committed_history_survives_analysis (m m1 m2 : Memory)
    (an an1 an2 : MimicRaftKernelAnalyzer) (os : List Offer) (policy : AnalysisPolicy)
    (sorted : List Nat)
    (segs : List BriefSegment) (j t : Nat) (kind : Location)
    (hpol : policy = AnalysisPolicy.MatchFirstFragment ∨
      policy = AnalysisPolicy.MatchLastFragment ∨ policy = AnalysisPolicy.StrictlyMatchFirst)
    (hH : MimicRaftKernelBriefCollector.Holds m.segs an.compacted segs)
    (hc : MimicRaftKernelBriefCollector.ContiguousSegments segs)
    (hhead : ∀ sf, segs.head? = some sf →
      1 ≤ sf.FirstIndex ∧ sf.FirstIndex < 18446744073709551616 ∧
      an.compacted.logIndex + 1 = sf.FirstIndex ∧ an.compacted.logTerm = sf.PrevLogTerm)
    (hcommit : an.commit + 1 < 18446744073709551616)
    (hfresh : FreshOffers m an)
    (hbc : an.beforeCompact.initialized = true →
      an.beforeCompact.logIndex < 18446744073709551616 ∧
      ∀ i, i ≤ an.commit →
        (∃ k u, (k = Location.PREV ∨ k = Location.WITHIN) ∧
          an.compacted.LocateIndex m.segs i = some (k, u)) →
        i ≤ an.beforeCompact.logIndex)
    (hos : ∀ o ∈ os, o.WellFormed)
    (hoff : offers m an os = some (m1, an1))
    (hsorted : sorted.Perm an1.beforeAnalysis)
    (hana : AnalyzeAndRemoveOffersSorted m1 an1 policy sorted = some (m2, an2))
    (hj : j ≤ an1.commit) (hk : kind = Location.PREV ∨ kind = Location.WITHIN)
    (hloc : an1.compacted.LocateIndex m1.segs j = some (kind, t)) :
    an1.commit = an.commit ∧ an2.compacted.LocateIndex m2.segs j = some (kind, t) := by
  obtain ⟨k1, k2, k3, k4, k5⟩ := offers_fresh os m m1 an an1 hos hcommit hfresh hoff
  refine ⟨k2, ?_⟩
  rw [k3, k5] at hloc
  rw [k2] at hj
  have hP : ∀ p ∈ sorted, ∀ f, m1.frags[p]? = some f →
      (fun A => A < 18446744073709551616 ∧
        ∀ i, i ≤ an.commit →
          (∃ k u, (k = Location.PREV ∨ k = Location.WITHIN) ∧
            an.compacted.LocateIndex m.segs i = some (k, u)) → i ≤ A) f.LogIndex := by
    intro p hp f hf
    obtain ⟨g1, g2⟩ := k1 p (hsorted.subset hp) f hf
    rw [k2] at g1
    exact ⟨g2, fun i hi _ => le_trans hi g1⟩
  have ha : Anchored (fun A => A < 18446744073709551616 ∧
        ∀ i, i ≤ an.commit →
          (∃ k u, (k = Location.PREV ∨ k = Location.WITHIN) ∧
            an.compacted.LocateIndex m.segs i = some (k, u)) → i ≤ A) an1.beforeCompact := by
    intro hi
    rw [k4] at hi ⊢
    exact hbc hi
  rcases analyzeSorted_cases m1 m2 _ an1 an2 policy sorted hpol hP ha hana with
    ⟨e1, e2⟩ | ⟨an0, an3, e1, _, e3, e4, e5⟩
  · rw [e1, e2, k3, k5]
    exact hloc
  · rcases (truncateCompacted_cases m1 m2 an0 an3 e4).2 with
      ⟨f1, f2⟩ | ⟨finit, loc, h1, c1, b, l2, floc, fm, fres, f4, f5⟩
    · rw [e5, f2, e1, f1, k3, k5]
      exact hloc
    · obtain ⟨p1, p2⟩ := e3 finit
      have hjA : j ≤ an0.beforeCompact.logIndex := p2 j hj ⟨kind, t, hk, hloc⟩
      rw [subU64_addU64_one _ p1, e1, k3, k5] at fm fres
      have := MimicRaftKernelBriefCollector.LocateIndex_after_resize m.segs an.compacted segs
        hH hc hhead an0.beforeCompact.logIndex an0.beforeCompact.logTerm loc floc fm h1 c1 b l2
        fres j t kind hjA hk hloc
      rw [e5, f5, f4]
      exact this

end MimicRaftKernelAnalyzer
end Etcd

namespace Etcd
namespace MimicRaftKernelAnalyzer

/-- Witness for C39: `compacted` holds the terms 1 over 1..3 and 2 over 4..7, the commit is 4.
A local offer of term 3 brings the entries 6 and 7 after `(term 2, index 5)`; the analysis
under `MatchFirstFragment` cuts `compacted` at index 5, so index 6 is no longer located
in it, while the committed index 4 is still located `WITHIN` with term 2. -/
theorem C39_committed_history_survives_analysis_witness :
    (offers ⟨[⟨1, 0, 1, 3⟩, ⟨2, 1, 4, 7⟩], []⟩
        { NewMimicRaftKernelAnalyzer 8 with
          compacted := ⟨[0, 1], some 1, 0, 0, true⟩, commit := 4, term := 2 }
        [Offer.localEntries 3 2 6 2 [⟨3, 6, 0⟩, ⟨3, 7, 0⟩]]
      = some (⟨[⟨1, 0, 1, 3⟩, ⟨2, 1, 4, 7⟩], [⟨2, 5, [⟨3, 6, 0⟩, ⟨3, 7, 0⟩], 3⟩]⟩,
          { NewMimicRaftKernelAnalyzer 8 with
            compacted := ⟨[0, 1], some 1, 0, 0, true⟩, commit := 4, term := 2,
            beforeAnalysis := [0], beforeFingerprint := [(0, 2)], beforeCommitted := 6,
            beforeTerm := 3 })) ∧
    (AnalyzeAndRemoveOffersSorted
        ⟨[⟨1, 0, 1, 3⟩, ⟨2, 1, 4, 7⟩], [⟨2, 5, [⟨3, 6, 0⟩, ⟨3, 7, 0⟩], 3⟩]⟩
        { NewMimicRaftKernelAnalyzer 8 with
          compacted := ⟨[0, 1], some 1, 0, 0, true⟩, commit := 4, term := 2,
          beforeAnalysis := [0], beforeFingerprint := [(0, 2)], beforeCommitted := 6,
          beforeTerm := 3 }
        AnalysisPolicy.MatchFirstFragment [0]
      = some (⟨[⟨1, 0, 1, 3⟩, ⟨2, 1, 4, 5⟩], [⟨2, 5, [⟨3, 6, 0⟩, ⟨3, 7, 0⟩], 3⟩]⟩,
          { NewMimicRaftKernelAnalyzer 8 with
            compacted := ⟨[0, 1], some 1, 0, 0, true⟩, commit := 6, term := 3,
            beforeCompact := ⟨2, 5, 8, false, [⟨3, 6, 0⟩, ⟨3, 7, 0⟩], [], true⟩,
            bcCTerm := 3, bcCTHolder := 2, analyzed := true, beforeCommitted := 6,
            beforeTerm := 3 })) ∧
    MimicRaftKernelBriefCollector.LocateIndex [⟨1, 0, 1, 3⟩, ⟨2, 1, 4, 7⟩]
      ⟨[0, 1], some 1, 0, 0, true⟩ 6 = some (Location.WITHIN, 2) ∧
    MimicRaftKernelBriefCollector.LocateIndex [⟨1, 0, 1, 3⟩, ⟨2, 1, 4, 5⟩]
      ⟨[0, 1], some 1, 0, 0, true⟩ 6 = some (Location.OVERFLOW, 0) ∧
    ((4 : Nat) = 4 ∧
      MimicRaftKernelBriefCollector.LocateIndex [⟨1, 0, 1, 3⟩, ⟨2, 1, 4, 5⟩]
        ⟨[0, 1], some 1, 0, 0, true⟩ 4 = some (Location.WITHIN, 2)) :=
  ⟨by decide, by decide, by decide, by decide,
   C39_committed_history_survives_analysis
     ⟨[⟨1, 0, 1, 3⟩, ⟨2, 1, 4, 7⟩], []⟩
     ⟨[⟨1, 0, 1, 3⟩, ⟨2, 1, 4, 7⟩], [⟨2, 5, [⟨3, 6, 0⟩, ⟨3, 7, 0⟩], 3⟩]⟩
     ⟨[⟨1, 0, 1, 3⟩, ⟨2, 1, 4, 5⟩], [⟨2, 5, [⟨3, 6, 0⟩, ⟨3, 7, 0⟩], 3⟩]⟩
     { NewMimicRaftKernelAnalyzer 8 with
       compacted := ⟨[0, 1], some 1, 0, 0, true⟩, commit := 4, term := 2 }
     { NewMimicRaftKernelAnalyzer 8 with
       compacted := ⟨[0, 1], some 1, 0, 0, true⟩, commit := 4, term := 2,
       beforeAnalysis := [0], beforeFingerprint := [(0, 2)], beforeCommitted := 6,
       beforeTerm := 3 }
     { NewMimicRaftKernelAnalyzer 8 with
       compacted := ⟨[0, 1], some 1, 0, 0, true⟩, commit := 6, term := 3,
       beforeCompact := ⟨2, 5, 8, false, [⟨3, 6, 0⟩, ⟨3, 7, 0⟩], [], true⟩,
       bcCTerm := 3, bcCTHolder := 2, analyzed := true, beforeCommitted := 6,
       beforeTerm := 3 }
     [Offer.localEntries 3 2 6 2 [⟨3, 6, 0⟩, ⟨3, 7, 0⟩]]
     AnalysisPolicy.MatchFirstFragment [0] [⟨1, 0, 1, 3⟩, ⟨2, 1, 4, 7⟩] 4 2 Location.WITHIN
     (Or.inl rfl)
     (by unfold MimicRaftKernelBriefCollector.Holds; decide)
     (by simp [MimicRaftKernelBriefCollector.ContiguousSegments])
     (by simp [NewMimicRaftKernelAnalyzer])
     (by decide)
     (by intro p hp; cases hp)
     (fun h => absurd h (by decide))
     (by
       intro o ho
       rw [List.mem_singleton] at ho
       subst ho
       intro e he
       simp only [List.head?_cons, Option.some.injEq] at he
       subst he
       decide)
     (by decide) (List.Perm.refl _) (by decide) (by decide) (Or.inr rfl) (by decide)⟩

end MimicRaftKernelAnalyzer
end Etcd

namespace Etcd

/-- How `ExtractBriefFromEntries` treats the first entry: it opens a segment of its own or
extends the first segment of the rest to the left. -/
theorem ExtractBrief_cons (p : Nat) (e : Entry) (es : List Entry) :
    ExtractBriefFromEntries p (e :: es) =
      match ExtractBriefFromEntries e.term es with
      | [] => [⟨e.term, p, e.index, e.index⟩]
      | s :: rest =>
        if s.Term = e.term then { s with PrevLogTerm := p, FirstIndex := e.index } :: rest
        else ⟨e.term, p, e.index, e.index⟩ :: s :: rest := by
  rw [ExtractBrief_eq_segmentsOfRuns, ExtractBrief_eq_segmentsOfRuns]
  obtain ⟨hfl, hne, _⟩ := sameTermRuns_spec es
  rw [sameTermRuns]
  cases hruns : sameTermRuns es with
  | nil => simp [segmentsOfRuns]
  | cons r rs =>
    rw [hruns] at hne
    cases r with
    | nil => exact absurd rfl (hne [] (List.mem_cons_self _ _)).1
    | cons f r1 =>
      simp only [List.head?_cons, Option.map_some', Option.some.injEq]
      rw [segmentsOfRuns_cons e.term f r1 rs]
      simp only []
      by_cases hc : f.term = e.term
      · rw [if_pos hc, if_pos hc, segmentsOfRuns_cons]
        simp only [List.getLast?_cons, Option.getD_some, hc]
      · rw [if_neg hc, if_neg hc, segmentsOfRuns_cons, segmentsOfRuns_cons]
        simp

namespace MimicRaftKernelBriefCollector

/-- The brief of a well-formed entry sequence: contiguous segments of increasing terms that
start right after the predecessor and cover every entry with its term. -/
theorem Extract_wellformed :
    ∀ (E : List Entry) (li p : Nat),
      MimicRaftKernelCollector.Consecutive li E →
      MimicRaftKernelCollector.NonDecreasingTerms E →
      ContiguousSegments (ExtractBriefFromEntries p E) ∧
      IncreasingTerms (ExtractBriefFromEntries p E) ∧
      (∀ sf, (ExtractBriefFromEntries p E).head? = some sf →
        sf.FirstIndex = li + 1 ∧ sf.PrevLogTerm = p ∧
        ∀ e, E.head? = some e → sf.Term = e.term) ∧
      (∀ sl, (ExtractBriefFromEntries p E).getLast? = some sl →
        sl.LastIndex = li + E.length) ∧
      (∀ k (hk : k < E.length), ∃ (i : Nat) (s : BriefSegment),
        (ExtractBriefFromEntries p E)[i]? = some s ∧ s.Term = (E[k]).term ∧
        s.FirstIndex ≤ li + 1 + k ∧ li + 1 + k ≤ s.LastIndex) ∧
      (ExtractBriefFromEntries p E = [] → E = []) := by
  intro E
  induction E with
  | nil =>
    intro li p _ _
    have hnil : ExtractBriefFromEntries p [] = [] := rfl
    rw [hnil]
    refine ⟨⟨List.chain'_nil, fun s hs => by cases hs⟩, List.Pairwise.nil,
      fun sf h => by simp at h, fun sl h => by simp at h,
      fun k hk => by simp at hk, fun _ => rfl⟩
  | cons e es ih =>
    intro li p hcons hnd
    have he : e.index = li + 1 := by
      have := hcons 0 (by simp)
      simpa using this
    have hcons2 : MimicRaftKernelCollector.Consecutive (li + 1) es := by
      intro j hj
      have := hcons (j + 1) (by simp only [List.length_cons]; omega)
      simp only [List.getElem_cons_succ] at this
      omega
    have hnd1 : ∀ x ∈ es, e.term ≤ x.term := by
      unfold MimicRaftKernelCollector.NonDecreasingTerms at hnd
      exact (List.pairwise_cons.mp hnd).1
    have hnd2 : MimicRaftKernelCollector.NonDecreasingTerms es := by
      unfold MimicRaftKernelCollector.NonDecreasingTerms at hnd ⊢
      exact (List.pairwise_cons.mp hnd).2
    obtain ⟨ic, it, ihd, ilast, icov, inil⟩ := ih (li + 1) e.term hcons2 hnd2
    rw [ExtractBrief_cons]
    cases hsegs : ExtractBriefFromEntries e.term es with
    | nil =>
      have hes : es = [] := inil hsegs
      subst hes
      simp only []
      refine ⟨⟨List.chain'_singleton _, ?_⟩, List.pairwise_singleton _ _, ?_, ?_, ?_, ?_⟩
      · intro s hs
        rw [List.mem_singleton] at hs
        subst hs
        exact le_refl _
      · intro sf hsf
        simp only [List.head?_cons, Option.some.injEq] at hsf
        subst hsf
        refine ⟨he, rfl, ?_⟩
        intro e' he'
        simp only [List.head?_cons, Option.some.injEq] at he'
        subst he'
        rfl
      · intro sl hsl
        simp only [List.getLast?_singleton, Option.some.injEq] at hsl
        subst hsl
        simp [he]
      · intro k hk
        simp only [List.length_singleton] at hk
        have hk0 : k = 0 := by omega
        subst hk0
        exact ⟨0, _, List.getElem?_cons_zero, rfl, by simp [he], by simp [he]⟩
      · intro h
        cases h
    | cons s rest =>
      rw [hsegs] at ic it ihd ilast icov
      obtain ⟨hs1, hs2, hs3⟩ := ihd s rfl
      have hesne : es ≠ [] := by
        intro h
        subst h
        simp [ExtractBriefFromEntries, extractLoop] at hsegs
      obtain ⟨e2, es2, hes2⟩ : ∃ e2 es2, es = e2 :: es2 := by
        cases es with
        | nil => exact absurd rfl hesne
        | cons a r => exact ⟨a, r, rfl⟩
      have hst : s.Term = e2.term := hs3 e2 (by rw [hes2]; rfl)
      have hge : e.term ≤ s.Term := by
        rw [hst]
        exact hnd1 e2 (by rw [hes2]; exact List.mem_cons_self _ _)
      have hsle : s.FirstIndex ≤ s.LastIndex := ic.2 s (List.mem_cons_self _ _)
      simp only []
      by_cases hc : s.Term = e.term
      · rw [if_pos hc]
        refine ⟨⟨?_, ?_⟩, ?_, ?_, ?_, ?_, ?_⟩
        · have := ic.1
          cases rest with
          | nil => exact List.chain'_singleton _
          | cons t r =>
            rw [List.chain'_cons] at this ⊢
            exact this
        · intro x hx
          rcases List.mem_cons.mp hx with h | h
          · subst h
            simp only []
            omega
          · exact ic.2 x (List.mem_cons_of_mem _ h)
        · unfold IncreasingTerms at it ⊢
          rw [List.pairwise_cons] at it ⊢
          exact it
        · intro sf hsf
          simp only [List.head?_cons, Option.some.injEq] at hsf
          subst hsf
          refine ⟨he, rfl, ?_⟩
          intro e' he'
          simp only [List.head?_cons, Option.some.injEq] at he'
          subst he'
          exact hc
        · intro sl hsl
          cases rest with
          | nil =>
            simp only [List.getLast?_singleton, Option.some.injEq] at hsl
            subst hsl
            have := ilast s (by simp)
            simp only [List.length_cons] at this ⊢
            omega
          | cons t r =>
            have := ilast sl (by
              rw [List.getLast?_cons_cons] at hsl ⊢
              exact hsl)
            simp only [List.length_cons] at this ⊢
            omega
        · intro k hk
          cases k with
          | zero =>
            refine ⟨0, _, List.getElem?_cons_zero, ?_, ?_, ?_⟩
            · simpa using hc
            · simp only []; omega
            · simp only []; omega
          | succ k' =>
            simp only [List.length_cons] at hk
            obtain ⟨i, s', hi, t1, t2, t3⟩ := icov k' (by omega)
            cases i with
            | zero =>
              simp only [List.getElem?_cons_zero, Option.some.injEq] at hi
              subst hi
              refine ⟨0, _, List.getElem?_cons_zero, ?_, ?_, ?_⟩
              · simpa using t1
              · simp only []; omega
              · simp only []; omega
            | succ i' =>
              refine ⟨i' + 1, s', ?_, ?_, by omega, by omega⟩
              · simpa using hi
              · simpa using t1
        · intro h
          cases h
      · rw [if_neg hc]
        have hlt : e.term < s.Term := by omega
        refine ⟨⟨?_, ?_⟩, ?_, ?_, ?_, ?_, ?_⟩
        · rw [List.chain'_cons]
          exact ⟨by simp only []; omega, ic.1⟩
        · intro x hx
          rcases List.mem_cons.mp hx with h | h
          · subst h
            exact le_refl _
          · exact ic.2 x h
        · unfold IncreasingTerms at it ⊢
          rw [List.pairwise_cons]
          refine ⟨?_, it⟩
          intro x hx
          rcases List.mem_cons.mp hx with h | h
          · subst h
            exact hlt
          · have := (List.pairwise_cons.mp it).1 x h
            simp only []
            omega
        · intro sf hsf
          simp only [List.head?_cons, Option.some.injEq] at hsf
          subst hsf
          refine ⟨he, rfl, ?_⟩
          intro e' he'
          simp only [List.head?_cons, Option.some.injEq] at he'
          subst he'
          rfl
        · intro sl hsl
          have := ilast sl (by
            rw [List.getLast?_cons_cons] at hsl
            exact hsl)
          simp only [List.length_cons] at this ⊢
          omega
        · intro k hk
          cases k with
          | zero => exact ⟨0, _, List.getElem?_cons_zero, rfl, by simp [he], by simp [he]⟩
          | succ k' =>
            simp only [List.length_cons] at hk
            obtain ⟨i, s', hi, t1, t2, t3⟩ := icov k' (by omega)
            refine ⟨i + 1, s', ?_, ?_, by omega, by omega⟩
            · simpa using hi
            · simpa using t1
        · intro h
          cases h

end MimicRaftKernelBriefCollector
end Etcd

namespace Etcd
namespace MimicRaftKernelBriefCollector

theorem MatchIndex_region (h : SegmentHeap) (c : MimicRaftKernelBriefCollector)
    (segs : List BriefSegment) (hH : Holds h c segs)
    (sf sl : BriefSegment) (hf : segs.head? = some sf) (hl : segs.getLast? = some sl)
    (hf1 : 1 ≤ sf.FirstIndex) (hf2 : sf.FirstIndex < 18446744073709551616)
    (index term : Nat) :
    (index + 1 < sf.FirstIndex → c.MatchIndex h index term = some Location.UNDERFLOW) ∧
    (index + 1 = sf.FirstIndex → c.MatchIndex h index term
      = some (if term = sf.PrevLogTerm then Location.PREV else Location.CONFLICT)) ∧
    (sf.FirstIndex ≤ index → sl.LastIndex < index →
      c.MatchIndex h index term = some Location.OVERFLOW) ∧
    (sf.FirstIndex ≤ index → index ≤ sl.LastIndex →
      c.MatchIndex h index term = some Location.WITHIN ∨
      c.MatchIndex h index term = some Location.CONFLICT) := by
  have hview := hH.2.1
  have hne : segs ≠ [] := by
    intro he
    rw [he] at hf
    simp at hf
  obtain ⟨hr, hemp⟩ := not_empty_of_Holds h c segs hH hne
  obtain ⟨r, hloc⟩ := locateTerm_total h c segs hview term
  have hlen := Holds_length h c segs hview
  have hsub := subU64_one sf.FirstIndex hf1 hf2
  unfold MatchIndex matchIndex
  rw [hr, hemp, seg_first h c segs hview sf hf, seg_last h c segs hview sl hl]
  simp only [Bool.false_eq_true, if_false, hloc, hsub]
  refine ⟨?_, ?_, ?_, ?_⟩
  · intro hi
    rw [if_pos (by omega)]
    rfl
  · intro hi
    rw [if_neg (by omega), if_pos (by omega)]
    have hidx : sf.FirstIndex - 1 = index := by omega
    by_cases ht : term = sf.PrevLogTerm
    · simp [BriefSegment.HitPrev, ht, hsub, hidx]
    · simp [BriefSegment.HitPrev, ht]
  · intro h1 h2
    rw [if_neg (by omega), if_neg (by omega), if_pos (by omega)]
    rfl
  · intro h1 h2
    rw [if_neg (by omega), if_neg (by omega), if_neg (by omega)]
    by_cases hD : 0 ≤ r ∧ r < (c.b.length : Int)
    · rw [if_pos hD]
      have e : r = ((r.toNat : Nat) : Int) := by omega
      have hsk := seg_of_Briefing h c segs hview r.toNat
      rw [← e] at hsk
      have hlt : r.toNat < segs.length := by omega
      rw [hsk, List.getElem?_eq_getElem hlt]
      simp only []
      split_ifs
      · left; rfl
      · right; rfl
    · rw [if_neg hD]
      right
      rfl

/-- What `MatchIndex` returns on a collector that holds contiguous segments of increasing
terms. -/
theorem MatchIndex_eval (h : SegmentHeap) (c : MimicRaftKernelBriefCollector)
    (segs : List BriefSegment) (hH : Holds h c segs) (hc : ContiguousSegments segs)
    (ht : IncreasingTerms segs)
    (sf sl : BriefSegment) (hf : segs.head? = some sf) (hl : segs.getLast? = some sl)
    (hf1 : 1 ≤ sf.FirstIndex) (hf2 : sf.FirstIndex < 18446744073709551616)
    (index term k : Nat) (s : BriefSegment) (hk : segs[k]? = some s)
    (h1 : s.FirstIndex ≤ index) (h2 : index ≤ s.LastIndex) :
    c.MatchIndex h index term
      = some (if s.Term = term then Location.WITHIN else Location.CONFLICT) := by
  obtain ⟨hb1, hb2⟩ := within_bounds segs hc sf sl hf hl index k s hk h1 h2
  by_cases hst : s.Term = term
  · rw [if_pos hst, ← hst]
    exact MatchIndex_within h c segs hH ht sf sl hf hl hf1 hf2 index k s hk h1 h2 hb1 hb2
  · rw [if_neg hst]
    rcases (MatchIndex_region h c segs hH sf sl hf hl hf1 hf2 index term).2.2.2 hb1 hb2 with
      hw | hw
    · exfalso
      rcases MatchIndex_cases h c segs hH sf sl hf hl hf1 hf2 index term Location.WITHIN hw
        (Or.inr rfl) with ⟨hp, _⟩ | ⟨_, k', s', hk', hst', g1, g2⟩
      · cases hp
      · rcases Nat.lt_trichotomy k k' with hlt | heq | hgt
        · have := contiguous_order segs hc k k' s s' hlt hk hk'
          omega
        · subst heq
          rw [hk] at hk'
          simp only [Option.some.injEq] at hk'
          subst hk'
          exact hst hst'
        · have := contiguous_order segs hc k' k s' s hgt hk' hk
          omega
    · exact hw

end MimicRaftKernelBriefCollector
end Etcd

namespace Etcd
namespace MimicRaftKernelBriefCollector

theorem Holds_init (h : SegmentHeap) (c : MimicRaftKernelBriefCollector) (E : List Entry)
    (lt li : Nat) :
    Holds (c.init h E lt li).1 (c.init h E lt li).2 (ExtractBriefFromEntries lt E) ∧
    (c.init h E lt li).2.logIndex = li ∧ (c.init h E lt li).2.logTerm = lt := by
  refine ⟨⟨rfl, ?_, ?_, rfl⟩, rfl, rfl⟩
  · simp only [init, allocSegments, Briefing]
    apply List.ext_getElem?
    intro j
    simp only [List.getElem?_map]
    by_cases hj : j < (ExtractBriefFromEntries lt E).length
    · rw [List.getElem?_range' _ _ hj, List.getElem?_eq_getElem hj]
      simp only [Option.map_some', Nat.one_mul]
      rw [List.getElem?_append_right (by omega)]
      simp [List.getElem?_eq_getElem hj]
    · rw [List.getElem?_eq_none (by simpa using hj), List.getElem?_eq_none (by simpa using hj)]
      rfl
  · simp only [init, allocSegments]
    exact List.nodup_range' _ _

end MimicRaftKernelBriefCollector

namespace MimicRaftKernelCollector

/-- What `MatchIndex` and `LocateIndex` return on an initialised collector whose array
has fewer than `2^63` entries. -/
theorem locate_eval (c : MimicRaftKernelCollector) (hinit : c.initialized = true)
    (hcl : c.logIndex < 18446744073709551616) (hlen : c.content.length < 9223372036854775808)
    (index term : Nat) (hi : index < 18446744073709551616) :
    (index < c.logIndex → c.MatchIndex index term = some Location.UNDERFLOW ∧
      c.LocateIndex index = some (Location.UNDERFLOW, 0)) ∧
    (index = c.logIndex →
      c.MatchIndex index term
        = some (if term = c.logTerm then Location.PREV else Location.CONFLICT) ∧
      c.LocateIndex index = some (Location.PREV, c.logTerm)) ∧
    (c.logIndex + c.content.length < index →
      c.MatchIndex index term = some Location.OVERFLOW ∧
      c.LocateIndex index = some (Location.OVERFLOW, 0)) ∧
    (∀ k (hk : k < c.content.length), index = c.logIndex + 1 + k →
      c.MatchIndex index term
        = some (if (c.content[k]).term = term then Location.WITHIN else Location.CONFLICT) ∧
      c.LocateIndex index = some (Location.WITHIN, (c.content[k]).term)) := by
  have hr : c.IsRefreshed = false := by simp [IsRefreshed, hinit]
  refine ⟨?_, ?_, ?_, ?_⟩
  · intro h1
    constructor
    · unfold MatchIndex
      rw [hr]
      simp only [Bool.false_eq_true, if_false]
      rw [if_pos (by omega)]
    · unfold LocateIndex
      rw [hr]
      simp only [Bool.false_eq_true, if_false]
      rw [if_pos (by omega)]
  · intro h1
    constructor
    · unfold MatchIndex
      rw [hr]
      simp only [Bool.false_eq_true, if_false]
      rw [if_neg (by omega), if_pos h1.symm]
      by_cases ht : term = c.logTerm
      · rw [if_pos ht, if_neg (by intro hn; exact hn ht.symm)]
      · rw [if_neg ht, if_pos (by intro hn; exact ht hn.symm)]
    · unfold LocateIndex
      rw [hr]
      simp only [Bool.false_eq_true, if_false]
      rw [if_neg (by omega), if_pos h1.symm]
  · intro h1
    have hfst : (c.locateEntryWithIndex index).1 = false := by
      cases hx : (c.locateEntryWithIndex index).1 with
      | false => rfl
      | true =>
        exfalso
        obtain ⟨g1, g2⟩ := (locate_fst c index).mp hx
        rw [subU64_sub_one index c.logIndex hcl hi (by omega)] at g1 g2
        by_cases hlt : index - c.logIndex - 1 < 9223372036854775808
        · rw [toInt_of_lt _ hlt] at g2
          omega
        · rw [toInt_of_ge _ hlt] at g1
          omega
    constructor
    · unfold MatchIndex
      rw [hr]
      simp only [Bool.false_eq_true, if_false]
      rw [if_neg (by omega), if_neg (by omega)]
      simp only [hfst, Bool.not_false, if_true]
    · unfold LocateIndex
      rw [hr]
      simp only [Bool.false_eq_true, if_false]
      rw [if_neg (by omega), if_neg (by omega)]
      simp only [hfst, Bool.not_false, if_true]
  · intro k hk h1
    have hloc := locate_eq c index k hcl hi (by omega) hk (by omega)
    have hget : getInt c.content (k : Int) = some (c.content[k]) := by
      rw [getInt_natCast, List.getElem?_eq_getElem hk]
    constructor
    · unfold MatchIndex
      rw [hr]
      simp only [Bool.false_eq_true, if_false]
      rw [if_neg (by omega), if_neg (by omega)]
      simp only [hloc, Bool.not_true, Bool.false_eq_true, if_false, hget]
      by_cases ht : (c.content[k]).term = term
      · rw [if_pos ht, if_neg (by intro hn; exact hn ht)]
      · rw [if_neg ht, if_pos ht]
    · unfold LocateIndex
      rw [hr]
      simp only [Bool.false_eq_true, if_false]
      rw [if_neg (by omega), if_neg (by omega)]
      simp only [hloc, Bool.not_true, Bool.false_eq_true, if_false, hget]

end MimicRaftKernelCollector
end Etcd

namespace Etcd
namespace MimicRaftKernelBriefCollector

/-- C34: let `E` be an entry sequence with the indices `logIndex + 1, logIndex + 2, ...`
(all of them `uint64` values, fewer than `2^63` entries) and terms that never decrease.
Loaded with `E` after `(logTerm, logIndex)`, a fresh brief collector (`AddEntriesToBrief`)
and a fresh entry collector (`AddEntries`) return the same result of `MatchIndex(index,
term)` and the same result of `LocateIndex(index)` for every `uint64` index and every
term: `UNDERFLOW` below `logIndex`; at `logIndex`, `PREV` (`CONFLICT` from `MatchIndex`
when the term is not `logTerm`) with term `logTerm`; `OVERFLOW` behind the last entry; and
at the index of an entry `WITHIN` with the entry's term (`CONFLICT` from `MatchIndex` when
the term asked for is not the entry's). -/
theorem C34_brief_and_entry_collectors_locate_alike (h : SegmentHeap) (E : List Entry)
    (logTerm logIndex index term : Nat)
    (hcons : MimicRaftKernelCollector.Consecutive logIndex E)
    (hnd : MimicRaftKernelCollector.NonDecreasingTerms E)
    (hli : logIndex + E.length < 18446744073709551616)
    (hlen : E.length < 9223372036854775808)
    (hidx : index < 18446744073709551616) :
    ∃ hB cB cE loc r,
      NewMimicRaftKernelBriefCollector.AddEntriesToBrief h E logTerm logIndex
        = some (hB, cB, true) ∧
      MimicRaftKernelCollector.new.AddEntries E logTerm logIndex = some (cE, true) ∧
      cB.MatchIndex hB index term = some loc ∧ cE.MatchIndex index term = some loc ∧
      cB.LocateIndex hB index = some r ∧ cE.LocateIndex index = some r ∧
      (index < logIndex → loc = Location.UNDERFLOW ∧ r = (Location.UNDERFLOW, 0)) ∧
      (index = logIndex →
        loc = (if term = logTerm then Location.PREV else Location.CONFLICT) ∧
        r = (Location.PREV, logTerm)) ∧
      (logIndex + E.length < index → loc = Location.OVERFLOW ∧ r = (Location.OVERFLOW, 0)) ∧
      (∀ k (hk : k < E.length), index = logIndex + 1 + k →
        loc = (if (E[k]).term = term then Location.WITHIN else Location.CONFLICT) ∧
        r = (Location.WITHIN, (E[k]).term)) := by
  obtain ⟨hH, hBli, hBlt⟩ := Holds_init h NewMimicRaftKernelBriefCollector E logTerm logIndex
  obtain ⟨wc, wt, whead, wlast, wcov, wnil⟩ := Extract_wellformed E logIndex logTerm hcons hnd
  generalize hcB : (NewMimicRaftKernelBriefCollector.init h E logTerm logIndex).2 = cB
    at hH hBli hBlt
  generalize hhB : (NewMimicRaftKernelBriefCollector.init h E logTerm logIndex).1 = hB at hH
  have hadd : NewMimicRaftKernelBriefCollector.AddEntriesToBrief h E logTerm logIndex
      = some (hB, cB, true) := by
    unfold AddEntriesToBrief
    rw [← hcB, ← hhB]
    rfl
  have haddE : MimicRaftKernelCollector.new.AddEntries E logTerm logIndex
      = some (MimicRaftKernelCollector.new.init E logTerm logIndex, true) := rfl
  obtain ⟨x1, x2, x3, x4⟩ := MimicRaftKernelCollector.locate_eval
    (MimicRaftKernelCollector.new.init E logTerm logIndex) rfl
    (by show logIndex < 18446744073709551616; omega) hlen index term hidx
  -- the four regions of the index
  have hreg : index < logIndex ∨ index = logIndex ∨ logIndex + E.length < index ∨
      ∃ k, k < E.length ∧ index = logIndex + 1 + k := by
    by_cases h1 : index < logIndex
    · exact Or.inl h1
    · by_cases h2 : index = logIndex
      · exact Or.inr (Or.inl h2)
      · by_cases h3 : logIndex + E.length < index
        · exact Or.inr (Or.inr (Or.inl h3))
        · exact Or.inr (Or.inr (Or.inr ⟨index - logIndex - 1, by omega, by omega⟩))
  -- the brief collector agrees with the table
  have hbrief :
      (index < logIndex → cB.MatchIndex hB index term = some Location.UNDERFLOW ∧
        cB.LocateIndex hB index = some (Location.UNDERFLOW, 0)) ∧
      (index = logIndex →
        cB.MatchIndex hB index term
          = some (if term = logTerm then Location.PREV else Location.CONFLICT) ∧
        cB.LocateIndex hB index = some (Location.PREV, logTerm)) ∧
      (logIndex + E.length < index →
        cB.MatchIndex hB index term = some Location.OVERFLOW ∧
        cB.LocateIndex hB index = some (Location.OVERFLOW, 0)) ∧
      (∀ k (hk : k < E.length), index = logIndex + 1 + k →
        cB.MatchIndex hB index term
          = some (if (E[k]).term = term then Location.WITHIN else Location.CONFLICT) ∧
        cB.LocateIndex hB index = some (Location.WITHIN, (E[k]).term)) := by
    by_cases hne : ExtractBriefFromEntries logTerm E = []
    · have hE : E = [] := wnil hne
      have hr : cB.IsRefreshed = false := by simp [IsRefreshed, hH.1]
      have hemp : cB.IsEmpty = true := by
        have hb : cB.b = [] := by
          have := Holds_length hB cB _ hH.2.1
          rw [hne] at this
          exact List.length_eq_zero.mp this
        simp [IsEmpty, hb]
      have hM : cB.MatchIndex hB index term =
          if index < logIndex then some Location.UNDERFLOW
          else if index = logIndex then
            if term = logTerm then some Location.PREV else some Location.CONFLICT
          else some Location.OVERFLOW := by
        unfold MatchIndex
        rw [hr, hemp, hBli, hBlt]
        simp only [Bool.false_eq_true, if_false, if_true]
      have hL : cB.LocateIndex hB index =
          if index < logIndex then some (Location.UNDERFLOW, 0)
          else if index = logIndex then some (Location.PREV, logTerm)
          else some (Location.OVERFLOW, 0) := by
        unfold LocateIndex
        rw [hr, hemp, hBli, hBlt]
        simp only [Bool.false_eq_true, if_false, if_true]
      have hn1 : index = logIndex → ¬ index < logIndex := fun h1 => by omega
      refine ⟨?_, ?_, ?_, ?_⟩
      · intro h1
        constructor
        · rw [hM, if_pos h1]
        · rw [hL, if_pos h1]
      · intro h1
        constructor
        · rw [hM, if_neg (hn1 h1), if_pos h1]
          split_ifs <;> rfl
        · rw [hL, if_neg (hn1 h1), if_pos h1]
      · intro h1
        have hn : ¬ index < logIndex := by omega
        have hn2 : ¬ index = logIndex := by omega
        constructor
        · rw [hM, if_neg hn, if_neg hn2]
        · rw [hL, if_neg hn, if_neg hn2]
      · intro k hk
        rw [hE] at hk
        simp at hk
    · obtain ⟨sf, hf⟩ : ∃ sf, (ExtractBriefFromEntries logTerm E).head? = some sf := by
        cases hx : ExtractBriefFromEntries logTerm E with
        | nil => exact absurd hx hne
        | cons a r => exact ⟨a, rfl⟩
      obtain ⟨sl, hl⟩ : ∃ sl, (ExtractBriefFromEntries logTerm E).getLast? = some sl := by
        cases hx : (ExtractBriefFromEntries logTerm E).getLast? with
        | none => exact absurd (List.getLast?_eq_none_iff.mp hx) hne
        | some x => exact ⟨x, rfl⟩
      obtain ⟨hsf1, hsf2, _⟩ := whead sf hf
      have hsl := wlast sl hl
      have hEpos : 0 < E.length := by
        cases E with
        | nil => exact absurd rfl hne
        | cons a r => simp
      obtain ⟨m1, m2, m3, _⟩ := MatchIndex_region hB cB _ hH sf sl hf hl (by omega) (by omega)
        index term
      obtain ⟨l1, l2, l3, l4⟩ := LocateIndex_eval hB cB _ hH wc sf sl hf hl (by omega)
        (by omega) index
      refine ⟨?_, ?_, ?_, ?_⟩
      · intro h1
        exact ⟨m1 (by omega), l1 (by omega)⟩
      · intro h1
        have := m2 (by omega)
        rw [hsf2] at this
        refine ⟨this, ?_⟩
        rw [l2 (by omega), hsf2]
      · intro h1
        exact ⟨m3 (by omega) (by omega), l3 (by omega)⟩
      · intro k hk h1
        obtain ⟨i, s, hi, hst, g1, g2⟩ := wcov k hk
        rw [← h1] at g1 g2
        constructor
        · rw [MatchIndex_eval hB cB _ hH wc wt sf sl hf hl (by omega) (by omega) index term
            i s hi g1 g2, hst]
        · rw [l4 i s hi g1 g2, hst]
  obtain ⟨b1, b2, b3, b4⟩ := hbrief
  have x1 : index < logIndex →
      (MimicRaftKernelCollector.new.init E logTerm logIndex).MatchIndex index term
        = some Location.UNDERFLOW ∧
      (MimicRaftKernelCollector.new.init E logTerm logIndex).LocateIndex index
        = some (Location.UNDERFLOW, 0) := x1
  have x2 : index = logIndex →
      (MimicRaftKernelCollector.new.init E logTerm logIndex).MatchIndex index term
        = some (if term = logTerm then Location.PREV else Location.CONFLICT) ∧
      (MimicRaftKernelCollector.new.init E logTerm logIndex).LocateIndex index
        = some (Location.PREV, logTerm) := x2
  have x3 : logIndex + E.length < index →
      (MimicRaftKernelCollector.new.init E logTerm logIndex).MatchIndex index term
        = some Location.OVERFLOW ∧
      (MimicRaftKernelCollector.new.init E logTerm logIndex).LocateIndex index
        = some (Location.OVERFLOW, 0) := x3
  have x4 : ∀ k (hk : k < E.length), index = logIndex + 1 + k →
      (MimicRaftKernelCollector.new.init E logTerm logIndex).MatchIndex index term
        = some (if (E[k]).term = term then Location.WITHIN else Location.CONFLICT) ∧
      (MimicRaftKernelCollector.new.init E logTerm logIndex).LocateIndex index
        = some (Location.WITHIN, (E[k]).term) := x4
  rcases hreg with h1 | h1 | h1 | ⟨k, hk, h1⟩
  · refine ⟨hB, cB, _, _, _, hadd, haddE, (b1 h1).1, (x1 h1).1, (b1 h1).2, (x1 h1).2,
      fun _ => ⟨rfl, rfl⟩, fun h2 => by omega, fun h2 => by omega, fun k' hk' h2 => by omega⟩
  · refine ⟨hB, cB, _, _, _, hadd, haddE, (b2 h1).1, (x2 h1).1, (b2 h1).2, (x2 h1).2,
      fun h2 => by omega, fun _ => ⟨rfl, rfl⟩, fun h2 => by omega, fun k' hk' h2 => by omega⟩
  · refine ⟨hB, cB, _, _, _, hadd, haddE, (b3 h1).1, (x3 h1).1, (b3 h1).2, (x3 h1).2,
      fun h2 => by omega, fun h2 => by omega, fun _ => ⟨rfl, rfl⟩, fun k' hk' h2 => by omega⟩
  · refine ⟨hB, cB, _, _, _, hadd, haddE, (b4 k hk h1).1, (x4 k hk h1).1, (b4 k hk h1).2,
      (x4 k hk h1).2, fun h2 => by omega, fun h2 => by omega, fun h2 => by omega, ?_⟩
    intro k' hk' h2
    have hkk : k' = k := by omega
    subst hkk
    exact ⟨rfl, rfl⟩

end MimicRaftKernelBriefCollector
end Etcd

namespace Etcd
namespace MimicRaftKernelBriefCollector

/-- Witness for C34: the entries `(1,6), (1,7), (2,8)` after `(1,5)`, asked for index 7 and
term 1: both collectors answer `WITHIN`, with term 1. -/
theorem C34_brief_and_entry_collectors_locate_alike_witness :
    ((NewMimicRaftKernelBriefCollector.AddEntriesToBrief [] [⟨1, 6, 0⟩, ⟨1, 7, 0⟩, ⟨2, 8, 0⟩]
        1 5).bind (fun x => x.2.1.MatchIndex x.1 7 1) = some Location.WITHIN) ∧
    ((MimicRaftKernelCollector.new.AddEntries [⟨1, 6, 0⟩, ⟨1, 7, 0⟩, ⟨2, 8, 0⟩] 1 5).bind
        (fun x => x.1.LocateIndex 7) = some (Location.WITHIN, 1)) ∧
    ∃ hB cB cE loc r,
      NewMimicRaftKernelBriefCollector.AddEntriesToBrief [] [⟨1, 6, 0⟩, ⟨1, 7, 0⟩, ⟨2, 8, 0⟩]
        1 5 = some (hB, cB, true) ∧
      MimicRaftKernelCollector.new.AddEntries [⟨1, 6, 0⟩, ⟨1, 7, 0⟩, ⟨2, 8, 0⟩] 1 5
        = some (cE, true) ∧
      cB.MatchIndex hB 7 1 = some loc ∧ cE.MatchIndex 7 1 = some loc ∧
      cB.LocateIndex hB 7 = some r ∧ cE.LocateIndex 7 = some r ∧
      (7 < 5 → loc = Location.UNDERFLOW ∧ r = (Location.UNDERFLOW, 0)) ∧
      (7 = 5 →
        loc = (if 1 = 1 then Location.PREV else Location.CONFLICT) ∧
        r = (Location.PREV, 1)) ∧
      (5 + ([⟨1, 6, 0⟩, ⟨1, 7, 0⟩, ⟨2, 8, 0⟩] : List Entry).length < 7 →
        loc = Location.OVERFLOW ∧ r = (Location.OVERFLOW, 0)) ∧
      (∀ k (hk : k < ([⟨1, 6, 0⟩, ⟨1, 7, 0⟩, ⟨2, 8, 0⟩] : List Entry).length), 7 = 5 + 1 + k →
        loc = (if (([⟨1, 6, 0⟩, ⟨1, 7, 0⟩, ⟨2, 8, 0⟩] : List Entry)[k]).term = 1
          then Location.WITHIN else Location.CONFLICT) ∧
        r = (Location.WITHIN, (([⟨1, 6, 0⟩, ⟨1, 7, 0⟩, ⟨2, 8, 0⟩] : List Entry)[k]).term)) :=
  ⟨by decide, by decide,
   C34_brief_and_entry_collectors_locate_alike [] [⟨1, 6, 0⟩, ⟨1, 7, 0⟩, ⟨2, 8, 0⟩] 1 5 7 1
     (by unfold MimicRaftKernelCollector.Consecutive; decide)
     (by simp [MimicRaftKernelCollector.NonDecreasingTerms])
     (by decide) (by decide) (by decide)⟩

end MimicRaftKernelBriefCollector
end Etcd

namespace Etcd
namespace LinkedListCollector

theorem update_ok (c : LinkedListCollector) (p : Nat) (f : NodeCollector → NodeCollector)
    (n : NodeCollector) (h : c.nodes[p]? = some n) :
    c.update p f = some { c with nodes := c.nodes.set p (f n) } := by
  unfold update
  rw [h]

theorem nodes_set (l : List NodeCollector) (p q : Nat) (n x : NodeCollector)
    (h : l[p]? = some n) : (l.set p x)[q]? = if q = p then some x else l[q]? := by
  have hp : p < l.length := (List.getElem?_eq_some.mp h).1
  rw [List.getElem?_set]
  by_cases hq : q = p
  · subst hq
    simp [hp]
  · rw [if_neg hq, if_neg (fun h => hq h.symm)]

theorem idx_unique (l : List Nat) (hn : l.Nodup) (i j p : Nat) (hi : l[i]? = some p)
    (hj : l[j]? = some p) : i = j :=
  List.getElem?_inj (List.getElem?_eq_some.mp hi).1 hn (by rw [hi, hj])

theorem SameLinks_refl (c : LinkedListCollector) : SameLinks c c := ⟨rfl, rfl, fun _ => rfl⟩

theorem SameLinks_trans (a b c : LinkedListCollector) (h1 : SameLinks a b)
    (h2 : SameLinks b c) : SameLinks a c :=
  ⟨h2.1.trans h1.1, h2.2.1.trans h1.2.1, fun q => (h2.2.2 q).trans (h1.2.2 q)⟩

theorem SameLinks_startOf (c c1 : LinkedListCollector) (h : SameLinks c c1) (q : Nat) :
    c1.startOf q = c.startOf q := by
  have := h.2.2 q
  unfold startOf
  cases h1 : c1.nodes[q]? <;> cases h2 : c.nodes[q]? <;> rw [h1, h2] at this <;>
    simp at this ⊢
  exact this.1

theorem SameLinks_length (c c1 : LinkedListCollector) (h : SameLinks c c1) :
    c1.nodes.length = c.nodes.length := by
  have h1 := h.2.2 c.nodes.length
  have h2 := h.2.2 c1.nodes.length
  rw [List.getElem?_eq_none (le_refl _)] at h1
  rw [List.getElem?_eq_none (le_refl _)] at h2
  have e1 : c1.nodes[c.nodes.length]? = none := by
    cases hx : c1.nodes[c.nodes.length]? with
    | none => rfl
    | some x => rw [hx] at h1; simp at h1
  have e2 : c.nodes[c1.nodes.length]? = none := by
    cases hx : c.nodes[c1.nodes.length]? with
    | none => rfl
    | some x => rw [hx] at h2; simp at h2
  have := List.getElem?_eq_none_iff.mp e1
  have := List.getElem?_eq_none_iff.mp e2
  omega

theorem SameLinks_Chain (c c1 : LinkedListCollector) (l : List Nat) (h : SameLinks c c1)
    (hch : Chain c l) : Chain c1 l := by
  obtain ⟨hn, hh, ht, hp⟩ := hch
  refine ⟨hn, by rw [h.1]; exact hh, by rw [h.2.1]; exact ht, ?_⟩
  intro i p hi
  obtain ⟨n, h1, h2, h3⟩ := hp i p hi
  have := h.2.2 p
  rw [h1] at this
  cases hx : c1.nodes[p]? with
  | none => rw [hx] at this; simp at this
  | some n1 =>
    rw [hx] at this
    simp only [Option.map_some', Option.some.injEq, Prod.mk.injEq] at this
    exact ⟨n1, rfl, by rw [this.2.2]; exact h2, by rw [this.2.1]; exact h3⟩

theorem SameLinks_Ordered (c c1 : LinkedListCollector) (l : List Nat) (h : SameLinks c c1)
    (ho : Ordered c l) : Ordered c1 l := by
  unfold Ordered at ho ⊢
  have : l.map c1.startOf = l.map c.startOf :=
    List.map_congr_left (fun q _ => SameLinks_startOf c c1 h q)
  rw [this]
  exact ho

theorem setCollector_SameLinks (c c1 : LinkedListCollector) (p : Nat)
    (col : MimicRaftKernelCollector)
    (h : c.update p (fun x => { x with collector := col }) = some c1) : SameLinks c c1 := by
  unfold update at h
  cases hn : c.nodes[p]? with
  | none => rw [hn] at h; cases h
  | some n =>
    rw [hn] at h
    simp only [Option.some.injEq] at h
    subst h
    refine ⟨rfl, rfl, ?_⟩
    intro q
    simp only []
    rw [nodes_set c.nodes p q n _ hn]
    by_cases hq : q = p
    · subst hq
      rw [if_pos rfl, hn]
      rfl
    · rw [if_neg hq]

theorem Chain_valid (c : LinkedListCollector) (l : List Nat) (hch : Chain c l) (p : Nat)
    (hp : p ∈ l) : p < c.nodes.length := by
  obtain ⟨i, hi⟩ := List.getElem?_of_mem hp
  obtain ⟨n, hn, _⟩ := hch.2.2.2 i p hi
  exact (List.getElem?_eq_some.mp hn).1

theorem Chain_length (c : LinkedListCollector) (l : List Nat) (hch : Chain c l) :
    l.length ≤ c.nodes.length := by
  have hsub : l ⊆ List.range c.nodes.length := by
    intro p hp
    exact List.mem_range.mpr (Chain_valid c l hch p hp)
  have := (List.subperm_of_subset hch.1 hsub).length_le
  simpa using this

end LinkedListCollector
end Etcd

namespace Etcd
namespace LinkedListCollector

theorem update_get (c c1 : LinkedListCollector) (p : Nat) (f : NodeCollector → NodeCollector)
    (h : c.update p f = some c1) :
    (∀ q, c1.nodes[q]? = if q = p then (c.nodes[p]?).map f else c.nodes[q]?) ∧
    c1.head = c.head ∧ c1.tail = c.tail ∧ c1.nodes.length = c.nodes.length := by
  unfold update at h
  cases hn : c.nodes[p]? with
  | none => rw [hn] at h; cases h
  | some n =>
    rw [hn] at h
    simp only [Option.some.injEq] at h
    subst h
    refine ⟨?_, rfl, rfl, by simp⟩
    intro q
    simp only []
    rw [nodes_set c.nodes p q n _ hn]
    rfl

theorem update_starts (c c1 : LinkedListCollector) (p : Nat) (f : NodeCollector → NodeCollector)
    (h : c.update p f = some c1) (hf : ∀ x, (f x).startIndex = x.startIndex) :
    ∀ q, c1.startOf q = c.startOf q := by
  obtain ⟨hg, _⟩ := update_get c c1 p f h
  intro q
  unfold startOf
  rw [hg q]
  by_cases hq : q = p
  · subst hq
    rw [if_pos rfl]
    cases c.nodes[q]? with
    | none => rfl
    | some n => simp [hf]
  · rw [if_neg hq]

theorem take_last (l : List Nat) (k p : Nat) (hk : l[k]? = some p) :
    (l.take (k + 1)).getLast? = some p := by
  have hlt : k < l.length := (List.getElem?_eq_some.mp hk).1
  rw [List.getLast?_eq_getElem?, List.length_take, Nat.min_eq_left (by omega),
    Nat.add_sub_cancel, List.getElem?_take_of_lt (by omega)]
  exact hk

theorem take_head (l : List Nat) (k : Nat) : (l.take (k + 1)).head? = l.head? := by
  cases l <;> rfl

theorem Chain_node (c : LinkedListCollector) (l : List Nat) (hch : Chain c l) (i p : Nat)
    (h : l[i]? = some p) :
    ∃ n, c.nodes[p]? = some n ∧ n.next = l[i + 1]? ∧
      n.prev = (if i = 0 then none else l[i - 1]?) := by
  obtain ⟨_, _, _, hp⟩ := hch
  exact hp i p h

theorem Chain_nodup (c : LinkedListCollector) (l : List Nat) (hch : Chain c l) : l.Nodup := by
  obtain ⟨hn, _⟩ := hch
  exact hn

theorem chain_after_cut (c c1 : LinkedListCollector) (l : List Nat) (k p : Nat)
    (n : NodeCollector) (hch : Chain c l) (hk : l[k]? = some p) (hnp : c.nodes[p]? = some n)
    (hhead : c1.head = c.head) (htail : c1.tail = some p)
    (F : ∀ i q, i ≤ k → l[i]? = some q →
      c1.nodes[q]? = if q = p then some { n with next := none } else c.nodes[q]?) :
    Chain c1 (l.take (k + 1)) := by
  obtain ⟨hn, hh, _, hp⟩ := hch
  refine ⟨(List.take_sublist _ _).nodup hn, ?_, ?_, ?_⟩
  · rw [hhead, hh, take_head]
  · rw [htail, take_last l k p hk]
  · intro i q hi
    rw [List.getElem?_take] at hi
    by_cases hik : i < k + 1
    · rw [if_pos hik] at hi
      obtain ⟨m, hm, hmn, hmp⟩ := hp i q hi
      have hprev : (if i = 0 then none else (List.take (k + 1) l)[i - 1]?)
          = if i = 0 then none else l[i - 1]? := by
        by_cases h0 : i = 0
        · rw [if_pos h0, if_pos h0]
        · rw [if_neg h0, if_neg h0, List.getElem?_take_of_lt (by omega)]
      rw [hprev, F i q (by omega) hi]
      by_cases hq : q = p
      · subst hq
        have hik2 : i = k := idx_unique l hn i k q hi hk
        subst hik2
        rw [hnp] at hm
        simp only [Option.some.injEq] at hm
        subst hm
        refine ⟨{ n with next := none }, by rw [if_pos rfl], ?_, hmp⟩
        show none = _
        rw [List.getElem?_take, if_neg (by omega)]
      · rw [if_neg hq]
        have hne : i ≠ k := by
          intro he
          subst he
          rw [hk] at hi
          exact hq (Option.some.inj hi).symm
        refine ⟨m, hm, ?_, hmp⟩
        rw [hmn, List.getElem?_take_of_lt (by omega)]
    · rw [if_neg hik] at hi
      cases hi

theorem deleteAfter_spec (c : LinkedListCollector) (l : List Nat) (k p : Nat)
    (hch : Chain c l) (hk : l[k]? = some p) :
    ∃ c1, c.deleteAfter p = some c1 ∧ Chain c1 (l.take (k + 1)) ∧ c1.tail = some p ∧
      c1.nodes.length = c.nodes.length ∧ (∀ q, c1.startOf q = c.startOf q) ∧
      (∀ q : Nat, (c1.nodes[q]?).map (fun x : NodeCollector => x.collector)
        = (c.nodes[q]?).map (fun x : NodeCollector => x.collector)) := by
  obtain ⟨n, hnp, hnext, _⟩ := Chain_node c l hch k p hk
  unfold deleteAfter
  rw [hnp]
  simp only []
  cases hnx : l[k + 1]? with
  | none =>
    rw [hnx] at hnext
    rw [hnext]
    simp only []
    rw [update_ok c p _ n hnp]
    simp only [Option.map_some']
    refine ⟨_, rfl, ?_, rfl, by simp, ?_, ?_⟩
    · refine chain_after_cut c _ l k p n hch hk hnp ?_ ?_ ?_
      · rfl
      · rfl
      intro i q _ _
      simp only []
      rw [nodes_set c.nodes p q n _ hnp]
    · intro q
      unfold startOf
      simp only []
      rw [nodes_set c.nodes p q n _ hnp]
      by_cases hq : q = p
      · subst hq
        rw [if_pos rfl, hnp]
        rfl
      · rw [if_neg hq]
    · intro q
      simp only []
      rw [nodes_set c.nodes p q n _ hnp]
      by_cases hq : q = p
      · subst hq
        rw [if_pos rfl, hnp]
        rfl
      · rw [if_neg hq]
  | some q2 =>
    rw [hnx] at hnext
    rw [hnext]
    simp only []
    obtain ⟨n2, hn2, _, _⟩ := Chain_node c l hch (k + 1) q2 hnx
    have hne : p ≠ q2 := by
      intro he
      subst he
      have := idx_unique l (Chain_nodup c l hch) k (k + 1) p hk hnx
      omega
    rw [update_ok c q2 _ n2 hn2]
    simp only []
    have hp1 : (c.nodes.set q2 { n2 with prev := none })[p]? = some n := by
      rw [nodes_set c.nodes q2 p n2 _ hn2, if_neg hne]
      exact hnp
    rw [update_ok _ p _ n hp1]
    simp only [Option.map_some']
    refine ⟨_, rfl, ?_, rfl, by simp, ?_, ?_⟩
    · refine chain_after_cut c _ l k p n hch hk hnp ?_ ?_ ?_
      · rfl
      · rfl
      intro i q hik hi
      simp only []
      rw [nodes_set _ p q n _ hp1]
      by_cases hq : q = p
      · rw [if_pos hq, if_pos hq]
      · rw [if_neg hq, if_neg hq, nodes_set c.nodes q2 q n2 _ hn2]
        have hq2 : q ≠ q2 := by
          intro he
          subst he
          have := idx_unique l (Chain_nodup c l hch) i (k + 1) q hi hnx
          omega
        rw [if_neg hq2]
    · intro q
      unfold startOf
      simp only []
      rw [nodes_set _ p q n _ hp1]
      by_cases hq : q = p
      · subst hq
        rw [if_pos rfl, hnp]
        rfl
      · rw [if_neg hq, nodes_set c.nodes q2 q n2 _ hn2]
        by_cases hq2 : q = q2
        · subst hq2
          rw [if_pos rfl, hn2]
          rfl
        · rw [if_neg hq2]
    · intro q
      simp only []
      rw [nodes_set _ p q n _ hp1]
      by_cases hq : q = p
      · subst hq
        rw [if_pos rfl, hnp]
        rfl
      · rw [if_neg hq, nodes_set c.nodes q2 q n2 _ hn2]
        by_cases hq2 : q = q2
        · subst hq2
          rw [if_pos rfl, hn2]
          rfl
        · rw [if_neg hq2]

end LinkedListCollector
end Etcd

namespace Etcd
namespace LinkedListCollector

theorem insert_get (l : List Nat) (k node i : Nat) (hk : k ≤ l.length) :
    (l.take k ++ node :: l.drop k)[i]?
      = if i < k then l[i]? else if i = k then some node else l[i - 1]? := by
  rw [List.getElem?_append, List.length_take, Nat.min_eq_left hk]
  by_cases h1 : i < k
  · rw [if_pos h1, if_pos h1, List.getElem?_take_of_lt h1]
  · rw [if_neg h1, if_neg h1]
    by_cases h2 : i = k
    · subst h2
      rw [if_pos rfl, Nat.sub_self]
      exact List.getElem?_cons_zero
    · rw [if_neg h2]
      obtain ⟨d, hd⟩ : ∃ d, i - k = d + 1 := ⟨i - k - 1, by omega⟩
      rw [hd, List.getElem?_cons_succ, List.getElem?_drop]
      congr 1
      omega

theorem insert_nodup (l : List Nat) (k node : Nat) (hn : l.Nodup) (hfresh : node ∉ l) :
    (l.take k ++ node :: l.drop k).Nodup := by
  have hp : (l.take k ++ node :: l.drop k).Perm (node :: l) := by
    have hm : (l.take k ++ node :: l.drop k).Perm (node :: (l.take k ++ l.drop k)) :=
      List.perm_middle
    rw [List.take_append_drop] at hm
    exact hm
  exact hp.nodup_iff.mpr (List.nodup_cons.mpr ⟨hfresh, hn⟩)

theorem chain_after_insert (c c1 : LinkedListCollector) (l : List Nat) (k node : Nat)
    (nn : NodeCollector) (hch : Chain c l) (hk : k ≤ l.length) (hfresh : node ∉ l)
    (hnode : c1.nodes[node]? = some nn) (hnext : nn.next = l[k]?)
    (hprev : nn.prev = if k = 0 then none else l[k - 1]?)
    (hhead : c1.head = if k = 0 then some node else c.head)
    (htail : c1.tail = if k = l.length then some node else c.tail)
    (F : ∀ i q : Nat, l[i]? = some q → ∃ n n1, c.nodes[q]? = some n ∧ c1.nodes[q]? = some n1 ∧
      n1.next = (if i + 1 = k then some node else n.next) ∧
      n1.prev = (if i = k then some node else n.prev)) :
    Chain c1 (l.take k ++ node :: l.drop k) := by
  obtain ⟨hn, hh, ht, hp⟩ := hch
  refine ⟨insert_nodup l k node hn hfresh, ?_, ?_, ?_⟩
  · rw [hhead, List.head?_eq_getElem?, insert_get l k node 0 hk]
    by_cases h0 : k = 0
    · subst h0
      rfl
    · rw [if_neg h0, if_pos (by omega), hh, List.head?_eq_getElem?]
  · rw [htail, List.getLast?_eq_getElem?, insert_get l k node _ hk]
    simp only [List.length_append, List.length_take, List.length_cons, List.length_drop]
    rw [Nat.min_eq_left hk]
    have e : k + (l.length - k + 1) - 1 = l.length := by omega
    have hlt : ¬ l.length < k := by omega
    rw [e]
    by_cases h0 : k = l.length
    · rw [if_pos h0, if_neg hlt, if_pos h0.symm]
    · rw [if_neg h0, if_neg hlt, if_neg (fun h => h0 h.symm), ht, List.getLast?_eq_getElem?]
  · intro i p hi
    rw [insert_get l k node i hk] at hi
    rw [insert_get l k node (i + 1) hk]
    by_cases h1 : i < k
    · rw [if_pos h1] at hi
      obtain ⟨n, n1, hn0, hn1, hnx, hpv⟩ := F i p hi
      obtain ⟨m, hm, hmn, hmp⟩ := hp i p hi
      rw [hn0] at hm
      simp only [Option.some.injEq] at hm
      subst hm
      refine ⟨n1, hn1, ?_, ?_⟩
      · rw [hnx]
        by_cases h2 : i + 1 = k
        · rw [if_pos h2, if_neg (by omega), if_pos h2]
        · rw [if_neg h2, if_pos (by omega), hmn]
      · rw [hpv, if_neg (by omega), hmp]
        by_cases h0 : i = 0
        · rw [if_pos h0, if_pos h0]
        · rw [if_neg h0, if_neg h0, insert_get l k node (i - 1) hk, if_pos (by omega)]
    · rw [if_neg h1] at hi
      by_cases h2 : i = k
      · subst h2
        rw [if_pos rfl] at hi
        simp only [Option.some.injEq] at hi
        subst hi
        refine ⟨nn, hnode, ?_, ?_⟩
        · rw [hnext, if_neg (by omega), if_neg (by omega), Nat.add_sub_cancel]
        · rw [hprev]
          by_cases h0 : i = 0
          · rw [if_pos h0, if_pos h0]
          · rw [if_neg h0, if_neg h0, insert_get l i _ (i - 1) hk, if_pos (by omega)]
      · rw [if_neg h2] at hi
        obtain ⟨n, n1, hn0, hn1, hnx, hpv⟩ := F (i - 1) p hi
        obtain ⟨m, hm, hmn, hmp⟩ := hp (i - 1) p hi
        rw [hn0] at hm
        simp only [Option.some.injEq] at hm
        subst hm
        have e1 : i - 1 + 1 = i := by omega
        have a1 : ¬ i + 1 < k := by omega
        have a2 : ¬ i + 1 = k := by omega
        have a3 : ¬ i = 0 := by omega
        have a4 : ¬ i - 1 < k := by omega
        rw [e1] at hnx hmn
        refine ⟨n1, hn1, ?_, ?_⟩
        · rw [hnx, if_neg h2, if_neg a1, if_neg a2, hmn, Nat.add_sub_cancel]
        · rw [hpv, if_neg a3, insert_get l k node (i - 1) hk, if_neg a4]
          by_cases h3 : i - 1 = k
          · rw [if_pos h3, if_pos h3]
          · have a5 : ¬ i - 1 = 0 := by omega
            rw [if_neg h3, if_neg h3, hmp, if_neg a5]

end LinkedListCollector
end Etcd

namespace Etcd
namespace LinkedListCollector

theorem insertBefore_spec (c : LinkedListCollector) (l : List Nat) (k node needle : Nat)
    (nn : NodeCollector) (hch : Chain c l) (hk : l[k]? = some needle) (hfresh : node ∉ l)
    (hnode : c.nodes[node]? = some nn) :
    ∃ c1, c.insertBefore node needle = some c1 ∧
      Chain c1 (l.take k ++ node :: l.drop k) ∧ c1.nodes.length = c.nodes.length ∧
      (∀ q, c1.startOf q = c.startOf q) := by
  obtain ⟨b, hb, hbn, hbp⟩ := Chain_node c l hch k needle hk
  have hklt : k < l.length := (List.getElem?_eq_some.mp hk).1
  have hne : needle ≠ node := fun h => hfresh (h ▸ List.getElem?_mem hk)
  obtain ⟨c1, h1⟩ : ∃ c1, c.update node (fun x => { x with next := some needle }) = some c1 :=
    ⟨_, update_ok c node _ nn hnode⟩
  obtain ⟨g1, hd1, tl1, ln1⟩ := update_get _ _ _ _ h1
  have s1 := update_starts _ _ _ _ h1 (fun _ => rfl)
  have b1 : c1.nodes[needle]? = some b := by rw [g1, if_neg hne, hb]
  have n1 : c1.nodes[node]? = some { nn with next := some needle } := by
    rw [g1, if_pos rfl, hnode]; rfl
  obtain ⟨c2, h2⟩ : ∃ c2, c1.update node (fun x => { x with prev := b.prev }) = some c2 :=
    ⟨_, update_ok c1 node _ _ n1⟩
  obtain ⟨g2, hd2, tl2, ln2⟩ := update_get _ _ _ _ h2
  have s2 := update_starts _ _ _ _ h2 (fun _ => rfl)
  have b2 : c2.nodes[needle]? = some b := by rw [g2, if_neg hne, b1]
  have n2 : c2.nodes[node]? = some { nn with next := some needle, prev := b.prev } := by
    rw [g2, if_pos rfl, n1]; rfl
  obtain ⟨c3, h3⟩ : ∃ c3, c2.update needle (fun x => { x with prev := some node }) = some c3 :=
    ⟨_, update_ok c2 needle _ _ b2⟩
  obtain ⟨g3, hd3, tl3, ln3⟩ := update_get _ _ _ _ h3
  have s3 := update_starts _ _ _ _ h3 (fun _ => rfl)
  have b3 : c3.nodes[needle]? = some { b with prev := some node } := by
    rw [g3, if_pos rfl, b2]; rfl
  have n3 : c3.nodes[node]? = some { nn with next := some needle, prev := b.prev } := by
    rw [g3, if_neg (fun h => hne h.symm), n2]
  have o3 : ∀ q, q ≠ node → q ≠ needle → c3.nodes[q]? = c.nodes[q]? := by
    intro q hq1 hq2
    rw [g3, if_neg hq2, g2, if_neg hq1, g1, if_neg hq1]
  unfold insertBefore
  rw [h1]
  simp only []
  rw [b1]
  simp only []
  rw [h2]
  simp only []
  rw [h3]
  simp only []
  rw [n3]
  simp only []
  by_cases h0 : k = 0
  · rw [if_pos h0] at hbp
    rw [hbp]
    simp only []
    refine ⟨_, rfl, ?_, by simp only []; omega, ?_⟩
    · refine chain_after_insert c _ l k node _ hch (by omega) hfresh n3 hk.symm ?_ ?_ ?_ ?_
      · show b.prev = _
        rw [hbp, if_pos h0]
      · show some node = _
        rw [if_pos h0]
      · show c3.tail = _
        have hx : ¬ k = l.length := by omega
        rw [if_neg hx, tl3, tl2, tl1]
      · intro i q hi
        have hqn : q ≠ node := fun h => hfresh (h ▸ List.getElem?_mem hi)
        obtain ⟨m, hm, _, _⟩ := Chain_node c l hch i q hi
        have hx : ¬ i + 1 = k := by omega
        by_cases hq : q = needle
        · subst hq
          have hik : i = k := idx_unique l (Chain_nodup c l hch) i k q hi hk
          rw [hb] at hm
          simp only [Option.some.injEq] at hm
          subst hm
          refine ⟨b, _, hb, b3, ?_, ?_⟩
          · rw [if_neg hx]
          · rw [if_pos hik]
        · have hik : ¬ i = k := by
            intro he
            subst he
            rw [hk] at hi
            exact hq (Option.some.inj hi).symm
          refine ⟨m, m, hm, (o3 q hqn hq).trans hm, ?_, ?_⟩
          · rw [if_neg hx]
          · rw [if_neg hik]
    · intro q
      exact (s3 q).trans ((s2 q).trans (s1 q))
  · rw [if_neg h0] at hbp
    obtain ⟨q0, hq0⟩ : ∃ q0, l[k - 1]? = some q0 :=
      ⟨_, List.getElem?_eq_getElem (by omega)⟩
    rw [hq0] at hbp
    rw [hbp]
    simp only []
    obtain ⟨m0, hm0, _, _⟩ := Chain_node c l hch (k - 1) q0 hq0
    have hq0n : q0 ≠ node := fun h => hfresh (h ▸ List.getElem?_mem hq0)
    have hq0b : q0 ≠ needle := by
      intro he
      subst he
      have := idx_unique l (Chain_nodup c l hch) (k - 1) k q0 hq0 hk
      omega
    have m3 : c3.nodes[q0]? = some m0 := (o3 q0 hq0n hq0b).trans hm0
    obtain ⟨c4, h4⟩ : ∃ c4, c3.update q0 (fun x => { x with next := some node }) = some c4 :=
      ⟨_, update_ok c3 q0 _ _ m3⟩
    obtain ⟨g4, hd4, tl4, ln4⟩ := update_get _ _ _ _ h4
    have s4 := update_starts _ _ _ _ h4 (fun _ => rfl)
    refine ⟨c4, h4, ?_, by omega, ?_⟩
    · have n4 : c4.nodes[node]? = some { nn with next := some needle, prev := b.prev } := by
        rw [g4, if_neg (fun h => hq0n h.symm), n3]
      refine chain_after_insert c c4 l k node _ hch (by omega) hfresh n4 hk.symm ?_ ?_ ?_ ?_
      · show b.prev = _
        rw [hbp, if_neg h0, hq0]
      · rw [if_neg h0, hd4, hd3, hd2, hd1]
      · have hx : ¬ k = l.length := by omega
        rw [if_neg hx, tl4, tl3, tl2, tl1]
      · intro i q hi
        have hqn : q ≠ node := fun h => hfresh (h ▸ List.getElem?_mem hi)
        obtain ⟨m, hm, _, _⟩ := Chain_node c l hch i q hi
        by_cases hq : q = needle
        · subst hq
          have hik : i = k := idx_unique l (Chain_nodup c l hch) i k q hi hk
          have hx : ¬ i + 1 = k := by omega
          rw [hb] at hm
          simp only [Option.some.injEq] at hm
          subst hm
          refine ⟨b, { b with prev := some node }, hb, ?_, ?_, ?_⟩
          · rw [g4, if_neg (fun h => hq0b h.symm), b3]
          · show b.next = _
            rw [if_neg hx]
          · show some node = _
            rw [if_pos hik]
        · have hik : ¬ i = k := by
            intro he
            subst he
            rw [hk] at hi
            exact hq (Option.some.inj hi).symm
          by_cases hq2 : q = q0
          · subst hq2
            have hik2 : i = k - 1 := idx_unique l (Chain_nodup c l hch) i (k - 1) q hi hq0
            have hx : i + 1 = k := by omega
            rw [hm0] at hm
            simp only [Option.some.injEq] at hm
            subst hm
            refine ⟨m0, { m0 with next := some node }, hm0, ?_, ?_, ?_⟩
            · rw [g4, if_pos rfl, m3]
              rfl
            · show some node = _
              rw [if_pos hx]
            · show m0.prev = _
              rw [if_neg hik]
          · have hx : ¬ i + 1 = k := by
              intro he
              have e : i = k - 1 := by omega
              subst e
              rw [hq0] at hi
              exact hq2 (Option.some.inj hi).symm
            refine ⟨m, m, hm, ?_, ?_, ?_⟩
            · rw [g4, if_neg hq2, o3 q hqn hq, hm]
            · rw [if_neg hx]
            · rw [if_neg hik]
    · intro q
      exact (s4 q).trans ((s3 q).trans ((s2 q).trans (s1 q)))

end LinkedListCollector
end Etcd

namespace Etcd
namespace LinkedListCollector

theorem insertAfter_spec (c : LinkedListCollector) (l : List Nat) (node t : Nat)
    (nn : NodeCollector) (hch : Chain c l) (ht : l.getLast? = some t) (hfresh : node ∉ l)
    (hnode : c.nodes[node]? = some nn) :
    ∃ c1, c.insertAfter node t = some c1 ∧ Chain c1 (l ++ [node]) ∧ c1.tail = some node ∧
      c1.nodes.length = c.nodes.length ∧ (∀ q, c1.startOf q = c.startOf q) := by
  rw [List.getLast?_eq_getElem?] at ht
  have hlen : 0 < l.length := by
    have := (List.getElem?_eq_some.mp ht).1
    omega
  obtain ⟨a, ha, han, _⟩ := Chain_node c l hch (l.length - 1) t ht
  have hnone : l[l.length]? = none := List.getElem?_eq_none (le_refl _)
  have e1 : l.length - 1 + 1 = l.length := by omega
  rw [e1, hnone] at han
  have hne : t ≠ node := fun h => hfresh (h ▸ List.getElem?_mem ht)
  obtain ⟨c1, h1⟩ : ∃ c1, c.update node (fun x => { x with prev := some t }) = some c1 :=
    ⟨_, update_ok c node _ nn hnode⟩
  obtain ⟨g1, hd1, tl1, ln1⟩ := update_get _ _ _ _ h1
  have s1 := update_starts _ _ _ _ h1 (fun _ => rfl)
  have a1 : c1.nodes[t]? = some a := by rw [g1, if_neg hne, ha]
  have n1 : c1.nodes[node]? = some { nn with prev := some t } := by
    rw [g1, if_pos rfl, hnode]; rfl
  obtain ⟨c2, h2⟩ : ∃ c2, c1.update node (fun x => { x with next := a.next }) = some c2 :=
    ⟨_, update_ok c1 node _ _ n1⟩
  obtain ⟨g2, hd2, tl2, ln2⟩ := update_get _ _ _ _ h2
  have s2 := update_starts _ _ _ _ h2 (fun _ => rfl)
  have a2 : c2.nodes[t]? = some a := by rw [g2, if_neg hne, a1]
  have n2 : c2.nodes[node]? = some { nn with prev := some t, next := a.next } := by
    rw [g2, if_pos rfl, n1]; rfl
  obtain ⟨c3, h3⟩ : ∃ c3, c2.update t (fun x => { x with next := some node }) = some c3 :=
    ⟨_, update_ok c2 t _ _ a2⟩
  obtain ⟨g3, hd3, tl3, ln3⟩ := update_get _ _ _ _ h3
  have s3 := update_starts _ _ _ _ h3 (fun _ => rfl)
  have a3 : c3.nodes[t]? = some { a with next := some node } := by
    rw [g3, if_pos rfl, a2]; rfl
  have n3 : c3.nodes[node]? = some { nn with prev := some t, next := a.next } := by
    rw [g3, if_neg (fun h => hne h.symm), n2]
  have o3 : ∀ q, q ≠ node → q ≠ t → c3.nodes[q]? = c.nodes[q]? := by
    intro q hq1 hq2
    rw [g3, if_neg hq2, g2, if_neg hq1, g1, if_neg hq1]
  unfold insertAfter
  rw [h1]
  simp only []
  rw [a1]
  simp only []
  rw [h2]
  simp only []
  rw [h3]
  simp only []
  rw [n3]
  simp only []
  rw [han]
  simp only []
  refine ⟨_, rfl, ?_, rfl, by simp only []; omega, ?_⟩
  · have hc := chain_after_insert c { c3 with tail := some node } l l.length node _ hch
      (le_refl _) hfresh n3 (by show a.next = _; rw [han, hnone])
      (by
        show some t = _
        have hx : ¬ l.length = 0 := by omega
        rw [if_neg hx, ht])
      (by
        show c3.head = _
        have hx : ¬ l.length = 0 := by omega
        rw [if_neg hx, hd3, hd2, hd1])
      (by
        show some node = _
        rw [if_pos rfl])
      (by
        intro i q hi
        have hqn : q ≠ node := fun h => hfresh (h ▸ List.getElem?_mem hi)
        have hil : i < l.length := (List.getElem?_eq_some.mp hi).1
        have hik : ¬ i = l.length := by omega
        obtain ⟨m, hm, _, _⟩ := Chain_node c l hch i q hi
        by_cases hq : q = t
        · subst hq
          have hi2 : i = l.length - 1 := idx_unique l (Chain_nodup c l hch) i _ q hi ht
          have hx : i + 1 = l.length := by omega
          rw [ha] at hm
          simp only [Option.some.injEq] at hm
          subst hm
          refine ⟨a, { a with next := some node }, ha, a3, ?_, ?_⟩
          · show some node = _
            rw [if_pos hx]
          · show a.prev = _
            rw [if_neg hik]
        · have hx : ¬ i + 1 = l.length := by
            intro he
            have e : i = l.length - 1 := by omega
            subst e
            rw [ht] at hi
            exact hq (Option.some.inj hi).symm
          refine ⟨m, m, hm, (o3 q hqn hq).trans hm, ?_, ?_⟩
          · rw [if_neg hx]
          · rw [if_neg hik])
    rw [List.take_length, List.drop_length] at hc
    exact hc
  · intro q
    exact (s3 q).trans ((s2 q).trans (s1 q))

end LinkedListCollector
end Etcd

namespace Etcd
namespace LinkedListCollector

theorem Chain_congr (c c1 : LinkedListCollector) (l : List Nat) (hh : c1.head = c.head)
    (ht : c1.tail = c.tail) (hq : ∀ q, q ∈ l → c1.nodes[q]? = c.nodes[q]?)
    (hch : Chain c l) : Chain c1 l := by
  obtain ⟨hn, h1, h2, hp⟩ := hch
  refine ⟨hn, hh.trans h1, ht.trans h2, ?_⟩
  intro i p hi
  rw [hq p (List.getElem?_mem hi)]
  exact hp i p hi

theorem Ordered_congr (c c1 : LinkedListCollector) (l : List Nat)
    (hq : ∀ q, q ∈ l → c1.startOf q = c.startOf q) (ho : Ordered c l) : Ordered c1 l := by
  unfold Ordered at ho ⊢
  rw [List.map_congr_left hq]
  exact ho

theorem newNodeCollector_spec (c c1 : LinkedListCollector) (entries : List Entry)
    (logTerm logIndex node : Nat)
    (h : c.newNodeCollector entries logTerm logIndex = some (c1, node)) :
    node = c.nodes.length ∧ c1.head = c.head ∧ c1.tail = c.tail ∧
    c1.nodes.length = c.nodes.length + 1 ∧
    (∀ q, q < c.nodes.length → c1.nodes[q]? = c.nodes[q]?) ∧
    ∃ nn, c1.nodes[node]? = some nn ∧ nn.startIndex = addU64 logIndex 1 ∧
      nn.prev = none ∧ nn.next = none := by
  unfold newNodeCollector at h
  cases hc : MimicRaftKernelCollector.new.AddEntries entries logTerm logIndex with
  | none => rw [hc] at h; cases h
  | some r =>
    rw [hc] at h
    simp only [Option.some.injEq, Prod.mk.injEq] at h
    obtain ⟨h1, h2⟩ := h
    subst h1
    subst h2
    refine ⟨rfl, rfl, rfl, by simp, ?_, ?_⟩
    · intro q hq
      exact List.getElem?_append_left hq
    · refine ⟨{ collector := r.1, startIndex := addU64 logIndex 1, info := 0,
                 prev := none, next := none }, ?_, rfl, rfl, rfl⟩
      simp

theorem newNodeCollector_chain (c c1 : LinkedListCollector) (l : List Nat)
    (entries : List Entry) (logTerm logIndex node : Nat) (hch : Chain c l)
    (h : c.newNodeCollector entries logTerm logIndex = some (c1, node)) :
    Chain c1 l ∧ node ∉ l ∧ node = c.nodes.length ∧ c1.nodes.length = c.nodes.length + 1 ∧
    (∀ q, q < c.nodes.length → c1.startOf q = c.startOf q) ∧
    c1.startOf node = addU64 logIndex 1 ∧ ∃ nn, c1.nodes[node]? = some nn := by
  obtain ⟨h1, h2, h3, h4, h5, nn, h6, h7⟩ := newNodeCollector_spec c c1 entries logTerm logIndex node h
  refine ⟨Chain_congr c c1 l h2 h3 (fun q hq => h5 q (Chain_valid c l hch q hq)) hch, ?_, h1, h4,
    ?_, ?_, nn, h6⟩
  · intro hm
    have := Chain_valid c l hch node hm
    omega
  · intro q hq
    unfold startOf
    rw [h5 q hq]
  · unfold startOf
    rw [h6]
    exact h7.1

theorem take_succ_of_get (l : List Nat) (k p : Nat) (hk : l[k]? = some p) :
    l.take (k + 1) = l.take k ++ [p] := by
  rw [List.take_succ, hk]
  rfl

theorem take_insert (l : List Nat) (k node : Nat) (hk : k ≤ l.length) :
    (l.take k ++ node :: l.drop k).take (k + 1) = l.take k ++ [node] := by
  have h := take_succ_of_get (l.take k ++ node :: l.drop k) k node
    (by rw [insert_get l k node k hk, if_neg (by omega), if_pos rfl])
  rw [h]
  congr 1
  rw [List.take_append_eq_append_take, List.length_take, Nat.min_eq_left hk, Nat.sub_self,
    List.take_zero, List.append_nil, List.take_take, Nat.min_self]

theorem regularizeLoop_spec (node : Nat) (l : List Nat) (hnode : node ∈ l) :
    ∀ (fuel : Nat) (c : LinkedListCollector) (j : Nat), Chain c l → l.length ≤ fuel + j →
      ∃ r, regularizeLoop node fuel c l[j]? = some r ∧ ∀ c1, r = some c1 → SameLinks c c1 := by
  intro fuel
  induction fuel with
  | zero =>
    intro c j hch hlen
    have hj : l[j]? = none := List.getElem?_eq_none (by omega)
    rw [hj]
    refine ⟨some c, rfl, ?_⟩
    intro c1 h1
    cases h1
    exact SameLinks_refl c
  | succ fuel ih =>
    intro c j hch hlen
    cases hj : l[j]? with
    | none =>
      refine ⟨some c, rfl, ?_⟩
      intro c1 h1
      cases h1
      exact SameLinks_refl c
    | some needle =>
      obtain ⟨nd, hnd, hnx, _⟩ := Chain_node c l hch j needle hj
      obtain ⟨i0, hi0⟩ := List.getElem?_of_mem hnode
      obtain ⟨n, hn, _, _⟩ := Chain_node c l hch i0 node hi0
      simp only [regularizeLoop, hnd, hn]
      by_cases hr : nd.collector.FetchAllEntries.1 = true
      · rw [if_pos hr]
        cases ha : n.collector.AddEntries nd.collector.FetchAllEntries.2.1
            nd.collector.FetchAllEntries.2.2.1 nd.collector.FetchAllEntries.2.2.2 with
        | none =>
          refine ⟨none, rfl, ?_⟩
          intro c1 h1
          cases h1
        | some x =>
          obtain ⟨col, ok⟩ := x
          simp only []
          have hu := update_ok c node (fun x => { x with collector := col }) n hn
          have hs := setCollector_SameLinks c _ node col hu
          rw [hu]
          simp only []
          cases ok with
          | false =>
            refine ⟨_, rfl, ?_⟩
            intro c1 h1
            simp only [Bool.false_eq_true, if_false, Option.some.injEq] at h1
            subst h1
            exact hs
          | true =>
            rw [if_pos rfl, hnx]
            obtain ⟨r, hr1, hr2⟩ := ih _ (j + 1) (SameLinks_Chain c _ l hs hch) (by omega)
            refine ⟨r, hr1, ?_⟩
            intro c1 h1
            exact SameLinks_trans _ _ _ hs (hr2 c1 h1)
      · rw [if_neg hr]
        refine ⟨some c, rfl, ?_⟩
        intro c1 h1
        cases h1
        exact SameLinks_refl c

theorem regularizeFrom_spec (c : LinkedListCollector) (l : List Nat) (k node : Nat)
    (hch : Chain c l) (hk : l[k]? = some node) :
    ∃ r, c.regularizeFrom node = some r ∧ ∀ c1, r = some c1 →
      Chain c1 (l.take (k + 1)) ∧ c1.tail = some node ∧
      c1.nodes.length = c.nodes.length ∧ (∀ q, c1.startOf q = c.startOf q) := by
  obtain ⟨n, hn, hnx, _⟩ := Chain_node c l hch k node hk
  obtain ⟨r, hr1, hr2⟩ := regularizeLoop_spec node l (List.getElem?_mem hk) c.nodes.length c
    (k + 1) hch (by have := Chain_length c l hch; omega)
  unfold regularizeFrom
  rw [hn]
  simp only []
  rw [hnx, hr1]
  cases r with
  | none =>
    refine ⟨none, rfl, ?_⟩
    intro c1 h1
    cases h1
  | some c2 =>
    simp only []
    have hs := hr2 c2 rfl
    obtain ⟨c3, h3, hc3, ht3, hl3, hs3, _⟩ :=
      deleteAfter_spec c2 l k node (SameLinks_Chain c c2 l hs hch) hk
    refine ⟨some c3, by rw [h3], ?_⟩
    intro c1 h1
    simp only [Option.some.injEq] at h1
    subst h1
    refine ⟨hc3, ht3, hl3.trans (SameLinks_length c c2 hs), ?_⟩
    intro q
    exact (hs3 q).trans (SameLinks_startOf c c2 hs q)

end LinkedListCollector
end Etcd

namespace Etcd
namespace LinkedListCollector

theorem addEntriesLoop_spec (reg : Bool) (es : List Entry) (lt li : Nat) (l : List Nat)
    (hl : l ≠ []) :
    ∀ (fuel : Nat) (c : LinkedListCollector) (j : Nat), Chain c l → l.length ≤ fuel + j →
      j ≤ l.length →
      ∃ r, addEntriesLoop reg es lt li fuel c l[j]? = some r ∧
        ∀ c1 node, r = some (c1, node) →
          ∃ k, j ≤ k ∧ k ≤ l.length ∧ Chain c1 (l.take k ++ [node]) ∧ c1.tail = some node ∧
            (∀ q, q < c.nodes.length → c1.startOf q = c.startOf q) ∧
            (∀ i p, j ≤ i → i < k → l[i]? = some p → c.startOf p ≤ addU64 li 1) ∧
            ((l[k]? = some node ∧ ∃ nd col, c.nodes[node]? = some nd ∧
                nd.collector.AddEntries es lt li = some (col, true)) ∨
             (node = c.nodes.length ∧ c1.startOf node = addU64 li 1 ∧
                (k = l.length ∨ ∃ p, l[k]? = some p ∧ addU64 li 1 < c.startOf p))) := by
  have hend : ∀ (fuel : Nat) (c : LinkedListCollector) (j : Nat), Chain c l →
      j ≤ l.length → l[j]? = none →
      ∃ r, addEntriesLoop reg es lt li fuel c none = some r ∧
        ∀ c1 node, r = some (c1, node) →
          ∃ k, j ≤ k ∧ k ≤ l.length ∧ Chain c1 (l.take k ++ [node]) ∧ c1.tail = some node ∧
            (∀ q, q < c.nodes.length → c1.startOf q = c.startOf q) ∧
            (∀ i p, j ≤ i → i < k → l[i]? = some p → c.startOf p ≤ addU64 li 1) ∧
            ((l[k]? = some node ∧ ∃ nd col, c.nodes[node]? = some nd ∧
                nd.collector.AddEntries es lt li = some (col, true)) ∨
             (node = c.nodes.length ∧ c1.startOf node = addU64 li 1 ∧
                (k = l.length ∨ ∃ p, l[k]? = some p ∧ addU64 li 1 < c.startOf p))) := by
    intro fuel c j hch hjl hj
    have hjlen : l.length ≤ j := List.getElem?_eq_none_iff.mp hj
    have hpos : 0 < l.length := List.length_pos.mpr hl
    obtain ⟨t, ht⟩ : ∃ t, l.getLast? = some t :=
      ⟨_, by rw [List.getLast?_eq_getElem?]; exact List.getElem?_eq_getElem (by omega)⟩
    have htail : c.tail = some t := by
      obtain ⟨_, _, h3, _⟩ := hch
      rw [h3, ht]
    have hunf : addEntriesLoop reg es lt li fuel c none
        = (match c.newNodeCollector es lt li, c.tail with
           | some (c1, node), some t => some ((c1.insertAfter node t).map (fun c2 => (c2, node)))
           | _, _ => some none) := by
      cases fuel <;> rfl
    rw [hunf, htail]
    cases hnn : c.newNodeCollector es lt li with
    | none =>
      refine ⟨none, rfl, ?_⟩
      intro c1 node h1
      cases h1
    | some x =>
      obtain ⟨c1, node⟩ := x
      simp only []
      obtain ⟨hc1, hfresh, hnl, hlen1, hst1, hsn, nn, hnode⟩ :=
        newNodeCollector_chain c c1 l es lt li node hch hnn
      obtain ⟨c2, h2, hc2, ht2, hl2, hs2⟩ := insertAfter_spec c1 l node t nn hc1 ht hfresh hnode
      rw [h2]
      refine ⟨_, rfl, ?_⟩
      intro c3 node3 h3
      simp only [Option.map_some', Option.some.injEq, Prod.mk.injEq] at h3
      obtain ⟨e1, e2⟩ := h3
      subst e1
      subst e2
      refine ⟨l.length, hjl, le_refl _, by rw [List.take_length]; exact hc2, ht2, ?_, ?_, ?_⟩
      · intro q hq
        rw [hs2 q, hst1 q hq]
      · intro i p h1 h2 _
        omega
      · right
        exact ⟨hnl, by rw [hs2, hsn], Or.inl rfl⟩
  intro fuel
  induction fuel with
  | zero =>
    intro c j hch hlen hjl
    have hj : l[j]? = none := List.getElem?_eq_none (by omega)
    rw [hj]
    exact hend 0 c j hch hjl hj
  | succ fuel ih =>
    intro c j hch hlen hjl
    cases hj : l[j]? with
    | none => exact hend (fuel + 1) c j hch hjl hj
    | some needle =>
      have hjlt : j < l.length := (List.getElem?_eq_some.mp hj).1
      obtain ⟨nd, hnd, hnx, _⟩ := Chain_node c l hch j needle hj
      have hstart : c.startOf needle = nd.startIndex := by
        unfold startOf
        rw [hnd]
        rfl
      simp only [addEntriesLoop, hnd]
      by_cases hgt : nd.startIndex > addU64 li 1
      · rw [if_pos hgt]
        cases hnn : c.newNodeCollector es lt li with
        | none =>
          refine ⟨none, rfl, ?_⟩
          intro c1 node h1
          cases h1
        | some x =>
          obtain ⟨c1, node⟩ := x
          simp only []
          obtain ⟨hc1, hfresh, hnl, hlen1, hst1, hsn, nn, hnode⟩ :=
            newNodeCollector_chain c c1 l es lt li node hch hnn
          obtain ⟨c2, h2, hc2, hl2, hs2⟩ :=
            insertBefore_spec c1 l j node needle nn hc1 hj hfresh hnode
          rw [h2]
          simp only []
          have hpos : (l.take j ++ node :: l.drop j)[j]? = some node := by
            rw [insert_get l j node j hjl, if_neg (by omega), if_pos rfl]
          have hfin : ∀ c3, Chain c3 ((l.take j ++ node :: l.drop j).take (j + 1)) →
              c3.tail = some node → (∀ q, c3.startOf q = c2.startOf q) →
              ∃ k, j ≤ k ∧ k ≤ l.length ∧ Chain c3 (l.take k ++ [node]) ∧
                c3.tail = some node ∧
                (∀ q, q < c.nodes.length → c3.startOf q = c.startOf q) ∧
                (∀ i p, j ≤ i → i < k → l[i]? = some p → c.startOf p ≤ addU64 li 1) ∧
                ((l[k]? = some node ∧ ∃ nd col, c.nodes[node]? = some nd ∧
                    nd.collector.AddEntries es lt li = some (col, true)) ∨
                 (node = c.nodes.length ∧ c3.startOf node = addU64 li 1 ∧
                    (k = l.length ∨ ∃ p, l[k]? = some p ∧ addU64 li 1 < c.startOf p))) := by
            intro c3 hc3 ht3 hs3
            rw [take_insert l j node hjl] at hc3
            refine ⟨j, le_refl _, hjl, hc3, ht3, ?_, ?_, ?_⟩
            · intro q hq
              rw [hs3 q, hs2 q, hst1 q hq]
            · intro i p h1 h2 _
              omega
            · right
              refine ⟨hnl, by rw [hs3, hs2, hsn], Or.inr ⟨needle, hj, ?_⟩⟩
              rw [hstart]
              exact hgt
          cases reg with
          | true =>
            rw [if_pos rfl]
            obtain ⟨r, hr1, hr2⟩ := regularizeFrom_spec c2 _ j node hc2 hpos
            rw [hr1]
            refine ⟨_, rfl, ?_⟩
            intro c3 node3 h3
            cases r with
            | none => simp at h3
            | some c4 =>
              simp only [Option.map_some', Option.some.injEq, Prod.mk.injEq] at h3
              obtain ⟨e1, e2⟩ := h3
              subst e1
              subst e2
              obtain ⟨a1, a2, _, a4⟩ := hr2 c4 rfl
              exact hfin c4 a1 a2 a4
          | false =>
            simp only [Bool.false_eq_true, if_false]
            obtain ⟨c4, h4, a1, a2, _, a4, _⟩ := deleteAfter_spec c2 _ j node hc2 hpos
            rw [h4]
            refine ⟨_, rfl, ?_⟩
            intro c3 node3 h3
            simp only [Option.map_some', Option.some.injEq, Prod.mk.injEq] at h3
            obtain ⟨e1, e2⟩ := h3
            subst e1
            subst e2
            exact hfin c4 a1 a2 a4
      · rw [if_neg hgt]
        cases ha : nd.collector.AddEntries es lt li with
        | none =>
          refine ⟨none, rfl, ?_⟩
          intro c1 node h1
          cases h1
        | some x =>
          obtain ⟨col, ok⟩ := x
          simp only []
          obtain ⟨cu, hu⟩ : ∃ cu, c.update needle (fun x => { x with collector := col })
              = some cu := ⟨_, update_ok c needle _ nd hnd⟩
          have hs := setCollector_SameLinks c _ needle col hu
          obtain ⟨gu, _, _, _⟩ := update_get _ _ _ _ hu
          rw [hu]
          simp only []
          have hc1 := SameLinks_Chain c _ l hs hch
          cases ok with
          | true =>
            rw [if_pos rfl]
            obtain ⟨c4, h4, a1, a2, _, a4, _⟩ := deleteAfter_spec _ l j needle hc1 hj
            rw [h4]
            refine ⟨_, rfl, ?_⟩
            intro c3 node3 h3
            simp only [Option.map_some', Option.some.injEq, Prod.mk.injEq] at h3
            obtain ⟨e1, e2⟩ := h3
            subst e1
            subst e2
            rw [take_succ_of_get l j needle hj] at a1
            refine ⟨j, le_refl _, hjl, a1, a2, ?_, ?_, ?_⟩
            · intro q _
              rw [a4 q, SameLinks_startOf c _ hs q]
            · intro i p h1 h2 _
              omega
            · left
              exact ⟨hj, nd, col, hnd, ha⟩
          | false =>
            simp only [Bool.false_eq_true, if_false]
            rw [hnx]
            obtain ⟨r, hr1, hr2⟩ := ih _ (j + 1) hc1 (by omega) (by omega)
            refine ⟨r, hr1, ?_⟩
            intro c3 node3 h3
            obtain ⟨k, b1, b2, b3, b4, b5, b6, b7⟩ := hr2 c3 node3 h3
            have hlenu := SameLinks_length c _ hs
            refine ⟨k, by omega, b2, b3, b4, ?_, ?_, ?_⟩
            · intro q hq
              rw [b5 q (by rw [hlenu]; exact hq), SameLinks_startOf c _ hs q]
            · intro i p h1 h2 hi
              by_cases hij : i = j
              · subst hij
                rw [hj] at hi
                simp only [Option.some.injEq] at hi
                subst hi
                rw [hstart]
                omega
              · have := b6 i p (by omega) h2 hi
                rw [SameLinks_startOf c _ hs p] at this
                exact this
            · rcases b7 with ⟨d1, nd2, col2, d2, d3⟩ | ⟨d1, d2, d3⟩
              · left
                refine ⟨d1, nd2, col2, ?_, d3⟩
                have hne : node3 ≠ needle := by
                  intro he
                  subst he
                  have := idx_unique l (Chain_nodup c l hch) k j node3 d1 hj
                  omega
                rw [gu node3, if_neg hne] at d2
                exact d2
              · right
                refine ⟨by rw [d1, hlenu], d2, ?_⟩
                rcases d3 with d3 | ⟨p, d4, d5⟩
                · exact Or.inl d3
                · exact Or.inr ⟨p, d4, by rw [SameLinks_startOf c _ hs p] at d5; exact d5⟩

end LinkedListCollector
end Etcd

namespace Etcd
namespace LinkedListCollector

theorem Ordered_take (c : LinkedListCollector) (l : List Nat) (k : Nat) (ho : Ordered c l) :
    Ordered c (l.take k) := by
  unfold Ordered at ho ⊢
  exact ho.sublist ((List.take_sublist k l).map _)

theorem New_chain (defaultRegOpt : Bool) :
    Chain (NewLinkedListCollector defaultRegOpt) [] ∧
      Ordered (NewLinkedListCollector defaultRegOpt) [] := by
  refine ⟨⟨List.nodup_nil, rfl, rfl, ?_⟩, ?_⟩
  · intro i p hi
    simp at hi
  · unfold Ordered
    simp

theorem twoNodes_chain : Chain twoNodes [0, 1] := by
  refine ⟨by decide, rfl, rfl, ?_⟩
  intro i p hi
  match i, hi with
  | 0, hi =>
    simp only [List.getElem?_cons_zero, Option.some.injEq] at hi
    subst hi
    exact ⟨_, rfl, rfl, rfl⟩
  | 1, hi =>
    simp only [List.getElem?_cons_succ, List.getElem?_cons_zero, Option.some.injEq] at hi
    subst hi
    exact ⟨_, rfl, rfl, rfl⟩
  | n + 2, hi => simp at hi

theorem twoNodes_ordered : Ordered twoNodes [0, 1] := by
  unfold Ordered
  decide

/-- C32: on a list whose nodes are linked from `head` to `tail` and ordered by `startIndex`,
`addEntries` always ends its walk, and when it returns, the node it returns is the tail:
the list is then a prefix of the old nodes followed by that node and nothing else, still
ordered by non-decreasing `startIndex`.  The node is an old node whose `AddEntries`
accepted the fragment, or a new node with `startIndex = logIndex + 1` that stands where a
node with a larger start index stood or behind all old nodes. -/
theorem C32_addEntries_receiver_is_tail_and_order_kept (c : LinkedListCollector)
    (l : List Nat) (reg : Bool) (es : List Entry) (lt li : Nat) (hch : Chain c l)
    (hord : Ordered c l) :
    ∃ r, c.addEntries reg es lt li = some r ∧
      ∀ c1 node, r = some (c1, node) →
        ∃ k, k ≤ l.length ∧ Chain c1 (l.take k ++ [node]) ∧ c1.tail = some node ∧
          Ordered c1 (l.take k ++ [node]) ∧
          (∀ q, q < c.nodes.length → c1.startOf q = c.startOf q) ∧
          ((l[k]? = some node ∧ ∃ nd col, c.nodes[node]? = some nd ∧
              nd.collector.AddEntries es lt li = some (col, true)) ∨
           (node = c.nodes.length ∧ c1.startOf node = addU64 li 1 ∧
              (k = l.length ∨ ∃ p, l[k]? = some p ∧ addU64 li 1 < c.startOf p))) := by
  unfold addEntries
  cases hh : c.head with
  | none =>
    simp only []
    have hnil : l = [] := by
      obtain ⟨_, h2, _, _⟩ := hch
      rw [hh] at h2
      cases l with
      | nil => rfl
      | cons a t => cases h2
    subst hnil
    refine ⟨_, rfl, ?_⟩
    intro c1 node h1
    cases hnn : c.newNodeCollector es lt li with
    | none => rw [hnn] at h1; cases h1
    | some x =>
      obtain ⟨c2, node2⟩ := x
      rw [hnn] at h1
      simp only [Option.map_some', Option.some.injEq, Prod.mk.injEq] at h1
      obtain ⟨e1, e2⟩ := h1
      subst e1
      subst e2
      obtain ⟨a1, _, _, _, a5, nn, a6, a7, a8, a9⟩ :=
        newNodeCollector_spec c c2 es lt li node2 hnn
      refine ⟨0, le_refl _, ?_, rfl, ?_, ?_, ?_⟩
      · refine ⟨by simp, rfl, rfl, ?_⟩
        intro i p hi
        match i, hi with
        | 0, hi =>
          simp only [List.take_nil, List.nil_append, List.getElem?_cons_zero,
            Option.some.injEq] at hi
          subst hi
          exact ⟨nn, a6, a9, a8⟩
        | n + 1, hi => simp at hi
      · unfold Ordered
        simp
      · intro q hq
        unfold startOf
        show ((c2.nodes[q]?).map _).getD 0 = _
        rw [a5 q hq]
      · right
        refine ⟨a1, ?_, Or.inl rfl⟩
        unfold startOf
        show ((c2.nodes[node2]?).map _).getD 0 = _
        rw [a6]
        exact a7
  | some h =>
    simp only []
    have hl : l ≠ [] := by
      intro he
      subst he
      obtain ⟨_, h2, _, _⟩ := hch
      rw [hh] at h2
      cases h2
    have h0 : l[0]? = some h := by
      obtain ⟨_, h2, _, _⟩ := hch
      rw [← List.head?_eq_getElem?, ← h2, hh]
    obtain ⟨r, hr1, hr2⟩ := addEntriesLoop_spec reg es lt li l hl c.nodes.length c 0 hch
      (by have := Chain_length c l hch; omega) (Nat.zero_le _)
    rw [h0] at hr1
    refine ⟨r, hr1, ?_⟩
    intro c1 node h1
    obtain ⟨k, _, b2, b3, b4, b5, b6, b7⟩ := hr2 c1 node h1
    refine ⟨k, b2, b3, b4, ?_, b5, b7⟩
    have hpre : Ordered c1 (l.take k) := by
      refine Ordered_congr c c1 _ ?_ (Ordered_take c l k hord)
      intro q hq
      exact b5 q (Chain_valid c l hch q (List.mem_of_mem_take hq))
    rcases b7 with ⟨d1, _⟩ | ⟨d1, d2, _⟩
    · rw [← take_succ_of_get l k node d1]
      refine Ordered_congr c c1 _ ?_ (Ordered_take c l (k + 1) hord)
      intro q hq
      exact b5 q (Chain_valid c l hch q (List.mem_of_mem_take hq))
    · unfold Ordered at hpre ⊢
      rw [List.map_append, List.pairwise_append]
      refine ⟨hpre, by simp, ?_⟩
      intro a ha b hb
      simp only [List.map_cons, List.map_nil, List.mem_singleton] at hb
      subst hb
      obtain ⟨q, hq, rfl⟩ := List.mem_map.mp ha
      obtain ⟨i, hi⟩ := List.getElem?_of_mem hq
      rw [List.getElem?_take] at hi
      by_cases hik : i < k
      · rw [if_pos hik] at hi
        rw [d2, b5 q (Chain_valid c l hch q (List.mem_of_mem_take hq))]
        exact b6 i q (Nat.zero_le _) hik hi
      · rw [if_neg hik] at hi
        cases hi

/-- The list `twoNodes` and a fragment of the entries 3 to 5: the new node stands in front of
the old ones, takes the entries of the first of them and is then the only node. -/
theorem C32_addEntries_receiver_is_tail_and_order_kept_witness :
    Chain twoNodes [0, 1] ∧ Ordered twoNodes [0, 1] ∧
    (∃ r, twoNodes.addEntries true [⟨1, 3, 0⟩, ⟨1, 4, 0⟩, ⟨1, 5, 0⟩] 1 2 = some r ∧
      ∀ c1 node, r = some (c1, node) →
        ∃ k, k ≤ [0, 1].length ∧ Chain c1 ([0, 1].take k ++ [node]) ∧ c1.tail = some node ∧
          Ordered c1 ([0, 1].take k ++ [node]) ∧
          (∀ q, q < twoNodes.nodes.length → c1.startOf q = twoNodes.startOf q) ∧
          (([0, 1][k]? = some node ∧ ∃ nd col, twoNodes.nodes[node]? = some nd ∧
              nd.collector.AddEntries [⟨1, 3, 0⟩, ⟨1, 4, 0⟩, ⟨1, 5, 0⟩] 1 2
                = some (col, true)) ∨
           (node = twoNodes.nodes.length ∧ c1.startOf node = addU64 2 1 ∧
              (k = [0, 1].length ∨
                ∃ p, [0, 1][k]? = some p ∧ addU64 2 1 < twoNodes.startOf p)))) ∧
    (twoNodes.addEntries true [⟨1, 3, 0⟩, ⟨1, 4, 0⟩, ⟨1, 5, 0⟩] 1 2).map
        (fun o => o.map (fun r => (r.1.head, r.1.tail, r.2,
          r.1.nodes.map (fun n => (n.startIndex, n.collector.content.length)))))
      = some (some (some 2, some 2, 2, [(6, 2), (11, 1), (3, 5)])) :=
  ⟨twoNodes_chain, twoNodes_ordered,
    C32_addEntries_receiver_is_tail_and_order_kept twoNodes [0, 1] true
      [⟨1, 3, 0⟩, ⟨1, 4, 0⟩, ⟨1, 5, 0⟩] 1 2 twoNodes_chain twoNodes_ordered, by rfl⟩

end LinkedListCollector
end Etcd
